import Mathlib

/-!
Verification of the elimination-check engine of `yroots/IntervalChecks.py`.

Numbers are modelled by exact rationals (`ℚ`): the Python code computes with
IEEE floats, and as usual in this kind of development every arithmetic
operation of the source is translated to the corresponding exact operation.

A numpy coefficient tensor is modelled by its shape together with its entry
function (`NDTensor` below); entries outside the shape are never read by any
embedded routine, mirroring the source, which never indexes out of bounds.
-/

namespace YRoots

/-- A numpy `ndarray` of rationals: its shape (one length per axis, row-major)
and its entries, given as a function from index tuples to values. Only indices
that are componentwise below the shape are meaningful. -/
structure NDTensor where
  shape : List ℕ
  entry : List ℕ → ℚ

/-- `np.sum(np.abs(·))` over all in-shape entries of a tensor, by recursion on
the shape (axis by axis, row-major). -/
def absSum : List ℕ → (List ℕ → ℚ) → ℚ
  | [], f => |f []|
  | d :: rest, f =>
      ((List.range d).map (fun i => absSum rest (fun idx => f (i :: idx)))).sum

/-- `constant_term_check` (IntervalChecks.py lines 303-325).
`test_sum = np.sum(np.abs(test_coeff))`; the constant coefficient is the entry
at the all-zero index; returns `False` when `2*|c0| > test_sum + tol`,
`True` otherwise. -/
def constant_term_check (test_coeff : NDTensor) (tol : ℚ) : Bool :=
  let test_sum := absSum test_coeff.shape test_coeff.entry
  if 2 * |test_coeff.entry (List.replicate test_coeff.shape.length 0)| > test_sum + tol then
    false
  else
    true

/-- The per-interval flag loop shared by all quadratic checks: walk the list of
candidate evaluations in order, maintaining `min_satisfied`/`max_satisfied`
(`eval < other_sum`, `eval > -other_sum`), and stop with "keep" (`true`) as
soon as both are set; if the candidates are exhausted without both flags,
the verdict is "discard" (`false`), i.e. `mask[i] = False` in the source. -/
def runFlags (os : ℚ) : List ℚ → Bool → Bool → Bool
  | [], mi, ma => mi && ma
  | e :: rest, mi, ma =>
      let mi' := mi || decide (e < os)
      let ma' := ma || decide (e > -os)
      if mi' && ma' then true else runFlags os rest mi' ma'

theorem runFlags_eq (os : ℚ) (L : List ℚ) (mi ma : Bool) :
    runFlags os L mi ma =
      ((mi || L.any (fun e => decide (e < os))) &&
       (ma || L.any (fun e => decide (e > -os)))) := by
  induction L generalizing mi ma with
  | nil => simp [runFlags]
  | cons e rest ih =>
      cases mi <;> cases ma <;>
        by_cases h1 : e < os <;> by_cases h2 : e > -os <;>
          simp [runFlags, ih, h1, h2]

/-- The verdict of the flag loop, starting from cleared flags: keep iff some
candidate is `< other_sum` and some candidate is `> -other_sum`. -/
theorem runFlags_spec (os : ℚ) (L : List ℚ) :
    runFlags os L false false =
      (L.any (fun e => decide (e < os)) && L.any (fun e => decide (e > -os))) := by
  rw [runFlags_eq]; simp

/-- A 2-dimensional sub-interval `[(x0,y0),(x1,y1)]`: `interval[0]` is the
lower corner, `interval[1]` the upper corner. -/
abbrev Box2 := (ℚ × ℚ) × (ℚ × ℚ)

/-- The six coefficients `c[0]..c[5]` handled by `quadratic_check_2D`. -/
structure QuadCoeffs2 where
  c0 : ℚ
  c1 : ℚ
  c2 : ℚ
  c3 : ℚ
  c4 : ℚ
  c5 : ℚ

/-- `eval_func` of `quadratic_check_2D` (lines 409-413): Horner evaluation of
`c0 + c1 T1(x) + c2 T1(y) + c3 T2(x) + c4 T1(x)T1(y) + c5 T2(y)` with
`k0 = c0 - c3 - c5`, `k3 = 2 c3`, `k5 = 2 c5`. -/
def eval2 (c : QuadCoeffs2) (x y : ℚ) : ℚ :=
  (c.c0 - c.c3 - c.c5) + (c.c1 + (2 * c.c3) * x + c.c4 * y) * x + (c.c2 + (2 * c.c5) * y) * y

/-- The ordered list of candidate evaluations examined by the per-interval
loop of `quadratic_check_2D` (lines 429-507): the four corners; for
`x = x0, x1` the `y`-critical point on that boundary (guarded by `c5 ≠ 0`
and the strict containment test); for `y = y0, y1` the `x`-critical point
(guarded by `c3 ≠ 0`); finally the interior critical point, guarded by
`det ≠ 0` — in the singular case the source sets it to `inf`, which always
fails the strict containment test, i.e. contributes no candidate. -/
def cand2D (c : QuadCoeffs2) (I : Box2) : List ℚ :=
  let x0 := I.1.1; let y0 := I.1.2; let x1 := I.2.1; let y1 := I.2.2
  [eval2 c x0 y0, eval2 c x1 y0, eval2 c x0 y1, eval2 c x1 y1]
  ++ (if c.c5 ≠ 0 then
        (let y := -(c.c2 + c.c4 * x0) / (4 * c.c5)
         if y0 < y ∧ y < y1 then [eval2 c x0 y] else []) ++
        (let y := -(c.c2 + c.c4 * x1) / (4 * c.c5)
         if y0 < y ∧ y < y1 then [eval2 c x1 y] else [])
      else [])
  ++ (if c.c3 ≠ 0 then
        (let x := -(c.c1 + c.c4 * y0) / (4 * c.c3)
         if x0 < x ∧ x < x1 then [eval2 c x y0] else []) ++
        (let x := -(c.c1 + c.c4 * y1) / (4 * c.c3)
         if x0 < x ∧ x < x1 then [eval2 c x y1] else [])
      else [])
  ++ (let det := 16 * c.c3 * c.c5 - c.c4 ^ 2
      if det ≠ 0 then
        let ix := (c.c2 * c.c4 - 4 * c.c1 * c.c5) / det
        let iy := (c.c1 * c.c4 - 4 * c.c2 * c.c3) / det
        if x0 < ix ∧ ix < x1 ∧ y0 < iy ∧ iy < y1 then [eval2 c ix iy] else []
      else [])

/-- The shape-guarded extraction of `c[0]..c[5]` (lines 387-399): entries
whose index exceeds the shape are taken as `0` without being read. -/
def extract2 (t : NDTensor) : QuadCoeffs2 :=
  let m := t.shape.headD 0
  let n := (t.shape.drop 1).headD 0
  { c0 := t.entry [0, 0]
    c1 := if 1 < m then t.entry [1, 0] else 0
    c2 := if 1 < n then t.entry [0, 1] else 0
    c3 := if 2 < m then t.entry [2, 0] else 0
    c4 := if 1 < m ∧ 1 < n then t.entry [1, 1] else 0
    c5 := if 2 < n then t.entry [0, 2] else 0 }

/-- `sum([fabs(coeff) for coeff in c])` over the six extracted coefficients. -/
def absC2 (c : QuadCoeffs2) : ℚ := |c.c0| + |c.c1| + |c.c2| + |c.c3| + |c.c4| + |c.c5|

/-- `other_sum` of `quadratic_check_2D` (line 404): the total absolute mass
minus the absolute values of the six extracted coefficients, plus `tol`. -/
def otherSum2 (t : NDTensor) (tol : ℚ) : ℚ :=
  absSum t.shape t.entry - absC2 (extract2 t) + tol

/-- `quadratic_check_2D` (lines 356-512): one verdict per interval; the mask
stays all-`True` when the tensor is not 2-dimensional (lines 381-382). -/
def quadratic_check_2D (t : NDTensor) (intervals : List Box2) (tol : ℚ) : List Bool :=
  if t.shape.length ≠ 2 then intervals.map (fun _ => true)
  else
    let c := extract2 t
    let os := otherSum2 t tol
    intervals.map (fun I => runFlags os (cand2D c I) false false)

/-- A 3-dimensional sub-interval `[(x0,y0,z0),(x1,y1,z1)]`. -/
abbrev Box3 := (ℚ × ℚ × ℚ) × (ℚ × ℚ × ℚ)

/-- The ten coefficients `c[0]..c[9]` handled by `quadratic_check_3D`. -/
structure QuadCoeffs3 where
  c0 : ℚ
  c1 : ℚ
  c2 : ℚ
  c3 : ℚ
  c4 : ℚ
  c5 : ℚ
  c6 : ℚ
  c7 : ℚ
  c8 : ℚ
  c9 : ℚ

/-- `eval_func` of `quadratic_check_3D` (lines 570-577), with
`k0 = c0 - c7 - c8 - c9`, `k7 = 2 c7`, `k8 = 2 c8`, `k9 = 2 c9`. -/
def eval3 (c : QuadCoeffs3) (x y z : ℚ) : ℚ :=
  (c.c0 - c.c7 - c.c8 - c.c9) +
    (c.c1 + (2 * c.c7) * x + c.c4 * y + c.c5 * z) * x +
    (c.c2 + (2 * c.c8) * y + c.c6 * z) * y +
    (c.c3 + (2 * c.c9) * z) * z

/-- `fix_x_det = 4c8·4c9 - c6²` (line 588). -/
def fixXDet (c : QuadCoeffs3) : ℚ := (4 * c.c8) * (4 * c.c9) - c.c6 ^ 2

/-- `fix_y_det = 4c7·4c9 - c5²` (line 589). -/
def fixYDet (c : QuadCoeffs3) : ℚ := (4 * c.c7) * (4 * c.c9) - c.c5 ^ 2

/-- `fix_z_det = 4c7·4c8 - c4²` (line 590). -/
def fixZDet (c : QuadCoeffs3) : ℚ := (4 * c.c7) * (4 * c.c8) - c.c4 ^ 2

/-- `minor_1_2 = 4c9·c4 - c5·c6` (line 591). -/
def minor12 (c : QuadCoeffs3) : ℚ := (4 * c.c9) * c.c4 - c.c5 * c.c6

/-- `minor_1_3 = c4·c6 - 4c8·c5` (line 592). -/
def minor13 (c : QuadCoeffs3) : ℚ := c.c4 * c.c6 - (4 * c.c8) * c.c5

/-- `minor_2_3 = 4c7·c6 - c4·c5` (line 593). -/
def minor23 (c : QuadCoeffs3) : ℚ := (4 * c.c7) * c.c6 - c.c4 * c.c5

/-- `det = 4c7·fix_x_det - c4·minor_1_2 + c5·minor_1_3` (line 594). -/
def det3D (c : QuadCoeffs3) : ℚ :=
  4 * c.c7 * fixXDet c - c.c4 * minor12 c + c.c5 * minor13 c

/-- The ordered candidate evaluations of the per-interval loop of
`quadratic_check_3D` (lines 604-851): the eight corners; the `z`-, `y`- and
`x`-boundary critical points (guards `c9 ≠ 0`, `c8 ≠ 0`, `c7 ≠ 0`); the
`x`-, `y`- and `z`-constant face critical points (guards
`fix_x_det ≠ 0`, …); and the interior critical point (guard `det ≠ 0`,
singular cases acting as `inf` and so failing the strict containment test).
All containment tests are strict, as in the source. -/
def cand3D (c : QuadCoeffs3) (I : Box3) : List ℚ :=
  let x0 := I.1.1; let y0 := I.1.2.1; let z0 := I.1.2.2
  let x1 := I.2.1; let y1 := I.2.2.1; let z1 := I.2.2.2
  let kk7 := 4 * c.c7; let kk8 := 4 * c.c8; let kk9 := 4 * c.c9
  [eval3 c x0 y0 z0, eval3 c x1 y0 z0, eval3 c x0 y1 z0, eval3 c x0 y0 z1,
   eval3 c x1 y1 z0, eval3 c x1 y0 z1, eval3 c x0 y1 z1, eval3 c x1 y1 z1]
  ++ (if c.c9 ≠ 0 then
        (let z := -((c.c5 * x0 + c.c3) + c.c6 * y0) / kk9
         if z0 < z ∧ z < z1 then [eval3 c x0 y0 z] else []) ++
        (let z := -((c.c5 * x0 + c.c3) + c.c6 * y1) / kk9
         if z0 < z ∧ z < z1 then [eval3 c x0 y1 z] else []) ++
        (let z := -((c.c5 * x1 + c.c3) + c.c6 * y0) / kk9
         if z0 < z ∧ z < z1 then [eval3 c x1 y0 z] else []) ++
        (let z := -((c.c5 * x1 + c.c3) + c.c6 * y1) / kk9
         if z0 < z ∧ z < z1 then [eval3 c x1 y1 z] else [])
      else [])
  ++ (if c.c8 ≠ 0 then
        (let y := -((c.c2 + c.c4 * x0) + c.c6 * z0) / kk8
         if y0 < y ∧ y < y1 then [eval3 c x0 y z0] else []) ++
        (let y := -((c.c2 + c.c4 * x0) + c.c6 * z1) / kk8
         if y0 < y ∧ y < y1 then [eval3 c x0 y z1] else []) ++
        (let y := -((c.c2 + c.c4 * x1) + c.c6 * z0) / kk8
         if y0 < y ∧ y < y1 then [eval3 c x1 y z0] else []) ++
        (let y := -((c.c2 + c.c4 * x1) + c.c6 * z1) / kk8
         if y0 < y ∧ y < y1 then [eval3 c x1 y z1] else [])
      else [])
  ++ (if c.c7 ≠ 0 then
        (let x := -((c.c1 + c.c4 * y0) + c.c5 * z0) / kk7
         if x0 < x ∧ x < x1 then [eval3 c x y0 z0] else []) ++
        (let x := -((c.c1 + c.c4 * y0) + c.c5 * z1) / kk7
         if x0 < x ∧ x < x1 then [eval3 c x y0 z1] else []) ++
        (let x := -((c.c1 + c.c4 * y1) + c.c5 * z0) / kk7
         if x0 < x ∧ x < x1 then [eval3 c x y1 z0] else []) ++
        (let x := -((c.c1 + c.c4 * y1) + c.c5 * z1) / kk7
         if x0 < x ∧ x < x1 then [eval3 c x y1 z1] else [])
      else [])
  ++ (if fixXDet c ≠ 0 then
        (let y := (-kk9 * (c.c2 + c.c4 * x0) + c.c6 * (c.c3 + c.c5 * x0)) / fixXDet c
         let z := (c.c6 * (c.c2 + c.c4 * x0) - kk8 * (c.c3 + c.c5 * x0)) / fixXDet c
         if y0 < y ∧ y < y1 ∧ z0 < z ∧ z < z1 then [eval3 c x0 y z] else []) ++
        (let y := (-kk9 * (c.c2 + c.c4 * x1) + c.c6 * (c.c3 + c.c5 * x1)) / fixXDet c
         let z := (c.c6 * (c.c2 + c.c4 * x1) - kk8 * (c.c3 + c.c5 * x1)) / fixXDet c
         if y0 < y ∧ y < y1 ∧ z0 < z ∧ z < z1 then [eval3 c x1 y z] else [])
      else [])
  ++ (if fixYDet c ≠ 0 then
        (let x := (-kk9 * (c.c1 + c.c4 * y0) + c.c5 * (c.c3 + c.c6 * y0)) / fixYDet c
         let z := (c.c5 * (c.c1 + c.c4 * y0) - kk7 * (c.c3 + c.c6 * y0)) / fixYDet c
         if x0 < x ∧ x < x1 ∧ z0 < z ∧ z < z1 then [eval3 c x y0 z] else []) ++
        (let x := (-kk9 * (c.c1 + c.c4 * y1) + c.c5 * (c.c3 + c.c6 * y1)) / fixYDet c
         let z := (c.c5 * (c.c1 + c.c4 * y1) - kk7 * (c.c3 + c.c6 * y1)) / fixYDet c
         if x0 < x ∧ x < x1 ∧ z0 < z ∧ z < z1 then [eval3 c x y1 z] else [])
      else [])
  ++ (if fixZDet c ≠ 0 then
        (let x := (-kk8 * (c.c1 + c.c5 * z0) + c.c4 * (c.c2 + c.c6 * z0)) / fixZDet c
         let y := (c.c4 * (c.c1 + c.c5 * z0) - kk7 * (c.c2 + c.c6 * z0)) / fixZDet c
         if x0 < x ∧ x < x1 ∧ y0 < y ∧ y < y1 then [eval3 c x y z0] else []) ++
        (let x := (-kk8 * (c.c1 + c.c5 * z1) + c.c4 * (c.c2 + c.c6 * z1)) / fixZDet c
         let y := (c.c4 * (c.c1 + c.c5 * z1) - kk7 * (c.c2 + c.c6 * z1)) / fixZDet c
         if x0 < x ∧ x < x1 ∧ y0 < y ∧ y < y1 then [eval3 c x y z1] else [])
      else [])
  ++ (if det3D c ≠ 0 then
        let ix := (c.c1 * (-fixXDet c) + c.c2 * minor12 c + c.c3 * (-minor13 c)) / det3D c
        let iy := (c.c1 * minor12 c + c.c2 * (-fixYDet c) + c.c3 * minor23 c) / det3D c
        let iz := (c.c1 * (-minor13 c) + c.c2 * minor23 c + c.c3 * (-fixZDet c)) / det3D c
        if x0 < ix ∧ ix < x1 ∧ y0 < iy ∧ iy < y1 ∧ z0 < iz ∧ iz < z1 then
          [eval3 c ix iy iz]
        else []
      else [])

/-- The shape-guarded extraction of `c[0]..c[9]` (lines 543-563). -/
def extract3 (t : NDTensor) : QuadCoeffs3 :=
  let m := t.shape.headD 0
  let n := (t.shape.drop 1).headD 0
  let p := (t.shape.drop 2).headD 0
  { c0 := t.entry [0, 0, 0]
    c1 := if 1 < m then t.entry [1, 0, 0] else 0
    c2 := if 1 < n then t.entry [0, 1, 0] else 0
    c3 := if 1 < p then t.entry [0, 0, 1] else 0
    c4 := if 1 < m ∧ 1 < n then t.entry [1, 1, 0] else 0
    c5 := if 1 < m ∧ 1 < p then t.entry [1, 0, 1] else 0
    c6 := if 1 < n ∧ 1 < p then t.entry [0, 1, 1] else 0
    c7 := if 2 < m then t.entry [2, 0, 0] else 0
    c8 := if 2 < n then t.entry [0, 2, 0] else 0
    c9 := if 2 < p then t.entry [0, 0, 2] else 0 }

/-- `sum([fabs(coeff) for coeff in c])` over the ten extracted coefficients. -/
def absC3 (c : QuadCoeffs3) : ℚ :=
  |c.c0| + |c.c1| + |c.c2| + |c.c3| + |c.c4| + |c.c5| + |c.c6| + |c.c7| + |c.c8| + |c.c9|

/-- `other_sum` of `quadratic_check_3D` (line 566). -/
def otherSum3 (t : NDTensor) (tol : ℚ) : ℚ :=
  absSum t.shape t.entry - absC3 (extract3 t) + tol

/-- `quadratic_check_3D` (lines 514-856): one verdict per interval; the mask
stays all-`True` when the tensor is not 3-dimensional (lines 539-540). -/
def quadratic_check_3D (t : NDTensor) (intervals : List Box3) (tol : ℚ) : List Bool :=
  if t.shape.length ≠ 3 then intervals.map (fun _ => true)
  else
    let c := extract3 t
    let os := otherSum3 t tol
    intervals.map (fun I => runFlags os (cand3D c I) false false)

/-! ### The general n-D routine `quadratic_check_nd` (lines 878-1051),
instantiated at dimension 2 and at dimension 3, with its loops unrolled.

The routine works on `np.pad(test_coeff.copy(), …)`, whose entry at an index
is the original entry when the index is in shape and `0` otherwise
(`peDim2`/`peDim3`); the extraction loop zeroes every spot of total degree
`≤ 2`, so `other_sum` is the absolute mass of the remaining padded entries.
`np.linalg.matrix_rank(A_, hermitian=True) == A_.shape[0]` (full rank of a
square matrix) is modelled by the nonvanishing of the determinant of `A_`,
and `scipy.linalg.solve` by the unique solution of the (nonsingular) system,
written out through Cramer's rule. -/

/-- Entry of the padded working copy of a 2-dimensional tensor. -/
def peDim2 (t : NDTensor) (i j : ℕ) : ℚ :=
  if i < t.shape.headD 0 ∧ j < (t.shape.drop 1).headD 0 then t.entry [i, j] else 0

/-- The quadratic data extracted by `quadratic_check_nd` at dimension 2
(lines 917-952), mapped onto the `c[0]..c[5]` layout of the 2-D routine:
the constant term, `B = (c1, c2)`, the cross coefficient `A[0,1] = c4` and
the pure quadratic coefficients `(c3, c5)`. -/
def extractNd2 (t : NDTensor) : QuadCoeffs2 :=
  { c0 := peDim2 t 0 0
    c1 := peDim2 t 1 0
    c2 := peDim2 t 0 1
    c3 := peDim2 t 2 0
    c4 := peDim2 t 1 1
    c5 := peDim2 t 0 2 }

/-- `other_sum` of `quadratic_check_nd` at dimension 2 (line 965): the
absolute mass of the padded working copy after the degree-`≤ 2` spots have
been zeroed out, plus `tol`. -/
def ndOtherSum2 (t : NDTensor) (tol : ℚ) : ℚ :=
  (∑ i ∈ Finset.range (max (t.shape.headD 0) 3),
    ∑ j ∈ Finset.range (max ((t.shape.drop 1).headD 0) 3),
      |if i + j ≤ 2 then (0 : ℚ) else peDim2 t i j|) + tol

/-- `eval_func` of `quadratic_check_nd` at dimension 2 (lines 956-962). -/
def evalNd2 (c : QuadCoeffs2) (x y : ℚ) : ℚ :=
  (c.c0 - (c.c3 + c.c5)) + (c.c1 + (2 * c.c3) * x + c.c4 * y) * x + (c.c2 + (2 * c.c5) * y) * y

/-- The determinant of the stationarity matrix `A` at dimension 2
(diagonal `4·c3, 4·c5`, off-diagonal `c4`). -/
def detNd2 (c : QuadCoeffs2) : ℚ := (4 * c.c3) * (4 * c.c5) - c.c4 ^ 2

/-- The candidate evaluations of the per-interval loop of
`quadratic_check_nd` at dimension 2 (lines 970-1049): corners in
`itertools.product` order; the two side systems (`fixed = (0,)`, `(1,)`),
each guarded by full rank of the reduced `1×1` matrix and with *closed*
containment tests (`<=` in line 1008); finally the interior system, guarded
by a sign-consistent diagonal of pure quadratic coefficients, full rank of
`A`, and closed containment tests (line 1037). -/
def candNd2 (c : QuadCoeffs2) (I : Box2) : List ℚ :=
  let x0 := I.1.1; let y0 := I.1.2; let x1 := I.2.1; let y1 := I.2.2
  [evalNd2 c x0 y0, evalNd2 c x0 y1, evalNd2 c x1 y0, evalNd2 c x1 y1]
  ++ (if 4 * c.c5 ≠ 0 then
        (let y := (-c.c2 - c.c4 * x0) / (4 * c.c5)
         if y0 ≤ y ∧ y ≤ y1 then [evalNd2 c x0 y] else []) ++
        (let y := (-c.c2 - c.c4 * x1) / (4 * c.c5)
         if y0 ≤ y ∧ y ≤ y1 then [evalNd2 c x1 y] else [])
      else [])
  ++ (if 4 * c.c3 ≠ 0 then
        (let x := (-c.c1 - c.c4 * y0) / (4 * c.c3)
         if x0 ≤ x ∧ x ≤ x1 then [evalNd2 c x y0] else []) ++
        (let x := (-c.c1 - c.c4 * y1) / (4 * c.c3)
         if x0 ≤ x ∧ x ≤ x1 then [evalNd2 c x y1] else [])
      else [])
  ++ (if ¬(c.c3 * c.c5 < 0) ∧ detNd2 c ≠ 0 then
        let ix := ((-c.c1) * (4 * c.c5) - c.c4 * (-c.c2)) / detNd2 c
        let iy := ((4 * c.c3) * (-c.c2) - (-c.c1) * c.c4) / detNd2 c
        if x0 ≤ ix ∧ ix ≤ x1 ∧ y0 ≤ iy ∧ iy ≤ y1 then [evalNd2 c ix iy] else []
      else [])

/-- `quadratic_check_nd` at a 2-dimensional coefficient tensor. -/
def quadratic_check_nd2 (t : NDTensor) (intervals : List Box2) (tol : ℚ) : List Bool :=
  let c := extractNd2 t
  let os := ndOtherSum2 t tol
  intervals.map (fun I => runFlags os (candNd2 c I) false false)

/-- Entry of the padded working copy of a 3-dimensional tensor. -/
def peDim3 (t : NDTensor) (i j k : ℕ) : ℚ :=
  if i < t.shape.headD 0 ∧ j < (t.shape.drop 1).headD 0 ∧ k < (t.shape.drop 2).headD 0 then
    t.entry [i, j, k]
  else 0

/-- The quadratic data extracted by `quadratic_check_nd` at dimension 3,
mapped onto the `c[0]..c[9]` layout of the 3-D routine. -/
def extractNd3 (t : NDTensor) : QuadCoeffs3 :=
  { c0 := peDim3 t 0 0 0
    c1 := peDim3 t 1 0 0
    c2 := peDim3 t 0 1 0
    c3 := peDim3 t 0 0 1
    c4 := peDim3 t 1 1 0
    c5 := peDim3 t 1 0 1
    c6 := peDim3 t 0 1 1
    c7 := peDim3 t 2 0 0
    c8 := peDim3 t 0 2 0
    c9 := peDim3 t 0 0 2 }

/-- `other_sum` of `quadratic_check_nd` at dimension 3 (line 965). -/
def ndOtherSum3 (t : NDTensor) (tol : ℚ) : ℚ :=
  (∑ i ∈ Finset.range (max (t.shape.headD 0) 3),
    ∑ j ∈ Finset.range (max ((t.shape.drop 1).headD 0) 3),
      ∑ k ∈ Finset.range (max ((t.shape.drop 2).headD 0) 3),
        |if i + j + k ≤ 2 then (0 : ℚ) else peDim3 t i j k|) + tol

/-- `eval_func` of `quadratic_check_nd` at dimension 3 (lines 956-962). -/
def evalNd3 (c : QuadCoeffs3) (x y z : ℚ) : ℚ :=
  (c.c0 - (c.c7 + c.c8 + c.c9)) +
    (c.c1 + (2 * c.c7) * x + (c.c4 * y + c.c5 * z)) * x +
    (c.c2 + (2 * c.c8) * y + c.c6 * z) * y +
    (c.c3 + (2 * c.c9) * z) * z

/-- The determinant of the full stationarity matrix `A` at dimension 3
(diagonal `4·c7, 4·c8, 4·c9`, off-diagonal `c4, c5, c6`). -/
def detNd3 (c : QuadCoeffs3) : ℚ :=
  (4 * c.c7) * ((4 * c.c8) * (4 * c.c9) - c.c6 ^ 2) -
    c.c4 * (c.c4 * (4 * c.c9) - c.c6 * c.c5) +
    c.c5 * (c.c4 * c.c6 - (4 * c.c8) * c.c5)

/-- The candidate evaluations of the per-interval loop of
`quadratic_check_nd` at dimension 3 (lines 970-1049): corners in
`itertools.product` order; the side systems for
`fixed = (0,1), (0,2), (1,2), (0,), (1,), (2,)` in that order
(`get_fixed_vars(3)`), each guarded by a sign-consistent diagonal of the
reduced matrix and its full rank, with closed containment tests; and the
interior system likewise. -/
def candNd3 (c : QuadCoeffs3) (I : Box3) : List ℚ :=
  let x0 := I.1.1; let y0 := I.1.2.1; let z0 := I.1.2.2
  let x1 := I.2.1; let y1 := I.2.2.1; let z1 := I.2.2.2
  [evalNd3 c x0 y0 z0, evalNd3 c x0 y0 z1, evalNd3 c x0 y1 z0, evalNd3 c x0 y1 z1,
   evalNd3 c x1 y0 z0, evalNd3 c x1 y0 z1, evalNd3 c x1 y1 z0, evalNd3 c x1 y1 z1]
  ++ (if 4 * c.c9 ≠ 0 then
        (let z := (-c.c3 - (c.c5 * x0 + c.c6 * y0)) / (4 * c.c9)
         if z0 ≤ z ∧ z ≤ z1 then [evalNd3 c x0 y0 z] else []) ++
        (let z := (-c.c3 - (c.c5 * x0 + c.c6 * y1)) / (4 * c.c9)
         if z0 ≤ z ∧ z ≤ z1 then [evalNd3 c x0 y1 z] else []) ++
        (let z := (-c.c3 - (c.c5 * x1 + c.c6 * y0)) / (4 * c.c9)
         if z0 ≤ z ∧ z ≤ z1 then [evalNd3 c x1 y0 z] else []) ++
        (let z := (-c.c3 - (c.c5 * x1 + c.c6 * y1)) / (4 * c.c9)
         if z0 ≤ z ∧ z ≤ z1 then [evalNd3 c x1 y1 z] else [])
      else [])
  ++ (if 4 * c.c8 ≠ 0 then
        (let y := (-c.c2 - (c.c4 * x0 + c.c6 * z0)) / (4 * c.c8)
         if y0 ≤ y ∧ y ≤ y1 then [evalNd3 c x0 y z0] else []) ++
        (let y := (-c.c2 - (c.c4 * x0 + c.c6 * z1)) / (4 * c.c8)
         if y0 ≤ y ∧ y ≤ y1 then [evalNd3 c x0 y z1] else []) ++
        (let y := (-c.c2 - (c.c4 * x1 + c.c6 * z0)) / (4 * c.c8)
         if y0 ≤ y ∧ y ≤ y1 then [evalNd3 c x1 y z0] else []) ++
        (let y := (-c.c2 - (c.c4 * x1 + c.c6 * z1)) / (4 * c.c8)
         if y0 ≤ y ∧ y ≤ y1 then [evalNd3 c x1 y z1] else [])
      else [])
  ++ (if 4 * c.c7 ≠ 0 then
        (let x := (-c.c1 - (c.c4 * y0 + c.c5 * z0)) / (4 * c.c7)
         if x0 ≤ x ∧ x ≤ x1 then [evalNd3 c x y0 z0] else []) ++
        (let x := (-c.c1 - (c.c4 * y0 + c.c5 * z1)) / (4 * c.c7)
         if x0 ≤ x ∧ x ≤ x1 then [evalNd3 c x y0 z1] else []) ++
        (let x := (-c.c1 - (c.c4 * y1 + c.c5 * z0)) / (4 * c.c7)
         if x0 ≤ x ∧ x ≤ x1 then [evalNd3 c x y1 z0] else []) ++
        (let x := (-c.c1 - (c.c4 * y1 + c.c5 * z1)) / (4 * c.c7)
         if x0 ≤ x ∧ x ≤ x1 then [evalNd3 c x y1 z1] else [])
      else [])
  ++ (if ¬((4 * c.c8) * (4 * c.c9) < 0) ∧ fixXDet c ≠ 0 then
        (let y := ((-c.c2 - c.c4 * x0) * (4 * c.c9) - c.c6 * (-c.c3 - c.c5 * x0)) / fixXDet c
         let z := ((4 * c.c8) * (-c.c3 - c.c5 * x0) - (-c.c2 - c.c4 * x0) * c.c6) / fixXDet c
         if y0 ≤ y ∧ y ≤ y1 ∧ z0 ≤ z ∧ z ≤ z1 then [evalNd3 c x0 y z] else []) ++
        (let y := ((-c.c2 - c.c4 * x1) * (4 * c.c9) - c.c6 * (-c.c3 - c.c5 * x1)) / fixXDet c
         let z := ((4 * c.c8) * (-c.c3 - c.c5 * x1) - (-c.c2 - c.c4 * x1) * c.c6) / fixXDet c
         if y0 ≤ y ∧ y ≤ y1 ∧ z0 ≤ z ∧ z ≤ z1 then [evalNd3 c x1 y z] else [])
      else [])
  ++ (if ¬((4 * c.c7) * (4 * c.c9) < 0) ∧ fixYDet c ≠ 0 then
        (let x := ((-c.c1 - c.c4 * y0) * (4 * c.c9) - c.c5 * (-c.c3 - c.c6 * y0)) / fixYDet c
         let z := ((4 * c.c7) * (-c.c3 - c.c6 * y0) - (-c.c1 - c.c4 * y0) * c.c5) / fixYDet c
         if x0 ≤ x ∧ x ≤ x1 ∧ z0 ≤ z ∧ z ≤ z1 then [evalNd3 c x y0 z] else []) ++
        (let x := ((-c.c1 - c.c4 * y1) * (4 * c.c9) - c.c5 * (-c.c3 - c.c6 * y1)) / fixYDet c
         let z := ((4 * c.c7) * (-c.c3 - c.c6 * y1) - (-c.c1 - c.c4 * y1) * c.c5) / fixYDet c
         if x0 ≤ x ∧ x ≤ x1 ∧ z0 ≤ z ∧ z ≤ z1 then [evalNd3 c x y1 z] else [])
      else [])
  ++ (if ¬((4 * c.c7) * (4 * c.c8) < 0) ∧ fixZDet c ≠ 0 then
        (let x := ((-c.c1 - c.c5 * z0) * (4 * c.c8) - c.c4 * (-c.c2 - c.c6 * z0)) / fixZDet c
         let y := ((4 * c.c7) * (-c.c2 - c.c6 * z0) - (-c.c1 - c.c5 * z0) * c.c4) / fixZDet c
         if x0 ≤ x ∧ x ≤ x1 ∧ y0 ≤ y ∧ y ≤ y1 then [evalNd3 c x y z0] else []) ++
        (let x := ((-c.c1 - c.c5 * z1) * (4 * c.c8) - c.c4 * (-c.c2 - c.c6 * z1)) / fixZDet c
         let y := ((4 * c.c7) * (-c.c2 - c.c6 * z1) - (-c.c1 - c.c5 * z1) * c.c4) / fixZDet c
         if x0 ≤ x ∧ x ≤ x1 ∧ y0 ≤ y ∧ y ≤ y1 then [evalNd3 c x y z1] else [])
      else [])
  ++ (if ¬(c.c7 * c.c8 < 0) ∧ ¬(c.c8 * c.c9 < 0) ∧ detNd3 c ≠ 0 then
        let ix := ((-c.c1) * ((4 * c.c8) * (4 * c.c9) - c.c6 ^ 2) -
                     c.c4 * ((-c.c2) * (4 * c.c9) - c.c6 * (-c.c3)) +
                     c.c5 * ((-c.c2) * c.c6 - (4 * c.c8) * (-c.c3))) / detNd3 c
        let iy := ((4 * c.c7) * ((-c.c2) * (4 * c.c9) - c.c6 * (-c.c3)) -
                     (-c.c1) * (c.c4 * (4 * c.c9) - c.c6 * c.c5) +
                     c.c5 * (c.c4 * (-c.c3) - (-c.c2) * c.c5)) / detNd3 c
        let iz := ((4 * c.c7) * ((4 * c.c8) * (-c.c3) - (-c.c2) * c.c6) -
                     c.c4 * (c.c4 * (-c.c3) - (-c.c2) * c.c5) +
                     (-c.c1) * (c.c4 * c.c6 - (4 * c.c8) * c.c5)) / detNd3 c
        if x0 ≤ ix ∧ ix ≤ x1 ∧ y0 ≤ iy ∧ iy ≤ y1 ∧ z0 ≤ iz ∧ iz ≤ z1 then
          [evalNd3 c ix iy iz]
        else []
      else [])

/-- `quadratic_check_nd` at a 3-dimensional coefficient tensor. -/
def quadratic_check_nd3 (t : NDTensor) (intervals : List Box3) (tol : ℚ) : List Bool :=
  let c := extractNd3 t
  let os := ndOtherSum3 t tol
  intervals.map (fun I => runFlags os (candNd3 c I) false false)

/-- C1: for every coefficient tensor and every tolerance `tol ≥ 0`,
`constant_term_check` returns `false` (eliminate) iff `2·|c0|` exceeds the
sum of the absolute values of all coefficients plus `tol`, where `c0` is the
coefficient at the all-zero index; otherwise it returns `true`. -/
theorem constant_term_check_iff (t : NDTensor) (tol : ℚ) (htol : 0 ≤ tol) :
    constant_term_check t tol = false ↔
      2 * |t.entry (List.replicate t.shape.length 0)| > absSum t.shape t.entry + tol := by
  unfold constant_term_check
  simp only []
  split <;> simp_all

/-- Witness for `constant_term_check_iff` at the 1-dimensional tensor `[10]`
with `tol = 0`: the check eliminates, and indeed `2·|10| > 10 + 0`. -/
theorem constant_term_check_iff_witness :
    (0 : ℚ) ≤ 0 ∧
      (constant_term_check ⟨[1], fun _ => 10⟩ 0 = false ↔
        2 * |NDTensor.entry ⟨[1], fun _ => 10⟩
              (List.replicate (NDTensor.shape ⟨[1], fun _ => (10 : ℚ)⟩).length 0)| >
          absSum (NDTensor.shape ⟨[1], fun _ => (10 : ℚ)⟩)
            (NDTensor.entry ⟨[1], fun _ => 10⟩) + 0) :=
  ⟨le_refl 0, constant_term_check_iff ⟨[1], fun _ => 10⟩ 0 (le_refl 0)⟩

/-- C10: calling `quadratic_check_2D` with a tensor whose number of
dimensions is not 2, or `quadratic_check_3D` with one whose number of
dimensions is not 3, does not fail: the routine returns a mask of keep
(`true`) for every interval in the input list, eliminating nothing. -/
theorem quadratic_check_dim_guard :
    (∀ (t : NDTensor) (intervals : List Box2) (tol : ℚ), t.shape.length ≠ 2 →
        quadratic_check_2D t intervals tol = intervals.map (fun _ => true)) ∧
      (∀ (t : NDTensor) (intervals : List Box3) (tol : ℚ), t.shape.length ≠ 3 →
        quadratic_check_3D t intervals tol = intervals.map (fun _ => true)) := by
  constructor
  · intro t intervals tol h
    unfold quadratic_check_2D
    rw [if_pos h]
  · intro t intervals tol h
    unfold quadratic_check_3D
    rw [if_pos h]

/-- Witness for `quadratic_check_dim_guard`: a 1-dimensional tensor fed to
both specialized routines leaves the single candidate interval kept. -/
theorem quadratic_check_dim_guard_witness :
    (NDTensor.mk [2] (fun _ => 1)).shape.length ≠ 2 ∧
      (NDTensor.mk [2] (fun _ => 1)).shape.length ≠ 3 ∧
      quadratic_check_2D ⟨[2], fun _ => 1⟩ [((0, 0), (1, 1))] 0 = [true] ∧
      quadratic_check_3D ⟨[2], fun _ => 1⟩ [((0, 0, 0), (1, 1, 1))] 0 = [true] := by
  refine ⟨by decide, by decide, ?_, ?_⟩
  · simpa using quadratic_check_dim_guard.1 ⟨[2], fun _ => 1⟩ [((0, 0), (1, 1))] 0 (by decide)
  · simpa using quadratic_check_dim_guard.2 ⟨[2], fun _ => 1⟩ [((0, 0, 0), (1, 1, 1))] 0 (by decide)

/-- Pointwise relation between two masks produced by mapping two verdict
functions over the same interval list. -/
theorem forall2_map_map {α β : Type} (l : List α) (f g : α → β) (R : β → β → Prop)
    (h : ∀ a ∈ l, R (f a) (g a)) : List.Forall₂ R (l.map f) (l.map g) := by
  induction l with
  | nil => simp
  | cons a rest ih =>
      simp only [List.map_cons, List.forall₂_cons]
      exact ⟨h a (by simp), ih (fun a ha => h a (by simp [ha]))⟩

/-- The flag loop is monotone in the margin `other_sum`: a keep verdict
survives any increase of the margin (the candidate list being unchanged). -/
theorem runFlags_mono {os os' : ℚ} (h : os ≤ os') (L : List ℚ) :
    runFlags os L false false = true → runFlags os' L false false = true := by
  rw [runFlags_spec, runFlags_spec]
  simp only [Bool.and_eq_true, List.any_eq_true, decide_eq_true_eq]
  rintro ⟨⟨e1, he1, hlt1⟩, ⟨e2, he2, hlt2⟩⟩
  exact ⟨⟨e1, he1, lt_of_lt_of_le hlt1 h⟩, ⟨e2, he2, lt_of_le_of_lt (by linarith) hlt2⟩⟩

/-- C7: tolerance monotonicity. For a fixed coefficient tensor and fixed
intervals, and tolerances `tol' ≥ tol ≥ 0`, a keep verdict of
`constant_term_check`, or of any quadratic check on any given sub-interval,
at tolerance `tol` is still a keep verdict at tolerance `tol'`: raising the
tolerance can only flip a verdict from discard to keep, never the reverse. -/
theorem tol_monotonicity (tol tol' : ℚ) (h0 : 0 ≤ tol) (h : tol ≤ tol') :
    (∀ t : NDTensor, constant_term_check t tol = true → constant_term_check t tol' = true) ∧
      (∀ (t : NDTensor) (intervals : List Box2),
        List.Forall₂ (fun a b => a = true → b = true)
          (quadratic_check_2D t intervals tol) (quadratic_check_2D t intervals tol')) ∧
      (∀ (t : NDTensor) (intervals : List Box3),
        List.Forall₂ (fun a b => a = true → b = true)
          (quadratic_check_3D t intervals tol) (quadratic_check_3D t intervals tol')) ∧
      (∀ (t : NDTensor) (intervals : List Box2),
        List.Forall₂ (fun a b => a = true → b = true)
          (quadratic_check_nd2 t intervals tol) (quadratic_check_nd2 t intervals tol')) ∧
      (∀ (t : NDTensor) (intervals : List Box3),
        List.Forall₂ (fun a b => a = true → b = true)
          (quadratic_check_nd3 t intervals tol) (quadratic_check_nd3 t intervals tol')) := by
  refine ⟨?_, ?_, ?_, ?_, ?_⟩
  · intro t
    unfold constant_term_check
    by_cases hc : 2 * |t.entry (List.replicate t.shape.length 0)| >
        absSum t.shape t.entry + tol
    · rw [if_pos hc]; intro hfalse; cases hfalse
    · rw [if_neg hc]
      intro _
      rw [if_neg (by push_neg at hc ⊢; linarith)]
  · intro t intervals
    unfold quadratic_check_2D
    split
    · exact forall2_map_map _ _ _ _ (fun a _ => fun h => h)
    · exact forall2_map_map _ _ _ _
        (fun I _ => runFlags_mono (by unfold otherSum2; linarith) _)
  · intro t intervals
    unfold quadratic_check_3D
    split
    · exact forall2_map_map _ _ _ _ (fun a _ => fun h => h)
    · exact forall2_map_map _ _ _ _
        (fun I _ => runFlags_mono (by unfold otherSum3; linarith) _)
  · intro t intervals
    unfold quadratic_check_nd2
    exact forall2_map_map _ _ _ _
      (fun I _ => runFlags_mono (by unfold ndOtherSum2; linarith) _)
  · intro t intervals
    unfold quadratic_check_nd3
    exact forall2_map_map _ _ _ _
      (fun I _ => runFlags_mono (by unfold ndOtherSum3; linarith) _)

/-- Witness for `tol_monotonicity` at `tol = 0`, `tol' = 1`, the zero
2-dimensional tensor and one interval: keep verdicts survive the raise. -/
theorem tol_monotonicity_witness :
    (0 : ℚ) ≤ 0 ∧ (0 : ℚ) ≤ 1 ∧
      (constant_term_check ⟨[1, 1], fun _ => 0⟩ 0 = true →
        constant_term_check ⟨[1, 1], fun _ => 0⟩ 1 = true) ∧
      List.Forall₂ (fun a b => a = true → b = true)
        (quadratic_check_2D ⟨[1, 1], fun _ => 0⟩ [((0, 0), (1, 1))] 0)
        (quadratic_check_2D ⟨[1, 1], fun _ => 0⟩ [((0, 0), (1, 1))] 1) :=
  ⟨le_refl 0, by norm_num,
    (tol_monotonicity 0 1 (le_refl 0) (by norm_num)).1 ⟨[1, 1], fun _ => 0⟩,
    (tol_monotonicity 0 1 (le_refl 0) (by norm_num)).2.1 ⟨[1, 1], fun _ => 0⟩ _⟩

/-- Sum of a function mapped over `List.range`, as a `Finset.range` sum. -/
theorem list_range_map_sum (n : ℕ) (f : ℕ → ℚ) :
    ((List.range n).map f).sum = ∑ i ∈ Finset.range n, f i := by
  induction n with
  | zero => simp
  | succ k ih => rw [Finset.sum_range_succ, List.range_succ]; simp [ih]

/-- `absSum` over a 2-axis shape as a double `Finset.range` sum. -/
theorem absSum_two (m n : ℕ) (f : List ℕ → ℚ) :
    absSum [m, n] f = ∑ i ∈ Finset.range m, ∑ j ∈ Finset.range n, |f [i, j]| := by
  simp only [absSum]
  rw [list_range_map_sum]
  refine Finset.sum_congr rfl (fun i _ => ?_)
  rw [list_range_map_sum]

/-- `absSum` over a 3-axis shape as a triple `Finset.range` sum. -/
theorem absSum_three (m n p : ℕ) (f : List ℕ → ℚ) :
    absSum [m, n, p] f =
      ∑ i ∈ Finset.range m, ∑ j ∈ Finset.range n, ∑ k ∈ Finset.range p, |f [i, j, k]| := by
  simp only [absSum]
  rw [list_range_map_sum]
  refine Finset.sum_congr rfl (fun i _ => ?_)
  rw [list_range_map_sum]
  refine Finset.sum_congr rfl (fun j _ => ?_)
  rw [list_range_map_sum]

/-! ### C9: the checks do not mutate the caller's tensor.

`quadratic_check_nd` rebinds its local name to `np.pad(test_coeff.copy(), …)`
(line 906) and the assignments `test_coeff[spot] = 0` of the extraction loop
(lines 929, 934, 950) write into that working copy only.  The variants below
thread the caller's tensor through the call explicitly and build `other_sum`
from the zeroed working copy, so that the theorem can state both that the
copy (not the caller's value) carries the zeroed spots and that the caller's
tensor comes back untouched. -/

/-- The padded working copy `np.pad(test_coeff.copy(), padding)` of a
2-dimensional tensor (line 906). -/
def workingCopy2 (t : NDTensor) : NDTensor :=
  ⟨[max (t.shape.headD 0) 3, max ((t.shape.drop 1).headD 0) 3],
    fun idx => peDim2 t (idx.headD 0) ((idx.drop 1).headD 0)⟩

/-- The working copy after the extraction loop zeroed every spot of total
degree at most 2 (lines 922-950). -/
def zeroedCopy2 (t : NDTensor) : NDTensor :=
  ⟨(workingCopy2 t).shape,
    fun idx =>
      if idx.headD 0 + (idx.drop 1).headD 0 ≤ 2 then 0 else (workingCopy2 t).entry idx⟩

/-- The padded working copy of a 3-dimensional tensor (line 906). -/
def workingCopy3 (t : NDTensor) : NDTensor :=
  ⟨[max (t.shape.headD 0) 3, max ((t.shape.drop 1).headD 0) 3,
      max ((t.shape.drop 2).headD 0) 3],
    fun idx => peDim3 t (idx.headD 0) ((idx.drop 1).headD 0) ((idx.drop 2).headD 0)⟩

/-- The 3-dimensional working copy after the zeroing loop. -/
def zeroedCopy3 (t : NDTensor) : NDTensor :=
  ⟨(workingCopy3 t).shape,
    fun idx =>
      if idx.headD 0 + (idx.drop 1).headD 0 + (idx.drop 2).headD 0 ≤ 2 then 0
      else (workingCopy3 t).entry idx⟩

theorem absSum_zeroedCopy2 (t : NDTensor) :
    absSum (zeroedCopy2 t).shape (zeroedCopy2 t).entry = ndOtherSum2 t 0 := by
  show absSum [max (t.shape.headD 0) 3, max ((t.shape.drop 1).headD 0) 3] _ = _
  rw [absSum_two]
  unfold ndOtherSum2
  rw [add_zero]
  rfl

theorem absSum_zeroedCopy3 (t : NDTensor) :
    absSum (zeroedCopy3 t).shape (zeroedCopy3 t).entry = ndOtherSum3 t 0 := by
  show absSum [max (t.shape.headD 0) 3, max ((t.shape.drop 1).headD 0) 3,
      max ((t.shape.drop 2).headD 0) 3] _ = _
  rw [absSum_three]
  unfold ndOtherSum3
  rw [add_zero]
  rfl

/-- `constant_term_check` with the caller's tensor threaded through: it only
reads the tensor. -/
def constant_term_check_frame (t : NDTensor) (tol : ℚ) : Bool × NDTensor :=
  (constant_term_check t tol, t)

/-- `quadratic_check_2D` with the caller's tensor threaded through: it only
reads the tensor. -/
def quadratic_check_2D_frame (t : NDTensor) (intervals : List Box2) (tol : ℚ) :
    List Bool × NDTensor :=
  (quadratic_check_2D t intervals tol, t)

/-- `quadratic_check_3D` with the caller's tensor threaded through. -/
def quadratic_check_3D_frame (t : NDTensor) (intervals : List Box3) (tol : ℚ) :
    List Bool × NDTensor :=
  (quadratic_check_3D t intervals tol, t)

/-- `quadratic_check_nd` at dimension 2 with the caller's tensor threaded
through the call: the data is extracted while the padded copy is zeroed,
`other_sum` is the remaining mass of the zeroed copy (line 965), and the
caller's tensor is handed back as it went in. -/
def quadratic_check_nd2_frame (t : NDTensor) (intervals : List Box2) (tol : ℚ) :
    List Bool × NDTensor :=
  let c := extractNd2 t
  let os := absSum (zeroedCopy2 t).shape (zeroedCopy2 t).entry + tol
  ((intervals.map fun I => runFlags os (candNd2 c I) false false), t)

/-- `quadratic_check_nd` at dimension 3 with the caller's tensor threaded
through the call. -/
def quadratic_check_nd3_frame (t : NDTensor) (intervals : List Box3) (tol : ℚ) :
    List Bool × NDTensor :=
  let c := extractNd3 t
  let os := absSum (zeroedCopy3 t).shape (zeroedCopy3 t).entry + tol
  ((intervals.map fun I => runFlags os (candNd3 c I) false false), t)

theorem ndOtherSum2_shift (t : NDTensor) (tol : ℚ) :
    ndOtherSum2 t 0 + tol = ndOtherSum2 t tol := by
  unfold ndOtherSum2; ring

theorem ndOtherSum3_shift (t : NDTensor) (tol : ℚ) :
    ndOtherSum3 t 0 + tol = ndOtherSum3 t tol := by
  unfold ndOtherSum3; ring

/-- C9: no check call mutates the caller's coefficient tensor.  Each check,
threaded with the caller's tensor, returns that tensor exactly as it came in
together with the very verdicts of the plain routine — in particular the n-D
routine, whose zeroing of consumed quadratic entries happens on the padded
working copy `zeroedCopy2`/`zeroedCopy3`, never on the caller's value. -/
theorem checks_no_mutation :
    (∀ (t : NDTensor) (tol : ℚ),
      constant_term_check_frame t tol = (constant_term_check t tol, t)) ∧
      (∀ (t : NDTensor) (intervals : List Box2) (tol : ℚ),
        quadratic_check_2D_frame t intervals tol = (quadratic_check_2D t intervals tol, t)) ∧
      (∀ (t : NDTensor) (intervals : List Box3) (tol : ℚ),
        quadratic_check_3D_frame t intervals tol = (quadratic_check_3D t intervals tol, t)) ∧
      (∀ (t : NDTensor) (intervals : List Box2) (tol : ℚ),
        quadratic_check_nd2_frame t intervals tol = (quadratic_check_nd2 t intervals tol, t)) ∧
      (∀ (t : NDTensor) (intervals : List Box3) (tol : ℚ),
        quadratic_check_nd3_frame t intervals tol = (quadratic_check_nd3 t intervals tol, t)) := by
  refine ⟨fun t tol => rfl, fun t intervals tol => rfl, fun t intervals tol => rfl,
    fun t intervals tol => ?_, fun t intervals tol => ?_⟩
  · unfold quadratic_check_nd2_frame quadratic_check_nd2
    rw [absSum_zeroedCopy2, ndOtherSum2_shift]
  · unfold quadratic_check_nd3_frame quadratic_check_nd3
    rw [absSum_zeroedCopy3, ndOtherSum3_shift]

/-! ### C8: every division is guarded by a nonzero test on its divisor.

`checkedDiv` fails (returns `none`) on a zero divisor; rebuilding each
candidate list with `checkedDiv` at every division site of the source and
showing the result is always `some` of the original list proves that each
division is dominated by its guard: a failed guard only removes the
candidate, it is never an error and it adds nothing to the list. -/

/-- Division that reports an unguarded zero divisor instead of defaulting. -/
def checkedDiv (a b : ℚ) : Option ℚ := if b = 0 then none else some (a / b)

theorem checkedDiv_ne (a : ℚ) {b : ℚ} (h : b ≠ 0) : checkedDiv a b = some (a / b) :=
  if_neg h

/-- A guarded block with one shared divisor and two solved candidates. -/
def guardBlockB (P : Prop) [Decidable P] (d n1 n2 : ℚ) (f1 f2 : ℚ → List ℚ) :
    Option (List ℚ) :=
  if P then
    (checkedDiv n1 d).bind fun a1 => (checkedDiv n2 d).bind fun a2 => some (f1 a1 ++ f2 a2)
  else some []

/-- The value `guardBlockB` takes when its guard dominates the divisor. -/
def guardBlockBVal (P : Prop) [Decidable P] (d n1 n2 : ℚ) (f1 f2 : ℚ → List ℚ) : List ℚ :=
  if P then f1 (n1 / d) ++ f2 (n2 / d) else []

theorem guardBlockB_eq (P : Prop) [Decidable P] (d n1 n2 : ℚ) (f1 f2 : ℚ → List ℚ)
    (h : P → d ≠ 0) :
    guardBlockB P d n1 n2 f1 f2 = some (guardBlockBVal P d n1 n2 f1 f2) := by
  unfold guardBlockB guardBlockBVal
  by_cases hP : P
  · rw [if_pos hP, if_pos hP, checkedDiv_ne _ (h hP), checkedDiv_ne _ (h hP)]
    simp only [Option.some_bind]
  · rw [if_neg hP, if_neg hP]

/-- A guarded block with one shared divisor and four solved candidates. -/
def guardBlockQ (P : Prop) [Decidable P] (d n1 n2 n3 n4 : ℚ) (f1 f2 f3 f4 : ℚ → List ℚ) :
    Option (List ℚ) :=
  if P then
    (checkedDiv n1 d).bind fun a1 => (checkedDiv n2 d).bind fun a2 =>
    (checkedDiv n3 d).bind fun a3 => (checkedDiv n4 d).bind fun a4 =>
    some (f1 a1 ++ f2 a2 ++ f3 a3 ++ f4 a4)
  else some []

/-- The value `guardBlockQ` takes when its guard dominates the divisor. -/
def guardBlockQVal (P : Prop) [Decidable P] (d n1 n2 n3 n4 : ℚ)
    (f1 f2 f3 f4 : ℚ → List ℚ) : List ℚ :=
  if P then f1 (n1 / d) ++ f2 (n2 / d) ++ f3 (n3 / d) ++ f4 (n4 / d) else []

theorem guardBlockQ_eq (P : Prop) [Decidable P] (d n1 n2 n3 n4 : ℚ)
    (f1 f2 f3 f4 : ℚ → List ℚ) (h : P → d ≠ 0) :
    guardBlockQ P d n1 n2 n3 n4 f1 f2 f3 f4 =
      some (guardBlockQVal P d n1 n2 n3 n4 f1 f2 f3 f4) := by
  unfold guardBlockQ guardBlockQVal
  by_cases hP : P
  · rw [if_pos hP, if_pos hP, checkedDiv_ne _ (h hP), checkedDiv_ne _ (h hP),
      checkedDiv_ne _ (h hP), checkedDiv_ne _ (h hP)]
    simp only [Option.some_bind]
  · rw [if_neg hP, if_neg hP]

/-- A guarded block with one shared divisor and two candidates of two solved
coordinates each. -/
def guardBlockP (P : Prop) [Decidable P] (d n1 m1 n2 m2 : ℚ) (f1 f2 : ℚ → ℚ → List ℚ) :
    Option (List ℚ) :=
  if P then
    (checkedDiv n1 d).bind fun a1 => (checkedDiv m1 d).bind fun b1 =>
    (checkedDiv n2 d).bind fun a2 => (checkedDiv m2 d).bind fun b2 =>
    some (f1 a1 b1 ++ f2 a2 b2)
  else some []

/-- The value `guardBlockP` takes when its guard dominates the divisor. -/
def guardBlockPVal (P : Prop) [Decidable P] (d n1 m1 n2 m2 : ℚ)
    (f1 f2 : ℚ → ℚ → List ℚ) : List ℚ :=
  if P then f1 (n1 / d) (m1 / d) ++ f2 (n2 / d) (m2 / d) else []

theorem guardBlockP_eq (P : Prop) [Decidable P] (d n1 m1 n2 m2 : ℚ)
    (f1 f2 : ℚ → ℚ → List ℚ) (h : P → d ≠ 0) :
    guardBlockP P d n1 m1 n2 m2 f1 f2 = some (guardBlockPVal P d n1 m1 n2 m2 f1 f2) := by
  unfold guardBlockP guardBlockPVal
  by_cases hP : P
  · rw [if_pos hP, if_pos hP, checkedDiv_ne _ (h hP), checkedDiv_ne _ (h hP),
      checkedDiv_ne _ (h hP), checkedDiv_ne _ (h hP)]
    simp only [Option.some_bind]
  · rw [if_neg hP, if_neg hP]

/-- A guarded block with one shared divisor and one candidate of three solved
coordinates (the interior system; at dimension 2 the third solve is unused). -/
def guardBlockI (P : Prop) [Decidable P] (d n m p : ℚ) (f : ℚ → ℚ → ℚ → List ℚ) :
    Option (List ℚ) :=
  if P then
    (checkedDiv n d).bind fun a => (checkedDiv m d).bind fun b =>
    (checkedDiv p d).bind fun e => some (f a b e)
  else some []

/-- The value `guardBlockI` takes when its guard dominates the divisor. -/
def guardBlockIVal (P : Prop) [Decidable P] (d n m p : ℚ) (f : ℚ → ℚ → ℚ → List ℚ) :
    List ℚ :=
  if P then f (n / d) (m / d) (p / d) else []

theorem guardBlockI_eq (P : Prop) [Decidable P] (d n m p : ℚ) (f : ℚ → ℚ → ℚ → List ℚ)
    (h : P → d ≠ 0) :
    guardBlockI P d n m p f = some (guardBlockIVal P d n m p f) := by
  unfold guardBlockI guardBlockIVal
  by_cases hP : P
  · rw [if_pos hP, if_pos hP, checkedDiv_ne _ (h hP), checkedDiv_ne _ (h hP),
      checkedDiv_ne _ (h hP)]
    simp only [Option.some_bind]
  · rw [if_neg hP, if_neg hP]

/-- `cand2D` with every division site checked. -/
def cand2D_checked (c : QuadCoeffs2) (I : Box2) : Option (List ℚ) :=
  (guardBlockB (c.c5 ≠ 0) (4 * c.c5)
      (-(c.c2 + c.c4 * I.1.1)) (-(c.c2 + c.c4 * I.2.1))
      (fun y => if I.1.2 < y ∧ y < I.2.2 then [eval2 c I.1.1 y] else [])
      (fun y => if I.1.2 < y ∧ y < I.2.2 then [eval2 c I.2.1 y] else [])).bind fun xb =>
  (guardBlockB (c.c3 ≠ 0) (4 * c.c3)
      (-(c.c1 + c.c4 * I.1.2)) (-(c.c1 + c.c4 * I.2.2))
      (fun x => if I.1.1 < x ∧ x < I.2.1 then [eval2 c x I.1.2] else [])
      (fun x => if I.1.1 < x ∧ x < I.2.1 then [eval2 c x I.2.2] else [])).bind fun yb =>
  (guardBlockI (16 * c.c3 * c.c5 - c.c4 ^ 2 ≠ 0) (16 * c.c3 * c.c5 - c.c4 ^ 2)
      (c.c2 * c.c4 - 4 * c.c1 * c.c5) (c.c1 * c.c4 - 4 * c.c2 * c.c3) 0
      (fun ix iy _ =>
        if I.1.1 < ix ∧ ix < I.2.1 ∧ I.1.2 < iy ∧ iy < I.2.2 then [eval2 c ix iy]
        else [])).bind fun ib =>
  some ([eval2 c I.1.1 I.1.2, eval2 c I.2.1 I.1.2, eval2 c I.1.1 I.2.2, eval2 c I.2.1 I.2.2]
          ++ xb ++ yb ++ ib)

/-- `candNd2` with every division site checked: the reduced solves happen
only after the full-rank tests, the interior solve also after the diagonal
sign test. -/
def candNd2_checked (c : QuadCoeffs2) (I : Box2) : Option (List ℚ) :=
  (guardBlockB (4 * c.c5 ≠ 0) (4 * c.c5)
      (-c.c2 - c.c4 * I.1.1) (-c.c2 - c.c4 * I.2.1)
      (fun y => if I.1.2 ≤ y ∧ y ≤ I.2.2 then [evalNd2 c I.1.1 y] else [])
      (fun y => if I.1.2 ≤ y ∧ y ≤ I.2.2 then [evalNd2 c I.2.1 y] else [])).bind fun xb =>
  (guardBlockB (4 * c.c3 ≠ 0) (4 * c.c3)
      (-c.c1 - c.c4 * I.1.2) (-c.c1 - c.c4 * I.2.2)
      (fun x => if I.1.1 ≤ x ∧ x ≤ I.2.1 then [evalNd2 c x I.1.2] else [])
      (fun x => if I.1.1 ≤ x ∧ x ≤ I.2.1 then [evalNd2 c x I.2.2] else [])).bind fun yb =>
  (guardBlockI (¬(c.c3 * c.c5 < 0) ∧ detNd2 c ≠ 0) (detNd2 c)
      ((-c.c1) * (4 * c.c5) - c.c4 * (-c.c2)) ((4 * c.c3) * (-c.c2) - (-c.c1) * c.c4) 0
      (fun ix iy _ =>
        if I.1.1 ≤ ix ∧ ix ≤ I.2.1 ∧ I.1.2 ≤ iy ∧ iy ≤ I.2.2 then [evalNd2 c ix iy]
        else [])).bind fun ib =>
  some ([evalNd2 c I.1.1 I.1.2, evalNd2 c I.1.1 I.2.2, evalNd2 c I.2.1 I.1.2,
          evalNd2 c I.2.1 I.2.2]
          ++ xb ++ yb ++ ib)

theorem cand2D_checked_eq (c : QuadCoeffs2) (I : Box2) :
    cand2D_checked c I = some (cand2D c I) := by
  unfold cand2D_checked
  rw [guardBlockB_eq _ _ _ _ _ _ (fun h => mul_ne_zero (by norm_num) h),
    guardBlockB_eq _ _ _ _ _ _ (fun h => mul_ne_zero (by norm_num) h),
    guardBlockI_eq _ _ _ _ _ _ (fun h => h)]
  simp only [Option.some_bind]
  rfl

theorem candNd2_checked_eq (c : QuadCoeffs2) (I : Box2) :
    candNd2_checked c I = some (candNd2 c I) := by
  unfold candNd2_checked
  rw [guardBlockB_eq _ _ _ _ _ _ (fun h => h),
    guardBlockB_eq _ _ _ _ _ _ (fun h => h),
    guardBlockI_eq _ _ _ _ _ _ (fun h => h.2)]
  simp only [Option.some_bind]
  rfl

/-- `cand3D` with every division site checked. -/
def cand3D_checked (c : QuadCoeffs3) (I : Box3) : Option (List ℚ) :=
  (guardBlockQ (c.c9 ≠ 0) (4 * c.c9)
      (-((c.c5 * I.1.1 + c.c3) + c.c6 * I.1.2.1)) (-((c.c5 * I.1.1 + c.c3) + c.c6 * I.2.2.1))
      (-((c.c5 * I.2.1 + c.c3) + c.c6 * I.1.2.1)) (-((c.c5 * I.2.1 + c.c3) + c.c6 * I.2.2.1))
      (fun z => if I.1.2.2 < z ∧ z < I.2.2.2 then [eval3 c I.1.1 I.1.2.1 z] else [])
      (fun z => if I.1.2.2 < z ∧ z < I.2.2.2 then [eval3 c I.1.1 I.2.2.1 z] else [])
      (fun z => if I.1.2.2 < z ∧ z < I.2.2.2 then [eval3 c I.2.1 I.1.2.1 z] else [])
      (fun z => if I.1.2.2 < z ∧ z < I.2.2.2 then [eval3 c I.2.1 I.2.2.1 z] else [])).bind
    fun zb =>
  (guardBlockQ (c.c8 ≠ 0) (4 * c.c8)
      (-((c.c2 + c.c4 * I.1.1) + c.c6 * I.1.2.2)) (-((c.c2 + c.c4 * I.1.1) + c.c6 * I.2.2.2))
      (-((c.c2 + c.c4 * I.2.1) + c.c6 * I.1.2.2)) (-((c.c2 + c.c4 * I.2.1) + c.c6 * I.2.2.2))
      (fun y => if I.1.2.1 < y ∧ y < I.2.2.1 then [eval3 c I.1.1 y I.1.2.2] else [])
      (fun y => if I.1.2.1 < y ∧ y < I.2.2.1 then [eval3 c I.1.1 y I.2.2.2] else [])
      (fun y => if I.1.2.1 < y ∧ y < I.2.2.1 then [eval3 c I.2.1 y I.1.2.2] else [])
      (fun y => if I.1.2.1 < y ∧ y < I.2.2.1 then [eval3 c I.2.1 y I.2.2.2] else [])).bind
    fun yb =>
  (guardBlockQ (c.c7 ≠ 0) (4 * c.c7)
      (-((c.c1 + c.c4 * I.1.2.1) + c.c5 * I.1.2.2)) (-((c.c1 + c.c4 * I.1.2.1) + c.c5 * I.2.2.2))
      (-((c.c1 + c.c4 * I.2.2.1) + c.c5 * I.1.2.2)) (-((c.c1 + c.c4 * I.2.2.1) + c.c5 * I.2.2.2))
      (fun x => if I.1.1 < x ∧ x < I.2.1 then [eval3 c x I.1.2.1 I.1.2.2] else [])
      (fun x => if I.1.1 < x ∧ x < I.2.1 then [eval3 c x I.1.2.1 I.2.2.2] else [])
      (fun x => if I.1.1 < x ∧ x < I.2.1 then [eval3 c x I.2.2.1 I.1.2.2] else [])
      (fun x => if I.1.1 < x ∧ x < I.2.1 then [eval3 c x I.2.2.1 I.2.2.2] else [])).bind
    fun xb =>
  (guardBlockP (fixXDet c ≠ 0) (fixXDet c)
      (-(4 * c.c9) * (c.c2 + c.c4 * I.1.1) + c.c6 * (c.c3 + c.c5 * I.1.1))
      (c.c6 * (c.c2 + c.c4 * I.1.1) - (4 * c.c8) * (c.c3 + c.c5 * I.1.1))
      (-(4 * c.c9) * (c.c2 + c.c4 * I.2.1) + c.c6 * (c.c3 + c.c5 * I.2.1))
      (c.c6 * (c.c2 + c.c4 * I.2.1) - (4 * c.c8) * (c.c3 + c.c5 * I.2.1))
      (fun y z =>
        if I.1.2.1 < y ∧ y < I.2.2.1 ∧ I.1.2.2 < z ∧ z < I.2.2.2 then [eval3 c I.1.1 y z]
        else [])
      (fun y z =>
        if I.1.2.1 < y ∧ y < I.2.2.1 ∧ I.1.2.2 < z ∧ z < I.2.2.2 then [eval3 c I.2.1 y z]
        else [])).bind fun fxb =>
  (guardBlockP (fixYDet c ≠ 0) (fixYDet c)
      (-(4 * c.c9) * (c.c1 + c.c4 * I.1.2.1) + c.c5 * (c.c3 + c.c6 * I.1.2.1))
      (c.c5 * (c.c1 + c.c4 * I.1.2.1) - (4 * c.c7) * (c.c3 + c.c6 * I.1.2.1))
      (-(4 * c.c9) * (c.c1 + c.c4 * I.2.2.1) + c.c5 * (c.c3 + c.c6 * I.2.2.1))
      (c.c5 * (c.c1 + c.c4 * I.2.2.1) - (4 * c.c7) * (c.c3 + c.c6 * I.2.2.1))
      (fun x z =>
        if I.1.1 < x ∧ x < I.2.1 ∧ I.1.2.2 < z ∧ z < I.2.2.2 then [eval3 c x I.1.2.1 z]
        else [])
      (fun x z =>
        if I.1.1 < x ∧ x < I.2.1 ∧ I.1.2.2 < z ∧ z < I.2.2.2 then [eval3 c x I.2.2.1 z]
        else [])).bind fun fyb =>
  (guardBlockP (fixZDet c ≠ 0) (fixZDet c)
      (-(4 * c.c8) * (c.c1 + c.c5 * I.1.2.2) + c.c4 * (c.c2 + c.c6 * I.1.2.2))
      (c.c4 * (c.c1 + c.c5 * I.1.2.2) - (4 * c.c7) * (c.c2 + c.c6 * I.1.2.2))
      (-(4 * c.c8) * (c.c1 + c.c5 * I.2.2.2) + c.c4 * (c.c2 + c.c6 * I.2.2.2))
      (c.c4 * (c.c1 + c.c5 * I.2.2.2) - (4 * c.c7) * (c.c2 + c.c6 * I.2.2.2))
      (fun x y =>
        if I.1.1 < x ∧ x < I.2.1 ∧ I.1.2.1 < y ∧ y < I.2.2.1 then [eval3 c x y I.1.2.2]
        else [])
      (fun x y =>
        if I.1.1 < x ∧ x < I.2.1 ∧ I.1.2.1 < y ∧ y < I.2.2.1 then [eval3 c x y I.2.2.2]
        else [])).bind fun fzb =>
  (guardBlockI (det3D c ≠ 0) (det3D c)
      (c.c1 * (-fixXDet c) + c.c2 * minor12 c + c.c3 * (-minor13 c))
      (c.c1 * minor12 c + c.c2 * (-fixYDet c) + c.c3 * minor23 c)
      (c.c1 * (-minor13 c) + c.c2 * minor23 c + c.c3 * (-fixZDet c))
      (fun ix iy iz =>
        if I.1.1 < ix ∧ ix < I.2.1 ∧ I.1.2.1 < iy ∧ iy < I.2.2.1 ∧
            I.1.2.2 < iz ∧ iz < I.2.2.2 then
          [eval3 c ix iy iz]
        else [])).bind fun ib =>
  some ([eval3 c I.1.1 I.1.2.1 I.1.2.2, eval3 c I.2.1 I.1.2.1 I.1.2.2,
          eval3 c I.1.1 I.2.2.1 I.1.2.2, eval3 c I.1.1 I.1.2.1 I.2.2.2,
          eval3 c I.2.1 I.2.2.1 I.1.2.2, eval3 c I.2.1 I.1.2.1 I.2.2.2,
          eval3 c I.1.1 I.2.2.1 I.2.2.2, eval3 c I.2.1 I.2.2.1 I.2.2.2]
          ++ zb ++ yb ++ xb ++ fxb ++ fyb ++ fzb ++ ib)

theorem cand3D_checked_eq (c : QuadCoeffs3) (I : Box3) :
    cand3D_checked c I = some (cand3D c I) := by
  unfold cand3D_checked
  rw [guardBlockQ_eq _ _ _ _ _ _ _ _ _ _ (fun h => mul_ne_zero (by norm_num) h),
    guardBlockQ_eq _ _ _ _ _ _ _ _ _ _ (fun h => mul_ne_zero (by norm_num) h),
    guardBlockQ_eq _ _ _ _ _ _ _ _ _ _ (fun h => mul_ne_zero (by norm_num) h),
    guardBlockP_eq _ _ _ _ _ _ _ _ (fun h => h),
    guardBlockP_eq _ _ _ _ _ _ _ _ (fun h => h),
    guardBlockP_eq _ _ _ _ _ _ _ _ (fun h => h),
    guardBlockI_eq _ _ _ _ _ _ (fun h => h)]
  simp only [Option.some_bind]
  rfl

/-- `candNd3` with every division site checked. -/
def candNd3_checked (c : QuadCoeffs3) (I : Box3) : Option (List ℚ) :=
  (guardBlockQ (4 * c.c9 ≠ 0) (4 * c.c9)
      (-c.c3 - (c.c5 * I.1.1 + c.c6 * I.1.2.1)) (-c.c3 - (c.c5 * I.1.1 + c.c6 * I.2.2.1))
      (-c.c3 - (c.c5 * I.2.1 + c.c6 * I.1.2.1)) (-c.c3 - (c.c5 * I.2.1 + c.c6 * I.2.2.1))
      (fun z => if I.1.2.2 ≤ z ∧ z ≤ I.2.2.2 then [evalNd3 c I.1.1 I.1.2.1 z] else [])
      (fun z => if I.1.2.2 ≤ z ∧ z ≤ I.2.2.2 then [evalNd3 c I.1.1 I.2.2.1 z] else [])
      (fun z => if I.1.2.2 ≤ z ∧ z ≤ I.2.2.2 then [evalNd3 c I.2.1 I.1.2.1 z] else [])
      (fun z => if I.1.2.2 ≤ z ∧ z ≤ I.2.2.2 then [evalNd3 c I.2.1 I.2.2.1 z] else [])).bind
    fun zb =>
  (guardBlockQ (4 * c.c8 ≠ 0) (4 * c.c8)
      (-c.c2 - (c.c4 * I.1.1 + c.c6 * I.1.2.2)) (-c.c2 - (c.c4 * I.1.1 + c.c6 * I.2.2.2))
      (-c.c2 - (c.c4 * I.2.1 + c.c6 * I.1.2.2)) (-c.c2 - (c.c4 * I.2.1 + c.c6 * I.2.2.2))
      (fun y => if I.1.2.1 ≤ y ∧ y ≤ I.2.2.1 then [evalNd3 c I.1.1 y I.1.2.2] else [])
      (fun y => if I.1.2.1 ≤ y ∧ y ≤ I.2.2.1 then [evalNd3 c I.1.1 y I.2.2.2] else [])
      (fun y => if I.1.2.1 ≤ y ∧ y ≤ I.2.2.1 then [evalNd3 c I.2.1 y I.1.2.2] else [])
      (fun y => if I.1.2.1 ≤ y ∧ y ≤ I.2.2.1 then [evalNd3 c I.2.1 y I.2.2.2] else [])).bind
    fun yb =>
  (guardBlockQ (4 * c.c7 ≠ 0) (4 * c.c7)
      (-c.c1 - (c.c4 * I.1.2.1 + c.c5 * I.1.2.2)) (-c.c1 - (c.c4 * I.1.2.1 + c.c5 * I.2.2.2))
      (-c.c1 - (c.c4 * I.2.2.1 + c.c5 * I.1.2.2)) (-c.c1 - (c.c4 * I.2.2.1 + c.c5 * I.2.2.2))
      (fun x => if I.1.1 ≤ x ∧ x ≤ I.2.1 then [evalNd3 c x I.1.2.1 I.1.2.2] else [])
      (fun x => if I.1.1 ≤ x ∧ x ≤ I.2.1 then [evalNd3 c x I.1.2.1 I.2.2.2] else [])
      (fun x => if I.1.1 ≤ x ∧ x ≤ I.2.1 then [evalNd3 c x I.2.2.1 I.1.2.2] else [])
      (fun x => if I.1.1 ≤ x ∧ x ≤ I.2.1 then [evalNd3 c x I.2.2.1 I.2.2.2] else [])).bind
    fun xb =>
  (guardBlockP (¬((4 * c.c8) * (4 * c.c9) < 0) ∧ fixXDet c ≠ 0) (fixXDet c)
      ((-c.c2 - c.c4 * I.1.1) * (4 * c.c9) - c.c6 * (-c.c3 - c.c5 * I.1.1))
      ((4 * c.c8) * (-c.c3 - c.c5 * I.1.1) - (-c.c2 - c.c4 * I.1.1) * c.c6)
      ((-c.c2 - c.c4 * I.2.1) * (4 * c.c9) - c.c6 * (-c.c3 - c.c5 * I.2.1))
      ((4 * c.c8) * (-c.c3 - c.c5 * I.2.1) - (-c.c2 - c.c4 * I.2.1) * c.c6)
      (fun y z =>
        if I.1.2.1 ≤ y ∧ y ≤ I.2.2.1 ∧ I.1.2.2 ≤ z ∧ z ≤ I.2.2.2 then [evalNd3 c I.1.1 y z]
        else [])
      (fun y z =>
        if I.1.2.1 ≤ y ∧ y ≤ I.2.2.1 ∧ I.1.2.2 ≤ z ∧ z ≤ I.2.2.2 then [evalNd3 c I.2.1 y z]
        else [])).bind fun fxb =>
  (guardBlockP (¬((4 * c.c7) * (4 * c.c9) < 0) ∧ fixYDet c ≠ 0) (fixYDet c)
      ((-c.c1 - c.c4 * I.1.2.1) * (4 * c.c9) - c.c5 * (-c.c3 - c.c6 * I.1.2.1))
      ((4 * c.c7) * (-c.c3 - c.c6 * I.1.2.1) - (-c.c1 - c.c4 * I.1.2.1) * c.c5)
      ((-c.c1 - c.c4 * I.2.2.1) * (4 * c.c9) - c.c5 * (-c.c3 - c.c6 * I.2.2.1))
      ((4 * c.c7) * (-c.c3 - c.c6 * I.2.2.1) - (-c.c1 - c.c4 * I.2.2.1) * c.c5)
      (fun x z =>
        if I.1.1 ≤ x ∧ x ≤ I.2.1 ∧ I.1.2.2 ≤ z ∧ z ≤ I.2.2.2 then [evalNd3 c x I.1.2.1 z]
        else [])
      (fun x z =>
        if I.1.1 ≤ x ∧ x ≤ I.2.1 ∧ I.1.2.2 ≤ z ∧ z ≤ I.2.2.2 then [evalNd3 c x I.2.2.1 z]
        else [])).bind fun fyb =>
  (guardBlockP (¬((4 * c.c7) * (4 * c.c8) < 0) ∧ fixZDet c ≠ 0) (fixZDet c)
      ((-c.c1 - c.c5 * I.1.2.2) * (4 * c.c8) - c.c4 * (-c.c2 - c.c6 * I.1.2.2))
      ((4 * c.c7) * (-c.c2 - c.c6 * I.1.2.2) - (-c.c1 - c.c5 * I.1.2.2) * c.c4)
      ((-c.c1 - c.c5 * I.2.2.2) * (4 * c.c8) - c.c4 * (-c.c2 - c.c6 * I.2.2.2))
      ((4 * c.c7) * (-c.c2 - c.c6 * I.2.2.2) - (-c.c1 - c.c5 * I.2.2.2) * c.c4)
      (fun x y =>
        if I.1.1 ≤ x ∧ x ≤ I.2.1 ∧ I.1.2.1 ≤ y ∧ y ≤ I.2.2.1 then [evalNd3 c x y I.1.2.2]
        else [])
      (fun x y =>
        if I.1.1 ≤ x ∧ x ≤ I.2.1 ∧ I.1.2.1 ≤ y ∧ y ≤ I.2.2.1 then [evalNd3 c x y I.2.2.2]
        else [])).bind fun fzb =>
  (guardBlockI (¬(c.c7 * c.c8 < 0) ∧ ¬(c.c8 * c.c9 < 0) ∧ detNd3 c ≠ 0) (detNd3 c)
      ((-c.c1) * ((4 * c.c8) * (4 * c.c9) - c.c6 ^ 2) -
          c.c4 * ((-c.c2) * (4 * c.c9) - c.c6 * (-c.c3)) +
          c.c5 * ((-c.c2) * c.c6 - (4 * c.c8) * (-c.c3)))
      ((4 * c.c7) * ((-c.c2) * (4 * c.c9) - c.c6 * (-c.c3)) -
          (-c.c1) * (c.c4 * (4 * c.c9) - c.c6 * c.c5) +
          c.c5 * (c.c4 * (-c.c3) - (-c.c2) * c.c5))
      ((4 * c.c7) * ((4 * c.c8) * (-c.c3) - (-c.c2) * c.c6) -
          c.c4 * (c.c4 * (-c.c3) - (-c.c2) * c.c5) +
          (-c.c1) * (c.c4 * c.c6 - (4 * c.c8) * c.c5))
      (fun ix iy iz =>
        if I.1.1 ≤ ix ∧ ix ≤ I.2.1 ∧ I.1.2.1 ≤ iy ∧ iy ≤ I.2.2.1 ∧
            I.1.2.2 ≤ iz ∧ iz ≤ I.2.2.2 then
          [evalNd3 c ix iy iz]
        else [])).bind fun ib =>
  some ([evalNd3 c I.1.1 I.1.2.1 I.1.2.2, evalNd3 c I.1.1 I.1.2.1 I.2.2.2,
          evalNd3 c I.1.1 I.2.2.1 I.1.2.2, evalNd3 c I.1.1 I.2.2.1 I.2.2.2,
          evalNd3 c I.2.1 I.1.2.1 I.1.2.2, evalNd3 c I.2.1 I.1.2.1 I.2.2.2,
          evalNd3 c I.2.1 I.2.2.1 I.1.2.2, evalNd3 c I.2.1 I.2.2.1 I.2.2.2]
          ++ zb ++ yb ++ xb ++ fxb ++ fyb ++ fzb ++ ib)

theorem candNd3_checked_eq (c : QuadCoeffs3) (I : Box3) :
    candNd3_checked c I = some (candNd3 c I) := by
  unfold candNd3_checked
  rw [guardBlockQ_eq _ _ _ _ _ _ _ _ _ _ (fun h => h),
    guardBlockQ_eq _ _ _ _ _ _ _ _ _ _ (fun h => h),
    guardBlockQ_eq _ _ _ _ _ _ _ _ _ _ (fun h => h),
    guardBlockP_eq _ _ _ _ _ _ _ _ (fun h => h.2),
    guardBlockP_eq _ _ _ _ _ _ _ _ (fun h => h.2),
    guardBlockP_eq _ _ _ _ _ _ _ _ (fun h => h.2),
    guardBlockI_eq _ _ _ _ _ _ (fun h => h.2.2)]
  simp only [Option.some_bind]
  rfl

/-- C8: in every quadratic check routine, every division is guarded by an
explicit nonzero test on its divisor performed before the division, and the
n-D routine solves its reduced or full system only after the full-rank test
(nonzero determinant) and the diagonal sign-consistency test; replaying each
candidate enumeration with failing division (`checkedDiv`) at every division
site never fails and reproduces the very same candidate list — so a failed
guard only removes that candidate from the set, never raises an error, and
contributes no verdict of its own. -/
theorem divisions_guarded :
    (∀ (c : QuadCoeffs2) (I : Box2), cand2D_checked c I = some (cand2D c I)) ∧
      (∀ (c : QuadCoeffs3) (I : Box3), cand3D_checked c I = some (cand3D c I)) ∧
      (∀ (c : QuadCoeffs2) (I : Box2), candNd2_checked c I = some (candNd2 c I)) ∧
      (∀ (c : QuadCoeffs3) (I : Box3), candNd3_checked c I = some (candNd3 c I)) :=
  ⟨cand2D_checked_eq, cand3D_checked_eq, candNd2_checked_eq, candNd3_checked_eq⟩

/-- C3 (divergence witness): the quadratic checks eliminate on exact ties.
At the 2-dimensional constant tensor `[[1]]` with `tol = 1`, `other_sum = 1`
and every candidate value equals `1 = other_sum` exactly — the strict flag
test `eval < other_sum` (lines 433 ff.) never fires, so the box is
eliminated (`[false]`), although no candidate value is strictly greater than
`other_sum`: the tie goes to elimination, not to keep. -/
theorem quadratic_tie_eliminates :
    quadratic_check_2D ⟨[1, 1], fun _ => 1⟩ [((-1, -1), (1, 1))] 1 = [false] ∧
      otherSum2 ⟨[1, 1], fun _ => 1⟩ 1 = 1 ∧
      cand2D (extract2 ⟨[1, 1], fun _ => 1⟩) ((-1, -1), (1, 1)) = [1, 1, 1, 1] ∧
      ¬((∀ e ∈ cand2D (extract2 ⟨[1, 1], fun _ => 1⟩) ((-1, -1), (1, 1)),
            e > otherSum2 ⟨[1, 1], fun _ => 1⟩ 1) ∨
          (∀ e ∈ cand2D (extract2 ⟨[1, 1], fun _ => 1⟩) ((-1, -1), (1, 1)),
            e < -otherSum2 ⟨[1, 1], fun _ => 1⟩ 1)) := by
  have hos : otherSum2 ⟨[1, 1], fun _ => 1⟩ 1 = 1 := by
    norm_num [otherSum2, absC2, extract2, absSum, List.range_succ]
  have hext : extract2 ⟨[1, 1], fun _ => 1⟩ = ⟨1, 0, 0, 0, 0, 0⟩ := by
    norm_num [extract2]
  have hcand : cand2D (extract2 ⟨[1, 1], fun _ => 1⟩) ((-1, -1), (1, 1)) = [1, 1, 1, 1] := by
    rw [hext]
    norm_num [cand2D, eval2]
  refine ⟨?_, hos, hcand, ?_⟩
  · unfold quadratic_check_2D
    rw [if_neg (by norm_num)]
    simp only [List.map_cons, List.map_nil, hos]
    rw [hcand]
    norm_num [runFlags]
  · rw [hcand, hos]
    norm_num

/-! ### The `IntervalData` tracker (lines 18-200).

The model keeps the fields that `check_interval`, `check_subintervals` and
`track_interval` read or write: the two ordered check lists (each check
carries its `__name__`), the provenance registry `interval_results`, the
coverage accumulator `current_area` and the `polishing` flag.  Intervals are
pairs of bound vectors.  Appending to a missing registry key (a `KeyError`
in Python, which cannot happen for keys registered by `__init__`) is
modelled as a no-op; the theorems that speak about recording carry the
registration hypothesis. -/

/-- An interval `[a, b]` as tracked by the class: lower and upper bounds. -/
abbrev BoxN := List ℚ × List ℚ

/-- `np.prod(interval[1] - interval[0])` (line 200). -/
def volume (iv : BoxN) : ℚ := (List.zipWith (fun b a => b - a) iv.2 iv.1).prod

/-- The tracker state of class `IntervalData`. -/
structure IntervalData where
  interval_checks : List (String × (NDTensor → ℚ → Bool))
  subinterval_checks : List (String × (NDTensor → List BoxN → ℚ → List Bool))
  interval_results : List (String × List BoxN)
  current_area : ℚ
  polishing : Bool

/-- `track_interval` (lines 188-200): append the interval under `name` when
not polishing; always accrue the interval's volume. -/
def track_interval (d : IntervalData) (name : String) (iv : BoxN) : IntervalData :=
  { d with
    interval_results :=
      if d.polishing then d.interval_results
      else d.interval_results.map (fun p => if p.1 = name then (p.1, p.2 ++ [iv]) else p)
    current_area := d.current_area + volume iv }

/-- The loop of `check_interval` (lines 147-152) over the check list. -/
def check_interval_go (d : IntervalData) (coeff : NDTensor) (error : ℚ) (a b : List ℚ) :
    List (String × (NDTensor → ℚ → Bool)) → Bool × IntervalData
  | [] => (false, d)
  | (name, chk) :: rest =>
      if chk coeff error = false then
        (true, if d.polishing then d else track_interval d name (a, b))
      else check_interval_go d coeff error a b rest

/-- `check_interval` (lines 129-152): `True` means the interval can be
thrown out; the first eliminating check is tracked unless polishing. -/
def check_interval (d : IntervalData) (coeff : NDTensor) (error : ℚ) (a b : List ℚ) :
    Bool × IntervalData :=
  check_interval_go d coeff error a b d.interval_checks

/-- The inner filter loop of `check_subintervals` (lines 177-185): walk the
mask; keep masked-true boxes, track masked-false ones (unless polishing). -/
def filterStep (name : String) :
    IntervalData → List Bool → List BoxN → List BoxN →
      List BoxN × List BoxN × IntervalData
  | d, b :: mrest, sc :: screst, su :: surest =>
      if b then
        let r := filterStep name d mrest screst surest
        (sc :: r.1, su :: r.2.1, r.2.2)
      else
        let d1 := if d.polishing then d else track_interval d name su
        filterStep name d1 mrest screst surest
  | d, _, _, _ => ([], [], d)

/-- The polynomial loop of `check_subintervals` (lines 173-185). -/
def checkSubPolys (name : String) (chk : NDTensor → List BoxN → ℚ → List Bool) :
    IntervalData → List (NDTensor × ℚ) → List BoxN → List BoxN →
      List BoxN × List BoxN × IntervalData
  | d, [], scaled, subs => (scaled, subs, d)
  | d, (poly, err) :: rest, scaled, subs =>
      let r := filterStep name d (chk poly scaled err) scaled subs
      checkSubPolys name chk r.2.2 rest r.1 r.2.1

/-- The check loop of `check_subintervals` (lines 172-185). -/
def checkSubChecks :
    IntervalData → List (String × (NDTensor → List BoxN → ℚ → List Bool)) →
      List (NDTensor × ℚ) → List BoxN → List BoxN →
      List BoxN × List BoxN × IntervalData
  | d, [], _, scaled, subs => (scaled, subs, d)
  | d, (name, chk) :: rest, pes, scaled, subs =>
      let r := checkSubPolys name chk d pes scaled subs
      checkSubChecks r.2.2 rest pes r.1 r.2.1

/-- `check_subintervals` (lines 154-186): returns the surviving
`subintervals` (absolute coordinates) and the updated tracker. -/
def check_subintervals (d : IntervalData) (subintervals scaled_subintervals : List BoxN)
    (polys : List NDTensor) (errors : List ℚ) : List BoxN × IntervalData :=
  let r := checkSubChecks d d.subinterval_checks (polys.zip errors)
    scaled_subintervals subintervals
  (r.2.1, r.2.2)

/-- A tracker state as `__init__` (lines 78-106) builds it — restricted to
the modelled fields, with the default single whole-interval check and an
empty subinterval check list (the default subinterval check never runs in
the calls below). -/
def d0 : IntervalData :=
  { interval_checks := [("constant_term_check", constant_term_check)]
    subinterval_checks := []
    interval_results :=
      [("constant_term_check", []), ("quadratic_check", []), ("Base Case", []),
        ("Macaulay", []), ("Too Deep", [])]
    current_area := 0
    polishing := false }

/-- C4 (counterexample): the claim reads `check_interval` as returning the
CheckResult polarity — `false` when a check eliminates.  At the constant
tensor `[[10]]` with error `0`, `constant_term_check` eliminates (returns
`false`), yet `check_interval` returns `true`, not `false`: its docstring
polarity ("True if we can throw out the interval") is inverted relative to
the per-check booleans. -/
theorem check_interval_polarity_counterexample :
    constant_term_check ⟨[1, 1], fun _ => 10⟩ 0 = false ∧
      (check_interval d0 ⟨[1, 1], fun _ => 10⟩ 0 [-1, -1] [1, 1]).1 = true := by
  have hc : constant_term_check ⟨[1, 1], fun _ => 10⟩ 0 = false := by
    unfold constant_term_check
    rw [if_pos]
    norm_num [absSum, List.range_succ, List.replicate]
  refine ⟨hc, ?_⟩
  simp [check_interval, check_interval_go, d0, hc]

/-- The loop of `check_interval` fires exactly on the first eliminating
check. -/
theorem check_interval_go_iff (d : IntervalData) (coeff : NDTensor) (error : ℚ)
    (a b : List ℚ) (l : List (String × (NDTensor → ℚ → Bool))) :
    (check_interval_go d coeff error a b l).1 = true ↔
      ∃ p ∈ l, p.2 coeff error = false := by
  induction l with
  | nil => simp [check_interval_go]
  | cons p rest ih =>
      obtain ⟨name, chk⟩ := p
      by_cases h : chk coeff error = false
      · simp [check_interval_go, h]
      · simp [check_interval_go, h, ih]

/-- C4 (amended): `check_interval` returns `true` ("throw the interval out")
iff some check in the ordered list eliminates, i.e. returns `false`, and
`false` when no check eliminates — the polarity opposite to the claim's. -/
theorem check_interval_eliminates_iff (d : IntervalData) (coeff : NDTensor) (error : ℚ)
    (a b : List ℚ) :
    (check_interval d coeff error a b).1 = true ↔
      ∃ p ∈ d.interval_checks, p.2 coeff error = false :=
  check_interval_go_iff d coeff error a b d.interval_checks

/-- The verdict of the `check_interval` loop does not depend on the tracker
state. -/
theorem check_interval_go_fst (d d' : IntervalData) (coeff : NDTensor) (error : ℚ)
    (a b : List ℚ) (l : List (String × (NDTensor → ℚ → Bool))) :
    (check_interval_go d coeff error a b l).1 = (check_interval_go d' coeff error a b l).1 := by
  induction l with
  | nil => rfl
  | cons p rest ih =>
      obtain ⟨name, chk⟩ := p
      by_cases h : chk coeff error = false <;> simp [check_interval_go, h, ih]

/-- In polishing mode `check_interval` leaves the tracker untouched. -/
theorem check_interval_go_polishing (d : IntervalData) (hp : d.polishing = true)
    (coeff : NDTensor) (error : ℚ) (a b : List ℚ)
    (l : List (String × (NDTensor → ℚ → Bool))) :
    (check_interval_go d coeff error a b l).2 = d := by
  induction l with
  | nil => rfl
  | cons p rest ih =>
      obtain ⟨name, chk⟩ := p
      by_cases h : chk coeff error = false <;> simp [check_interval_go, h, ih, hp]

theorem track_interval_polishing_eq (d : IntervalData) (name : String) (iv : BoxN) :
    (track_interval d name iv).polishing = d.polishing := rfl

/-- The two box lists produced by the filter loop do not depend on the
tracker state. -/
theorem filterStep_boxes (name : String) (d d' : IntervalData) (mask : List Bool)
    (scaled subs : List BoxN) :
    (filterStep name d mask scaled subs).1 = (filterStep name d' mask scaled subs).1 ∧
      (filterStep name d mask scaled subs).2.1 = (filterStep name d' mask scaled subs).2.1 := by
  induction mask generalizing d d' scaled subs with
  | nil => exact ⟨rfl, rfl⟩
  | cons bb mrest ih =>
      cases scaled with
      | nil => exact ⟨rfl, rfl⟩
      | cons sc screst =>
          cases subs with
          | nil => exact ⟨rfl, rfl⟩
          | cons su surest =>
              by_cases hb : bb
              · simp only [hb, filterStep, if_true]
                exact ⟨by rw [(ih d d' screst surest).1], by rw [(ih d d' screst surest).2]⟩
              · simp only [filterStep, hb, if_false, Bool.false_eq_true]
                exact ih _ _ screst surest

/-- In polishing mode the filter loop leaves the tracker untouched. -/
theorem filterStep_polishing (name : String) (d : IntervalData) (hp : d.polishing = true)
    (mask : List Bool) (scaled subs : List BoxN) :
    (filterStep name d mask scaled subs).2.2 = d := by
  induction mask generalizing scaled subs with
  | nil => rfl
  | cons bb mrest ih =>
      cases scaled with
      | nil => rfl
      | cons sc screst =>
          cases subs with
          | nil => rfl
          | cons su surest =>
              by_cases hb : bb <;> simp [filterStep, hb, hp, ih]

/-- The filter loop preserves the polishing flag. -/
theorem filterStep_flag (name : String) (d : IntervalData) (mask : List Bool)
    (scaled subs : List BoxN) :
    (filterStep name d mask scaled subs).2.2.polishing = d.polishing := by
  induction mask generalizing d scaled subs with
  | nil => rfl
  | cons bb mrest ih =>
      cases scaled with
      | nil => rfl
      | cons sc screst =>
          cases subs with
          | nil => rfl
          | cons su surest =>
              by_cases hb : bb
              · simp [filterStep, hb, ih]
              · by_cases hp : d.polishing <;>
                  simp [filterStep, hb, hp, ih, track_interval_polishing_eq, track_interval]

/-- The box lists of the polynomial loop do not depend on the tracker state. -/
theorem checkSubPolys_boxes (name : String) (chk : NDTensor → List BoxN → ℚ → List Bool)
    (d d' : IntervalData) (pes : List (NDTensor × ℚ)) (scaled subs : List BoxN) :
    (checkSubPolys name chk d pes scaled subs).1 = (checkSubPolys name chk d' pes scaled subs).1 ∧
      (checkSubPolys name chk d pes scaled subs).2.1 =
        (checkSubPolys name chk d' pes scaled subs).2.1 := by
  induction pes generalizing d d' scaled subs with
  | nil => exact ⟨rfl, rfl⟩
  | cons pe rest ih =>
      obtain ⟨poly, err⟩ := pe
      simp only [checkSubPolys]
      obtain ⟨h1, h2⟩ := filterStep_boxes name d d' (chk poly scaled err) scaled subs
      rw [h1, h2]
      exact ih _ _ _ _

/-- In polishing mode the polynomial loop leaves the tracker untouched. -/
theorem checkSubPolys_polishing (name : String) (chk : NDTensor → List BoxN → ℚ → List Bool)
    (d : IntervalData) (hp : d.polishing = true) (pes : List (NDTensor × ℚ))
    (scaled subs : List BoxN) :
    (checkSubPolys name chk d pes scaled subs).2.2 = d := by
  induction pes generalizing d scaled subs with
  | nil => rfl
  | cons pe rest ih =>
      obtain ⟨poly, err⟩ := pe
      simp only [checkSubPolys]
      rw [filterStep_polishing name d hp]
      exact ih d hp _ _

/-- The box lists of the check loop depend only on the check list. -/
theorem checkSubChecks_boxes (l : List (String × (NDTensor → List BoxN → ℚ → List Bool)))
    (d d' : IntervalData) (pes : List (NDTensor × ℚ)) (scaled subs : List BoxN) :
    (checkSubChecks d l pes scaled subs).1 = (checkSubChecks d' l pes scaled subs).1 ∧
      (checkSubChecks d l pes scaled subs).2.1 = (checkSubChecks d' l pes scaled subs).2.1 := by
  induction l generalizing d d' scaled subs with
  | nil => exact ⟨rfl, rfl⟩
  | cons p rest ih =>
      obtain ⟨name, chk⟩ := p
      simp only [checkSubChecks]
      obtain ⟨h1, h2⟩ := checkSubPolys_boxes name chk d d' pes scaled subs
      rw [h1, h2]
      exact ih _ _ _ _

/-- In polishing mode the check loop leaves the tracker untouched. -/
theorem checkSubChecks_polishing (l : List (String × (NDTensor → List BoxN → ℚ → List Bool)))
    (d : IntervalData) (hp : d.polishing = true) (pes : List (NDTensor × ℚ))
    (scaled subs : List BoxN) :
    (checkSubChecks d l pes scaled subs).2.2 = d := by
  induction l generalizing d scaled subs with
  | nil => rfl
  | cons p rest ih =>
      obtain ⟨name, chk⟩ := p
      simp only [checkSubChecks]
      rw [checkSubPolys_polishing name chk d hp]
      exact ih d hp _ _

/-- Normal-mode characterization of `check_interval`: the first eliminating
check fires, is tracked, and yields `true`; otherwise `(false, d)`. -/
theorem check_interval_go_normal (d : IntervalData) (hp : d.polishing = false)
    (coeff : NDTensor) (error : ℚ) (a b : List ℚ)
    (l : List (String × (NDTensor → ℚ → Bool))) :
    check_interval_go d coeff error a b l =
      match l.find? (fun p => p.2 coeff error = false) with
      | none => (false, d)
      | some p => (true, track_interval d p.1 (a, b)) := by
  induction l with
  | nil => rfl
  | cons p rest ih =>
      obtain ⟨name, chk⟩ := p
      by_cases h : chk coeff error = false
      · simp [check_interval_go, h, List.find?, hp]
      · simp only [check_interval_go, h, if_false, if_neg, List.find?]
        rw [ih]
        have : (decide (chk coeff error = false)) = false := by simp [h]
        simp [this]

/-- C6 (amended): a `check_interval` or `check_subintervals` call made in
polishing mode produces exactly the verdicts of the same call in normal
mode, and leaves the tracker — provenance registry *and* coverage
accumulator — completely unchanged; in normal mode the first eliminating
check of `check_interval` is recorded and its volume accrued through
`track_interval`. -/
theorem polishing_suppression (d : IntervalData) (coeff : NDTensor) (error : ℚ)
    (a b : List ℚ) (subs scaled : List BoxN) (polys : List NDTensor) (errors : List ℚ) :
    ((check_interval { d with polishing := true } coeff error a b).1 =
        (check_interval { d with polishing := false } coeff error a b).1) ∧
      ((check_interval { d with polishing := true } coeff error a b).2 =
        { d with polishing := true }) ∧
      ((check_subintervals { d with polishing := true } subs scaled polys errors).1 =
        (check_subintervals { d with polishing := false } subs scaled polys errors).1) ∧
      ((check_subintervals { d with polishing := true } subs scaled polys errors).2 =
        { d with polishing := true }) ∧
      check_interval { d with polishing := false } coeff error a b =
        (match d.interval_checks.find? (fun p => p.2 coeff error = false) with
          | none => (false, { d with polishing := false })
          | some p => (true, track_interval { d with polishing := false } p.1 (a, b))) :=
  ⟨check_interval_go_fst _ _ coeff error a b d.interval_checks,
    check_interval_go_polishing _ rfl coeff error a b d.interval_checks,
    (checkSubChecks_boxes d.subinterval_checks _ _ _ scaled subs).2,
    checkSubChecks_polishing d.subinterval_checks _ rfl _ scaled subs,
    check_interval_go_normal _ rfl coeff error a b d.interval_checks⟩

/-- C6 (counterexample to the claim as stated): at the tracker `d0` and the
constant tensor `[[10]]` on the box `[-1,1]²`, the eliminating call accrues
volume `4` into `current_area` in normal mode but accrues nothing in
polishing mode — the coverage accumulator is *not* updated by the same
amount in both modes, though the verdicts agree. -/
theorem polishing_area_counterexample :
    (check_interval d0 ⟨[1, 1], fun _ => 10⟩ 0 [-1, -1] [1, 1]).1 =
        (check_interval { d0 with polishing := true } ⟨[1, 1], fun _ => 10⟩ 0
          [-1, -1] [1, 1]).1 ∧
      (check_interval d0 ⟨[1, 1], fun _ => 10⟩ 0 [-1, -1] [1, 1]).2.current_area = 4 ∧
      (check_interval { d0 with polishing := true } ⟨[1, 1], fun _ => 10⟩ 0
          [-1, -1] [1, 1]).2.current_area = 0 ∧
      d0.current_area = 0 ∧ (4 : ℚ) ≠ 0 + 0 := by
  have hc : constant_term_check ⟨[1, 1], fun _ => 10⟩ 0 = false :=
    check_interval_polarity_counterexample.1
  have hvol : volume ([-1, -1], [1, 1]) = 4 := by
    norm_num [volume]
  refine ⟨?_, ?_, ?_, rfl, by norm_num⟩
  · simp [check_interval, check_interval_go, d0, hc]
  · simp [check_interval, check_interval_go, d0, hc, track_interval, hvol]
  · simp [check_interval, check_interval_go, d0, hc]

/-- Filtering the zipped list along the second component, projected to the
second component, is filtering the second list. -/
theorem filter_zip_snd (g : BoxN → Bool) :
    ∀ (subs scaled : List BoxN), subs.length = scaled.length →
      ((subs.zip scaled).filter (fun q => g q.2)).map Prod.snd = scaled.filter g := by
  intro subs
  induction subs with
  | nil =>
      intro scaled h
      cases scaled with
      | nil => rfl
      | cons sc rest => cases h
  | cons su surest ih =>
      intro scaled h
      cases scaled with
      | nil => cases h
      | cons sc screst =>
          by_cases hg : g sc <;>
            simp [List.zip_cons_cons, List.filter_cons, hg, ih screst (by simpa using h)]

/-- `filterStep` on a pointwise mask: the kept scaled boxes are the filtered
scaled list, the kept absolute boxes are the filtered zip projected to the
absolute side; the mask entry for a box depends on that box alone. -/
theorem filterStep_spec (name : String) (g : BoxN → Bool) :
    ∀ (scaled subs : List BoxN) (d : IntervalData), subs.length = scaled.length →
      (filterStep name d (scaled.map g) scaled subs).1 = scaled.filter g ∧
      (filterStep name d (scaled.map g) scaled subs).2.1 =
        ((subs.zip scaled).filter (fun q => g q.2)).map Prod.fst := by
  intro scaled
  induction scaled with
  | nil =>
      intro subs d h
      cases subs with
      | nil => exact ⟨rfl, rfl⟩
      | cons su rest => cases h
  | cons sc screst ih =>
      intro subs d h
      cases subs with
      | nil => cases h
      | cons su surest =>
          have hlen : surest.length = screst.length := by simpa using h
          by_cases hg : g sc
          · simp only [List.map_cons, filterStep, hg, if_true, List.zip_cons_cons,
              List.filter_cons]
            obtain ⟨h1, h2⟩ := ih surest d hlen
            refine ⟨?_, ?_⟩ <;> simp [hg, h1, h2]
          · simp only [List.map_cons, filterStep, hg, if_false, Bool.false_eq_true,
              List.zip_cons_cons, List.filter_cons]
            obtain ⟨h1, h2⟩ := ih surest (if d.polishing then d else track_interval d name su)
              hlen
            refine ⟨?_, ?_⟩ <;> simp [hg, h1, h2]

/-- Lengths of the two filtered components agree. -/
theorem filter_zip_len (g : BoxN → Bool) (subs scaled : List BoxN)
    (h : subs.length = scaled.length) :
    (((subs.zip scaled).filter (fun q => g q.2)).map Prod.fst).length =
      (scaled.filter g).length := by
  rw [← filter_zip_snd g subs scaled h]
  simp

/-- Re-zipping the two filtered components gives the filtered zip. -/
theorem filter_zip_rezip (g : BoxN → Bool) (subs scaled : List BoxN)
    (h : subs.length = scaled.length) :
    (((subs.zip scaled).filter (fun q => g q.2)).map Prod.fst).zip (scaled.filter g) =
      (subs.zip scaled).filter (fun q => g q.2) := by
  conv_lhs => rw [← filter_zip_snd g subs scaled h]
  exact (List.zip_of_prod rfl rfl).symm

/-- `checkSubPolys` with a pointwise check: a scaled box survives iff the
check keeps it for every polynomial; the absolute boxes narrow in lockstep. -/
theorem checkSubPolys_spec (name : String) (chk : NDTensor → List BoxN → ℚ → List Bool)
    (f : NDTensor → ℚ → BoxN → Bool)
    (hpw : ∀ poly err ivs, chk poly ivs err = ivs.map (f poly err)) :
    ∀ (pes : List (NDTensor × ℚ)) (d : IntervalData) (scaled subs : List BoxN),
      subs.length = scaled.length →
      (checkSubPolys name chk d pes scaled subs).1 =
          scaled.filter (fun sc => pes.all (fun pe => f pe.1 pe.2 sc)) ∧
        (checkSubPolys name chk d pes scaled subs).2.1 =
          ((subs.zip scaled).filter
            (fun q => pes.all (fun pe => f pe.1 pe.2 q.2))).map Prod.fst := by
  intro pes
  induction pes with
  | nil =>
      intro d scaled subs h
      constructor
      · simp [checkSubPolys]
      · simp only [checkSubPolys, List.all_nil, List.filter_true]
        rw [List.map_fst_zip _ _ (le_of_eq h)]
  | cons pe rest ih =>
      intro d scaled subs h
      obtain ⟨poly, err⟩ := pe
      simp only [checkSubPolys, hpw]
      obtain ⟨h1, h2⟩ := filterStep_spec name (f poly err) scaled subs d h
      rw [h1, h2]
      obtain ⟨g1, g2⟩ := ih (filterStep name d (scaled.map (f poly err)) scaled subs).2.2
        (scaled.filter (f poly err))
        (((subs.zip scaled).filter (fun q => f poly err q.2)).map Prod.fst)
        (filter_zip_len _ _ _ h)
      rw [g1, g2, filter_zip_rezip _ _ _ h, List.filter_filter, List.filter_filter]
      constructor
      · apply List.filter_congr
        intro sc _
        simp [Bool.and_comm]
      · apply congrArg
        apply List.filter_congr
        intro q _
        simp [Bool.and_comm]

/-- `checkSubChecks` with pointwise checks: successive narrowing composes
into one conjunction over all checks and all polynomials. -/
theorem checkSubChecks_spec
    (fp : (String × (NDTensor → List BoxN → ℚ → List Bool)) → NDTensor → ℚ → BoxN → Bool) :
    ∀ (l : List (String × (NDTensor → List BoxN → ℚ → List Bool))),
      (∀ p ∈ l, ∀ (poly : NDTensor) (err : ℚ) (ivs : List BoxN),
        p.2 poly ivs err = ivs.map (fp p poly err)) →
      ∀ (d : IntervalData) (pes : List (NDTensor × ℚ)) (scaled subs : List BoxN),
        subs.length = scaled.length →
        (checkSubChecks d l pes scaled subs).2.1 =
          ((subs.zip scaled).filter
            (fun q => l.all (fun p => pes.all (fun pe => fp p pe.1 pe.2 q.2)))).map
            Prod.fst := by
  intro l
  induction l with
  | nil =>
      intro _ d pes scaled subs h
      simp only [checkSubChecks, List.all_nil, List.filter_true]
      rw [List.map_fst_zip _ _ (le_of_eq h)]
  | cons p rest ih =>
      intro hpw d pes scaled subs h
      obtain ⟨name, chk⟩ := p
      simp only [checkSubChecks]
      obtain ⟨h1, h2⟩ := checkSubPolys_spec name chk (fp (name, chk))
        (hpw (name, chk) (by simp)) pes d scaled subs h
      rw [h1, h2]
      rw [ih (fun q hq poly err ivs => hpw q (by simp [hq]) poly err ivs) _ pes
        (scaled.filter fun sc => pes.all fun pe => fp (name, chk) pe.1 pe.2 sc)
        (((subs.zip scaled).filter
          (fun q => pes.all fun pe => fp (name, chk) pe.1 pe.2 q.2)).map Prod.fst)
        (filter_zip_len (fun sc => pes.all fun pe => fp (name, chk) pe.1 pe.2 sc) _ _ h)]
      rw [filter_zip_rezip (fun sc => pes.all fun pe => fp (name, chk) pe.1 pe.2 sc) _ _ h,
        List.filter_filter]
      apply congrArg
      apply List.filter_congr
      intro q _
      simp [Bool.and_comm]

/-- Lookup in the provenance registry (`interval_results[name]`). -/
def lookupReg (l : List (String × List BoxN)) (nm : String) : List BoxN :=
  ((l.find? (fun p => p.1 = nm)).map Prod.snd).getD []

/-- The boxes recorded so far under identifier `nm`. -/
def regOf (d : IntervalData) (nm : String) : List BoxN :=
  lookupReg d.interval_results nm

theorem lookupReg_upd_self (l : List (String × List BoxN)) (name : String) (iv : BoxN)
    (hk : name ∈ l.map Prod.fst) :
    lookupReg (l.map (fun p => if p.1 = name then (p.1, p.2 ++ [iv]) else p)) name =
      lookupReg l name ++ [iv] := by
  induction l with
  | nil => simp at hk
  | cons p rest ih =>
      by_cases hp : p.1 = name
      · simp [lookupReg, List.find?_cons_of_pos, hp]
      · have hk' : name ∈ rest.map Prod.fst := by
          rcases (by simpa using hk) with h | h
          · exact absurd h.symm hp
          · simpa using h
        simpa [lookupReg, List.find?_cons_of_neg, hp] using ih hk'

theorem lookupReg_upd_mono (l : List (String × List BoxN)) (name nm : String) (iv su : BoxN)
    (h : su ∈ lookupReg l nm) :
    su ∈ lookupReg (l.map (fun p => if p.1 = name then (p.1, p.2 ++ [iv]) else p)) nm := by
  induction l with
  | nil => simp [lookupReg] at h
  | cons p rest ih =>
      by_cases hnm : p.1 = nm
      · by_cases hp : p.1 = name
        · simp only [lookupReg, List.map_cons, if_pos hp] at h ⊢
          rw [List.find?_cons_of_pos _ (by simp [hnm])] at h
          rw [List.find?_cons_of_pos _ (by simp [hnm])]
          simp only [Option.map_some', Option.getD_some] at h ⊢
          exact List.mem_append_left _ h
        · simp only [lookupReg, List.map_cons, if_neg hp] at h ⊢
          rw [List.find?_cons_of_pos _ (by simp [hnm])] at h
          rw [List.find?_cons_of_pos _ (by simp [hnm])]
          exact h
      · have hfst : (if p.1 = name then (p.1, p.2 ++ [iv]) else p).1 = p.1 := by
          by_cases hp : p.1 = name <;> simp [hp]
        simp only [lookupReg, List.map_cons] at h ⊢
        rw [List.find?_cons_of_neg _ (by simp [hnm])] at h
        rw [List.find?_cons_of_neg _ (by simp [hfst, hnm])]
        exact ih h

theorem upd_keys (l : List (String × List BoxN)) (name : String) (iv : BoxN) :
    (l.map (fun p => if p.1 = name then (p.1, p.2 ++ [iv]) else p)).map Prod.fst =
      l.map Prod.fst := by
  induction l with
  | nil => rfl
  | cons p rest ih =>
      by_cases hp : p.1 = name <;> simp [hp, ih]

theorem regOf_track_self (d : IntervalData) (name : String) (iv : BoxN)
    (hp : d.polishing = false) (hk : name ∈ d.interval_results.map Prod.fst) :
    regOf (track_interval d name iv) name = regOf d name ++ [iv] := by
  unfold regOf track_interval
  rw [hp]
  simp only [Bool.false_eq_true, if_false]
  exact lookupReg_upd_self _ _ _ hk

theorem regOf_track_mono (d : IntervalData) (name nm : String) (iv su : BoxN)
    (h : su ∈ regOf d nm) : su ∈ regOf (track_interval d name iv) nm := by
  unfold regOf track_interval
  by_cases hp : d.polishing
  · simpa [hp] using h
  · simp only [hp, Bool.false_eq_true, if_false]
    exact lookupReg_upd_mono _ _ _ _ _ h

theorem track_keys (d : IntervalData) (name : String) (iv : BoxN) :
    (track_interval d name iv).interval_results.map Prod.fst =
      d.interval_results.map Prod.fst := by
  by_cases hp : d.polishing
  · simp [track_interval, hp]
  · rw [show (track_interval d name iv).interval_results =
        d.interval_results.map (fun p => if p.1 = name then (p.1, p.2 ++ [iv]) else p) from
      by simp [track_interval, hp]]
    exact upd_keys _ _ _

theorem filterStep_mono (name : String) (nm : String) (su : BoxN) :
    ∀ (mask : List Bool) (scaled subs : List BoxN) (d : IntervalData),
      su ∈ regOf d nm → su ∈ regOf (filterStep name d mask scaled subs).2.2 nm := by
  intro mask
  induction mask with
  | nil => intro scaled subs d h; exact h
  | cons bb mrest ih =>
      intro scaled subs d h
      cases scaled with
      | nil => exact h
      | cons sc screst =>
          cases subs with
          | nil => exact h
          | cons su0 surest =>
              by_cases hb : bb
              · simpa [filterStep, hb] using ih screst surest d h
              · simp only [filterStep, hb, Bool.false_eq_true, if_false]
                by_cases hp : d.polishing
                · simpa [hp] using ih screst surest d h
                · simp only [hp, Bool.false_eq_true, if_false]
                  exact ih screst surest _ (regOf_track_mono d name nm su0 su h)

theorem filterStep_keys (name : String) :
    ∀ (mask : List Bool) (scaled subs : List BoxN) (d : IntervalData),
      (filterStep name d mask scaled subs).2.2.interval_results.map Prod.fst =
        d.interval_results.map Prod.fst := by
  intro mask
  induction mask with
  | nil => intro scaled subs d; rfl
  | cons bb mrest ih =>
      intro scaled subs d
      cases scaled with
      | nil => rfl
      | cons sc screst =>
          cases subs with
          | nil => rfl
          | cons su0 surest =>
              by_cases hb : bb
              · simp [filterStep, hb, ih]
              · simp only [filterStep, hb, Bool.false_eq_true, if_false]
                by_cases hp : d.polishing
                · simp [hp, ih]
                · simp only [hp, Bool.false_eq_true, if_false]
                  rw [ih screst surest _, track_keys]

theorem filterStep_record (name : String) (g : BoxN → Bool) :
    ∀ (scaled subs : List BoxN) (d : IntervalData),
      d.polishing = false → name ∈ d.interval_results.map Prod.fst →
      subs.length = scaled.length →
      ∀ su ∈ subs, su ∉ (filterStep name d (scaled.map g) scaled subs).2.1 →
        su ∈ regOf (filterStep name d (scaled.map g) scaled subs).2.2 name := by
  intro scaled
  induction scaled with
  | nil =>
      intro subs d _ _ h su hsu _
      cases subs with
      | nil => simp at hsu
      | cons a b => cases h
  | cons sc screst ih =>
      intro subs d hpol hkey h su hsu hnot
      cases subs with
      | nil => simp at hsu
      | cons su0 surest =>
          have hlen : surest.length = screst.length := by simpa using h
          by_cases hg : g sc
          · simp only [List.map_cons, filterStep, hg, if_true] at hnot ⊢
            rcases List.mem_cons.mp hsu with rfl | hsu'
            · exact absurd (List.mem_cons_self _ _) hnot
            · exact ih surest d hpol hkey hlen su hsu'
                (fun hc => hnot (List.mem_cons_of_mem _ hc))
          · simp only [List.map_cons, filterStep, hg, Bool.false_eq_true, if_false,
              hpol] at hnot ⊢
            rcases List.mem_cons.mp hsu with rfl | hsu'
            · apply filterStep_mono
              rw [regOf_track_self d name su hpol hkey]
              exact List.mem_append_right _ (by simp)
            · exact ih surest _ (by rw [track_interval_polishing_eq]; exact hpol)
                (by rw [track_keys]; exact hkey) hlen su hsu' hnot

theorem checkSubPolys_mono (name : String) (chk : NDTensor → List BoxN → ℚ → List Bool)
    (nm : String) (su : BoxN) :
    ∀ (pes : List (NDTensor × ℚ)) (scaled subs : List BoxN) (d : IntervalData),
      su ∈ regOf d nm → su ∈ regOf (checkSubPolys name chk d pes scaled subs).2.2 nm := by
  intro pes
  induction pes with
  | nil => intro scaled subs d h; exact h
  | cons pe rest ih =>
      intro scaled subs d h
      obtain ⟨poly, err⟩ := pe
      simp only [checkSubPolys]
      exact ih _ _ _ (filterStep_mono name nm su _ _ _ d h)

theorem checkSubPolys_flag (name : String) (chk : NDTensor → List BoxN → ℚ → List Bool) :
    ∀ (pes : List (NDTensor × ℚ)) (scaled subs : List BoxN) (d : IntervalData),
      (checkSubPolys name chk d pes scaled subs).2.2.polishing = d.polishing := by
  intro pes
  induction pes with
  | nil => intro scaled subs d; rfl
  | cons pe rest ih =>
      intro scaled subs d
      obtain ⟨poly, err⟩ := pe
      simp only [checkSubPolys]
      rw [ih, filterStep_flag]

theorem checkSubPolys_keys (name : String) (chk : NDTensor → List BoxN → ℚ → List Bool) :
    ∀ (pes : List (NDTensor × ℚ)) (scaled subs : List BoxN) (d : IntervalData),
      (checkSubPolys name chk d pes scaled subs).2.2.interval_results.map Prod.fst =
        d.interval_results.map Prod.fst := by
  intro pes
  induction pes with
  | nil => intro scaled subs d; rfl
  | cons pe rest ih =>
      intro scaled subs d
      obtain ⟨poly, err⟩ := pe
      simp only [checkSubPolys]
      rw [ih, filterStep_keys]

theorem checkSubPolys_record (name : String) (chk : NDTensor → List BoxN → ℚ → List Bool)
    (f : NDTensor → ℚ → BoxN → Bool)
    (hpw : ∀ poly err ivs, chk poly ivs err = ivs.map (f poly err)) :
    ∀ (pes : List (NDTensor × ℚ)) (scaled subs : List BoxN) (d : IntervalData),
      d.polishing = false → name ∈ d.interval_results.map Prod.fst →
      subs.length = scaled.length →
      ∀ su ∈ subs, su ∉ (checkSubPolys name chk d pes scaled subs).2.1 →
        su ∈ regOf (checkSubPolys name chk d pes scaled subs).2.2 name := by
  intro pes
  induction pes with
  | nil =>
      intro scaled subs d _ _ _ su hsu hnot
      exact absurd hsu hnot
  | cons pe rest ih =>
      intro scaled subs d hpol hkey h su hsu hnot
      obtain ⟨poly, err⟩ := pe
      simp only [checkSubPolys, hpw] at hnot ⊢
      obtain ⟨h1, h2⟩ := filterStep_spec name (f poly err) scaled subs d h
      by_cases hsu1 : su ∈ (filterStep name d (scaled.map (f poly err)) scaled subs).2.1
      · refine ih _ _ _ ?_ ?_ ?_ su hsu1 hnot
        · rw [filterStep_flag]; exact hpol
        · rw [filterStep_keys]; exact hkey
        · rw [h1, h2]; exact filter_zip_len _ _ _ h
      · exact checkSubPolys_mono name chk name su rest _ _ _
          (filterStep_record name (f poly err) scaled subs d hpol hkey h su hsu hsu1)

theorem checkSubChecks_mono (nm : String) (su : BoxN) :
    ∀ (l : List (String × (NDTensor → List BoxN → ℚ → List Bool)))
      (pes : List (NDTensor × ℚ)) (scaled subs : List BoxN) (d : IntervalData),
      su ∈ regOf d nm → su ∈ regOf (checkSubChecks d l pes scaled subs).2.2 nm := by
  intro l
  induction l with
  | nil => intro pes scaled subs d h; exact h
  | cons p rest ih =>
      intro pes scaled subs d h
      obtain ⟨name, chk⟩ := p
      simp only [checkSubChecks]
      exact ih _ _ _ _ (checkSubPolys_mono name chk nm su pes scaled subs d h)

theorem checkSubChecks_record
    (fp : (String × (NDTensor → List BoxN → ℚ → List Bool)) → NDTensor → ℚ → BoxN → Bool) :
    ∀ (l : List (String × (NDTensor → List BoxN → ℚ → List Bool))),
      (∀ p ∈ l, ∀ (poly : NDTensor) (err : ℚ) (ivs : List BoxN),
        p.2 poly ivs err = ivs.map (fp p poly err)) →
      ∀ (pes : List (NDTensor × ℚ)) (scaled subs : List BoxN) (d : IntervalData),
        d.polishing = false →
        (∀ p ∈ l, p.1 ∈ d.interval_results.map Prod.fst) →
        subs.length = scaled.length →
        ∀ su ∈ subs, su ∉ (checkSubChecks d l pes scaled subs).2.1 →
          ∃ nm ∈ l.map Prod.fst, su ∈ regOf (checkSubChecks d l pes scaled subs).2.2 nm := by
  intro l
  induction l with
  | nil =>
      intro _ pes scaled subs d _ _ _ su hsu hnot
      exact absurd hsu hnot
  | cons p rest ih =>
      intro hpw pes scaled subs d hpol hkey h su hsu hnot
      obtain ⟨name, chk⟩ := p
      simp only [checkSubChecks] at hnot ⊢
      obtain ⟨h1, h2⟩ := checkSubPolys_spec name chk (fp (name, chk))
        (hpw (name, chk) (by simp)) pes d scaled subs h
      by_cases hsu1 : su ∈ (checkSubPolys name chk d pes scaled subs).2.1
      · obtain ⟨nm, hnm, hmem⟩ := ih (fun q hq => hpw q (by simp [hq])) pes _ _ _
          (by rw [checkSubPolys_flag]; exact hpol)
          (fun q hq => by rw [checkSubPolys_keys]; exact hkey q (by simp [hq]))
          (by rw [h1, h2]
              exact filter_zip_len
                (fun sc => pes.all fun pe => fp (name, chk) pe.1 pe.2 sc) _ _ h)
          su hsu1 hnot
        exact ⟨nm, by simp [hnm], hmem⟩
      · refine ⟨name, by simp, ?_⟩
        exact checkSubChecks_mono name su rest pes _ _ _
          (checkSubPolys_record name chk (fp (name, chk)) (hpw (name, chk) (by simp))
            pes scaled subs d hpol (hkey (name, chk) (by simp)) h su hsu hsu1)

/-- C5: with per-box (pointwise) subinterval checks, `check_subintervals`
returns exactly those sub-boxes, in absolute coordinates, whose rescaled
counterparts received a keep verdict from every subinterval check for every
polynomial (successive narrowing); in polishing mode the tracker comes back
unchanged, and otherwise every filtered-out sub-box is recorded in the
registry under the eliminating check's identifier. -/
theorem check_subintervals_spec (d : IntervalData) (subs scaled : List BoxN)
    (polys : List NDTensor) (errors : List ℚ)
    (fp : (String × (NDTensor → List BoxN → ℚ → List Bool)) → NDTensor → ℚ → BoxN → Bool)
    (hpw : ∀ p ∈ d.subinterval_checks, ∀ (poly : NDTensor) (err : ℚ) (ivs : List BoxN),
      p.2 poly ivs err = ivs.map (fp p poly err))
    (hlen : subs.length = scaled.length) :
    (check_subintervals d subs scaled polys errors).1 =
        ((subs.zip scaled).filter (fun q => d.subinterval_checks.all (fun p =>
          (polys.zip errors).all (fun pe => fp p pe.1 pe.2 q.2)))).map Prod.fst ∧
      (d.polishing = true → (check_subintervals d subs scaled polys errors).2 = d) ∧
      (d.polishing = false →
        (∀ p ∈ d.subinterval_checks, p.1 ∈ d.interval_results.map Prod.fst) →
        ∀ su ∈ subs, su ∉ (check_subintervals d subs scaled polys errors).1 →
          ∃ nm ∈ d.subinterval_checks.map Prod.fst,
            su ∈ regOf (check_subintervals d subs scaled polys errors).2 nm) :=
  ⟨checkSubChecks_spec fp d.subinterval_checks hpw d (polys.zip errors) scaled subs hlen,
    fun hp => checkSubChecks_polishing d.subinterval_checks d hp (polys.zip errors)
      scaled subs,
    fun hpol hkey => checkSubChecks_record fp d.subinterval_checks hpw (polys.zip errors)
      scaled subs d hpol hkey hlen⟩

/-- A concrete tracker for exercising `check_subintervals`: one pointwise
subinterval check that keeps a scaled box iff its lower bound is
nonnegative. -/
def dW : IntervalData :=
  { interval_checks := []
    subinterval_checks :=
      [("quadratic_check", fun _ ivs _ => ivs.map (fun iv => decide (0 ≤ iv.1.headD 0)))]
    interval_results := [("quadratic_check", [])]
    current_area := 0
    polishing := false }

/-- The per-box verdict function of `dW`'s single check. -/
def fpW : (String × (NDTensor → List BoxN → ℚ → List Bool)) → NDTensor → ℚ → BoxN → Bool :=
  fun _ _ _ iv => decide (0 ≤ iv.1.headD 0)

/-- Two concrete sub-boxes (absolute coordinates). -/
def subsW : List BoxN := [([0], [1]), ([-1], [0])]

/-- Their rescaled counterparts. -/
def scaledW : List BoxN := [([0], [1]), ([-1], [0])]

/-- One concrete polynomial and error. -/
def polysW : List NDTensor := [⟨[1], fun _ => 0⟩]

/-- The matching error list. -/
def errorsW : List ℚ := [0]

/-- Witness for `check_subintervals_spec` at the concrete tracker `dW`. -/
theorem check_subintervals_spec_witness :
    (check_subintervals dW subsW scaledW polysW errorsW).1 =
        ((subsW.zip scaledW).filter (fun q => dW.subinterval_checks.all (fun p =>
          (polysW.zip errorsW).all (fun pe => fpW p pe.1 pe.2 q.2)))).map Prod.fst ∧
      (dW.polishing = true → (check_subintervals dW subsW scaledW polysW errorsW).2 = dW) ∧
      (dW.polishing = false →
        (∀ p ∈ dW.subinterval_checks, p.1 ∈ dW.interval_results.map Prod.fst) →
        ∀ su ∈ subsW, su ∉ (check_subintervals dW subsW scaledW polysW errorsW).1 →
          ∃ nm ∈ dW.subinterval_checks.map Prod.fst,
            su ∈ regOf (check_subintervals dW subsW scaledW polysW errorsW).2 nm) :=
  check_subintervals_spec dW subsW scaledW polysW errorsW fpW
    (by
      intro p hp poly err ivs
      cases List.mem_singleton.mp hp
      rfl)
    rfl

/-! ### One-variable quadratic toolbox.

`q1 p b k` is the quadratic `t ↦ k + b·t + 2p·t²` — the form every axis
restriction of the engine's quadratic truncations takes (the pure Chebyshev
coefficient `p` enters doubled, exactly as in the `eval_func`s).  All the
minimum-hunting of the candidate enumerations reduces to these facts. -/

/-- The one-variable quadratic `k + b t + 2 p t²`. -/
def q1 (p b k t : ℚ) : ℚ := k + b * t + 2 * p * t ^ 2

theorem q1_neg (p b k t : ℚ) : q1 (-p) (-b) (-k) t = -q1 p b k t := by
  unfold q1; ring

theorem q1_vertex_min (p b k t : ℚ) (hp : 0 < p) :
    q1 p b k (-b / (4 * p)) ≤ q1 p b k t := by
  have h4 : (4 : ℚ) * p ≠ 0 := by positivity
  have key : q1 p b k t - q1 p b k (-b / (4 * p)) = (4 * p * t + b) ^ 2 / (8 * p) := by
    unfold q1; field_simp; ring
  nlinarith [sq_nonneg (4 * p * t + b), div_nonneg (sq_nonneg (4 * p * t + b))
    (by positivity : (0 : ℚ) ≤ 8 * p)]

theorem q1_mono_right (p b k s t : ℚ) (hp : 0 < p) (hv : -b / (4 * p) ≤ s) (hst : s ≤ t) :
    q1 p b k s ≤ q1 p b k t := by
  have h1 : -b ≤ s * (4 * p) := (div_le_iff (by positivity)).mp hv
  have h2 : 0 ≤ b + 2 * p * (t + s) := by nlinarith
  have : q1 p b k t - q1 p b k s = (t - s) * (b + 2 * p * (t + s)) := by unfold q1; ring
  nlinarith [mul_nonneg (sub_nonneg.mpr hst) h2]

theorem q1_mono_left (p b k s t : ℚ) (hp : 0 < p) (hv : s ≤ -b / (4 * p)) (hst : t ≤ s) :
    q1 p b k s ≤ q1 p b k t := by
  have h1 : s * (4 * p) ≤ -b := (le_div_iff (by positivity)).mp hv
  have h2 : b + 2 * p * (t + s) ≤ 0 := by nlinarith
  have : q1 p b k t - q1 p b k s = (t - s) * (b + 2 * p * (t + s)) := by unfold q1; ring
  nlinarith [mul_nonneg (sub_nonneg.mpr hst) (neg_nonneg.mpr h2)]

theorem q1_concave_endpoints (p b k l h t : ℚ) (hp : p ≤ 0) (hl : l ≤ t) (ht : t ≤ h) :
    q1 p b k l ≤ q1 p b k t ∨ q1 p b k h ≤ q1 p b k t := by
  by_contra hcon
  push_neg at hcon
  obtain ⟨h1, h2⟩ := hcon
  have key : (h - t) * q1 p b k l + (t - l) * q1 p b k h - (h - l) * q1 p b k t =
      2 * p * (h - t) * (t - l) * (h - l) := by unfold q1; ring
  by_cases hht : t = h
  · rw [hht] at h2; exact lt_irrefl _ h2
  · by_cases hlt : l = t
    · rw [hlt] at h1; exact lt_irrefl _ h1
    · have hht' : t < h := lt_of_le_of_ne ht hht
      have hlt' : l < t := lt_of_le_of_ne hl hlt
      have e1 : (h - t) * q1 p b k t < (h - t) * q1 p b k l :=
        mul_lt_mul_of_pos_left h1 (by linarith)
      have e2 : (t - l) * q1 p b k t < (t - l) * q1 p b k h :=
        mul_lt_mul_of_pos_left h2 (by linarith)
      have e3 : 2 * p * (h - t) * (t - l) * (h - l) ≤ 0 := by
        nlinarith [mul_pos (mul_pos (show (0 : ℚ) < h - t from by linarith)
          (show (0 : ℚ) < t - l from by linarith))
          (show (0 : ℚ) < h - l from by linarith), hp]
      nlinarith [key, e1, e2, e3]

theorem q1_stationary_concave (p b k t0 t : ℚ) (hp : p ≤ 0) (hs : b + 4 * p * t0 = 0) :
    q1 p b k t ≤ q1 p b k t0 := by
  have key : q1 p b k t - q1 p b k t0 =
      (b + 4 * p * t0) * (t - t0) + 2 * p * (t - t0) ^ 2 := by
    unfold q1; ring
  rw [hs, zero_mul, zero_add] at key
  have h2 : p * (t - t0) ^ 2 ≤ 0 := mul_nonpos_of_nonpos_of_nonneg hp (sq_nonneg _)
  linarith

theorem q1_stationary_convex (p b k t0 t : ℚ) (hp : 0 ≤ p) (hs : b + 4 * p * t0 = 0) :
    q1 p b k t0 ≤ q1 p b k t := by
  have key : q1 p b k t - q1 p b k t0 =
      (b + 4 * p * t0) * (t - t0) + 2 * p * (t - t0) ^ 2 := by
    unfold q1; ring
  rw [hs, zero_mul, zero_add] at key
  have h2 : 0 ≤ p * (t - t0) ^ 2 := mul_nonneg hp (sq_nonneg _)
  linarith

theorem q1_convex_between (p b k u v t : ℚ) (hp : 0 ≤ p) (hu : u ≤ t) (ht : t ≤ v) :
    q1 p b k t ≤ max (q1 p b k u) (q1 p b k v) := by
  rcases q1_concave_endpoints (-p) (-b) (-k) u v t (by linarith) hu ht with h | h
  · rw [q1_neg, q1_neg] at h
    exact le_max_of_le_left (by linarith)
  · rw [q1_neg, q1_neg] at h
    exact le_max_of_le_right (by linarith)

/-- One-variable candidate domination, minimum side: on `[l, h]`, some value
among the two endpoints and the (guarded, in-range) vertex lies below the
value at any point of the segment. -/
theorem md1_min (p b k l h t : ℚ) (hl : l ≤ t) (ht : t ≤ h) :
    q1 p b k l ≤ q1 p b k t ∨ q1 p b k h ≤ q1 p b k t ∨
      (p ≠ 0 ∧ l ≤ -b / (4 * p) ∧ -b / (4 * p) ≤ h ∧
        q1 p b k (-b / (4 * p)) ≤ q1 p b k t) := by
  by_cases hp : 0 < p
  · by_cases hv0 : -b / (4 * p) < l
    · exact Or.inl (q1_mono_right p b k l t hp hv0.le hl)
    · by_cases hv1 : h < -b / (4 * p)
      · exact Or.inr (Or.inl (q1_mono_left p b k h t hp hv1.le ht))
      · exact Or.inr (Or.inr ⟨ne_of_gt hp, not_lt.mp hv0, not_lt.mp hv1,
          q1_vertex_min p b k t hp⟩)
  · rcases q1_concave_endpoints p b k l h t (not_lt.mp hp) hl ht with hc | hc
    · exact Or.inl hc
    · exact Or.inr (Or.inl hc)

/-- One-variable candidate domination, maximum side. -/
theorem md1_max (p b k l h t : ℚ) (hl : l ≤ t) (ht : t ≤ h) :
    q1 p b k t ≤ q1 p b k l ∨ q1 p b k t ≤ q1 p b k h ∨
      (p ≠ 0 ∧ l ≤ -b / (4 * p) ∧ -b / (4 * p) ≤ h ∧
        q1 p b k t ≤ q1 p b k (-b / (4 * p))) := by
  have hvx : -(-b) / (4 * -p) = -b / (4 * p) := by
    rw [show (4 : ℚ) * -p = -(4 * p) by ring, neg_div_neg_eq]
  rcases md1_min (-p) (-b) (-k) l h t hl ht with hc | hc | ⟨hpne, hb0, hb1, hc⟩
  · rw [q1_neg, q1_neg] at hc
    exact Or.inl (by linarith)
  · rw [q1_neg, q1_neg] at hc
    exact Or.inr (Or.inl (by linarith))
  · rw [hvx] at hb0 hb1 hc
    rw [q1_neg, q1_neg] at hc
    exact Or.inr (Or.inr ⟨fun h0 => hpne (by rw [h0]; ring), hb0, hb1, by linarith⟩)

/-! ### Two-variable quadratic toolbox.

`q2 px py a b1 b2 k` is `(x,y) ↦ k + b1 x + b2 y + 2px x² + a xy + 2py y²`,
the shape of every 2-variable restriction of the engine's quadratic
truncations.  `MD2Cand` describes one candidate of the quadratic checks'
per-box enumeration — a corner, an in-range boundary critical point, or an
in-range interior critical point with positive-definite data — whose value
lies below a target; `md2_min` produces such a candidate below any value
the quadratic attains on the box. -/

/-- The two-variable quadratic. -/
def q2 (px py a b1 b2 k x y : ℚ) : ℚ :=
  k + b1 * x + b2 * y + 2 * px * x ^ 2 + a * (x * y) + 2 * py * y ^ 2

theorem q2_neg (px py a b1 b2 k x y : ℚ) :
    q2 (-px) (-py) (-a) (-b1) (-b2) (-k) x y = -q2 px py a b1 b2 k x y := by
  unfold q2; ring

theorem q2_fix_x (px py a b1 b2 k x y : ℚ) :
    q2 px py a b1 b2 k x y = q1 py (b2 + a * x) (k + b1 * x + 2 * px * x ^ 2) y := by
  unfold q2 q1; ring

theorem q2_fix_y (px py a b1 b2 k x y : ℚ) :
    q2 px py a b1 b2 k x y = q1 px (b1 + a * y) (k + b2 * y + 2 * py * y ^ 2) x := by
  unfold q2 q1; ring

/-- Along the valley `y = -(b2+ax)/(4py)` of the `y`-direction vertices, the
quadratic is a one-variable quadratic in `x` with leading data
`(16·px·py - a²)/(16·py)`. -/
theorem q2_valley (px py a b1 b2 k x : ℚ) (hpy : py ≠ 0) :
    q2 px py a b1 b2 k x (-(b2 + a * x) / (4 * py)) =
      q1 ((16 * px * py - a ^ 2) / (16 * py)) (b1 - a * b2 / (4 * py))
        (k - b2 ^ 2 / (8 * py)) x := by
  unfold q2 q1
  field_simp
  ring

/-- One candidate of the per-box enumeration with value at most `target`:
a corner; an `x = x0`/`x1` boundary critical point (guard `py ≠ 0`, in
range); a `y = y0`/`y1` boundary critical point (guard `px ≠ 0`, in range);
or the interior critical point with `px, py > 0` and nonzero determinant,
in range. -/
def MD2Cand (px py a b1 b2 k x0 x1 y0 y1 target : ℚ) : Prop :=
  (∃ xc ∈ [x0, x1], ∃ yc ∈ [y0, y1], q2 px py a b1 b2 k xc yc ≤ target) ∨
    (∃ xc ∈ [x0, x1], py ≠ 0 ∧ y0 ≤ -(b2 + a * xc) / (4 * py) ∧
      -(b2 + a * xc) / (4 * py) ≤ y1 ∧
      q2 px py a b1 b2 k xc (-(b2 + a * xc) / (4 * py)) ≤ target) ∨
    (∃ yc ∈ [y0, y1], px ≠ 0 ∧ x0 ≤ -(b1 + a * yc) / (4 * px) ∧
      -(b1 + a * yc) / (4 * px) ≤ x1 ∧
      q2 px py a b1 b2 k (-(b1 + a * yc) / (4 * px)) yc ≤ target) ∨
    (0 < px ∧ 0 < py ∧ 16 * px * py - a ^ 2 ≠ 0 ∧
      x0 ≤ (b2 * a - 4 * b1 * py) / (16 * px * py - a ^ 2) ∧
      (b2 * a - 4 * b1 * py) / (16 * px * py - a ^ 2) ≤ x1 ∧
      y0 ≤ (b1 * a - 4 * b2 * px) / (16 * px * py - a ^ 2) ∧
      (b1 * a - 4 * b2 * px) / (16 * px * py - a ^ 2) ≤ y1 ∧
      q2 px py a b1 b2 k ((b2 * a - 4 * b1 * py) / (16 * px * py - a ^ 2))
        ((b1 * a - 4 * b2 * px) / (16 * px * py - a ^ 2)) ≤ target)

/-- A point on an `x`-boundary edge with value below target yields a
candidate, via the one-variable enumeration of that edge. -/
theorem md2_edge_x (px py a b1 b2 k x0 x1 y0 y1 target xc v : ℚ)
    (hxc : xc = x0 ∨ xc = x1) (hv0 : y0 ≤ v) (hv1 : v ≤ y1)
    (hval : q2 px py a b1 b2 k xc v ≤ target) :
    MD2Cand px py a b1 b2 k x0 x1 y0 y1 target := by
  have hmem : xc ∈ [x0, x1] := by rcases hxc with h | h <;> simp [h]
  rcases md1_min py (b2 + a * xc) (k + b1 * xc + 2 * px * xc ^ 2) y0 y1 v hv0 hv1 with
    hc | hc | ⟨hne, hb0, hb1, hc⟩
  · exact Or.inl ⟨xc, hmem, y0, by simp,
      le_trans (by rw [q2_fix_x]; exact hc.trans (by rw [← q2_fix_x])) hval⟩
  · exact Or.inl ⟨xc, hmem, y1, by simp,
      le_trans (by rw [q2_fix_x]; exact hc.trans (by rw [← q2_fix_x])) hval⟩
  · refine Or.inr (Or.inl ⟨xc, hmem, hne, hb0, hb1, ?_⟩)
    rw [q2_fix_x]
    exact hc.trans (le_of_le_of_eq (le_refl _) (by rw [← q2_fix_x])) |>.trans hval

/-- A point on a `y`-boundary edge with value below target yields a
candidate. -/
theorem md2_edge_y (px py a b1 b2 k x0 x1 y0 y1 target yc u : ℚ)
    (hyc : yc = y0 ∨ yc = y1) (hu0 : x0 ≤ u) (hu1 : u ≤ x1)
    (hval : q2 px py a b1 b2 k u yc ≤ target) :
    MD2Cand px py a b1 b2 k x0 x1 y0 y1 target := by
  have hmem : yc ∈ [y0, y1] := by rcases hyc with h | h <;> simp [h]
  rcases md1_min px (b1 + a * yc) (k + b2 * yc + 2 * py * yc ^ 2) x0 x1 u hu0 hu1 with
    hc | hc | ⟨hne, hb0, hb1, hc⟩
  · exact Or.inl ⟨x0, by simp, yc, hmem,
      le_trans (by rw [q2_fix_y]; exact hc.trans (by rw [← q2_fix_y])) hval⟩
  · exact Or.inl ⟨x1, by simp, yc, hmem,
      le_trans (by rw [q2_fix_y]; exact hc.trans (by rw [← q2_fix_y])) hval⟩
  · refine Or.inr (Or.inr (Or.inl ⟨yc, hmem, hne, hb0, hb1, ?_⟩))
    rw [q2_fix_y]
    exact hc.trans (le_of_le_of_eq (le_refl _) (by rw [← q2_fix_y])) |>.trans hval

theorem q1_zero (p b k : ℚ) : q1 p b k 0 = k := by unfold q1; ring

/-- Moving from `(wx,wy)` along the direction `(1, -a/(4py))`, the quadratic
is a one-variable quadratic in the step with leading data
`(16·px·py - a²)/(16·py)` and constant term the value at `(wx,wy)`. -/
theorem q2_line (px py a b1 b2 k wx wy t : ℚ) (hpy : py ≠ 0) :
    q2 px py a b1 b2 k (wx + t) (wy + t * (-a / (4 * py))) =
      q1 ((16 * px * py - a ^ 2) / (16 * py))
        (b1 + 4 * px * wx + a * wy + -a / (4 * py) * (b2 + a * wx + 4 * py * wy))
        (q2 px py a b1 b2 k wx wy) t := by
  unfold q2 q1
  field_simp
  ring

/-- Indefinite (or degenerate) case: when `16·px·py - a² ≤ 0` and `py > 0`,
a walk along a null-or-concave direction reaches the boundary without
increasing the value, so a boundary candidate below the value at `(wx,wy)`
exists. -/
theorem md2_direxit (px py a b1 b2 k x0 x1 y0 y1 wx wy : ℚ)
    (hx0 : x0 ≤ wx) (hx1 : wx ≤ x1) (hy0 : y0 ≤ wy) (hy1 : wy ≤ y1)
    (hpy : 0 < py) (hD : 16 * px * py - a ^ 2 ≤ 0) (ha : a ≠ 0) :
    MD2Cand px py a b1 b2 k x0 x1 y0 y1 (q2 px py a b1 b2 k wx wy) := by
  set s : ℚ := -a / (4 * py) with hs
  have hpy' : py ≠ 0 := ne_of_gt hpy
  have hsne : s ≠ 0 := by
    rw [hs]
    exact div_ne_zero (neg_ne_zero.mpr ha) (by positivity)
  have hp'' : (16 * px * py - a ^ 2) / (16 * py) ≤ 0 :=
    div_nonpos_of_nonpos_of_nonneg hD (by positivity)
  set b'' : ℚ := b1 + 4 * px * wx + a * wy + s * (b2 + a * wx + 4 * py * wy) with hb''
  have hline : ∀ t : ℚ, q2 px py a b1 b2 k (wx + t) (wy + t * s) =
      q1 ((16 * px * py - a ^ 2) / (16 * py)) b'' (q2 px py a b1 b2 k wx wy) t := by
    intro t
    rw [hs, hb'']
    exact q2_line px py a b1 b2 k wx wy t hpy'
  rcases lt_or_gt_of_ne hsne with hneg | hpos
  · -- s < 0 : the positive side exits at x = x1 or y = y0,
    --         the negative side exits at x = x0 or y = y1.
    set tp : ℚ := min (x1 - wx) ((y0 - wy) / s) with htp
    set tm : ℚ := max (x0 - wx) ((y1 - wy) / s) with htm
    have htp0 : 0 ≤ tp := by
      refine le_min (by linarith) ?_
      rw [div_nonneg_iff]
      exact Or.inr ⟨by linarith, hneg.le⟩
    have htm0 : tm ≤ 0 :=
      max_le (by linarith) (div_nonpos_of_nonneg_of_nonpos (by linarith) hneg.le)
    have hpx1 : wx + tp ≤ x1 := by have := min_le_left (x1 - wx) ((y0 - wy) / s); linarith
    have hpy0 : y0 ≤ wy + tp * s := by
      have h1 : tp ≤ (y0 - wy) / s := min_le_right _ _
      have h2 : y0 - wy ≤ tp * s := (le_div_iff_of_neg hneg).mp h1
      linarith
    have hmx0 : x0 ≤ wx + tm := by have := le_max_left (x0 - wx) ((y1 - wy) / s); linarith
    have hmy1 : wy + tm * s ≤ y1 := by
      have h1 : (y1 - wy) / s ≤ tm := le_max_right _ _
      have h2 : tm * s ≤ y1 - wy := (div_le_iff_of_neg hneg).mp h1
      linarith
    rcases q1_concave_endpoints ((16 * px * py - a ^ 2) / (16 * py)) b''
        (q2 px py a b1 b2 k wx wy) tm tp 0 hp'' htm0 htp0 with hc | hc
    · -- exit on the negative side
      rw [← hline tm, q1_zero] at hc
      rcases max_cases (x0 - wx) ((y1 - wy) / s) with ⟨he, _⟩ | ⟨he, _⟩
      · refine md2_edge_x px py a b1 b2 k x0 x1 y0 y1 _ x0 (wy + tm * s) (Or.inl rfl)
          ?_ hmy1 ?_
        · have h2 : 0 ≤ tm * s := by
            rw [mul_nonneg_iff]
            exact Or.inr ⟨htm0, hneg.le⟩
          linarith
        · have hxeq : wx + tm = x0 := by rw [htm, he]; ring
          rw [← hxeq]
          exact hc
      · refine md2_edge_y px py a b1 b2 k x0 x1 y0 y1 _ y1 (wx + tm) (Or.inr rfl)
          hmx0 (by linarith) ?_
        have hy : wy + tm * s = y1 := by
          rw [htm, he, div_mul_cancel₀ _ hsne]; ring
        rw [← hy]
        exact hc
    · -- exit on the positive side
      rw [← hline tp, q1_zero] at hc
      rcases min_cases (x1 - wx) ((y0 - wy) / s) with ⟨he, _⟩ | ⟨he, _⟩
      · refine md2_edge_x px py a b1 b2 k x0 x1 y0 y1 _ x1 (wy + tp * s) (Or.inr rfl)
          hpy0 ?_ ?_
        · have h2 : tp * s ≤ 0 := mul_nonpos_of_nonneg_of_nonpos htp0 hneg.le
          linarith
        · have hxeq : wx + tp = x1 := by rw [htp, he]; ring
          rw [← hxeq]
          exact hc
      · refine md2_edge_y px py a b1 b2 k x0 x1 y0 y1 _ y0 (wx + tp) (Or.inl rfl)
          (by linarith) hpx1 ?_
        have hy : wy + tp * s = y0 := by
          rw [htp, he, div_mul_cancel₀ _ hsne]; ring
        rw [← hy]
        exact hc
  · -- 0 < s : the positive side exits at x = x1 or y = y1,
    --         the negative side exits at x = x0 or y = y0.
    set tp : ℚ := min (x1 - wx) ((y1 - wy) / s) with htp
    set tm : ℚ := max (x0 - wx) ((y0 - wy) / s) with htm
    have htp0 : 0 ≤ tp := le_min (by linarith) (div_nonneg (by linarith) hpos.le)
    have htm0 : tm ≤ 0 :=
      max_le (by linarith) (div_nonpos_of_nonpos_of_nonneg (by linarith) hpos.le)
    have hpx1 : wx + tp ≤ x1 := by have := min_le_left (x1 - wx) ((y1 - wy) / s); linarith
    have hpy1 : wy + tp * s ≤ y1 := by
      have h1 : tp ≤ (y1 - wy) / s := min_le_right _ _
      have h2 : tp * s ≤ y1 - wy := (le_div_iff hpos).mp h1
      linarith
    have hmx0 : x0 ≤ wx + tm := by have := le_max_left (x0 - wx) ((y0 - wy) / s); linarith
    have hmy0 : y0 ≤ wy + tm * s := by
      have h1 : (y0 - wy) / s ≤ tm := le_max_right _ _
      have h2 : y0 - wy ≤ tm * s := (div_le_iff hpos).mp h1
      linarith
    rcases q1_concave_endpoints ((16 * px * py - a ^ 2) / (16 * py)) b''
        (q2 px py a b1 b2 k wx wy) tm tp 0 hp'' htm0 htp0 with hc | hc
    · rw [← hline tm, q1_zero] at hc
      rcases max_cases (x0 - wx) ((y0 - wy) / s) with ⟨he, _⟩ | ⟨he, _⟩
      · refine md2_edge_x px py a b1 b2 k x0 x1 y0 y1 _ x0 (wy + tm * s) (Or.inl rfl)
          hmy0 ?_ ?_
        · have h2 : tm * s ≤ 0 := mul_nonpos_of_nonpos_of_nonneg htm0 hpos.le
          linarith
        · have hxeq : wx + tm = x0 := by rw [htm, he]; ring
          rw [← hxeq]
          exact hc
      · refine md2_edge_y px py a b1 b2 k x0 x1 y0 y1 _ y0 (wx + tm) (Or.inl rfl)
          hmx0 (by linarith) ?_
        have hy : wy + tm * s = y0 := by
          rw [htm, he, div_mul_cancel₀ _ hsne]; ring
        rw [← hy]
        exact hc
    · rw [← hline tp, q1_zero] at hc
      rcases min_cases (x1 - wx) ((y1 - wy) / s) with ⟨he, _⟩ | ⟨he, _⟩
      · refine md2_edge_x px py a b1 b2 k x0 x1 y0 y1 _ x1 (wy + tp * s) (Or.inr rfl)
          ?_ hpy1 ?_
        · have h2 : 0 ≤ tp * s := mul_nonneg htp0 hpos.le
          linarith
        · have hxeq : wx + tp = x1 := by rw [htp, he]; ring
          rw [← hxeq]
          exact hc
      · refine md2_edge_y px py a b1 b2 k x0 x1 y0 y1 _ y1 (wx + tp) (Or.inr rfl)
          (by linarith) hpx1 ?_
        have hy : wy + tp * s = y1 := by
          rw [htp, he, div_mul_cancel₀ _ hsne]; ring
        rw [← hy]
        exact hc

/-- An affine function that is at most `yb` at `u` and exceeds `yb` at `v`
crosses `yb` between `u` and `v`. -/
theorem affine_cross (c0 c1 u v yb : ℚ) (hu : c0 + c1 * u ≤ yb) (hv : yb < c0 + c1 * v) :
    ∃ xb : ℚ, c0 + c1 * xb = yb ∧ min u v ≤ xb ∧ xb ≤ max u v := by
  have hlt : 0 < c0 + c1 * v - (c0 + c1 * u) := by linarith
  set lam : ℚ := (yb - (c0 + c1 * u)) / (c0 + c1 * v - (c0 + c1 * u)) with hlam
  have hl0 : 0 ≤ lam := div_nonneg (by linarith) hlt.le
  have hl1 : lam ≤ 1 := (div_le_one hlt).mpr (by linarith)
  have hkey : lam * (c0 + c1 * v - (c0 + c1 * u)) = yb - (c0 + c1 * u) := by
    rw [hlam]
    exact div_mul_cancel₀ _ (ne_of_gt hlt)
  refine ⟨u + lam * (v - u), by linear_combination hkey, ?_, ?_⟩
  · rcases le_total u v with h | h
    · rw [min_eq_left h]
      nlinarith [mul_nonneg hl0 (sub_nonneg.mpr h)]
    · rw [min_eq_right h]
      nlinarith [mul_le_mul_of_nonpos_right hl1 (sub_nonpos.mpr h)]
  · rcases le_total u v with h | h
    · rw [max_eq_right h]
      nlinarith [mul_le_mul_of_nonneg_right hl1 (sub_nonneg.mpr h)]
    · rw [max_eq_left h]
      nlinarith [mul_nonpos_of_nonneg_of_nonpos hl0 (sub_nonpos.mpr h)]

/-- Walking the valley `y = -(b2+ax)/(4py)` from `u` (whose valley point is in
`y`-range) to `v`, with the valley values on the whole stretch below target:
either the walk crosses a `y`-boundary — giving a boundary candidate — or the
valley point at `v` is itself in `y`-range with value below target. -/
theorem md2_valley_seg (px py a b1 b2 k x0 x1 y0 y1 target u v : ℚ)
    (hpy : py ≠ 0)
    (hu0 : x0 ≤ u) (hu1 : u ≤ x1) (hv0 : x0 ≤ v) (hv1 : v ≤ x1)
    (hTu0 : y0 ≤ -(b2 + a * u) / (4 * py)) (hTu1 : -(b2 + a * u) / (4 * py) ≤ y1)
    (hseg : ∀ t, min u v ≤ t → t ≤ max u v →
      q2 px py a b1 b2 k t (-(b2 + a * t) / (4 * py)) ≤ target) :
    MD2Cand px py a b1 b2 k x0 x1 y0 y1 target ∨
      (y0 ≤ -(b2 + a * v) / (4 * py) ∧ -(b2 + a * v) / (4 * py) ≤ y1 ∧
        q2 px py a b1 b2 k v (-(b2 + a * v) / (4 * py)) ≤ target) := by
  have hT : ∀ x : ℚ, -(b2 + a * x) / (4 * py) = -b2 / (4 * py) + -a / (4 * py) * x := by
    intro x
    ring
  have hTneg : ∀ x : ℚ, b2 / (4 * py) + a / (4 * py) * x = -(-(b2 + a * x) / (4 * py)) := by
    intro x
    ring
  by_cases hup : -(b2 + a * v) / (4 * py) ≤ y1
  · by_cases hlo : y0 ≤ -(b2 + a * v) / (4 * py)
    · exact Or.inr ⟨hlo, hup, hseg v (min_le_right u v) (le_max_right u v)⟩
    · -- the valley dips below y0 at v : cross y = y0
      obtain ⟨xb, hxb, hb0, hb1⟩ := affine_cross (b2 / (4 * py)) (a / (4 * py)) u v (-y0)
        (by rw [hTneg u]; linarith) (by rw [hTneg v]; push_neg at hlo; linarith)
      rw [hTneg xb] at hxb
      have hTxb : -(b2 + a * xb) / (4 * py) = y0 := by linarith
      have hval := hseg xb hb0 hb1
      rw [hTxb] at hval
      exact Or.inl (md2_edge_y px py a b1 b2 k x0 x1 y0 y1 target y0 xb (Or.inl rfl)
        (le_trans (le_min hu0 hv0) hb0) (le_trans hb1 (max_le hu1 hv1)) hval)
  · -- the valley rises above y1 at v : cross y = y1
    obtain ⟨xb, hxb, hb0, hb1⟩ := affine_cross (-b2 / (4 * py)) (-a / (4 * py)) u v y1
      (by rw [← hT u]; exact hTu1) (by rw [← hT v]; push_neg at hup; exact hup)
    rw [← hT xb] at hxb
    have hval := hseg xb hb0 hb1
    rw [hxb] at hval
    exact Or.inl (md2_edge_y px py a b1 b2 k x0 x1 y0 y1 target y1 xb (Or.inr rfl)
      (le_trans (le_min hu0 hv0) hb0) (le_trans hb1 (max_le hu1 hv1)) hval)

/-- Two-variable candidate domination, minimum side: the per-box enumeration
holds a candidate whose value lies below the value at any point of the box. -/
theorem md2_min (px py a b1 b2 k x0 x1 y0 y1 wx wy : ℚ)
    (hx0 : x0 ≤ wx) (hx1 : wx ≤ x1) (hy0 : y0 ≤ wy) (hy1 : wy ≤ y1) :
    MD2Cand px py a b1 b2 k x0 x1 y0 y1 (q2 px py a b1 b2 k wx wy) := by
  by_cases hpy : 0 < py
  case neg =>
    -- concave (or linear) in y : clamp y to an endpoint
    rcases q1_concave_endpoints py (b2 + a * wx) (k + b1 * wx + 2 * px * wx ^ 2)
        y0 y1 wy (not_lt.mp hpy) hy0 hy1 with hc | hc
    · exact md2_edge_y px py a b1 b2 k x0 x1 y0 y1 _ y0 wx (Or.inl rfl) hx0 hx1
        (by rw [q2_fix_x, q2_fix_x]; exact hc)
    · exact md2_edge_y px py a b1 b2 k x0 x1 y0 y1 _ y1 wx (Or.inr rfl) hx0 hx1
        (by rw [q2_fix_x, q2_fix_x]; exact hc)
  case pos =>
  by_cases hpx : 0 < px
  case neg =>
    -- concave (or linear) in x : clamp x to an endpoint
    rcases q1_concave_endpoints px (b1 + a * wy) (k + b2 * wy + 2 * py * wy ^ 2)
        x0 x1 wx (not_lt.mp hpx) hx0 hx1 with hc | hc
    · exact md2_edge_x px py a b1 b2 k x0 x1 y0 y1 _ x0 wy (Or.inl rfl) hy0 hy1
        (by rw [q2_fix_y, q2_fix_y]; exact hc)
    · exact md2_edge_x px py a b1 b2 k x0 x1 y0 y1 _ x1 wy (Or.inr rfl) hy0 hy1
        (by rw [q2_fix_y, q2_fix_y]; exact hc)
  case pos =>
  by_cases hD : 0 < 16 * px * py - a ^ 2
  case neg =>
    -- indefinite : walk a null direction out of the box
    have ha : a ≠ 0 := by
      intro h0
      rw [h0] at hD
      push_neg at hD
      nlinarith
    exact md2_direxit px py a b1 b2 k x0 x1 y0 y1 wx wy hx0 hx1 hy0 hy1 hpy
      (by push_neg at hD; linarith) ha
  case pos =>
  -- positive definite : clamp y to the valley, then walk the valley
  have hpyne : py ≠ 0 := ne_of_gt hpy
  rcases md1_min py (b2 + a * wx) (k + b1 * wx + 2 * px * wx ^ 2) y0 y1 wy hy0 hy1 with
    hc | hc | ⟨_, hb0, hb1, hc⟩
  · exact md2_edge_y px py a b1 b2 k x0 x1 y0 y1 _ y0 wx (Or.inl rfl) hx0 hx1
      (by rw [q2_fix_x, q2_fix_x]; exact hc)
  · exact md2_edge_y px py a b1 b2 k x0 x1 y0 y1 _ y1 wx (Or.inr rfl) hx0 hx1
      (by rw [q2_fix_x, q2_fix_x]; exact hc)
  · -- valley point above wx is in range and below the value at (wx, wy)
    have hgg : ∀ t : ℚ, q2 px py a b1 b2 k t (-(b2 + a * t) / (4 * py)) =
        q1 ((16 * px * py - a ^ 2) / (16 * py)) (b1 - a * b2 / (4 * py))
          (k - b2 ^ 2 / (8 * py)) t := fun t => q2_valley px py a b1 b2 k t hpyne
    set P : ℚ := (16 * px * py - a ^ 2) / (16 * py) with hPdef
    set B : ℚ := b1 - a * b2 / (4 * py) with hBdef
    set K : ℚ := k - b2 ^ 2 / (8 * py) with hKdef
    have hP : 0 < P := by
      rw [hPdef]
      exact div_pos hD (by positivity)
    have hcq : q2 px py a b1 b2 k wx (-(b2 + a * wx) / (4 * py)) ≤
        q2 px py a b1 b2 k wx wy := by
      rw [q2_fix_x, q2_fix_x]
      exact hc
    have hwx_le : q1 P B K wx ≤ q2 px py a b1 b2 k wx wy := by
      rw [← hgg wx]
      exact hcq
    by_cases hvl : -B / (4 * P) < x0
    · -- valley vertex left of the box : the valley decreases toward x0
      have hseg : ∀ t, min wx x0 ≤ t → t ≤ max wx x0 →
          q2 px py a b1 b2 k t (-(b2 + a * t) / (4 * py)) ≤
            q2 px py a b1 b2 k wx wy := by
        intro t h0 h1
        rw [min_eq_right hx0] at h0
        rw [max_eq_left hx0] at h1
        rw [hgg t]
        exact (q1_mono_right P B K t wx hP (le_trans hvl.le h0) h1).trans hwx_le
      rcases md2_valley_seg px py a b1 b2 k x0 x1 y0 y1 _ wx x0 hpyne hx0 hx1 le_rfl
          (hx0.trans hx1) hb0 hb1 hseg with hcand | ⟨hq0, hq1, hqv⟩
      · exact hcand
      · exact md2_edge_x px py a b1 b2 k x0 x1 y0 y1 _ x0 _ (Or.inl rfl) hq0 hq1 hqv
    · by_cases hvr : x1 < -B / (4 * P)
      · -- valley vertex right of the box : the valley decreases toward x1
        have hseg : ∀ t, min wx x1 ≤ t → t ≤ max wx x1 →
            q2 px py a b1 b2 k t (-(b2 + a * t) / (4 * py)) ≤
              q2 px py a b1 b2 k wx wy := by
          intro t h0 h1
          rw [min_eq_left hx1] at h0
          rw [max_eq_right hx1] at h1
          rw [hgg t]
          exact (q1_mono_left P B K t wx hP (h1.trans hvr.le) h0).trans hwx_le
        rcases md2_valley_seg px py a b1 b2 k x0 x1 y0 y1 _ wx x1 hpyne hx0 hx1
            (hx0.trans hx1) le_rfl hb0 hb1 hseg with hcand | ⟨hq0, hq1, hqv⟩
        · exact hcand
        · exact md2_edge_x px py a b1 b2 k x0 x1 y0 y1 _ x1 _ (Or.inr rfl) hq0 hq1 hqv
      · -- valley vertex inside [x0, x1] : walk to the vertex
        push_neg at hvl hvr
        have hgx : q1 P B K (-B / (4 * P)) ≤ q1 P B K wx := q1_vertex_min P B K wx hP
        have hseg : ∀ t, min wx (-B / (4 * P)) ≤ t → t ≤ max wx (-B / (4 * P)) →
            q2 px py a b1 b2 k t (-(b2 + a * t) / (4 * py)) ≤
              q2 px py a b1 b2 k wx wy := by
          intro t h0 h1
          rw [hgg t]
          have hbetween := q1_convex_between P B K (min wx (-B / (4 * P)))
            (max wx (-B / (4 * P))) t hP.le h0 h1
          rcases le_total wx (-B / (4 * P)) with h | h
          · rw [min_eq_left h, max_eq_right h] at hbetween
            exact hbetween.trans (max_le hwx_le (hgx.trans hwx_le))
          · rw [min_eq_right h, max_eq_left h] at hbetween
            exact hbetween.trans (max_le (hgx.trans hwx_le) hwx_le)
        rcases md2_valley_seg px py a b1 b2 k x0 x1 y0 y1 _ wx (-B / (4 * P)) hpyne
            hx0 hx1 hvl hvr hb0 hb1 hseg with hcand | ⟨hq0, hq1, hqv⟩
        · exact hcand
        · -- the vertex of the valley is the interior critical point
          have hDne : 16 * px * py - a ^ 2 ≠ 0 := ne_of_gt hD
          have hxeq : (b2 * a - 4 * b1 * py) / (16 * px * py - a ^ 2) = -B / (4 * P) := by
            rw [hBdef, hPdef]
            field_simp
            ring
          have hyeq : (b1 * a - 4 * b2 * px) / (16 * px * py - a ^ 2) =
              -(b2 + a * (-B / (4 * P))) / (4 * py) := by
            rw [hBdef, hPdef]
            field_simp
            ring
          refine Or.inr (Or.inr (Or.inr ⟨hpx, hpy, hDne, ?_, ?_, ?_, ?_, ?_⟩))
          · rw [hxeq]; exact hvl
          · rw [hxeq]; exact hvr
          · rw [hyeq]; exact hq0
          · rw [hyeq]; exact hq1
          · rw [hxeq, hyeq]; exact hqv

/-- One candidate of the per-box enumeration with value at least `target`:
as `MD2Cand` but with the inequalities reversed and the interior guard
asking for negative-definite data. -/
def MD2CandMax (px py a b1 b2 k x0 x1 y0 y1 target : ℚ) : Prop :=
  (∃ xc ∈ [x0, x1], ∃ yc ∈ [y0, y1], target ≤ q2 px py a b1 b2 k xc yc) ∨
    (∃ xc ∈ [x0, x1], py ≠ 0 ∧ y0 ≤ -(b2 + a * xc) / (4 * py) ∧
      -(b2 + a * xc) / (4 * py) ≤ y1 ∧
      target ≤ q2 px py a b1 b2 k xc (-(b2 + a * xc) / (4 * py))) ∨
    (∃ yc ∈ [y0, y1], px ≠ 0 ∧ x0 ≤ -(b1 + a * yc) / (4 * px) ∧
      -(b1 + a * yc) / (4 * px) ≤ x1 ∧
      target ≤ q2 px py a b1 b2 k (-(b1 + a * yc) / (4 * px)) yc) ∨
    (px < 0 ∧ py < 0 ∧ 16 * px * py - a ^ 2 ≠ 0 ∧
      x0 ≤ (b2 * a - 4 * b1 * py) / (16 * px * py - a ^ 2) ∧
      (b2 * a - 4 * b1 * py) / (16 * px * py - a ^ 2) ≤ x1 ∧
      y0 ≤ (b1 * a - 4 * b2 * px) / (16 * px * py - a ^ 2) ∧
      (b1 * a - 4 * b2 * px) / (16 * px * py - a ^ 2) ≤ y1 ∧
      target ≤ q2 px py a b1 b2 k ((b2 * a - 4 * b1 * py) / (16 * px * py - a ^ 2))
        ((b1 * a - 4 * b2 * px) / (16 * px * py - a ^ 2)))

/-- Two-variable candidate domination, maximum side, by negating `md2_min`. -/
theorem md2_max (px py a b1 b2 k x0 x1 y0 y1 wx wy : ℚ)
    (hx0 : x0 ≤ wx) (hx1 : wx ≤ x1) (hy0 : y0 ≤ wy) (hy1 : wy ≤ y1) :
    MD2CandMax px py a b1 b2 k x0 x1 y0 y1 (q2 px py a b1 b2 k wx wy) := by
  have h := md2_min (-px) (-py) (-a) (-b1) (-b2) (-k) x0 x1 y0 y1 wx wy hx0 hx1 hy0 hy1
  rw [q2_neg] at h
  have hvy : ∀ X : ℚ, -(-b2 + -a * X) / (4 * -py) = -(b2 + a * X) / (4 * py) := by
    intro X
    rw [show (4 : ℚ) * -py = -(4 * py) by ring,
      show -(-b2 + -a * X) = -(-(b2 + a * X)) by ring, neg_div_neg_eq]
  have hvx : ∀ Y : ℚ, -(-b1 + -a * Y) / (4 * -px) = -(b1 + a * Y) / (4 * px) := by
    intro Y
    rw [show (4 : ℚ) * -px = -(4 * px) by ring,
      show -(-b1 + -a * Y) = -(-(b1 + a * Y)) by ring, neg_div_neg_eq]
  have hden : 16 * -px * -py - (-a) ^ 2 = 16 * px * py - a ^ 2 := by ring
  have hnx : -b2 * -a - 4 * -b1 * -py = b2 * a - 4 * b1 * py := by ring
  have hny : -b1 * -a - 4 * -b2 * -px = b1 * a - 4 * b2 * px := by ring
  rcases h with ⟨xc, hxc, yc, hyc, hv⟩ | ⟨xc, hxc, hne, h0, h1, hv⟩ |
    ⟨yc, hyc, hne, h0, h1, hv⟩ | ⟨hpx, hpy, hDne, hix0, hix1, hiy0, hiy1, hv⟩
  · rw [q2_neg] at hv
    exact Or.inl ⟨xc, hxc, yc, hyc, by linarith⟩
  · rw [hvy xc] at h0 h1 hv
    rw [q2_neg] at hv
    refine Or.inr (Or.inl ⟨xc, hxc, fun hh => hne (by rw [hh]; ring), h0, h1, by linarith⟩)
  · rw [hvx yc] at h0 h1 hv
    rw [q2_neg] at hv
    refine Or.inr (Or.inr (Or.inl ⟨yc, hyc, fun hh => hne (by rw [hh]; ring),
      h0, h1, by linarith⟩))
  · rw [hden, hnx] at hix0 hix1
    rw [hden, hny] at hiy0 hiy1
    rw [hden, hnx, hny, q2_neg] at hv
    refine Or.inr (Or.inr (Or.inr ⟨by linarith, by linarith,
      fun hh => hDne (by rw [hden, hh]), hix0, hix1, hiy0, hiy1, by linarith⟩))

/-! ### C2 transfer layer, dimension 2: the two routines' data agree. -/

theorem evalNd2_eq_eval2 (c : QuadCoeffs2) (x y : ℚ) : evalNd2 c x y = eval2 c x y := by
  unfold evalNd2 eval2
  ring

/-- Restriction of the 2-D quadratic to a vertical edge `x = xc`. -/
theorem eval2_fix_x (c : QuadCoeffs2) (xc y : ℚ) :
    eval2 c xc y = q1 c.c5 (c.c2 + c.c4 * xc)
      (c.c0 - c.c3 - c.c5 + c.c1 * xc + 2 * c.c3 * xc ^ 2) y := by
  unfold eval2 q1
  ring

/-- Restriction of the 2-D quadratic to a horizontal edge `y = yc`. -/
theorem eval2_fix_y (c : QuadCoeffs2) (yc x : ℚ) :
    eval2 c x yc = q1 c.c3 (c.c1 + c.c4 * yc)
      (c.c0 - c.c3 - c.c5 + c.c2 * yc + 2 * c.c5 * yc ^ 2) x := by
  unfold eval2 q1
  ring

/-- On a genuine 2-dimensional shape the two extraction paths agree. -/
theorem extractNd2_eq_extract2 (t : NDTensor) (m n : ℕ) (hsh : t.shape = [m, n])
    (hm : 1 ≤ m) (hn : 1 ≤ n) : extractNd2 t = extract2 t := by
  unfold extractNd2 extract2 peDim2
  rw [hsh]
  simp only [List.headD_cons, List.drop_succ_cons, List.drop_zero]
  have hm' : 0 < m := hm
  have hn' : 0 < n := hn
  simp only [QuadCoeffs2.mk.injEq]
  refine ⟨?_, ?_, ?_, ?_, ?_, ?_⟩
  · rw [if_pos ⟨hm', hn'⟩]
  · by_cases h : 1 < m <;> simp [h, hn']
  · by_cases h : 1 < n <;> simp [h, hm']
  · by_cases h : 2 < m <;> simp [h, hn']
  · by_cases h1 : 1 < m <;> by_cases h2 : 1 < n <;> simp [h1, h2]
  · by_cases h : 2 < n <;> simp [h, hm']

/-- On a genuine 2-dimensional shape the two `other_sum` computations agree:
the zeroed-copy mass equals the total mass minus the six extracted absolute
values. -/
theorem ndOtherSum2_eq_otherSum2 (t : NDTensor) (m n : ℕ) (tol : ℚ)
    (hsh : t.shape = [m, n]) (hm : 1 ≤ m) (hn : 1 ≤ n) :
    ndOtherSum2 t tol = otherSum2 t tol := by
  have hpe : ∀ i j, peDim2 t i j = if i < m ∧ j < n then t.entry [i, j] else 0 := by
    intro i j
    unfold peDim2
    rw [hsh]
    simp only [List.headD_cons, List.drop_succ_cons, List.drop_zero]
  unfold ndOtherSum2 otherSum2
  rw [hsh, absSum_two]
  simp only [List.headD_cons, List.drop_succ_cons, List.drop_zero]
  have hsplit : ∀ i j : ℕ, |if i + j ≤ 2 then (0 : ℚ) else peDim2 t i j| =
      |peDim2 t i j| - (if i + j ≤ 2 then |peDim2 t i j| else 0) := by
    intro i j
    by_cases h : i + j ≤ 2 <;> simp [h]
  have hTot : (∑ i ∈ Finset.range (max m 3), ∑ j ∈ Finset.range (max n 3),
      |peDim2 t i j|) = ∑ i ∈ Finset.range m, ∑ j ∈ Finset.range n, |t.entry [i, j]| := by
    rw [← Finset.sum_subset (Finset.range_subset.mpr (le_max_left m 3))
      (fun i _ hi => Finset.sum_eq_zero (fun j _ => by
        rw [hpe, if_neg, abs_zero]
        rintro ⟨him, -⟩
        exact hi (Finset.mem_range.mpr him)))]
    refine Finset.sum_congr rfl (fun i hi => ?_)
    rw [← Finset.sum_subset (Finset.range_subset.mpr (le_max_left n 3))
      (fun j _ hj => by
        rw [hpe, if_neg, abs_zero]
        rintro ⟨-, hjn⟩
        exact hj (Finset.mem_range.mpr hjn))]
    refine Finset.sum_congr rfl (fun j hj => ?_)
    rw [hpe, if_pos ⟨Finset.mem_range.mp hi, Finset.mem_range.mp hj⟩]
  have hSix : (∑ i ∈ Finset.range (max m 3), ∑ j ∈ Finset.range (max n 3),
      (if i + j ≤ 2 then |peDim2 t i j| else 0)) = absC2 (extract2 t) := by
    rw [← Finset.sum_subset (Finset.range_subset.mpr (le_max_right m 3))
      (fun i _ hi => Finset.sum_eq_zero (fun j _ => by
        rw [if_neg]
        have : 3 ≤ i := le_of_not_lt (fun h => hi (Finset.mem_range.mpr h))
        omega))]
    have hinner : ∀ i ∈ Finset.range 3, (∑ j ∈ Finset.range (max n 3),
        (if i + j ≤ 2 then |peDim2 t i j| else 0)) =
          ∑ j ∈ Finset.range 3, (if i + j ≤ 2 then |peDim2 t i j| else 0) := by
      intro i _
      rw [← Finset.sum_subset (Finset.range_subset.mpr (le_max_right n 3))
        (fun j _ hj => by
          rw [if_neg]
          have : 3 ≤ j := le_of_not_lt (fun h => hj (Finset.mem_range.mpr h))
          omega)]
    rw [Finset.sum_congr rfl hinner]
    unfold absC2 extract2
    rw [hsh]
    simp only [List.headD_cons, List.drop_succ_cons, List.drop_zero]
    norm_num [Finset.sum_range_succ, hpe]
    have hm' : 0 < m := hm
    have hn' : 0 < n := hn
    by_cases h1 : 1 < m <;> by_cases h2 : 1 < n <;> by_cases h3 : 2 < m <;>
      by_cases h4 : 2 < n <;>
        simp [h1, h2, h3, h4, hm', hn'] <;> ring
  calc (∑ i ∈ Finset.range (max m 3), ∑ j ∈ Finset.range (max n 3),
          |if i + j ≤ 2 then (0 : ℚ) else peDim2 t i j|) + tol
      = (∑ i ∈ Finset.range (max m 3), ∑ j ∈ Finset.range (max n 3), |peDim2 t i j|)
          - (∑ i ∈ Finset.range (max m 3), ∑ j ∈ Finset.range (max n 3),
              (if i + j ≤ 2 then |peDim2 t i j| else 0)) + tol := by
        simp only [hsplit, Finset.sum_sub_distrib]
    _ = (∑ i ∈ Finset.range m, ∑ j ∈ Finset.range n, |t.entry [i, j]|)
          - absC2 (extract2 t) + tol := by rw [hTot, hSix]

theorem mem_cand2D_corner (c : QuadCoeffs2) (I : Box2) (xc yc : ℚ)
    (hx : xc = I.1.1 ∨ xc = I.2.1) (hy : yc = I.1.2 ∨ yc = I.2.2) :
    eval2 c xc yc ∈ cand2D c I := by
  unfold cand2D
  rcases hx with h | h <;> rcases hy with h' | h' <;> subst h <;> subst h' <;>
    simp [List.mem_append]

theorem mem_cand2D_vertex_x (c : QuadCoeffs2) (I : Box2) (xc : ℚ)
    (hxc : xc = I.1.1 ∨ xc = I.2.1) (hc5 : c.c5 ≠ 0)
    (h0 : I.1.2 < -(c.c2 + c.c4 * xc) / (4 * c.c5))
    (h1 : -(c.c2 + c.c4 * xc) / (4 * c.c5) < I.2.2) :
    eval2 c xc (-(c.c2 + c.c4 * xc) / (4 * c.c5)) ∈ cand2D c I := by
  simp only [cand2D]
  rcases hxc with h | h <;> subst h
  · refine List.mem_append.mpr (Or.inl (List.mem_append.mpr (Or.inl
      (List.mem_append.mpr (Or.inr ?_)))))
    rw [if_pos hc5]
    exact List.mem_append.mpr (Or.inl (by rw [if_pos ⟨h0, h1⟩]; exact List.mem_singleton.mpr rfl))
  · refine List.mem_append.mpr (Or.inl (List.mem_append.mpr (Or.inl
      (List.mem_append.mpr (Or.inr ?_)))))
    rw [if_pos hc5]
    exact List.mem_append.mpr (Or.inr (by rw [if_pos ⟨h0, h1⟩]; exact List.mem_singleton.mpr rfl))

theorem mem_cand2D_vertex_y (c : QuadCoeffs2) (I : Box2) (yc : ℚ)
    (hyc : yc = I.1.2 ∨ yc = I.2.2) (hc3 : c.c3 ≠ 0)
    (h0 : I.1.1 < -(c.c1 + c.c4 * yc) / (4 * c.c3))
    (h1 : -(c.c1 + c.c4 * yc) / (4 * c.c3) < I.2.1) :
    eval2 c (-(c.c1 + c.c4 * yc) / (4 * c.c3)) yc ∈ cand2D c I := by
  simp only [cand2D]
  rcases hyc with h | h <;> subst h
  · refine List.mem_append.mpr (Or.inl (List.mem_append.mpr (Or.inr ?_)))
    rw [if_pos hc3]
    exact List.mem_append.mpr (Or.inl (by rw [if_pos ⟨h0, h1⟩]; exact List.mem_singleton.mpr rfl))
  · refine List.mem_append.mpr (Or.inl (List.mem_append.mpr (Or.inr ?_)))
    rw [if_pos hc3]
    exact List.mem_append.mpr (Or.inr (by rw [if_pos ⟨h0, h1⟩]; exact List.mem_singleton.mpr rfl))

theorem mem_cand2D_interior (c : QuadCoeffs2) (I : Box2)
    (hdet : 16 * c.c3 * c.c5 - c.c4 ^ 2 ≠ 0)
    (h0 : I.1.1 < (c.c2 * c.c4 - 4 * c.c1 * c.c5) / (16 * c.c3 * c.c5 - c.c4 ^ 2))
    (h1 : (c.c2 * c.c4 - 4 * c.c1 * c.c5) / (16 * c.c3 * c.c5 - c.c4 ^ 2) < I.2.1)
    (h2 : I.1.2 < (c.c1 * c.c4 - 4 * c.c2 * c.c3) / (16 * c.c3 * c.c5 - c.c4 ^ 2))
    (h3 : (c.c1 * c.c4 - 4 * c.c2 * c.c3) / (16 * c.c3 * c.c5 - c.c4 ^ 2) < I.2.2) :
    eval2 c ((c.c2 * c.c4 - 4 * c.c1 * c.c5) / (16 * c.c3 * c.c5 - c.c4 ^ 2))
      ((c.c1 * c.c4 - 4 * c.c2 * c.c3) / (16 * c.c3 * c.c5 - c.c4 ^ 2)) ∈ cand2D c I := by
  simp only [cand2D]
  refine List.mem_append.mpr (Or.inr ?_)
  rw [if_pos hdet, if_pos ⟨h0, h1, h2, h3⟩]
  exact List.mem_singleton.mpr rfl

theorem mem_candNd2_corner (c : QuadCoeffs2) (I : Box2) (xc yc : ℚ)
    (hx : xc = I.1.1 ∨ xc = I.2.1) (hy : yc = I.1.2 ∨ yc = I.2.2) :
    evalNd2 c xc yc ∈ candNd2 c I := by
  unfold candNd2
  rcases hx with h | h <;> rcases hy with h' | h' <;> subst h <;> subst h' <;>
    simp [List.mem_append]

theorem mem_candNd2_vertex_x (c : QuadCoeffs2) (I : Box2) (xc : ℚ)
    (hxc : xc = I.1.1 ∨ xc = I.2.1) (hc5 : 4 * c.c5 ≠ 0)
    (h0 : I.1.2 ≤ (-c.c2 - c.c4 * xc) / (4 * c.c5))
    (h1 : (-c.c2 - c.c4 * xc) / (4 * c.c5) ≤ I.2.2) :
    evalNd2 c xc ((-c.c2 - c.c4 * xc) / (4 * c.c5)) ∈ candNd2 c I := by
  simp only [candNd2]
  rcases hxc with h | h <;> subst h
  · refine List.mem_append.mpr (Or.inl (List.mem_append.mpr (Or.inl
      (List.mem_append.mpr (Or.inr ?_)))))
    rw [if_pos hc5]
    exact List.mem_append.mpr (Or.inl (by rw [if_pos ⟨h0, h1⟩]; exact List.mem_singleton.mpr rfl))
  · refine List.mem_append.mpr (Or.inl (List.mem_append.mpr (Or.inl
      (List.mem_append.mpr (Or.inr ?_)))))
    rw [if_pos hc5]
    exact List.mem_append.mpr (Or.inr (by rw [if_pos ⟨h0, h1⟩]; exact List.mem_singleton.mpr rfl))

theorem mem_candNd2_vertex_y (c : QuadCoeffs2) (I : Box2) (yc : ℚ)
    (hyc : yc = I.1.2 ∨ yc = I.2.2) (hc3 : 4 * c.c3 ≠ 0)
    (h0 : I.1.1 ≤ (-c.c1 - c.c4 * yc) / (4 * c.c3))
    (h1 : (-c.c1 - c.c4 * yc) / (4 * c.c3) ≤ I.2.1) :
    evalNd2 c ((-c.c1 - c.c4 * yc) / (4 * c.c3)) yc ∈ candNd2 c I := by
  simp only [candNd2]
  rcases hyc with h | h <;> subst h
  · refine List.mem_append.mpr (Or.inl (List.mem_append.mpr (Or.inr ?_)))
    rw [if_pos hc3]
    exact List.mem_append.mpr (Or.inl (by rw [if_pos ⟨h0, h1⟩]; exact List.mem_singleton.mpr rfl))
  · refine List.mem_append.mpr (Or.inl (List.mem_append.mpr (Or.inr ?_)))
    rw [if_pos hc3]
    exact List.mem_append.mpr (Or.inr (by rw [if_pos ⟨h0, h1⟩]; exact List.mem_singleton.mpr rfl))

theorem mem_candNd2_interior (c : QuadCoeffs2) (I : Box2)
    (hsgn : ¬(c.c3 * c.c5 < 0)) (hdet : detNd2 c ≠ 0)
    (h0 : I.1.1 ≤ ((-c.c1) * (4 * c.c5) - c.c4 * (-c.c2)) / detNd2 c)
    (h1 : ((-c.c1) * (4 * c.c5) - c.c4 * (-c.c2)) / detNd2 c ≤ I.2.1)
    (h2 : I.1.2 ≤ ((4 * c.c3) * (-c.c2) - (-c.c1) * c.c4) / detNd2 c)
    (h3 : ((4 * c.c3) * (-c.c2) - (-c.c1) * c.c4) / detNd2 c ≤ I.2.2) :
    evalNd2 c (((-c.c1) * (4 * c.c5) - c.c4 * (-c.c2)) / detNd2 c)
      (((4 * c.c3) * (-c.c2) - (-c.c1) * c.c4) / detNd2 c) ∈ candNd2 c I := by
  simp only [candNd2]
  refine List.mem_append.mpr (Or.inr ?_)
  rw [if_pos ⟨hsgn, hdet⟩, if_pos ⟨h0, h1, h2, h3⟩]
  exact List.mem_singleton.mpr rfl

/-- A point on a vertical edge of the box is dominated from below by a
`cand2D` entry. -/
theorem cand2D_edgeX_min (c : QuadCoeffs2) (I : Box2) (xc v : ℚ)
    (hxc : xc = I.1.1 ∨ xc = I.2.1) (hv0 : I.1.2 ≤ v) (hv1 : v ≤ I.2.2) :
    ∃ e ∈ cand2D c I, e ≤ eval2 c xc v := by
  rcases md1_min c.c5 (c.c2 + c.c4 * xc)
      (c.c0 - c.c3 - c.c5 + c.c1 * xc + 2 * c.c3 * xc ^ 2) I.1.2 I.2.2 v hv0 hv1 with
    hc | hc | ⟨hne, hb0, hb1, hc⟩
  · exact ⟨eval2 c xc I.1.2, mem_cand2D_corner c I xc I.1.2 hxc (Or.inl rfl),
      by simp only [eval2_fix_x]; exact hc⟩
  · exact ⟨eval2 c xc I.2.2, mem_cand2D_corner c I xc I.2.2 hxc (Or.inr rfl),
      by simp only [eval2_fix_x]; exact hc⟩
  · rcases eq_or_lt_of_le hb0 with he | h0'
    · exact ⟨eval2 c xc I.1.2, mem_cand2D_corner c I xc I.1.2 hxc (Or.inl rfl),
        by rw [he]; simp only [eval2_fix_x]; exact hc⟩
    · rcases eq_or_lt_of_le hb1 with he | h1'
      · exact ⟨eval2 c xc I.2.2, mem_cand2D_corner c I xc I.2.2 hxc (Or.inr rfl),
          by rw [← he]; simp only [eval2_fix_x]; exact hc⟩
      · exact ⟨eval2 c xc (-(c.c2 + c.c4 * xc) / (4 * c.c5)),
          mem_cand2D_vertex_x c I xc hxc hne h0' h1',
          by simp only [eval2_fix_x]; exact hc⟩

/-- A point on a vertical edge of the box is dominated from above by a
`cand2D` entry. -/
theorem cand2D_edgeX_max (c : QuadCoeffs2) (I : Box2) (xc v : ℚ)
    (hxc : xc = I.1.1 ∨ xc = I.2.1) (hv0 : I.1.2 ≤ v) (hv1 : v ≤ I.2.2) :
    ∃ e ∈ cand2D c I, eval2 c xc v ≤ e := by
  rcases md1_max c.c5 (c.c2 + c.c4 * xc)
      (c.c0 - c.c3 - c.c5 + c.c1 * xc + 2 * c.c3 * xc ^ 2) I.1.2 I.2.2 v hv0 hv1 with
    hc | hc | ⟨hne, hb0, hb1, hc⟩
  · exact ⟨eval2 c xc I.1.2, mem_cand2D_corner c I xc I.1.2 hxc (Or.inl rfl),
      by simp only [eval2_fix_x]; exact hc⟩
  · exact ⟨eval2 c xc I.2.2, mem_cand2D_corner c I xc I.2.2 hxc (Or.inr rfl),
      by simp only [eval2_fix_x]; exact hc⟩
  · rcases eq_or_lt_of_le hb0 with he | h0'
    · exact ⟨eval2 c xc I.1.2, mem_cand2D_corner c I xc I.1.2 hxc (Or.inl rfl),
        by rw [he]; simp only [eval2_fix_x]; exact hc⟩
    · rcases eq_or_lt_of_le hb1 with he | h1'
      · exact ⟨eval2 c xc I.2.2, mem_cand2D_corner c I xc I.2.2 hxc (Or.inr rfl),
          by rw [← he]; simp only [eval2_fix_x]; exact hc⟩
      · exact ⟨eval2 c xc (-(c.c2 + c.c4 * xc) / (4 * c.c5)),
          mem_cand2D_vertex_x c I xc hxc hne h0' h1',
          by simp only [eval2_fix_x]; exact hc⟩

/-- A point on a horizontal edge of the box is dominated from below by a
`cand2D` entry. -/
theorem cand2D_edgeY_min (c : QuadCoeffs2) (I : Box2) (yc u : ℚ)
    (hyc : yc = I.1.2 ∨ yc = I.2.2) (hu0 : I.1.1 ≤ u) (hu1 : u ≤ I.2.1) :
    ∃ e ∈ cand2D c I, e ≤ eval2 c u yc := by
  rcases md1_min c.c3 (c.c1 + c.c4 * yc)
      (c.c0 - c.c3 - c.c5 + c.c2 * yc + 2 * c.c5 * yc ^ 2) I.1.1 I.2.1 u hu0 hu1 with
    hc | hc | ⟨hne, hb0, hb1, hc⟩
  · exact ⟨eval2 c I.1.1 yc, mem_cand2D_corner c I I.1.1 yc (Or.inl rfl) hyc,
      by simp only [eval2_fix_y]; exact hc⟩
  · exact ⟨eval2 c I.2.1 yc, mem_cand2D_corner c I I.2.1 yc (Or.inr rfl) hyc,
      by simp only [eval2_fix_y]; exact hc⟩
  · rcases eq_or_lt_of_le hb0 with he | h0'
    · exact ⟨eval2 c I.1.1 yc, mem_cand2D_corner c I I.1.1 yc (Or.inl rfl) hyc,
        by rw [he]; simp only [eval2_fix_y]; exact hc⟩
    · rcases eq_or_lt_of_le hb1 with he | h1'
      · exact ⟨eval2 c I.2.1 yc, mem_cand2D_corner c I I.2.1 yc (Or.inr rfl) hyc,
          by rw [← he]; simp only [eval2_fix_y]; exact hc⟩
      · exact ⟨eval2 c (-(c.c1 + c.c4 * yc) / (4 * c.c3)) yc,
          mem_cand2D_vertex_y c I yc hyc hne h0' h1',
          by simp only [eval2_fix_y]; exact hc⟩

/-- A point on a horizontal edge of the box is dominated from above by a
`cand2D` entry. -/
theorem cand2D_edgeY_max (c : QuadCoeffs2) (I : Box2) (yc u : ℚ)
    (hyc : yc = I.1.2 ∨ yc = I.2.2) (hu0 : I.1.1 ≤ u) (hu1 : u ≤ I.2.1) :
    ∃ e ∈ cand2D c I, eval2 c u yc ≤ e := by
  rcases md1_max c.c3 (c.c1 + c.c4 * yc)
      (c.c0 - c.c3 - c.c5 + c.c2 * yc + 2 * c.c5 * yc ^ 2) I.1.1 I.2.1 u hu0 hu1 with
    hc | hc | ⟨hne, hb0, hb1, hc⟩
  · exact ⟨eval2 c I.1.1 yc, mem_cand2D_corner c I I.1.1 yc (Or.inl rfl) hyc,
      by simp only [eval2_fix_y]; exact hc⟩
  · exact ⟨eval2 c I.2.1 yc, mem_cand2D_corner c I I.2.1 yc (Or.inr rfl) hyc,
      by simp only [eval2_fix_y]; exact hc⟩
  · rcases eq_or_lt_of_le hb0 with he | h0'
    · exact ⟨eval2 c I.1.1 yc, mem_cand2D_corner c I I.1.1 yc (Or.inl rfl) hyc,
        by rw [he]; simp only [eval2_fix_y]; exact hc⟩
    · rcases eq_or_lt_of_le hb1 with he | h1'
      · exact ⟨eval2 c I.2.1 yc, mem_cand2D_corner c I I.2.1 yc (Or.inr rfl) hyc,
          by rw [← he]; simp only [eval2_fix_y]; exact hc⟩
      · exact ⟨eval2 c (-(c.c1 + c.c4 * yc) / (4 * c.c3)) yc,
          mem_cand2D_vertex_y c I yc hyc hne h0' h1',
          by simp only [eval2_fix_y]; exact hc⟩

/-- A point on a vertical edge of the box is dominated from below by a
`candNd2` entry. -/
theorem candNd2_edgeX_min (c : QuadCoeffs2) (I : Box2) (xc v : ℚ)
    (hxc : xc = I.1.1 ∨ xc = I.2.1) (hv0 : I.1.2 ≤ v) (hv1 : v ≤ I.2.2) :
    ∃ e ∈ candNd2 c I, e ≤ eval2 c xc v := by
  rcases md1_min c.c5 (c.c2 + c.c4 * xc)
      (c.c0 - c.c3 - c.c5 + c.c1 * xc + 2 * c.c3 * xc ^ 2) I.1.2 I.2.2 v hv0 hv1 with
    hc | hc | ⟨hne, hb0, hb1, hc⟩
  · exact ⟨evalNd2 c xc I.1.2, mem_candNd2_corner c I xc I.1.2 hxc (Or.inl rfl),
      by rw [evalNd2_eq_eval2]; simp only [eval2_fix_x]; exact hc⟩
  · exact ⟨evalNd2 c xc I.2.2, mem_candNd2_corner c I xc I.2.2 hxc (Or.inr rfl),
      by rw [evalNd2_eq_eval2]; simp only [eval2_fix_x]; exact hc⟩
  · have hconv : -(c.c2 + c.c4 * xc) / (4 * c.c5) = (-c.c2 - c.c4 * xc) / (4 * c.c5) := by
      ring
    rw [hconv] at hb0 hb1
    exact ⟨evalNd2 c xc ((-c.c2 - c.c4 * xc) / (4 * c.c5)),
      mem_candNd2_vertex_x c I xc hxc (mul_ne_zero (by norm_num) hne) hb0 hb1,
      by rw [evalNd2_eq_eval2, ← hconv]; simp only [eval2_fix_x]; exact hc⟩

/-- A point on a vertical edge of the box is dominated from above by a
`candNd2` entry. -/
theorem candNd2_edgeX_max (c : QuadCoeffs2) (I : Box2) (xc v : ℚ)
    (hxc : xc = I.1.1 ∨ xc = I.2.1) (hv0 : I.1.2 ≤ v) (hv1 : v ≤ I.2.2) :
    ∃ e ∈ candNd2 c I, eval2 c xc v ≤ e := by
  rcases md1_max c.c5 (c.c2 + c.c4 * xc)
      (c.c0 - c.c3 - c.c5 + c.c1 * xc + 2 * c.c3 * xc ^ 2) I.1.2 I.2.2 v hv0 hv1 with
    hc | hc | ⟨hne, hb0, hb1, hc⟩
  · exact ⟨evalNd2 c xc I.1.2, mem_candNd2_corner c I xc I.1.2 hxc (Or.inl rfl),
      by rw [evalNd2_eq_eval2]; simp only [eval2_fix_x]; exact hc⟩
  · exact ⟨evalNd2 c xc I.2.2, mem_candNd2_corner c I xc I.2.2 hxc (Or.inr rfl),
      by rw [evalNd2_eq_eval2]; simp only [eval2_fix_x]; exact hc⟩
  · have hconv : -(c.c2 + c.c4 * xc) / (4 * c.c5) = (-c.c2 - c.c4 * xc) / (4 * c.c5) := by
      ring
    rw [hconv] at hb0 hb1
    exact ⟨evalNd2 c xc ((-c.c2 - c.c4 * xc) / (4 * c.c5)),
      mem_candNd2_vertex_x c I xc hxc (mul_ne_zero (by norm_num) hne) hb0 hb1,
      by rw [evalNd2_eq_eval2, ← hconv]; simp only [eval2_fix_x]; exact hc⟩

/-- A point on a horizontal edge of the box is dominated from below by a
`candNd2` entry. -/
theorem candNd2_edgeY_min (c : QuadCoeffs2) (I : Box2) (yc u : ℚ)
    (hyc : yc = I.1.2 ∨ yc = I.2.2) (hu0 : I.1.1 ≤ u) (hu1 : u ≤ I.2.1) :
    ∃ e ∈ candNd2 c I, e ≤ eval2 c u yc := by
  rcases md1_min c.c3 (c.c1 + c.c4 * yc)
      (c.c0 - c.c3 - c.c5 + c.c2 * yc + 2 * c.c5 * yc ^ 2) I.1.1 I.2.1 u hu0 hu1 with
    hc | hc | ⟨hne, hb0, hb1, hc⟩
  · exact ⟨evalNd2 c I.1.1 yc, mem_candNd2_corner c I I.1.1 yc (Or.inl rfl) hyc,
      by rw [evalNd2_eq_eval2]; simp only [eval2_fix_y]; exact hc⟩
  · exact ⟨evalNd2 c I.2.1 yc, mem_candNd2_corner c I I.2.1 yc (Or.inr rfl) hyc,
      by rw [evalNd2_eq_eval2]; simp only [eval2_fix_y]; exact hc⟩
  · have hconv : -(c.c1 + c.c4 * yc) / (4 * c.c3) = (-c.c1 - c.c4 * yc) / (4 * c.c3) := by
      ring
    rw [hconv] at hb0 hb1
    exact ⟨evalNd2 c ((-c.c1 - c.c4 * yc) / (4 * c.c3)) yc,
      mem_candNd2_vertex_y c I yc hyc (mul_ne_zero (by norm_num) hne) hb0 hb1,
      by rw [evalNd2_eq_eval2, ← hconv]; simp only [eval2_fix_y]; exact hc⟩

/-- A point on a horizontal edge of the box is dominated from above by a
`candNd2` entry. -/
theorem candNd2_edgeY_max (c : QuadCoeffs2) (I : Box2) (yc u : ℚ)
    (hyc : yc = I.1.2 ∨ yc = I.2.2) (hu0 : I.1.1 ≤ u) (hu1 : u ≤ I.2.1) :
    ∃ e ∈ candNd2 c I, eval2 c u yc ≤ e := by
  rcases md1_max c.c3 (c.c1 + c.c4 * yc)
      (c.c0 - c.c3 - c.c5 + c.c2 * yc + 2 * c.c5 * yc ^ 2) I.1.1 I.2.1 u hu0 hu1 with
    hc | hc | ⟨hne, hb0, hb1, hc⟩
  · exact ⟨evalNd2 c I.1.1 yc, mem_candNd2_corner c I I.1.1 yc (Or.inl rfl) hyc,
      by rw [evalNd2_eq_eval2]; simp only [eval2_fix_y]; exact hc⟩
  · exact ⟨evalNd2 c I.2.1 yc, mem_candNd2_corner c I I.2.1 yc (Or.inr rfl) hyc,
      by rw [evalNd2_eq_eval2]; simp only [eval2_fix_y]; exact hc⟩
  · have hconv : -(c.c1 + c.c4 * yc) / (4 * c.c3) = (-c.c1 - c.c4 * yc) / (4 * c.c3) := by
      ring
    rw [hconv] at hb0 hb1
    exact ⟨evalNd2 c ((-c.c1 - c.c4 * yc) / (4 * c.c3)) yc,
      mem_candNd2_vertex_y c I yc hyc (mul_ne_zero (by norm_num) hne) hb0 hb1,
      by rw [evalNd2_eq_eval2, ← hconv]; simp only [eval2_fix_y]; exact hc⟩

/-- Every entry of `cand2D` is one of: a corner value; a vertical-edge
critical value (guarded, strictly inside); a horizontal-edge critical value;
the interior critical value (guarded, strictly inside). -/
theorem cand2D_cases (c : QuadCoeffs2) (I : Box2) (e : ℚ) (he : e ∈ cand2D c I) :
    (e = eval2 c I.1.1 I.1.2 ∨ e = eval2 c I.2.1 I.1.2 ∨
      e = eval2 c I.1.1 I.2.2 ∨ e = eval2 c I.2.1 I.2.2) ∨
    (∃ xc, (xc = I.1.1 ∨ xc = I.2.1) ∧ c.c5 ≠ 0 ∧
      I.1.2 < -(c.c2 + c.c4 * xc) / (4 * c.c5) ∧
      -(c.c2 + c.c4 * xc) / (4 * c.c5) < I.2.2 ∧
      e = eval2 c xc (-(c.c2 + c.c4 * xc) / (4 * c.c5))) ∨
    (∃ yc, (yc = I.1.2 ∨ yc = I.2.2) ∧ c.c3 ≠ 0 ∧
      I.1.1 < -(c.c1 + c.c4 * yc) / (4 * c.c3) ∧
      -(c.c1 + c.c4 * yc) / (4 * c.c3) < I.2.1 ∧
      e = eval2 c (-(c.c1 + c.c4 * yc) / (4 * c.c3)) yc) ∨
    (16 * c.c3 * c.c5 - c.c4 ^ 2 ≠ 0 ∧
      I.1.1 < (c.c2 * c.c4 - 4 * c.c1 * c.c5) / (16 * c.c3 * c.c5 - c.c4 ^ 2) ∧
      (c.c2 * c.c4 - 4 * c.c1 * c.c5) / (16 * c.c3 * c.c5 - c.c4 ^ 2) < I.2.1 ∧
      I.1.2 < (c.c1 * c.c4 - 4 * c.c2 * c.c3) / (16 * c.c3 * c.c5 - c.c4 ^ 2) ∧
      (c.c1 * c.c4 - 4 * c.c2 * c.c3) / (16 * c.c3 * c.c5 - c.c4 ^ 2) < I.2.2 ∧
      e = eval2 c ((c.c2 * c.c4 - 4 * c.c1 * c.c5) / (16 * c.c3 * c.c5 - c.c4 ^ 2))
        ((c.c1 * c.c4 - 4 * c.c2 * c.c3) / (16 * c.c3 * c.c5 - c.c4 ^ 2))) := by
  simp only [cand2D, List.mem_append] at he
  rcases he with ((hA | hB) | hC) | hD
  · simp only [List.mem_cons, List.not_mem_nil, or_false] at hA
    exact Or.inl hA
  · by_cases h5 : c.c5 ≠ 0
    · rw [if_pos h5] at hB
      rcases List.mem_append.mp hB with h | h
      · by_cases hcond : I.1.2 < -(c.c2 + c.c4 * I.1.1) / (4 * c.c5) ∧
            -(c.c2 + c.c4 * I.1.1) / (4 * c.c5) < I.2.2
        · rw [if_pos hcond, List.mem_singleton] at h
          exact Or.inr (Or.inl ⟨I.1.1, Or.inl rfl, h5, hcond.1, hcond.2, h⟩)
        · rw [if_neg hcond] at h
          exact absurd h (List.not_mem_nil e)
      · by_cases hcond : I.1.2 < -(c.c2 + c.c4 * I.2.1) / (4 * c.c5) ∧
            -(c.c2 + c.c4 * I.2.1) / (4 * c.c5) < I.2.2
        · rw [if_pos hcond, List.mem_singleton] at h
          exact Or.inr (Or.inl ⟨I.2.1, Or.inr rfl, h5, hcond.1, hcond.2, h⟩)
        · rw [if_neg hcond] at h
          exact absurd h (List.not_mem_nil e)
    · rw [if_neg h5] at hB
      exact absurd hB (List.not_mem_nil e)
  · by_cases h3 : c.c3 ≠ 0
    · rw [if_pos h3] at hC
      rcases List.mem_append.mp hC with h | h
      · by_cases hcond : I.1.1 < -(c.c1 + c.c4 * I.1.2) / (4 * c.c3) ∧
            -(c.c1 + c.c4 * I.1.2) / (4 * c.c3) < I.2.1
        · rw [if_pos hcond, List.mem_singleton] at h
          exact Or.inr (Or.inr (Or.inl ⟨I.1.2, Or.inl rfl, h3, hcond.1, hcond.2, h⟩))
        · rw [if_neg hcond] at h
          exact absurd h (List.not_mem_nil e)
      · by_cases hcond : I.1.1 < -(c.c1 + c.c4 * I.2.2) / (4 * c.c3) ∧
            -(c.c1 + c.c4 * I.2.2) / (4 * c.c3) < I.2.1
        · rw [if_pos hcond, List.mem_singleton] at h
          exact Or.inr (Or.inr (Or.inl ⟨I.2.2, Or.inr rfl, h3, hcond.1, hcond.2, h⟩))
        · rw [if_neg hcond] at h
          exact absurd h (List.not_mem_nil e)
    · rw [if_neg h3] at hC
      exact absurd hC (List.not_mem_nil e)
  · by_cases hdet : 16 * c.c3 * c.c5 - c.c4 ^ 2 ≠ 0
    · rw [if_pos hdet] at hD
      by_cases hcond : I.1.1 < (c.c2 * c.c4 - 4 * c.c1 * c.c5) /
            (16 * c.c3 * c.c5 - c.c4 ^ 2) ∧
          (c.c2 * c.c4 - 4 * c.c1 * c.c5) / (16 * c.c3 * c.c5 - c.c4 ^ 2) < I.2.1 ∧
          I.1.2 < (c.c1 * c.c4 - 4 * c.c2 * c.c3) / (16 * c.c3 * c.c5 - c.c4 ^ 2) ∧
          (c.c1 * c.c4 - 4 * c.c2 * c.c3) / (16 * c.c3 * c.c5 - c.c4 ^ 2) < I.2.2
      · rw [if_pos hcond, List.mem_singleton] at hD
        exact Or.inr (Or.inr (Or.inr ⟨hdet, hcond.1, hcond.2.1, hcond.2.2.1,
          hcond.2.2.2, hD⟩))
      · rw [if_neg hcond] at hD
        exact absurd hD (List.not_mem_nil e)
    · rw [if_neg hdet] at hD
      exact absurd hD (List.not_mem_nil e)

/-- Every entry of `candNd2` is one of: a corner value; a vertical-edge
critical value (guarded, closed containment); a horizontal-edge critical
value; the interior critical value (guarded by the diagonal sign test and
full rank, closed containment). -/
theorem candNd2_cases (c : QuadCoeffs2) (I : Box2) (e : ℚ) (he : e ∈ candNd2 c I) :
    (e = evalNd2 c I.1.1 I.1.2 ∨ e = evalNd2 c I.2.1 I.1.2 ∨
      e = evalNd2 c I.1.1 I.2.2 ∨ e = evalNd2 c I.2.1 I.2.2) ∨
    (∃ xc, (xc = I.1.1 ∨ xc = I.2.1) ∧ 4 * c.c5 ≠ 0 ∧
      I.1.2 ≤ (-c.c2 - c.c4 * xc) / (4 * c.c5) ∧
      (-c.c2 - c.c4 * xc) / (4 * c.c5) ≤ I.2.2 ∧
      e = evalNd2 c xc ((-c.c2 - c.c4 * xc) / (4 * c.c5))) ∨
    (∃ yc, (yc = I.1.2 ∨ yc = I.2.2) ∧ 4 * c.c3 ≠ 0 ∧
      I.1.1 ≤ (-c.c1 - c.c4 * yc) / (4 * c.c3) ∧
      (-c.c1 - c.c4 * yc) / (4 * c.c3) ≤ I.2.1 ∧
      e = evalNd2 c ((-c.c1 - c.c4 * yc) / (4 * c.c3)) yc) ∨
    (¬(c.c3 * c.c5 < 0) ∧ detNd2 c ≠ 0 ∧
      I.1.1 ≤ ((-c.c1) * (4 * c.c5) - c.c4 * (-c.c2)) / detNd2 c ∧
      ((-c.c1) * (4 * c.c5) - c.c4 * (-c.c2)) / detNd2 c ≤ I.2.1 ∧
      I.1.2 ≤ ((4 * c.c3) * (-c.c2) - (-c.c1) * c.c4) / detNd2 c ∧
      ((4 * c.c3) * (-c.c2) - (-c.c1) * c.c4) / detNd2 c ≤ I.2.2 ∧
      e = evalNd2 c (((-c.c1) * (4 * c.c5) - c.c4 * (-c.c2)) / detNd2 c)
        (((4 * c.c3) * (-c.c2) - (-c.c1) * c.c4) / detNd2 c)) := by
  simp only [candNd2, List.mem_append] at he
  rcases he with ((hA | hB) | hC) | hD
  · simp only [List.mem_cons, List.not_mem_nil, or_false] at hA
    rcases hA with h | h | h | h
    · exact Or.inl (Or.inl h)
    · exact Or.inl (Or.inr (Or.inr (Or.inl h)))
    · exact Or.inl (Or.inr (Or.inl h))
    · exact Or.inl (Or.inr (Or.inr (Or.inr h)))
  · by_cases h5 : 4 * c.c5 ≠ 0
    · rw [if_pos h5] at hB
      rcases List.mem_append.mp hB with h | h
      · by_cases hcond : I.1.2 ≤ (-c.c2 - c.c4 * I.1.1) / (4 * c.c5) ∧
            (-c.c2 - c.c4 * I.1.1) / (4 * c.c5) ≤ I.2.2
        · rw [if_pos hcond, List.mem_singleton] at h
          exact Or.inr (Or.inl ⟨I.1.1, Or.inl rfl, h5, hcond.1, hcond.2, h⟩)
        · rw [if_neg hcond] at h
          exact absurd h (List.not_mem_nil e)
      · by_cases hcond : I.1.2 ≤ (-c.c2 - c.c4 * I.2.1) / (4 * c.c5) ∧
            (-c.c2 - c.c4 * I.2.1) / (4 * c.c5) ≤ I.2.2
        · rw [if_pos hcond, List.mem_singleton] at h
          exact Or.inr (Or.inl ⟨I.2.1, Or.inr rfl, h5, hcond.1, hcond.2, h⟩)
        · rw [if_neg hcond] at h
          exact absurd h (List.not_mem_nil e)
    · rw [if_neg h5] at hB
      exact absurd hB (List.not_mem_nil e)
  · by_cases h3 : 4 * c.c3 ≠ 0
    · rw [if_pos h3] at hC
      rcases List.mem_append.mp hC with h | h
      · by_cases hcond : I.1.1 ≤ (-c.c1 - c.c4 * I.1.2) / (4 * c.c3) ∧
            (-c.c1 - c.c4 * I.1.2) / (4 * c.c3) ≤ I.2.1
        · rw [if_pos hcond, List.mem_singleton] at h
          exact Or.inr (Or.inr (Or.inl ⟨I.1.2, Or.inl rfl, h3, hcond.1, hcond.2, h⟩))
        · rw [if_neg hcond] at h
          exact absurd h (List.not_mem_nil e)
      · by_cases hcond : I.1.1 ≤ (-c.c1 - c.c4 * I.2.2) / (4 * c.c3) ∧
            (-c.c1 - c.c4 * I.2.2) / (4 * c.c3) ≤ I.2.1
        · rw [if_pos hcond, List.mem_singleton] at h
          exact Or.inr (Or.inr (Or.inl ⟨I.2.2, Or.inr rfl, h3, hcond.1, hcond.2, h⟩))
        · rw [if_neg hcond] at h
          exact absurd h (List.not_mem_nil e)
    · rw [if_neg h3] at hC
      exact absurd hC (List.not_mem_nil e)
  · by_cases hg : ¬(c.c3 * c.c5 < 0) ∧ detNd2 c ≠ 0
    · rw [if_pos hg] at hD
      by_cases hcond : I.1.1 ≤ ((-c.c1) * (4 * c.c5) - c.c4 * (-c.c2)) / detNd2 c ∧
          ((-c.c1) * (4 * c.c5) - c.c4 * (-c.c2)) / detNd2 c ≤ I.2.1 ∧
          I.1.2 ≤ ((4 * c.c3) * (-c.c2) - (-c.c1) * c.c4) / detNd2 c ∧
          ((4 * c.c3) * (-c.c2) - (-c.c1) * c.c4) / detNd2 c ≤ I.2.2
      · rw [if_pos hcond, List.mem_singleton] at hD
        exact Or.inr (Or.inr (Or.inr ⟨hg.1, hg.2, hcond.1, hcond.2.1, hcond.2.2.1,
          hcond.2.2.2, hD⟩))
      · rw [if_neg hcond] at hD
        exact absurd hD (List.not_mem_nil e)
    · rw [if_neg hg] at hD
      exact absurd hD (List.not_mem_nil e)

theorem detNd2_conv (c : QuadCoeffs2) : detNd2 c = 16 * c.c3 * c.c5 - c.c4 ^ 2 := by
  unfold detNd2
  ring

/-- The two routines compute the same interior `x`-coordinate. -/
theorem nd2_ix_conv (c : QuadCoeffs2) :
    ((-c.c1) * (4 * c.c5) - c.c4 * (-c.c2)) / detNd2 c =
      (c.c2 * c.c4 - 4 * c.c1 * c.c5) / (16 * c.c3 * c.c5 - c.c4 ^ 2) := by
  have h1 : (-c.c1) * (4 * c.c5) - c.c4 * (-c.c2) = c.c2 * c.c4 - 4 * c.c1 * c.c5 := by ring
  rw [h1, detNd2_conv]

/-- The two routines compute the same interior `y`-coordinate. -/
theorem nd2_iy_conv (c : QuadCoeffs2) :
    ((4 * c.c3) * (-c.c2) - (-c.c1) * c.c4) / detNd2 c =
      (c.c1 * c.c4 - 4 * c.c2 * c.c3) / (16 * c.c3 * c.c5 - c.c4 ^ 2) := by
  have h1 : (4 * c.c3) * (-c.c2) - (-c.c1) * c.c4 = c.c1 * c.c4 - 4 * c.c2 * c.c3 := by ring
  rw [h1, detNd2_conv]

/-- `x`-gradient of `eval2` vanishes at the interior critical point. -/
theorem eval2_grad_x (c : QuadCoeffs2) (hdet : 16 * c.c3 * c.c5 - c.c4 ^ 2 ≠ 0) :
    c.c1 + 4 * c.c3 * ((c.c2 * c.c4 - 4 * c.c1 * c.c5) / (16 * c.c3 * c.c5 - c.c4 ^ 2)) +
      c.c4 * ((c.c1 * c.c4 - 4 * c.c2 * c.c3) / (16 * c.c3 * c.c5 - c.c4 ^ 2)) = 0 := by
  field_simp
  ring

/-- `y`-gradient of `eval2` vanishes at the interior critical point. -/
theorem eval2_grad_y (c : QuadCoeffs2) (hdet : 16 * c.c3 * c.c5 - c.c4 ^ 2 ≠ 0) :
    c.c2 + c.c4 * ((c.c2 * c.c4 - 4 * c.c1 * c.c5) / (16 * c.c3 * c.c5 - c.c4 ^ 2)) +
      4 * c.c5 * ((c.c1 * c.c4 - 4 * c.c2 * c.c3) / (16 * c.c3 * c.c5 - c.c4 ^ 2)) = 0 := by
  field_simp
  ring

/-- Along the `x`-axis through a point with vanishing `x`-gradient the
quadratic moves by `2·c3·(x-ix)²`. -/
theorem eval2_axis_x (c : QuadCoeffs2) (ix iy x : ℚ)
    (hg : c.c1 + 4 * c.c3 * ix + c.c4 * iy = 0) :
    eval2 c x iy = eval2 c ix iy + 2 * c.c3 * (x - ix) ^ 2 := by
  unfold eval2
  linear_combination (x - ix) * hg

/-- Along the `y`-axis through a point with vanishing `y`-gradient the
quadratic moves by `2·c5·(y-iy)²`. -/
theorem eval2_axis_y (c : QuadCoeffs2) (ix iy y : ℚ)
    (hg : c.c2 + c.c4 * ix + 4 * c.c5 * iy = 0) :
    eval2 c ix y = eval2 c ix iy + 2 * c.c5 * (y - iy) ^ 2 := by
  unfold eval2
  linear_combination (y - iy) * hg

/-- The interior critical point skipped by the n-D routine because of the
diagonal sign test is a saddle; walking the concave axis to the box boundary
and enumerating that edge dominates it from below. -/
theorem candNd2_saddle_min (c : QuadCoeffs2) (I : Box2)
    (hsgn : c.c3 * c.c5 < 0) (hdet : 16 * c.c3 * c.c5 - c.c4 ^ 2 ≠ 0)
    (h0 : I.1.1 ≤ (c.c2 * c.c4 - 4 * c.c1 * c.c5) / (16 * c.c3 * c.c5 - c.c4 ^ 2))
    (h1 : (c.c2 * c.c4 - 4 * c.c1 * c.c5) / (16 * c.c3 * c.c5 - c.c4 ^ 2) ≤ I.2.1)
    (h2 : I.1.2 ≤ (c.c1 * c.c4 - 4 * c.c2 * c.c3) / (16 * c.c3 * c.c5 - c.c4 ^ 2))
    (h3 : (c.c1 * c.c4 - 4 * c.c2 * c.c3) / (16 * c.c3 * c.c5 - c.c4 ^ 2) ≤ I.2.2) :
    ∃ e ∈ candNd2 c I,
      e ≤ eval2 c ((c.c2 * c.c4 - 4 * c.c1 * c.c5) / (16 * c.c3 * c.c5 - c.c4 ^ 2))
        ((c.c1 * c.c4 - 4 * c.c2 * c.c3) / (16 * c.c3 * c.c5 - c.c4 ^ 2)) := by
  rcases lt_or_ge c.c3 0 with hneg | hpos
  · obtain ⟨e, he, hle⟩ := candNd2_edgeX_min c I I.1.1
      ((c.c1 * c.c4 - 4 * c.c2 * c.c3) / (16 * c.c3 * c.c5 - c.c4 ^ 2)) (Or.inl rfl) h2 h3
    refine ⟨e, he, hle.trans ?_⟩
    rw [eval2_axis_x c _ _ I.1.1 (eval2_grad_x c hdet)]
    nlinarith [sq_nonneg (I.1.1 - (c.c2 * c.c4 - 4 * c.c1 * c.c5) /
      (16 * c.c3 * c.c5 - c.c4 ^ 2))]
  · have hneg5 : c.c5 < 0 := by nlinarith
    obtain ⟨e, he, hle⟩ := candNd2_edgeY_min c I I.1.2
      ((c.c2 * c.c4 - 4 * c.c1 * c.c5) / (16 * c.c3 * c.c5 - c.c4 ^ 2)) (Or.inl rfl) h0 h1
    refine ⟨e, he, hle.trans ?_⟩
    rw [eval2_axis_y c _ _ I.1.2 (eval2_grad_y c hdet)]
    nlinarith [sq_nonneg (I.1.2 - (c.c1 * c.c4 - 4 * c.c2 * c.c3) /
      (16 * c.c3 * c.c5 - c.c4 ^ 2))]

/-- Dual of `candNd2_saddle_min`: the skipped saddle is dominated from above
by walking the convex axis. -/
theorem candNd2_saddle_max (c : QuadCoeffs2) (I : Box2)
    (hsgn : c.c3 * c.c5 < 0) (hdet : 16 * c.c3 * c.c5 - c.c4 ^ 2 ≠ 0)
    (h0 : I.1.1 ≤ (c.c2 * c.c4 - 4 * c.c1 * c.c5) / (16 * c.c3 * c.c5 - c.c4 ^ 2))
    (h1 : (c.c2 * c.c4 - 4 * c.c1 * c.c5) / (16 * c.c3 * c.c5 - c.c4 ^ 2) ≤ I.2.1)
    (h2 : I.1.2 ≤ (c.c1 * c.c4 - 4 * c.c2 * c.c3) / (16 * c.c3 * c.c5 - c.c4 ^ 2))
    (h3 : (c.c1 * c.c4 - 4 * c.c2 * c.c3) / (16 * c.c3 * c.c5 - c.c4 ^ 2) ≤ I.2.2) :
    ∃ e ∈ candNd2 c I,
      eval2 c ((c.c2 * c.c4 - 4 * c.c1 * c.c5) / (16 * c.c3 * c.c5 - c.c4 ^ 2))
        ((c.c1 * c.c4 - 4 * c.c2 * c.c3) / (16 * c.c3 * c.c5 - c.c4 ^ 2)) ≤ e := by
  rcases lt_or_ge 0 c.c3 with hpos | hneg
  · obtain ⟨e, he, hle⟩ := candNd2_edgeX_max c I I.1.1
      ((c.c1 * c.c4 - 4 * c.c2 * c.c3) / (16 * c.c3 * c.c5 - c.c4 ^ 2)) (Or.inl rfl) h2 h3
    refine ⟨e, he, le_trans ?_ hle⟩
    rw [eval2_axis_x c _ _ I.1.1 (eval2_grad_x c hdet)]
    nlinarith [sq_nonneg (I.1.1 - (c.c2 * c.c4 - 4 * c.c1 * c.c5) /
      (16 * c.c3 * c.c5 - c.c4 ^ 2))]
  · have hpos5 : 0 < c.c5 := by nlinarith
    obtain ⟨e, he, hle⟩ := candNd2_edgeY_max c I I.1.2
      ((c.c2 * c.c4 - 4 * c.c1 * c.c5) / (16 * c.c3 * c.c5 - c.c4 ^ 2)) (Or.inl rfl) h0 h1
    refine ⟨e, he, le_trans ?_ hle⟩
    rw [eval2_axis_y c _ _ I.1.2 (eval2_grad_y c hdet)]
    nlinarith [sq_nonneg (I.1.2 - (c.c1 * c.c4 - 4 * c.c2 * c.c3) /
      (16 * c.c3 * c.c5 - c.c4 ^ 2))]

/-- Every `cand2D` entry below a bound is matched by a `candNd2` entry below
the same bound. -/
theorem nd2_of_2D_min (c : QuadCoeffs2) (I : Box2) (os : ℚ)
    (hx : I.1.1 ≤ I.2.1) (hy : I.1.2 ≤ I.2.2)
    (h : ∃ e ∈ cand2D c I, e < os) : ∃ e ∈ candNd2 c I, e < os := by
  obtain ⟨e, he, hlt⟩ := h
  rcases cand2D_cases c I e he with hA | ⟨xc, hxc, h5, h0, h1, hv⟩ |
    ⟨yc, hyc, h3, h0, h1, hv⟩ | ⟨hdet, h0, h1, h2, h3, hv⟩
  · rcases hA with hv | hv | hv | hv
    · exact ⟨evalNd2 c I.1.1 I.1.2, mem_candNd2_corner c I _ _ (Or.inl rfl) (Or.inl rfl),
        by rw [evalNd2_eq_eval2, ← hv]; exact hlt⟩
    · exact ⟨evalNd2 c I.2.1 I.1.2, mem_candNd2_corner c I _ _ (Or.inr rfl) (Or.inl rfl),
        by rw [evalNd2_eq_eval2, ← hv]; exact hlt⟩
    · exact ⟨evalNd2 c I.1.1 I.2.2, mem_candNd2_corner c I _ _ (Or.inl rfl) (Or.inr rfl),
        by rw [evalNd2_eq_eval2, ← hv]; exact hlt⟩
    · exact ⟨evalNd2 c I.2.1 I.2.2, mem_candNd2_corner c I _ _ (Or.inr rfl) (Or.inr rfl),
        by rw [evalNd2_eq_eval2, ← hv]; exact hlt⟩
  · obtain ⟨e', he', hle⟩ := candNd2_edgeX_min c I xc
      (-(c.c2 + c.c4 * xc) / (4 * c.c5)) hxc h0.le h1.le
    exact ⟨e', he', lt_of_le_of_lt (by rw [← hv] at hle; exact hle) hlt⟩
  · obtain ⟨e', he', hle⟩ := candNd2_edgeY_min c I yc
      (-(c.c1 + c.c4 * yc) / (4 * c.c3)) hyc h0.le h1.le
    exact ⟨e', he', lt_of_le_of_lt (by rw [← hv] at hle; exact hle) hlt⟩
  · by_cases hsgn : c.c3 * c.c5 < 0
    · obtain ⟨e', he', hle⟩ := candNd2_saddle_min c I hsgn hdet h0.le h1.le h2.le h3.le
      exact ⟨e', he', lt_of_le_of_lt (by rw [← hv] at hle; exact hle) hlt⟩
    · refine ⟨_, mem_candNd2_interior c I hsgn (by rw [detNd2_conv]; exact hdet)
        (by rw [nd2_ix_conv]; exact h0.le) (by rw [nd2_ix_conv]; exact h1.le)
        (by rw [nd2_iy_conv]; exact h2.le) (by rw [nd2_iy_conv]; exact h3.le), ?_⟩
      rw [evalNd2_eq_eval2, nd2_ix_conv, nd2_iy_conv, ← hv]
      exact hlt

/-- Every `cand2D` entry above a bound is matched by a `candNd2` entry above
the same bound. -/
theorem nd2_of_2D_max (c : QuadCoeffs2) (I : Box2) (os : ℚ)
    (hx : I.1.1 ≤ I.2.1) (hy : I.1.2 ≤ I.2.2)
    (h : ∃ e ∈ cand2D c I, e > -os) : ∃ e ∈ candNd2 c I, e > -os := by
  obtain ⟨e, he, hlt⟩ := h
  rcases cand2D_cases c I e he with hA | ⟨xc, hxc, h5, h0, h1, hv⟩ |
    ⟨yc, hyc, h3, h0, h1, hv⟩ | ⟨hdet, h0, h1, h2, h3, hv⟩
  · rcases hA with hv | hv | hv | hv
    · exact ⟨evalNd2 c I.1.1 I.1.2, mem_candNd2_corner c I _ _ (Or.inl rfl) (Or.inl rfl),
        by rw [evalNd2_eq_eval2, ← hv]; exact hlt⟩
    · exact ⟨evalNd2 c I.2.1 I.1.2, mem_candNd2_corner c I _ _ (Or.inr rfl) (Or.inl rfl),
        by rw [evalNd2_eq_eval2, ← hv]; exact hlt⟩
    · exact ⟨evalNd2 c I.1.1 I.2.2, mem_candNd2_corner c I _ _ (Or.inl rfl) (Or.inr rfl),
        by rw [evalNd2_eq_eval2, ← hv]; exact hlt⟩
    · exact ⟨evalNd2 c I.2.1 I.2.2, mem_candNd2_corner c I _ _ (Or.inr rfl) (Or.inr rfl),
        by rw [evalNd2_eq_eval2, ← hv]; exact hlt⟩
  · obtain ⟨e', he', hle⟩ := candNd2_edgeX_max c I xc
      (-(c.c2 + c.c4 * xc) / (4 * c.c5)) hxc h0.le h1.le
    exact ⟨e', he', lt_of_lt_of_le hlt (by rw [← hv] at hle; exact hle)⟩
  · obtain ⟨e', he', hle⟩ := candNd2_edgeY_max c I yc
      (-(c.c1 + c.c4 * yc) / (4 * c.c3)) hyc h0.le h1.le
    exact ⟨e', he', lt_of_lt_of_le hlt (by rw [← hv] at hle; exact hle)⟩
  · by_cases hsgn : c.c3 * c.c5 < 0
    · obtain ⟨e', he', hle⟩ := candNd2_saddle_max c I hsgn hdet h0.le h1.le h2.le h3.le
      exact ⟨e', he', lt_of_lt_of_le hlt (by rw [← hv] at hle; exact hle)⟩
    · refine ⟨_, mem_candNd2_interior c I hsgn (by rw [detNd2_conv]; exact hdet)
        (by rw [nd2_ix_conv]; exact h0.le) (by rw [nd2_ix_conv]; exact h1.le)
        (by rw [nd2_iy_conv]; exact h2.le) (by rw [nd2_iy_conv]; exact h3.le), ?_⟩
      rw [evalNd2_eq_eval2, nd2_ix_conv, nd2_iy_conv, ← hv]
      exact hlt

/-- Every `candNd2` entry below a bound is matched by a `cand2D` entry below
the same bound. -/
theorem twoD_of_nd2_min (c : QuadCoeffs2) (I : Box2) (os : ℚ)
    (hx : I.1.1 ≤ I.2.1) (hy : I.1.2 ≤ I.2.2)
    (h : ∃ e ∈ candNd2 c I, e < os) : ∃ e ∈ cand2D c I, e < os := by
  obtain ⟨e, he, hlt⟩ := h
  rcases candNd2_cases c I e he with hA | ⟨xc, hxc, h5, h0, h1, hv⟩ |
    ⟨yc, hyc, h3, h0, h1, hv⟩ | ⟨hsgn, hdet, h0, h1, h2, h3, hv⟩
  · rcases hA with hv | hv | hv | hv
    · exact ⟨eval2 c I.1.1 I.1.2, mem_cand2D_corner c I _ _ (Or.inl rfl) (Or.inl rfl),
        by rw [hv, evalNd2_eq_eval2] at hlt; exact hlt⟩
    · exact ⟨eval2 c I.2.1 I.1.2, mem_cand2D_corner c I _ _ (Or.inr rfl) (Or.inl rfl),
        by rw [hv, evalNd2_eq_eval2] at hlt; exact hlt⟩
    · exact ⟨eval2 c I.1.1 I.2.2, mem_cand2D_corner c I _ _ (Or.inl rfl) (Or.inr rfl),
        by rw [hv, evalNd2_eq_eval2] at hlt; exact hlt⟩
    · exact ⟨eval2 c I.2.1 I.2.2, mem_cand2D_corner c I _ _ (Or.inr rfl) (Or.inr rfl),
        by rw [hv, evalNd2_eq_eval2] at hlt; exact hlt⟩
  · obtain ⟨e', he', hle⟩ := cand2D_edgeX_min c I xc
      ((-c.c2 - c.c4 * xc) / (4 * c.c5)) hxc h0 h1
    rw [hv, evalNd2_eq_eval2] at hlt
    exact ⟨e', he', lt_of_le_of_lt hle hlt⟩
  · obtain ⟨e', he', hle⟩ := cand2D_edgeY_min c I yc
      ((-c.c1 - c.c4 * yc) / (4 * c.c3)) hyc h0 h1
    rw [hv, evalNd2_eq_eval2] at hlt
    exact ⟨e', he', lt_of_le_of_lt hle hlt⟩
  · rw [hv, evalNd2_eq_eval2, nd2_ix_conv, nd2_iy_conv] at hlt
    rw [nd2_ix_conv] at h0 h1
    rw [nd2_iy_conv] at h2 h3
    rw [detNd2_conv] at hdet
    rcases eq_or_lt_of_le h0 with hq | hq
    · obtain ⟨e', he', hle⟩ := cand2D_edgeX_min c I I.1.1
        ((c.c1 * c.c4 - 4 * c.c2 * c.c3) / (16 * c.c3 * c.c5 - c.c4 ^ 2)) (Or.inl rfl) h2 h3
      rw [← hq] at hlt
      exact ⟨e', he', lt_of_le_of_lt hle hlt⟩
    · rcases eq_or_lt_of_le h1 with hq1 | hq1
      · obtain ⟨e', he', hle⟩ := cand2D_edgeX_min c I I.2.1
          ((c.c1 * c.c4 - 4 * c.c2 * c.c3) / (16 * c.c3 * c.c5 - c.c4 ^ 2)) (Or.inr rfl) h2 h3
        rw [hq1] at hlt
        exact ⟨e', he', lt_of_le_of_lt hle hlt⟩
      · rcases eq_or_lt_of_le h2 with hq2 | hq2
        · obtain ⟨e', he', hle⟩ := cand2D_edgeY_min c I I.1.2
            ((c.c2 * c.c4 - 4 * c.c1 * c.c5) / (16 * c.c3 * c.c5 - c.c4 ^ 2)) (Or.inl rfl)
            hq.le hq1.le
          rw [← hq2] at hlt
          exact ⟨e', he', lt_of_le_of_lt hle hlt⟩
        · rcases eq_or_lt_of_le h3 with hq3 | hq3
          · obtain ⟨e', he', hle⟩ := cand2D_edgeY_min c I I.2.2
              ((c.c2 * c.c4 - 4 * c.c1 * c.c5) / (16 * c.c3 * c.c5 - c.c4 ^ 2)) (Or.inr rfl)
              hq.le hq1.le
            rw [hq3] at hlt
            exact ⟨e', he', lt_of_le_of_lt hle hlt⟩
          · exact ⟨_, mem_cand2D_interior c I hdet hq hq1 hq2 hq3, hlt⟩

/-- Every `candNd2` entry above a bound is matched by a `cand2D` entry above
the same bound. -/
theorem twoD_of_nd2_max (c : QuadCoeffs2) (I : Box2) (os : ℚ)
    (hx : I.1.1 ≤ I.2.1) (hy : I.1.2 ≤ I.2.2)
    (h : ∃ e ∈ candNd2 c I, e > -os) : ∃ e ∈ cand2D c I, e > -os := by
  obtain ⟨e, he, hlt⟩ := h
  rcases candNd2_cases c I e he with hA | ⟨xc, hxc, h5, h0, h1, hv⟩ |
    ⟨yc, hyc, h3, h0, h1, hv⟩ | ⟨hsgn, hdet, h0, h1, h2, h3, hv⟩
  · rcases hA with hv | hv | hv | hv
    · exact ⟨eval2 c I.1.1 I.1.2, mem_cand2D_corner c I _ _ (Or.inl rfl) (Or.inl rfl),
        by rw [hv, evalNd2_eq_eval2] at hlt; exact hlt⟩
    · exact ⟨eval2 c I.2.1 I.1.2, mem_cand2D_corner c I _ _ (Or.inr rfl) (Or.inl rfl),
        by rw [hv, evalNd2_eq_eval2] at hlt; exact hlt⟩
    · exact ⟨eval2 c I.1.1 I.2.2, mem_cand2D_corner c I _ _ (Or.inl rfl) (Or.inr rfl),
        by rw [hv, evalNd2_eq_eval2] at hlt; exact hlt⟩
    · exact ⟨eval2 c I.2.1 I.2.2, mem_cand2D_corner c I _ _ (Or.inr rfl) (Or.inr rfl),
        by rw [hv, evalNd2_eq_eval2] at hlt; exact hlt⟩
  · obtain ⟨e', he', hle⟩ := cand2D_edgeX_max c I xc
      ((-c.c2 - c.c4 * xc) / (4 * c.c5)) hxc h0 h1
    rw [hv, evalNd2_eq_eval2] at hlt
    exact ⟨e', he', lt_of_lt_of_le hlt hle⟩
  · obtain ⟨e', he', hle⟩ := cand2D_edgeY_max c I yc
      ((-c.c1 - c.c4 * yc) / (4 * c.c3)) hyc h0 h1
    rw [hv, evalNd2_eq_eval2] at hlt
    exact ⟨e', he', lt_of_lt_of_le hlt hle⟩
  · rw [hv, evalNd2_eq_eval2, nd2_ix_conv, nd2_iy_conv] at hlt
    rw [nd2_ix_conv] at h0 h1
    rw [nd2_iy_conv] at h2 h3
    rw [detNd2_conv] at hdet
    rcases eq_or_lt_of_le h0 with hq | hq
    · obtain ⟨e', he', hle⟩ := cand2D_edgeX_max c I I.1.1
        ((c.c1 * c.c4 - 4 * c.c2 * c.c3) / (16 * c.c3 * c.c5 - c.c4 ^ 2)) (Or.inl rfl) h2 h3
      rw [← hq] at hlt
      exact ⟨e', he', lt_of_lt_of_le hlt hle⟩
    · rcases eq_or_lt_of_le h1 with hq1 | hq1
      · obtain ⟨e', he', hle⟩ := cand2D_edgeX_max c I I.2.1
          ((c.c1 * c.c4 - 4 * c.c2 * c.c3) / (16 * c.c3 * c.c5 - c.c4 ^ 2)) (Or.inr rfl) h2 h3
        rw [hq1] at hlt
        exact ⟨e', he', lt_of_lt_of_le hlt hle⟩
      · rcases eq_or_lt_of_le h2 with hq2 | hq2
        · obtain ⟨e', he', hle⟩ := cand2D_edgeY_max c I I.1.2
            ((c.c2 * c.c4 - 4 * c.c1 * c.c5) / (16 * c.c3 * c.c5 - c.c4 ^ 2)) (Or.inl rfl)
            hq.le hq1.le
          rw [← hq2] at hlt
          exact ⟨e', he', lt_of_lt_of_le hlt hle⟩
        · rcases eq_or_lt_of_le h3 with hq3 | hq3
          · obtain ⟨e', he', hle⟩ := cand2D_edgeY_max c I I.2.2
              ((c.c2 * c.c4 - 4 * c.c1 * c.c5) / (16 * c.c3 * c.c5 - c.c4 ^ 2)) (Or.inr rfl)
              hq.le hq1.le
            rw [hq3] at hlt
            exact ⟨e', he', lt_of_lt_of_le hlt hle⟩
          · exact ⟨_, mem_cand2D_interior c I hdet hq hq1 hq2 hq3, hlt⟩

/-- Per-interval verdict agreement of the two candidate enumerations. -/
theorem verdict2_eq (c : QuadCoeffs2) (I : Box2) (os : ℚ)
    (hx : I.1.1 ≤ I.2.1) (hy : I.1.2 ≤ I.2.2) :
    runFlags os (candNd2 c I) false false = runFlags os (cand2D c I) false false := by
  rw [runFlags_spec, runFlags_spec]
  have hbool : ∀ a b : Bool, (a = true ↔ b = true) → a = b := by decide
  have hmin : (candNd2 c I).any (fun e => decide (e < os)) =
      (cand2D c I).any (fun e => decide (e < os)) := by
    apply hbool
    simp only [List.any_eq_true, decide_eq_true_eq]
    exact ⟨fun h => twoD_of_nd2_min c I os hx hy h, fun h => nd2_of_2D_min c I os hx hy h⟩
  have hmax : (candNd2 c I).any (fun e => decide (e > -os)) =
      (cand2D c I).any (fun e => decide (e > -os)) := by
    apply hbool
    simp only [List.any_eq_true, decide_eq_true_eq]
    exact ⟨fun h => twoD_of_nd2_max c I os hx hy h, fun h => nd2_of_2D_max c I os hx hy h⟩
  rw [hmin, hmax]

/-- The n-D routine at a genuine 2-dimensional tensor produces exactly the
verdicts of the 2-D routine. -/
theorem quad_nd2_eq_2D (t : NDTensor) (m n : ℕ) (intervals : List Box2) (tol : ℚ)
    (hsh : t.shape = [m, n]) (hm : 1 ≤ m) (hn : 1 ≤ n)
    (hiv : ∀ I ∈ intervals, I.1.1 ≤ I.2.1 ∧ I.1.2 ≤ I.2.2) :
    quadratic_check_nd2 t intervals tol = quadratic_check_2D t intervals tol := by
  simp only [quadratic_check_nd2, quadratic_check_2D]
  rw [if_neg (by rw [hsh]; simp)]
  refine List.map_congr_left (fun I hI => ?_)
  rw [extractNd2_eq_extract2 t m n hsh hm hn, ndOtherSum2_eq_otherSum2 t m n tol hsh hm hn]
  exact verdict2_eq (extract2 t) I (otherSum2 t tol) (hiv I hI).1 (hiv I hI).2

/-! ### C2 transfer layer, dimension 3. -/

theorem evalNd3_eq_eval3 (c : QuadCoeffs3) (x y z : ℚ) : evalNd3 c x y z = eval3 c x y z := by
  unfold evalNd3 eval3
  ring

/-- Restriction of the 3-D quadratic to an `x`-constant face is a
two-variable quadratic in `(y,z)`. -/
theorem eval3_fix_x (c : QuadCoeffs3) (xc y z : ℚ) :
    eval3 c xc y z = q2 c.c8 c.c9 c.c6 (c.c2 + c.c4 * xc) (c.c3 + c.c5 * xc)
      (c.c0 - c.c7 - c.c8 - c.c9 + c.c1 * xc + 2 * c.c7 * xc ^ 2) y z := by
  unfold eval3 q2
  ring

/-- Restriction of the 3-D quadratic to a `y`-constant face is a
two-variable quadratic in `(x,z)`. -/
theorem eval3_fix_y (c : QuadCoeffs3) (yc x z : ℚ) :
    eval3 c x yc z = q2 c.c7 c.c9 c.c5 (c.c1 + c.c4 * yc) (c.c3 + c.c6 * yc)
      (c.c0 - c.c7 - c.c8 - c.c9 + c.c2 * yc + 2 * c.c8 * yc ^ 2) x z := by
  unfold eval3 q2
  ring

/-- Restriction of the 3-D quadratic to a `z`-constant face is a
two-variable quadratic in `(x,y)`. -/
theorem eval3_fix_z (c : QuadCoeffs3) (zc x y : ℚ) :
    eval3 c x y zc = q2 c.c7 c.c8 c.c4 (c.c1 + c.c5 * zc) (c.c2 + c.c6 * zc)
      (c.c0 - c.c7 - c.c8 - c.c9 + c.c3 * zc + 2 * c.c9 * zc ^ 2) x y := by
  unfold eval3 q2
  ring

/-- On a genuine 3-dimensional shape the two extraction paths agree. -/
theorem extractNd3_eq_extract3 (t : NDTensor) (m n p : ℕ) (hsh : t.shape = [m, n, p])
    (hm : 1 ≤ m) (hn : 1 ≤ n) (hp : 1 ≤ p) : extractNd3 t = extract3 t := by
  have hm' : 0 < m := hm
  have hn' : 0 < n := hn
  have hp' : 0 < p := hp
  unfold extractNd3 extract3 peDim3
  rw [hsh]
  simp only [List.headD_cons, List.drop_succ_cons, List.drop_zero]
  simp only [QuadCoeffs3.mk.injEq]
  refine ⟨?_, ?_, ?_, ?_, ?_, ?_, ?_, ?_, ?_, ?_⟩
  · rw [if_pos ⟨hm', hn', hp'⟩]
  · by_cases h : 1 < m <;> simp [h, hn', hp']
  · by_cases h : 1 < n <;> simp [h, hm', hp']
  · by_cases h : 1 < p <;> simp [h, hm', hn']
  · by_cases h1 : 1 < m <;> by_cases h2 : 1 < n <;> simp [h1, h2, hp']
  · by_cases h1 : 1 < m <;> by_cases h2 : 1 < p <;> simp [h1, h2, hn']
  · by_cases h1 : 1 < n <;> by_cases h2 : 1 < p <;> simp [h1, h2, hm']
  · by_cases h : 2 < m <;> simp [h, hn', hp']
  · by_cases h : 2 < n <;> simp [h, hm', hp']
  · by_cases h : 2 < p <;> simp [h, hm', hn']

/-- On a genuine 3-dimensional shape the two `other_sum` computations agree. -/
theorem ndOtherSum3_eq_otherSum3 (t : NDTensor) (m n p : ℕ) (tol : ℚ)
    (hsh : t.shape = [m, n, p]) (hm : 1 ≤ m) (hn : 1 ≤ n) (hp : 1 ≤ p) :
    ndOtherSum3 t tol = otherSum3 t tol := by
  have hpe : ∀ i j k, peDim3 t i j k =
      if i < m ∧ j < n ∧ k < p then t.entry [i, j, k] else 0 := by
    intro i j k
    unfold peDim3
    rw [hsh]
    simp only [List.headD_cons, List.drop_succ_cons, List.drop_zero]
  unfold ndOtherSum3 otherSum3
  rw [hsh, absSum_three]
  simp only [List.headD_cons, List.drop_succ_cons, List.drop_zero]
  have hsplit : ∀ i j k : ℕ, |if i + j + k ≤ 2 then (0 : ℚ) else peDim3 t i j k| =
      |peDim3 t i j k| - (if i + j + k ≤ 2 then |peDim3 t i j k| else 0) := by
    intro i j k
    by_cases h : i + j + k ≤ 2 <;> simp [h]
  have hTot : (∑ i ∈ Finset.range (max m 3), ∑ j ∈ Finset.range (max n 3),
      ∑ k ∈ Finset.range (max p 3), |peDim3 t i j k|) =
        ∑ i ∈ Finset.range m, ∑ j ∈ Finset.range n, ∑ k ∈ Finset.range p,
          |t.entry [i, j, k]| := by
    rw [← Finset.sum_subset (Finset.range_subset.mpr (le_max_left m 3))
      (fun i _ hi => Finset.sum_eq_zero (fun j _ => Finset.sum_eq_zero (fun k _ => by
        rw [hpe, if_neg, abs_zero]
        rintro ⟨him, -⟩
        exact hi (Finset.mem_range.mpr him))))]
    refine Finset.sum_congr rfl (fun i hi => ?_)
    rw [← Finset.sum_subset (Finset.range_subset.mpr (le_max_left n 3))
      (fun j _ hj => Finset.sum_eq_zero (fun k _ => by
        rw [hpe, if_neg, abs_zero]
        rintro ⟨-, hjn, -⟩
        exact hj (Finset.mem_range.mpr hjn)))]
    refine Finset.sum_congr rfl (fun j hj => ?_)
    rw [← Finset.sum_subset (Finset.range_subset.mpr (le_max_left p 3))
      (fun k _ hk => by
        rw [hpe, if_neg, abs_zero]
        rintro ⟨-, -, hkp⟩
        exact hk (Finset.mem_range.mpr hkp))]
    refine Finset.sum_congr rfl (fun k hk => ?_)
    rw [hpe, if_pos ⟨Finset.mem_range.mp hi, Finset.mem_range.mp hj, Finset.mem_range.mp hk⟩]
  have hTen : (∑ i ∈ Finset.range (max m 3), ∑ j ∈ Finset.range (max n 3),
      ∑ k ∈ Finset.range (max p 3), (if i + j + k ≤ 2 then |peDim3 t i j k| else 0)) =
        absC3 (extract3 t) := by
    rw [← Finset.sum_subset (Finset.range_subset.mpr (le_max_right m 3))
      (fun i _ hi => Finset.sum_eq_zero (fun j _ => Finset.sum_eq_zero (fun k _ => by
        rw [if_neg]
        have : 3 ≤ i := le_of_not_lt (fun h => hi (Finset.mem_range.mpr h))
        omega)))]
    have hinner : ∀ i ∈ Finset.range 3, (∑ j ∈ Finset.range (max n 3),
        ∑ k ∈ Finset.range (max p 3), (if i + j + k ≤ 2 then |peDim3 t i j k| else 0)) =
          ∑ j ∈ Finset.range 3, ∑ k ∈ Finset.range 3,
            (if i + j + k ≤ 2 then |peDim3 t i j k| else 0) := by
      intro i _
      rw [← Finset.sum_subset (Finset.range_subset.mpr (le_max_right n 3))
        (fun j _ hj => Finset.sum_eq_zero (fun k _ => by
          rw [if_neg]
          have : 3 ≤ j := le_of_not_lt (fun h => hj (Finset.mem_range.mpr h))
          omega))]
      refine Finset.sum_congr rfl (fun j _ => ?_)
      rw [← Finset.sum_subset (Finset.range_subset.mpr (le_max_right p 3))
        (fun k _ hk => by
          rw [if_neg]
          have : 3 ≤ k := le_of_not_lt (fun h => hk (Finset.mem_range.mpr h))
          omega)]
    rw [Finset.sum_congr rfl hinner]
    rw [← extractNd3_eq_extract3 t m n p hsh hm hn hp]
    unfold absC3 extractNd3
    norm_num [Finset.sum_range_succ]
    ring
  calc (∑ i ∈ Finset.range (max m 3), ∑ j ∈ Finset.range (max n 3),
          ∑ k ∈ Finset.range (max p 3),
            |if i + j + k ≤ 2 then (0 : ℚ) else peDim3 t i j k|) + tol
      = (∑ i ∈ Finset.range (max m 3), ∑ j ∈ Finset.range (max n 3),
          ∑ k ∈ Finset.range (max p 3), |peDim3 t i j k|)
          - (∑ i ∈ Finset.range (max m 3), ∑ j ∈ Finset.range (max n 3),
              ∑ k ∈ Finset.range (max p 3),
                (if i + j + k ≤ 2 then |peDim3 t i j k| else 0)) + tol := by
        simp only [hsplit, Finset.sum_sub_distrib]
    _ = (∑ i ∈ Finset.range m, ∑ j ∈ Finset.range n, ∑ k ∈ Finset.range p,
          |t.entry [i, j, k]|) - absC3 (extract3 t) + tol := by rw [hTot, hTen]

theorem mem_cand3D_corner (c : QuadCoeffs3) (I : Box3) (xc yc zc : ℚ)
    (hx : xc = I.1.1 ∨ xc = I.2.1) (hy : yc = I.1.2.1 ∨ yc = I.2.2.1)
    (hz : zc = I.1.2.2 ∨ zc = I.2.2.2) :
    eval3 c xc yc zc ∈ cand3D c I := by
  unfold cand3D
  rcases hx with h | h <;> rcases hy with h' | h' <;> rcases hz with h'' | h'' <;>
    subst h <;> subst h' <;> subst h'' <;> simp [List.mem_append]

theorem mem_cand3D_zvertex (c : QuadCoeffs3) (I : Box3) (xc yc : ℚ)
    (hx : xc = I.1.1 ∨ xc = I.2.1) (hy : yc = I.1.2.1 ∨ yc = I.2.2.1)
    (h9 : c.c9 ≠ 0)
    (h0 : I.1.2.2 < -((c.c5 * xc + c.c3) + c.c6 * yc) / (4 * c.c9))
    (h1 : -((c.c5 * xc + c.c3) + c.c6 * yc) / (4 * c.c9) < I.2.2.2) :
    eval3 c xc yc (-((c.c5 * xc + c.c3) + c.c6 * yc) / (4 * c.c9)) ∈ cand3D c I := by
  simp only [cand3D]
  refine List.mem_append.mpr (Or.inl (List.mem_append.mpr (Or.inl (List.mem_append.mpr
    (Or.inl (List.mem_append.mpr (Or.inl (List.mem_append.mpr (Or.inl (List.mem_append.mpr
      (Or.inl (List.mem_append.mpr (Or.inr ?_)))))))))))))
  rw [if_pos h9]
  rcases hx with h | h <;> rcases hy with h' | h' <;> subst h <;> subst h'
  · exact List.mem_append.mpr (Or.inl (List.mem_append.mpr (Or.inl (List.mem_append.mpr
      (Or.inl (by rw [if_pos ⟨h0, h1⟩]; exact List.mem_singleton.mpr rfl))))))
  · exact List.mem_append.mpr (Or.inl (List.mem_append.mpr (Or.inl (List.mem_append.mpr
      (Or.inr (by rw [if_pos ⟨h0, h1⟩]; exact List.mem_singleton.mpr rfl))))))
  · exact List.mem_append.mpr (Or.inl (List.mem_append.mpr (Or.inr
      (by rw [if_pos ⟨h0, h1⟩]; exact List.mem_singleton.mpr rfl))))
  · exact List.mem_append.mpr (Or.inr (by rw [if_pos ⟨h0, h1⟩]; exact List.mem_singleton.mpr rfl))

theorem mem_cand3D_yvertex (c : QuadCoeffs3) (I : Box3) (xc zc : ℚ)
    (hx : xc = I.1.1 ∨ xc = I.2.1) (hz : zc = I.1.2.2 ∨ zc = I.2.2.2)
    (h8 : c.c8 ≠ 0)
    (h0 : I.1.2.1 < -((c.c2 + c.c4 * xc) + c.c6 * zc) / (4 * c.c8))
    (h1 : -((c.c2 + c.c4 * xc) + c.c6 * zc) / (4 * c.c8) < I.2.2.1) :
    eval3 c xc (-((c.c2 + c.c4 * xc) + c.c6 * zc) / (4 * c.c8)) zc ∈ cand3D c I := by
  simp only [cand3D]
  refine List.mem_append.mpr (Or.inl (List.mem_append.mpr (Or.inl (List.mem_append.mpr
    (Or.inl (List.mem_append.mpr (Or.inl (List.mem_append.mpr (Or.inl (List.mem_append.mpr
      (Or.inr ?_)))))))))))
  rw [if_pos h8]
  rcases hx with h | h <;> rcases hz with h' | h' <;> subst h <;> subst h'
  · exact List.mem_append.mpr (Or.inl (List.mem_append.mpr (Or.inl (List.mem_append.mpr
      (Or.inl (by rw [if_pos ⟨h0, h1⟩]; exact List.mem_singleton.mpr rfl))))))
  · exact List.mem_append.mpr (Or.inl (List.mem_append.mpr (Or.inl (List.mem_append.mpr
      (Or.inr (by rw [if_pos ⟨h0, h1⟩]; exact List.mem_singleton.mpr rfl))))))
  · exact List.mem_append.mpr (Or.inl (List.mem_append.mpr (Or.inr
      (by rw [if_pos ⟨h0, h1⟩]; exact List.mem_singleton.mpr rfl))))
  · exact List.mem_append.mpr (Or.inr (by rw [if_pos ⟨h0, h1⟩]; exact List.mem_singleton.mpr rfl))

theorem mem_cand3D_xvertex (c : QuadCoeffs3) (I : Box3) (yc zc : ℚ)
    (hy : yc = I.1.2.1 ∨ yc = I.2.2.1) (hz : zc = I.1.2.2 ∨ zc = I.2.2.2)
    (h7 : c.c7 ≠ 0)
    (h0 : I.1.1 < -((c.c1 + c.c4 * yc) + c.c5 * zc) / (4 * c.c7))
    (h1 : -((c.c1 + c.c4 * yc) + c.c5 * zc) / (4 * c.c7) < I.2.1) :
    eval3 c (-((c.c1 + c.c4 * yc) + c.c5 * zc) / (4 * c.c7)) yc zc ∈ cand3D c I := by
  simp only [cand3D]
  refine List.mem_append.mpr (Or.inl (List.mem_append.mpr (Or.inl (List.mem_append.mpr
    (Or.inl (List.mem_append.mpr (Or.inl (List.mem_append.mpr (Or.inr ?_)))))))))
  rw [if_pos h7]
  rcases hy with h | h <;> rcases hz with h' | h' <;> subst h <;> subst h'
  · exact List.mem_append.mpr (Or.inl (List.mem_append.mpr (Or.inl (List.mem_append.mpr
      (Or.inl (by rw [if_pos ⟨h0, h1⟩]; exact List.mem_singleton.mpr rfl))))))
  · exact List.mem_append.mpr (Or.inl (List.mem_append.mpr (Or.inl (List.mem_append.mpr
      (Or.inr (by rw [if_pos ⟨h0, h1⟩]; exact List.mem_singleton.mpr rfl))))))
  · exact List.mem_append.mpr (Or.inl (List.mem_append.mpr (Or.inr
      (by rw [if_pos ⟨h0, h1⟩]; exact List.mem_singleton.mpr rfl))))
  · exact List.mem_append.mpr (Or.inr (by rw [if_pos ⟨h0, h1⟩]; exact List.mem_singleton.mpr rfl))

theorem mem_cand3D_facex (c : QuadCoeffs3) (I : Box3) (xc : ℚ)
    (hx : xc = I.1.1 ∨ xc = I.2.1) (hdet : fixXDet c ≠ 0)
    (h0 : I.1.2.1 < (-(4 * c.c9) * (c.c2 + c.c4 * xc) + c.c6 * (c.c3 + c.c5 * xc)) / fixXDet c)
    (h1 : (-(4 * c.c9) * (c.c2 + c.c4 * xc) + c.c6 * (c.c3 + c.c5 * xc)) / fixXDet c < I.2.2.1)
    (h2 : I.1.2.2 < (c.c6 * (c.c2 + c.c4 * xc) - (4 * c.c8) * (c.c3 + c.c5 * xc)) / fixXDet c)
    (h3 : (c.c6 * (c.c2 + c.c4 * xc) - (4 * c.c8) * (c.c3 + c.c5 * xc)) / fixXDet c < I.2.2.2) :
    eval3 c xc ((-(4 * c.c9) * (c.c2 + c.c4 * xc) + c.c6 * (c.c3 + c.c5 * xc)) / fixXDet c)
      ((c.c6 * (c.c2 + c.c4 * xc) - (4 * c.c8) * (c.c3 + c.c5 * xc)) / fixXDet c) ∈
        cand3D c I := by
  simp only [cand3D]
  refine List.mem_append.mpr (Or.inl (List.mem_append.mpr (Or.inl (List.mem_append.mpr
    (Or.inl (List.mem_append.mpr (Or.inr ?_)))))))
  rw [if_pos hdet]
  rcases hx with h | h <;> subst h
  · exact List.mem_append.mpr (Or.inl (by rw [if_pos ⟨h0, h1, h2, h3⟩]; exact List.mem_singleton.mpr rfl))
  · exact List.mem_append.mpr (Or.inr (by rw [if_pos ⟨h0, h1, h2, h3⟩]; exact List.mem_singleton.mpr rfl))

theorem mem_cand3D_facey (c : QuadCoeffs3) (I : Box3) (yc : ℚ)
    (hy : yc = I.1.2.1 ∨ yc = I.2.2.1) (hdet : fixYDet c ≠ 0)
    (h0 : I.1.1 < (-(4 * c.c9) * (c.c1 + c.c4 * yc) + c.c5 * (c.c3 + c.c6 * yc)) / fixYDet c)
    (h1 : (-(4 * c.c9) * (c.c1 + c.c4 * yc) + c.c5 * (c.c3 + c.c6 * yc)) / fixYDet c < I.2.1)
    (h2 : I.1.2.2 < (c.c5 * (c.c1 + c.c4 * yc) - (4 * c.c7) * (c.c3 + c.c6 * yc)) / fixYDet c)
    (h3 : (c.c5 * (c.c1 + c.c4 * yc) - (4 * c.c7) * (c.c3 + c.c6 * yc)) / fixYDet c < I.2.2.2) :
    eval3 c ((-(4 * c.c9) * (c.c1 + c.c4 * yc) + c.c5 * (c.c3 + c.c6 * yc)) / fixYDet c) yc
      ((c.c5 * (c.c1 + c.c4 * yc) - (4 * c.c7) * (c.c3 + c.c6 * yc)) / fixYDet c) ∈
        cand3D c I := by
  simp only [cand3D]
  refine List.mem_append.mpr (Or.inl (List.mem_append.mpr (Or.inl (List.mem_append.mpr
    (Or.inr ?_)))))
  rw [if_pos hdet]
  rcases hy with h | h <;> subst h
  · exact List.mem_append.mpr (Or.inl (by rw [if_pos ⟨h0, h1, h2, h3⟩]; exact List.mem_singleton.mpr rfl))
  · exact List.mem_append.mpr (Or.inr (by rw [if_pos ⟨h0, h1, h2, h3⟩]; exact List.mem_singleton.mpr rfl))

theorem mem_cand3D_facez (c : QuadCoeffs3) (I : Box3) (zc : ℚ)
    (hz : zc = I.1.2.2 ∨ zc = I.2.2.2) (hdet : fixZDet c ≠ 0)
    (h0 : I.1.1 < (-(4 * c.c8) * (c.c1 + c.c5 * zc) + c.c4 * (c.c2 + c.c6 * zc)) / fixZDet c)
    (h1 : (-(4 * c.c8) * (c.c1 + c.c5 * zc) + c.c4 * (c.c2 + c.c6 * zc)) / fixZDet c < I.2.1)
    (h2 : I.1.2.1 < (c.c4 * (c.c1 + c.c5 * zc) - (4 * c.c7) * (c.c2 + c.c6 * zc)) / fixZDet c)
    (h3 : (c.c4 * (c.c1 + c.c5 * zc) - (4 * c.c7) * (c.c2 + c.c6 * zc)) / fixZDet c < I.2.2.1) :
    eval3 c ((-(4 * c.c8) * (c.c1 + c.c5 * zc) + c.c4 * (c.c2 + c.c6 * zc)) / fixZDet c)
      ((c.c4 * (c.c1 + c.c5 * zc) - (4 * c.c7) * (c.c2 + c.c6 * zc)) / fixZDet c) zc ∈
        cand3D c I := by
  simp only [cand3D]
  refine List.mem_append.mpr (Or.inl (List.mem_append.mpr (Or.inr ?_)))
  rw [if_pos hdet]
  rcases hz with h | h <;> subst h
  · exact List.mem_append.mpr (Or.inl (by rw [if_pos ⟨h0, h1, h2, h3⟩]; exact List.mem_singleton.mpr rfl))
  · exact List.mem_append.mpr (Or.inr (by rw [if_pos ⟨h0, h1, h2, h3⟩]; exact List.mem_singleton.mpr rfl))

theorem mem_cand3D_interior (c : QuadCoeffs3) (I : Box3) (hdet : det3D c ≠ 0)
    (h0 : I.1.1 < (c.c1 * (-fixXDet c) + c.c2 * minor12 c + c.c3 * (-minor13 c)) / det3D c)
    (h1 : (c.c1 * (-fixXDet c) + c.c2 * minor12 c + c.c3 * (-minor13 c)) / det3D c < I.2.1)
    (h2 : I.1.2.1 < (c.c1 * minor12 c + c.c2 * (-fixYDet c) + c.c3 * minor23 c) / det3D c)
    (h3 : (c.c1 * minor12 c + c.c2 * (-fixYDet c) + c.c3 * minor23 c) / det3D c < I.2.2.1)
    (h4 : I.1.2.2 < (c.c1 * (-minor13 c) + c.c2 * minor23 c + c.c3 * (-fixZDet c)) / det3D c)
    (h5 : (c.c1 * (-minor13 c) + c.c2 * minor23 c + c.c3 * (-fixZDet c)) / det3D c < I.2.2.2) :
    eval3 c ((c.c1 * (-fixXDet c) + c.c2 * minor12 c + c.c3 * (-minor13 c)) / det3D c)
      ((c.c1 * minor12 c + c.c2 * (-fixYDet c) + c.c3 * minor23 c) / det3D c)
      ((c.c1 * (-minor13 c) + c.c2 * minor23 c + c.c3 * (-fixZDet c)) / det3D c) ∈
        cand3D c I := by
  simp only [cand3D]
  refine List.mem_append.mpr (Or.inr ?_)
  rw [if_pos hdet, if_pos ⟨h0, h1, h2, h3, h4, h5⟩]
  exact List.mem_singleton.mpr rfl

theorem mem_candNd3_corner (c : QuadCoeffs3) (I : Box3) (xc yc zc : ℚ)
    (hx : xc = I.1.1 ∨ xc = I.2.1) (hy : yc = I.1.2.1 ∨ yc = I.2.2.1)
    (hz : zc = I.1.2.2 ∨ zc = I.2.2.2) :
    evalNd3 c xc yc zc ∈ candNd3 c I := by
  unfold candNd3
  rcases hx with h | h <;> rcases hy with h' | h' <;> rcases hz with h'' | h'' <;>
    subst h <;> subst h' <;> subst h'' <;> simp [List.mem_append]

theorem mem_candNd3_zvertex (c : QuadCoeffs3) (I : Box3) (xc yc : ℚ)
    (hx : xc = I.1.1 ∨ xc = I.2.1) (hy : yc = I.1.2.1 ∨ yc = I.2.2.1)
    (h9 : 4 * c.c9 ≠ 0)
    (h0 : I.1.2.2 ≤ (-c.c3 - (c.c5 * xc + c.c6 * yc)) / (4 * c.c9))
    (h1 : (-c.c3 - (c.c5 * xc + c.c6 * yc)) / (4 * c.c9) ≤ I.2.2.2) :
    evalNd3 c xc yc ((-c.c3 - (c.c5 * xc + c.c6 * yc)) / (4 * c.c9)) ∈ candNd3 c I := by
  simp only [candNd3]
  refine List.mem_append.mpr (Or.inl (List.mem_append.mpr (Or.inl (List.mem_append.mpr
    (Or.inl (List.mem_append.mpr (Or.inl (List.mem_append.mpr (Or.inl (List.mem_append.mpr
      (Or.inl (List.mem_append.mpr (Or.inr ?_)))))))))))))
  rw [if_pos h9]
  rcases hx with h | h <;> rcases hy with h' | h' <;> subst h <;> subst h'
  · exact List.mem_append.mpr (Or.inl (List.mem_append.mpr (Or.inl (List.mem_append.mpr
      (Or.inl (by rw [if_pos ⟨h0, h1⟩]; exact List.mem_singleton.mpr rfl))))))
  · exact List.mem_append.mpr (Or.inl (List.mem_append.mpr (Or.inl (List.mem_append.mpr
      (Or.inr (by rw [if_pos ⟨h0, h1⟩]; exact List.mem_singleton.mpr rfl))))))
  · exact List.mem_append.mpr (Or.inl (List.mem_append.mpr (Or.inr
      (by rw [if_pos ⟨h0, h1⟩]; exact List.mem_singleton.mpr rfl))))
  · exact List.mem_append.mpr (Or.inr (by rw [if_pos ⟨h0, h1⟩]; exact List.mem_singleton.mpr rfl))

theorem mem_candNd3_yvertex (c : QuadCoeffs3) (I : Box3) (xc zc : ℚ)
    (hx : xc = I.1.1 ∨ xc = I.2.1) (hz : zc = I.1.2.2 ∨ zc = I.2.2.2)
    (h8 : 4 * c.c8 ≠ 0)
    (h0 : I.1.2.1 ≤ (-c.c2 - (c.c4 * xc + c.c6 * zc)) / (4 * c.c8))
    (h1 : (-c.c2 - (c.c4 * xc + c.c6 * zc)) / (4 * c.c8) ≤ I.2.2.1) :
    evalNd3 c xc ((-c.c2 - (c.c4 * xc + c.c6 * zc)) / (4 * c.c8)) zc ∈ candNd3 c I := by
  simp only [candNd3]
  refine List.mem_append.mpr (Or.inl (List.mem_append.mpr (Or.inl (List.mem_append.mpr
    (Or.inl (List.mem_append.mpr (Or.inl (List.mem_append.mpr (Or.inl (List.mem_append.mpr
      (Or.inr ?_)))))))))))
  rw [if_pos h8]
  rcases hx with h | h <;> rcases hz with h' | h' <;> subst h <;> subst h'
  · exact List.mem_append.mpr (Or.inl (List.mem_append.mpr (Or.inl (List.mem_append.mpr
      (Or.inl (by rw [if_pos ⟨h0, h1⟩]; exact List.mem_singleton.mpr rfl))))))
  · exact List.mem_append.mpr (Or.inl (List.mem_append.mpr (Or.inl (List.mem_append.mpr
      (Or.inr (by rw [if_pos ⟨h0, h1⟩]; exact List.mem_singleton.mpr rfl))))))
  · exact List.mem_append.mpr (Or.inl (List.mem_append.mpr (Or.inr
      (by rw [if_pos ⟨h0, h1⟩]; exact List.mem_singleton.mpr rfl))))
  · exact List.mem_append.mpr (Or.inr (by rw [if_pos ⟨h0, h1⟩]; exact List.mem_singleton.mpr rfl))

theorem mem_candNd3_xvertex (c : QuadCoeffs3) (I : Box3) (yc zc : ℚ)
    (hy : yc = I.1.2.1 ∨ yc = I.2.2.1) (hz : zc = I.1.2.2 ∨ zc = I.2.2.2)
    (h7 : 4 * c.c7 ≠ 0)
    (h0 : I.1.1 ≤ (-c.c1 - (c.c4 * yc + c.c5 * zc)) / (4 * c.c7))
    (h1 : (-c.c1 - (c.c4 * yc + c.c5 * zc)) / (4 * c.c7) ≤ I.2.1) :
    evalNd3 c ((-c.c1 - (c.c4 * yc + c.c5 * zc)) / (4 * c.c7)) yc zc ∈ candNd3 c I := by
  simp only [candNd3]
  refine List.mem_append.mpr (Or.inl (List.mem_append.mpr (Or.inl (List.mem_append.mpr
    (Or.inl (List.mem_append.mpr (Or.inl (List.mem_append.mpr (Or.inr ?_)))))))))
  rw [if_pos h7]
  rcases hy with h | h <;> rcases hz with h' | h' <;> subst h <;> subst h'
  · exact List.mem_append.mpr (Or.inl (List.mem_append.mpr (Or.inl (List.mem_append.mpr
      (Or.inl (by rw [if_pos ⟨h0, h1⟩]; exact List.mem_singleton.mpr rfl))))))
  · exact List.mem_append.mpr (Or.inl (List.mem_append.mpr (Or.inl (List.mem_append.mpr
      (Or.inr (by rw [if_pos ⟨h0, h1⟩]; exact List.mem_singleton.mpr rfl))))))
  · exact List.mem_append.mpr (Or.inl (List.mem_append.mpr (Or.inr
      (by rw [if_pos ⟨h0, h1⟩]; exact List.mem_singleton.mpr rfl))))
  · exact List.mem_append.mpr (Or.inr (by rw [if_pos ⟨h0, h1⟩]; exact List.mem_singleton.mpr rfl))

theorem mem_candNd3_facex (c : QuadCoeffs3) (I : Box3) (xc : ℚ)
    (hx : xc = I.1.1 ∨ xc = I.2.1)
    (hsgn : ¬((4 * c.c8) * (4 * c.c9) < 0)) (hdet : fixXDet c ≠ 0)
    (h0 : I.1.2.1 ≤ ((-c.c2 - c.c4 * xc) * (4 * c.c9) - c.c6 * (-c.c3 - c.c5 * xc)) / fixXDet c)
    (h1 : ((-c.c2 - c.c4 * xc) * (4 * c.c9) - c.c6 * (-c.c3 - c.c5 * xc)) / fixXDet c ≤ I.2.2.1)
    (h2 : I.1.2.2 ≤ ((4 * c.c8) * (-c.c3 - c.c5 * xc) - (-c.c2 - c.c4 * xc) * c.c6) / fixXDet c)
    (h3 : ((4 * c.c8) * (-c.c3 - c.c5 * xc) - (-c.c2 - c.c4 * xc) * c.c6) / fixXDet c ≤ I.2.2.2) :
    evalNd3 c xc
      (((-c.c2 - c.c4 * xc) * (4 * c.c9) - c.c6 * (-c.c3 - c.c5 * xc)) / fixXDet c)
      (((4 * c.c8) * (-c.c3 - c.c5 * xc) - (-c.c2 - c.c4 * xc) * c.c6) / fixXDet c) ∈
        candNd3 c I := by
  simp only [candNd3]
  refine List.mem_append.mpr (Or.inl (List.mem_append.mpr (Or.inl (List.mem_append.mpr
    (Or.inl (List.mem_append.mpr (Or.inr ?_)))))))
  rw [if_pos ⟨hsgn, hdet⟩]
  rcases hx with h | h <;> subst h
  · exact List.mem_append.mpr (Or.inl (by rw [if_pos ⟨h0, h1, h2, h3⟩]; exact List.mem_singleton.mpr rfl))
  · exact List.mem_append.mpr (Or.inr (by rw [if_pos ⟨h0, h1, h2, h3⟩]; exact List.mem_singleton.mpr rfl))

theorem mem_candNd3_facey (c : QuadCoeffs3) (I : Box3) (yc : ℚ)
    (hy : yc = I.1.2.1 ∨ yc = I.2.2.1)
    (hsgn : ¬((4 * c.c7) * (4 * c.c9) < 0)) (hdet : fixYDet c ≠ 0)
    (h0 : I.1.1 ≤ ((-c.c1 - c.c4 * yc) * (4 * c.c9) - c.c5 * (-c.c3 - c.c6 * yc)) / fixYDet c)
    (h1 : ((-c.c1 - c.c4 * yc) * (4 * c.c9) - c.c5 * (-c.c3 - c.c6 * yc)) / fixYDet c ≤ I.2.1)
    (h2 : I.1.2.2 ≤ ((4 * c.c7) * (-c.c3 - c.c6 * yc) - (-c.c1 - c.c4 * yc) * c.c5) / fixYDet c)
    (h3 : ((4 * c.c7) * (-c.c3 - c.c6 * yc) - (-c.c1 - c.c4 * yc) * c.c5) / fixYDet c ≤ I.2.2.2) :
    evalNd3 c
      (((-c.c1 - c.c4 * yc) * (4 * c.c9) - c.c5 * (-c.c3 - c.c6 * yc)) / fixYDet c) yc
      (((4 * c.c7) * (-c.c3 - c.c6 * yc) - (-c.c1 - c.c4 * yc) * c.c5) / fixYDet c) ∈
        candNd3 c I := by
  simp only [candNd3]
  refine List.mem_append.mpr (Or.inl (List.mem_append.mpr (Or.inl (List.mem_append.mpr
    (Or.inr ?_)))))
  rw [if_pos ⟨hsgn, hdet⟩]
  rcases hy with h | h <;> subst h
  · exact List.mem_append.mpr (Or.inl (by rw [if_pos ⟨h0, h1, h2, h3⟩]; exact List.mem_singleton.mpr rfl))
  · exact List.mem_append.mpr (Or.inr (by rw [if_pos ⟨h0, h1, h2, h3⟩]; exact List.mem_singleton.mpr rfl))

theorem mem_candNd3_facez (c : QuadCoeffs3) (I : Box3) (zc : ℚ)
    (hz : zc = I.1.2.2 ∨ zc = I.2.2.2)
    (hsgn : ¬((4 * c.c7) * (4 * c.c8) < 0)) (hdet : fixZDet c ≠ 0)
    (h0 : I.1.1 ≤ ((-c.c1 - c.c5 * zc) * (4 * c.c8) - c.c4 * (-c.c2 - c.c6 * zc)) / fixZDet c)
    (h1 : ((-c.c1 - c.c5 * zc) * (4 * c.c8) - c.c4 * (-c.c2 - c.c6 * zc)) / fixZDet c ≤ I.2.1)
    (h2 : I.1.2.1 ≤ ((4 * c.c7) * (-c.c2 - c.c6 * zc) - (-c.c1 - c.c5 * zc) * c.c4) / fixZDet c)
    (h3 : ((4 * c.c7) * (-c.c2 - c.c6 * zc) - (-c.c1 - c.c5 * zc) * c.c4) / fixZDet c ≤ I.2.2.1) :
    evalNd3 c
      (((-c.c1 - c.c5 * zc) * (4 * c.c8) - c.c4 * (-c.c2 - c.c6 * zc)) / fixZDet c)
      (((4 * c.c7) * (-c.c2 - c.c6 * zc) - (-c.c1 - c.c5 * zc) * c.c4) / fixZDet c) zc ∈
        candNd3 c I := by
  simp only [candNd3]
  refine List.mem_append.mpr (Or.inl (List.mem_append.mpr (Or.inr ?_)))
  rw [if_pos ⟨hsgn, hdet⟩]
  rcases hz with h | h <;> subst h
  · exact List.mem_append.mpr (Or.inl (by rw [if_pos ⟨h0, h1, h2, h3⟩]; exact List.mem_singleton.mpr rfl))
  · exact List.mem_append.mpr (Or.inr (by rw [if_pos ⟨h0, h1, h2, h3⟩]; exact List.mem_singleton.mpr rfl))

theorem mem_candNd3_interior (c : QuadCoeffs3) (I : Box3)
    (hsgn1 : ¬(c.c7 * c.c8 < 0)) (hsgn2 : ¬(c.c8 * c.c9 < 0)) (hdet : detNd3 c ≠ 0)
    (h0 : I.1.1 ≤ ((-c.c1) * ((4 * c.c8) * (4 * c.c9) - c.c6 ^ 2) -
        c.c4 * ((-c.c2) * (4 * c.c9) - c.c6 * (-c.c3)) +
        c.c5 * ((-c.c2) * c.c6 - (4 * c.c8) * (-c.c3))) / detNd3 c)
    (h1 : ((-c.c1) * ((4 * c.c8) * (4 * c.c9) - c.c6 ^ 2) -
        c.c4 * ((-c.c2) * (4 * c.c9) - c.c6 * (-c.c3)) +
        c.c5 * ((-c.c2) * c.c6 - (4 * c.c8) * (-c.c3))) / detNd3 c ≤ I.2.1)
    (h2 : I.1.2.1 ≤ ((4 * c.c7) * ((-c.c2) * (4 * c.c9) - c.c6 * (-c.c3)) -
        (-c.c1) * (c.c4 * (4 * c.c9) - c.c6 * c.c5) +
        c.c5 * (c.c4 * (-c.c3) - (-c.c2) * c.c5)) / detNd3 c)
    (h3 : ((4 * c.c7) * ((-c.c2) * (4 * c.c9) - c.c6 * (-c.c3)) -
        (-c.c1) * (c.c4 * (4 * c.c9) - c.c6 * c.c5) +
        c.c5 * (c.c4 * (-c.c3) - (-c.c2) * c.c5)) / detNd3 c ≤ I.2.2.1)
    (h4 : I.1.2.2 ≤ ((4 * c.c7) * ((4 * c.c8) * (-c.c3) - (-c.c2) * c.c6) -
        c.c4 * (c.c4 * (-c.c3) - (-c.c2) * c.c5) +
        (-c.c1) * (c.c4 * c.c6 - (4 * c.c8) * c.c5)) / detNd3 c)
    (h5 : ((4 * c.c7) * ((4 * c.c8) * (-c.c3) - (-c.c2) * c.c6) -
        c.c4 * (c.c4 * (-c.c3) - (-c.c2) * c.c5) +
        (-c.c1) * (c.c4 * c.c6 - (4 * c.c8) * c.c5)) / detNd3 c ≤ I.2.2.2) :
    evalNd3 c
      (((-c.c1) * ((4 * c.c8) * (4 * c.c9) - c.c6 ^ 2) -
        c.c4 * ((-c.c2) * (4 * c.c9) - c.c6 * (-c.c3)) +
        c.c5 * ((-c.c2) * c.c6 - (4 * c.c8) * (-c.c3))) / detNd3 c)
      (((4 * c.c7) * ((-c.c2) * (4 * c.c9) - c.c6 * (-c.c3)) -
        (-c.c1) * (c.c4 * (4 * c.c9) - c.c6 * c.c5) +
        c.c5 * (c.c4 * (-c.c3) - (-c.c2) * c.c5)) / detNd3 c)
      (((4 * c.c7) * ((4 * c.c8) * (-c.c3) - (-c.c2) * c.c6) -
        c.c4 * (c.c4 * (-c.c3) - (-c.c2) * c.c5) +
        (-c.c1) * (c.c4 * c.c6 - (4 * c.c8) * c.c5)) / detNd3 c) ∈ candNd3 c I := by
  simp only [candNd3]
  refine List.mem_append.mpr (Or.inr ?_)
  rw [if_pos ⟨hsgn1, hsgn2, hdet⟩, if_pos ⟨h0, h1, h2, h3, h4, h5⟩]
  exact List.mem_singleton.mpr rfl

theorem fixXDet_conv (c : QuadCoeffs3) : fixXDet c = 16 * c.c8 * c.c9 - c.c6 ^ 2 := by
  unfold fixXDet
  ring

theorem fixYDet_conv (c : QuadCoeffs3) : fixYDet c = 16 * c.c7 * c.c9 - c.c5 ^ 2 := by
  unfold fixYDet
  ring

theorem fixZDet_conv (c : QuadCoeffs3) : fixZDet c = 16 * c.c7 * c.c8 - c.c4 ^ 2 := by
  unfold fixZDet
  ring

/-- A `z`-boundary critical point with closed containment is matched exactly
by a `cand3D` entry: the vertex itself when strictly inside, a corner when it
sits on the `z`-boundary. -/
theorem cand3D_zedge_pt (c : QuadCoeffs3) (I : Box3) (xc yc : ℚ)
    (hxc : xc = I.1.1 ∨ xc = I.2.1) (hyc : yc = I.1.2.1 ∨ yc = I.2.2.1)
    (h9 : c.c9 ≠ 0)
    (h0 : I.1.2.2 ≤ -((c.c5 * xc + c.c3) + c.c6 * yc) / (4 * c.c9))
    (h1 : -((c.c5 * xc + c.c3) + c.c6 * yc) / (4 * c.c9) ≤ I.2.2.2) :
    ∃ e ∈ cand3D c I, e = eval3 c xc yc (-((c.c5 * xc + c.c3) + c.c6 * yc) / (4 * c.c9)) := by
  rcases eq_or_lt_of_le h0 with he | h0'
  · exact ⟨eval3 c xc yc I.1.2.2, mem_cand3D_corner c I xc yc I.1.2.2 hxc hyc (Or.inl rfl),
      by rw [he]⟩
  · rcases eq_or_lt_of_le h1 with he | h1'
    · exact ⟨eval3 c xc yc I.2.2.2, mem_cand3D_corner c I xc yc I.2.2.2 hxc hyc (Or.inr rfl),
        by rw [← he]⟩
    · exact ⟨_, mem_cand3D_zvertex c I xc yc hxc hyc h9 h0' h1', rfl⟩

/-- A `y`-boundary critical point with closed containment is matched exactly
by a `cand3D` entry. -/
theorem cand3D_yedge_pt (c : QuadCoeffs3) (I : Box3) (xc zc : ℚ)
    (hxc : xc = I.1.1 ∨ xc = I.2.1) (hzc : zc = I.1.2.2 ∨ zc = I.2.2.2)
    (h8 : c.c8 ≠ 0)
    (h0 : I.1.2.1 ≤ -((c.c2 + c.c4 * xc) + c.c6 * zc) / (4 * c.c8))
    (h1 : -((c.c2 + c.c4 * xc) + c.c6 * zc) / (4 * c.c8) ≤ I.2.2.1) :
    ∃ e ∈ cand3D c I, e = eval3 c xc (-((c.c2 + c.c4 * xc) + c.c6 * zc) / (4 * c.c8)) zc := by
  rcases eq_or_lt_of_le h0 with he | h0'
  · exact ⟨eval3 c xc I.1.2.1 zc, mem_cand3D_corner c I xc I.1.2.1 zc hxc (Or.inl rfl) hzc,
      by rw [he]⟩
  · rcases eq_or_lt_of_le h1 with he | h1'
    · exact ⟨eval3 c xc I.2.2.1 zc, mem_cand3D_corner c I xc I.2.2.1 zc hxc (Or.inr rfl) hzc,
        by rw [← he]⟩
    · exact ⟨_, mem_cand3D_yvertex c I xc zc hxc hzc h8 h0' h1', rfl⟩

/-- An `x`-boundary critical point with closed containment is matched exactly
by a `cand3D` entry. -/
theorem cand3D_xedge_pt (c : QuadCoeffs3) (I : Box3) (yc zc : ℚ)
    (hyc : yc = I.1.2.1 ∨ yc = I.2.2.1) (hzc : zc = I.1.2.2 ∨ zc = I.2.2.2)
    (h7 : c.c7 ≠ 0)
    (h0 : I.1.1 ≤ -((c.c1 + c.c4 * yc) + c.c5 * zc) / (4 * c.c7))
    (h1 : -((c.c1 + c.c4 * yc) + c.c5 * zc) / (4 * c.c7) ≤ I.2.1) :
    ∃ e ∈ cand3D c I, e = eval3 c (-((c.c1 + c.c4 * yc) + c.c5 * zc) / (4 * c.c7)) yc zc := by
  rcases eq_or_lt_of_le h0 with he | h0'
  · exact ⟨eval3 c I.1.1 yc zc, mem_cand3D_corner c I I.1.1 yc zc (Or.inl rfl) hyc hzc,
      by rw [he]⟩
  · rcases eq_or_lt_of_le h1 with he | h1'
    · exact ⟨eval3 c I.2.1 yc zc, mem_cand3D_corner c I I.2.1 yc zc (Or.inr rfl) hyc hzc,
        by rw [← he]⟩
    · exact ⟨_, mem_cand3D_xvertex c I yc zc hyc hzc h7 h0' h1', rfl⟩

/-- Any point of an `x`-constant face of the box is dominated from below by a
`cand3D` entry: the face slice is a two-variable quadratic, and each
candidate of its enumeration descends into the 3-D list. -/
theorem cand3D_facex_min (c : QuadCoeffs3) (I : Box3) (xc v w : ℚ)
    (hxc : xc = I.1.1 ∨ xc = I.2.1)
    (hv0 : I.1.2.1 ≤ v) (hv1 : v ≤ I.2.2.1) (hw0 : I.1.2.2 ≤ w) (hw1 : w ≤ I.2.2.2) :
    ∃ e ∈ cand3D c I, e ≤ eval3 c xc v w := by
  have hq : ∀ y z : ℚ, q2 c.c8 c.c9 c.c6 (c.c2 + c.c4 * xc) (c.c3 + c.c5 * xc)
      (c.c0 - c.c7 - c.c8 - c.c9 + c.c1 * xc + 2 * c.c7 * xc ^ 2) y z = eval3 c xc y z :=
    fun y z => (eval3_fix_x c xc y z).symm
  have h := md2_min c.c8 c.c9 c.c6 (c.c2 + c.c4 * xc) (c.c3 + c.c5 * xc)
    (c.c0 - c.c7 - c.c8 - c.c9 + c.c1 * xc + 2 * c.c7 * xc ^ 2)
    I.1.2.1 I.2.2.1 I.1.2.2 I.2.2.2 v w hv0 hv1 hw0 hw1
  rw [hq v w] at h
  rcases h with ⟨a_, ha, b_, hb, hval⟩ | ⟨a_, ha, h9, h0, h1, hval⟩ |
    ⟨b_, hb, h8, h0, h1, hval⟩ | ⟨h8, h9, hD, h0, h1, h2, h3, hval⟩
  · simp only [List.mem_cons, List.mem_singleton, List.not_mem_nil, or_false] at ha hb
    rw [hq] at hval
    exact ⟨eval3 c xc a_ b_, mem_cand3D_corner c I xc a_ b_ hxc ha hb, hval⟩
  · simp only [List.mem_cons, List.mem_singleton, List.not_mem_nil, or_false] at ha
    rw [hq] at hval
    have hconv : -((c.c3 + c.c5 * xc) + c.c6 * a_) / (4 * c.c9) =
        -((c.c5 * xc + c.c3) + c.c6 * a_) / (4 * c.c9) := by ring
    rw [hconv] at h0 h1 hval
    obtain ⟨e, he, hev⟩ := cand3D_zedge_pt c I xc a_ hxc ha h9 h0 h1
    exact ⟨e, he, by rw [hev]; exact hval⟩
  · simp only [List.mem_cons, List.mem_singleton, List.not_mem_nil, or_false] at hb
    rw [hq] at hval
    obtain ⟨e, he, hev⟩ := cand3D_yedge_pt c I xc b_ hxc hb h8 h0 h1
    exact ⟨e, he, by rw [hev]; exact hval⟩
  · rw [hq] at hval
    have h8ne : c.c8 ≠ 0 := ne_of_gt h8
    have h9ne : c.c9 ≠ 0 := ne_of_gt h9
    rcases eq_or_lt_of_le h0 with hb0 | hs0
    · -- the face critical point sits on the low-`y` edge
      have hidz : ((c.c2 + c.c4 * xc) * c.c6 - 4 * (c.c3 + c.c5 * xc) * c.c8) /
            (16 * c.c8 * c.c9 - c.c6 ^ 2) =
          -((c.c5 * xc + c.c3) + c.c6 * I.1.2.1) / (4 * c.c9) := by
        rw [hb0]
        field_simp
        ring
      rw [hidz] at h2 h3 hval
      rw [← hb0] at hval
      obtain ⟨e, he, hev⟩ := cand3D_zedge_pt c I xc I.1.2.1 hxc (Or.inl rfl) h9ne h2 h3
      exact ⟨e, he, by rw [hev]; exact hval⟩
    · rcases eq_or_lt_of_le h1 with hb1 | hs1
      · -- on the high-`y` edge
        have hidz : ((c.c2 + c.c4 * xc) * c.c6 - 4 * (c.c3 + c.c5 * xc) * c.c8) /
              (16 * c.c8 * c.c9 - c.c6 ^ 2) =
            -((c.c5 * xc + c.c3) + c.c6 * I.2.2.1) / (4 * c.c9) := by
          rw [← hb1]
          field_simp
          ring
        rw [hidz] at h2 h3 hval
        rw [hb1] at hval
        obtain ⟨e, he, hev⟩ := cand3D_zedge_pt c I xc I.2.2.1 hxc (Or.inr rfl) h9ne h2 h3
        exact ⟨e, he, by rw [hev]; exact hval⟩
      · rcases eq_or_lt_of_le h2 with hb2 | hs2
        · -- on the low-`z` edge
          have hidy : ((c.c3 + c.c5 * xc) * c.c6 - 4 * (c.c2 + c.c4 * xc) * c.c9) /
                (16 * c.c8 * c.c9 - c.c6 ^ 2) =
              -((c.c2 + c.c4 * xc) + c.c6 * I.1.2.2) / (4 * c.c8) := by
            rw [hb2]
            field_simp
            ring
          rw [hidy] at hs0 hs1 hval
          rw [← hb2] at hval
          obtain ⟨e, he, hev⟩ := cand3D_yedge_pt c I xc I.1.2.2 hxc (Or.inl rfl) h8ne
            hs0.le hs1.le
          exact ⟨e, he, by rw [hev]; exact hval⟩
        · rcases eq_or_lt_of_le h3 with hb3 | hs3
          · -- on the high-`z` edge
            have hidy : ((c.c3 + c.c5 * xc) * c.c6 - 4 * (c.c2 + c.c4 * xc) * c.c9) /
                  (16 * c.c8 * c.c9 - c.c6 ^ 2) =
                -((c.c2 + c.c4 * xc) + c.c6 * I.2.2.2) / (4 * c.c8) := by
              rw [← hb3]
              field_simp
              ring
            rw [hidy] at hs0 hs1 hval
            rw [hb3] at hval
            obtain ⟨e, he, hev⟩ := cand3D_yedge_pt c I xc I.2.2.2 hxc (Or.inr rfl) h8ne
              hs0.le hs1.le
            exact ⟨e, he, by rw [hev]; exact hval⟩
          · -- strictly inside the face
            have hyconv : ((c.c3 + c.c5 * xc) * c.c6 - 4 * (c.c2 + c.c4 * xc) * c.c9) /
                  (16 * c.c8 * c.c9 - c.c6 ^ 2) =
                (-(4 * c.c9) * (c.c2 + c.c4 * xc) + c.c6 * (c.c3 + c.c5 * xc)) /
                  fixXDet c := by
              rw [fixXDet_conv]
              ring
            have hzconv : ((c.c2 + c.c4 * xc) * c.c6 - 4 * (c.c3 + c.c5 * xc) * c.c8) /
                  (16 * c.c8 * c.c9 - c.c6 ^ 2) =
                (c.c6 * (c.c2 + c.c4 * xc) - (4 * c.c8) * (c.c3 + c.c5 * xc)) /
                  fixXDet c := by
              rw [fixXDet_conv]
              ring
            rw [hyconv] at hs0 hs1 hval
            rw [hzconv] at hs2 hs3 hval
            exact ⟨_, mem_cand3D_facex c I xc hxc (by rw [fixXDet_conv]; exact hD)
              hs0 hs1 hs2 hs3, hval⟩

/-- Any point of an `x`-constant face of the box is dominated from above by a
`cand3D` entry. -/
theorem cand3D_facex_max (c : QuadCoeffs3) (I : Box3) (xc v w : ℚ)
    (hxc : xc = I.1.1 ∨ xc = I.2.1)
    (hv0 : I.1.2.1 ≤ v) (hv1 : v ≤ I.2.2.1) (hw0 : I.1.2.2 ≤ w) (hw1 : w ≤ I.2.2.2) :
    ∃ e ∈ cand3D c I, eval3 c xc v w ≤ e := by
  have hq : ∀ y z : ℚ, q2 c.c8 c.c9 c.c6 (c.c2 + c.c4 * xc) (c.c3 + c.c5 * xc)
      (c.c0 - c.c7 - c.c8 - c.c9 + c.c1 * xc + 2 * c.c7 * xc ^ 2) y z = eval3 c xc y z :=
    fun y z => (eval3_fix_x c xc y z).symm
  have h := md2_max c.c8 c.c9 c.c6 (c.c2 + c.c4 * xc) (c.c3 + c.c5 * xc)
    (c.c0 - c.c7 - c.c8 - c.c9 + c.c1 * xc + 2 * c.c7 * xc ^ 2)
    I.1.2.1 I.2.2.1 I.1.2.2 I.2.2.2 v w hv0 hv1 hw0 hw1
  rw [hq v w] at h
  rcases h with ⟨a_, ha, b_, hb, hval⟩ | ⟨a_, ha, h9, h0, h1, hval⟩ |
    ⟨b_, hb, h8, h0, h1, hval⟩ | ⟨h8, h9, hD, h0, h1, h2, h3, hval⟩
  · simp only [List.mem_cons, List.mem_singleton, List.not_mem_nil, or_false] at ha hb
    rw [hq] at hval
    exact ⟨eval3 c xc a_ b_, mem_cand3D_corner c I xc a_ b_ hxc ha hb, hval⟩
  · simp only [List.mem_cons, List.mem_singleton, List.not_mem_nil, or_false] at ha
    rw [hq] at hval
    have hconv : -((c.c3 + c.c5 * xc) + c.c6 * a_) / (4 * c.c9) =
        -((c.c5 * xc + c.c3) + c.c6 * a_) / (4 * c.c9) := by ring
    rw [hconv] at h0 h1 hval
    obtain ⟨e, he, hev⟩ := cand3D_zedge_pt c I xc a_ hxc ha h9 h0 h1
    exact ⟨e, he, by rw [hev]; exact hval⟩
  · simp only [List.mem_cons, List.mem_singleton, List.not_mem_nil, or_false] at hb
    rw [hq] at hval
    obtain ⟨e, he, hev⟩ := cand3D_yedge_pt c I xc b_ hxc hb h8 h0 h1
    exact ⟨e, he, by rw [hev]; exact hval⟩
  · rw [hq] at hval
    have h8ne : c.c8 ≠ 0 := ne_of_lt h8
    have h9ne : c.c9 ≠ 0 := ne_of_lt h9
    rcases eq_or_lt_of_le h0 with hb0 | hs0
    · have hidz : ((c.c2 + c.c4 * xc) * c.c6 - 4 * (c.c3 + c.c5 * xc) * c.c8) /
            (16 * c.c8 * c.c9 - c.c6 ^ 2) =
          -((c.c5 * xc + c.c3) + c.c6 * I.1.2.1) / (4 * c.c9) := by
        rw [hb0]
        field_simp
        ring
      rw [hidz] at h2 h3 hval
      rw [← hb0] at hval
      obtain ⟨e, he, hev⟩ := cand3D_zedge_pt c I xc I.1.2.1 hxc (Or.inl rfl) h9ne h2 h3
      exact ⟨e, he, by rw [hev]; exact hval⟩
    · rcases eq_or_lt_of_le h1 with hb1 | hs1
      · have hidz : ((c.c2 + c.c4 * xc) * c.c6 - 4 * (c.c3 + c.c5 * xc) * c.c8) /
              (16 * c.c8 * c.c9 - c.c6 ^ 2) =
            -((c.c5 * xc + c.c3) + c.c6 * I.2.2.1) / (4 * c.c9) := by
          rw [← hb1]
          field_simp
          ring
        rw [hidz] at h2 h3 hval
        rw [hb1] at hval
        obtain ⟨e, he, hev⟩ := cand3D_zedge_pt c I xc I.2.2.1 hxc (Or.inr rfl) h9ne h2 h3
        exact ⟨e, he, by rw [hev]; exact hval⟩
      · rcases eq_or_lt_of_le h2 with hb2 | hs2
        · have hidy : ((c.c3 + c.c5 * xc) * c.c6 - 4 * (c.c2 + c.c4 * xc) * c.c9) /
                (16 * c.c8 * c.c9 - c.c6 ^ 2) =
              -((c.c2 + c.c4 * xc) + c.c6 * I.1.2.2) / (4 * c.c8) := by
            rw [hb2]
            field_simp
            ring
          rw [hidy] at hs0 hs1 hval
          rw [← hb2] at hval
          obtain ⟨e, he, hev⟩ := cand3D_yedge_pt c I xc I.1.2.2 hxc (Or.inl rfl) h8ne
            hs0.le hs1.le
          exact ⟨e, he, by rw [hev]; exact hval⟩
        · rcases eq_or_lt_of_le h3 with hb3 | hs3
          · have hidy : ((c.c3 + c.c5 * xc) * c.c6 - 4 * (c.c2 + c.c4 * xc) * c.c9) /
                  (16 * c.c8 * c.c9 - c.c6 ^ 2) =
                -((c.c2 + c.c4 * xc) + c.c6 * I.2.2.2) / (4 * c.c8) := by
              rw [← hb3]
              field_simp
              ring
            rw [hidy] at hs0 hs1 hval
            rw [hb3] at hval
            obtain ⟨e, he, hev⟩ := cand3D_yedge_pt c I xc I.2.2.2 hxc (Or.inr rfl) h8ne
              hs0.le hs1.le
            exact ⟨e, he, by rw [hev]; exact hval⟩
          · have hyconv : ((c.c3 + c.c5 * xc) * c.c6 - 4 * (c.c2 + c.c4 * xc) * c.c9) /
                  (16 * c.c8 * c.c9 - c.c6 ^ 2) =
                (-(4 * c.c9) * (c.c2 + c.c4 * xc) + c.c6 * (c.c3 + c.c5 * xc)) /
                  fixXDet c := by
              rw [fixXDet_conv]
              ring
            have hzconv : ((c.c2 + c.c4 * xc) * c.c6 - 4 * (c.c3 + c.c5 * xc) * c.c8) /
                  (16 * c.c8 * c.c9 - c.c6 ^ 2) =
                (c.c6 * (c.c2 + c.c4 * xc) - (4 * c.c8) * (c.c3 + c.c5 * xc)) /
                  fixXDet c := by
              rw [fixXDet_conv]
              ring
            rw [hyconv] at hs0 hs1 hval
            rw [hzconv] at hs2 hs3 hval
            exact ⟨_, mem_cand3D_facex c I xc hxc (by rw [fixXDet_conv]; exact hD)
              hs0 hs1 hs2 hs3, hval⟩

/-- Any point of a `y`-constant face of the box is dominated from below by a
`cand3D` entry. -/
theorem cand3D_facey_min (c : QuadCoeffs3) (I : Box3) (yc v w : ℚ)
    (hyc : yc = I.1.2.1 ∨ yc = I.2.2.1)
    (hv0 : I.1.1 ≤ v) (hv1 : v ≤ I.2.1) (hw0 : I.1.2.2 ≤ w) (hw1 : w ≤ I.2.2.2) :
    ∃ e ∈ cand3D c I, e ≤ eval3 c v yc w := by
  have hq : ∀ x z : ℚ, q2 c.c7 c.c9 c.c5 (c.c1 + c.c4 * yc) (c.c3 + c.c6 * yc)
      (c.c0 - c.c7 - c.c8 - c.c9 + c.c2 * yc + 2 * c.c8 * yc ^ 2) x z = eval3 c x yc z :=
    fun x z => (eval3_fix_y c yc x z).symm
  have h := md2_min c.c7 c.c9 c.c5 (c.c1 + c.c4 * yc) (c.c3 + c.c6 * yc)
    (c.c0 - c.c7 - c.c8 - c.c9 + c.c2 * yc + 2 * c.c8 * yc ^ 2)
    I.1.1 I.2.1 I.1.2.2 I.2.2.2 v w hv0 hv1 hw0 hw1
  rw [hq v w] at h
  rcases h with ⟨a_, ha, b_, hb, hval⟩ | ⟨a_, ha, h9, h0, h1, hval⟩ |
    ⟨b_, hb, h7, h0, h1, hval⟩ | ⟨h7, h9, hD, h0, h1, h2, h3, hval⟩
  · simp only [List.mem_cons, List.mem_singleton, List.not_mem_nil, or_false] at ha hb
    rw [hq] at hval
    exact ⟨eval3 c a_ yc b_, mem_cand3D_corner c I a_ yc b_ ha hyc hb, hval⟩
  · simp only [List.mem_cons, List.mem_singleton, List.not_mem_nil, or_false] at ha
    rw [hq] at hval
    have hconv : -((c.c3 + c.c6 * yc) + c.c5 * a_) / (4 * c.c9) =
        -((c.c5 * a_ + c.c3) + c.c6 * yc) / (4 * c.c9) := by ring
    rw [hconv] at h0 h1 hval
    obtain ⟨e, he, hev⟩ := cand3D_zedge_pt c I a_ yc ha hyc h9 h0 h1
    exact ⟨e, he, by rw [hev]; exact hval⟩
  · simp only [List.mem_cons, List.mem_singleton, List.not_mem_nil, or_false] at hb
    rw [hq] at hval
    obtain ⟨e, he, hev⟩ := cand3D_xedge_pt c I yc b_ hyc hb h7 h0 h1
    exact ⟨e, he, by rw [hev]; exact hval⟩
  · rw [hq] at hval
    have h7ne : c.c7 ≠ 0 := ne_of_gt h7
    have h9ne : c.c9 ≠ 0 := ne_of_gt h9
    rcases eq_or_lt_of_le h0 with hb0 | hs0
    · have hidz : ((c.c1 + c.c4 * yc) * c.c5 - 4 * (c.c3 + c.c6 * yc) * c.c7) /
            (16 * c.c7 * c.c9 - c.c5 ^ 2) =
          -((c.c5 * I.1.1 + c.c3) + c.c6 * yc) / (4 * c.c9) := by
        rw [hb0]
        field_simp
        ring
      rw [hidz] at h2 h3 hval
      rw [← hb0] at hval
      obtain ⟨e, he, hev⟩ := cand3D_zedge_pt c I I.1.1 yc (Or.inl rfl) hyc h9ne h2 h3
      exact ⟨e, he, by rw [hev]; exact hval⟩
    · rcases eq_or_lt_of_le h1 with hb1 | hs1
      · have hidz : ((c.c1 + c.c4 * yc) * c.c5 - 4 * (c.c3 + c.c6 * yc) * c.c7) /
              (16 * c.c7 * c.c9 - c.c5 ^ 2) =
            -((c.c5 * I.2.1 + c.c3) + c.c6 * yc) / (4 * c.c9) := by
          rw [← hb1]
          field_simp
          ring
        rw [hidz] at h2 h3 hval
        rw [hb1] at hval
        obtain ⟨e, he, hev⟩ := cand3D_zedge_pt c I I.2.1 yc (Or.inr rfl) hyc h9ne h2 h3
        exact ⟨e, he, by rw [hev]; exact hval⟩
      · rcases eq_or_lt_of_le h2 with hb2 | hs2
        · have hidx : ((c.c3 + c.c6 * yc) * c.c5 - 4 * (c.c1 + c.c4 * yc) * c.c9) /
                (16 * c.c7 * c.c9 - c.c5 ^ 2) =
              -((c.c1 + c.c4 * yc) + c.c5 * I.1.2.2) / (4 * c.c7) := by
            rw [hb2]
            field_simp
            ring
          rw [hidx] at hs0 hs1 hval
          rw [← hb2] at hval
          obtain ⟨e, he, hev⟩ := cand3D_xedge_pt c I yc I.1.2.2 hyc (Or.inl rfl) h7ne
            hs0.le hs1.le
          exact ⟨e, he, by rw [hev]; exact hval⟩
        · rcases eq_or_lt_of_le h3 with hb3 | hs3
          · have hidx : ((c.c3 + c.c6 * yc) * c.c5 - 4 * (c.c1 + c.c4 * yc) * c.c9) /
                  (16 * c.c7 * c.c9 - c.c5 ^ 2) =
                -((c.c1 + c.c4 * yc) + c.c5 * I.2.2.2) / (4 * c.c7) := by
              rw [← hb3]
              field_simp
              ring
            rw [hidx] at hs0 hs1 hval
            rw [hb3] at hval
            obtain ⟨e, he, hev⟩ := cand3D_xedge_pt c I yc I.2.2.2 hyc (Or.inr rfl) h7ne
              hs0.le hs1.le
            exact ⟨e, he, by rw [hev]; exact hval⟩
          · have hxconv : ((c.c3 + c.c6 * yc) * c.c5 - 4 * (c.c1 + c.c4 * yc) * c.c9) /
                  (16 * c.c7 * c.c9 - c.c5 ^ 2) =
                (-(4 * c.c9) * (c.c1 + c.c4 * yc) + c.c5 * (c.c3 + c.c6 * yc)) /
                  fixYDet c := by
              rw [fixYDet_conv]
              ring
            have hzconv : ((c.c1 + c.c4 * yc) * c.c5 - 4 * (c.c3 + c.c6 * yc) * c.c7) /
                  (16 * c.c7 * c.c9 - c.c5 ^ 2) =
                (c.c5 * (c.c1 + c.c4 * yc) - (4 * c.c7) * (c.c3 + c.c6 * yc)) /
                  fixYDet c := by
              rw [fixYDet_conv]
              ring
            rw [hxconv] at hs0 hs1 hval
            rw [hzconv] at hs2 hs3 hval
            exact ⟨_, mem_cand3D_facey c I yc hyc (by rw [fixYDet_conv]; exact hD)
              hs0 hs1 hs2 hs3, hval⟩

/-- Any point of a `y`-constant face of the box is dominated from above by a
`cand3D` entry. -/
theorem cand3D_facey_max (c : QuadCoeffs3) (I : Box3) (yc v w : ℚ)
    (hyc : yc = I.1.2.1 ∨ yc = I.2.2.1)
    (hv0 : I.1.1 ≤ v) (hv1 : v ≤ I.2.1) (hw0 : I.1.2.2 ≤ w) (hw1 : w ≤ I.2.2.2) :
    ∃ e ∈ cand3D c I, eval3 c v yc w ≤ e := by
  have hq : ∀ x z : ℚ, q2 c.c7 c.c9 c.c5 (c.c1 + c.c4 * yc) (c.c3 + c.c6 * yc)
      (c.c0 - c.c7 - c.c8 - c.c9 + c.c2 * yc + 2 * c.c8 * yc ^ 2) x z = eval3 c x yc z :=
    fun x z => (eval3_fix_y c yc x z).symm
  have h := md2_max c.c7 c.c9 c.c5 (c.c1 + c.c4 * yc) (c.c3 + c.c6 * yc)
    (c.c0 - c.c7 - c.c8 - c.c9 + c.c2 * yc + 2 * c.c8 * yc ^ 2)
    I.1.1 I.2.1 I.1.2.2 I.2.2.2 v w hv0 hv1 hw0 hw1
  rw [hq v w] at h
  rcases h with ⟨a_, ha, b_, hb, hval⟩ | ⟨a_, ha, h9, h0, h1, hval⟩ |
    ⟨b_, hb, h7, h0, h1, hval⟩ | ⟨h7, h9, hD, h0, h1, h2, h3, hval⟩
  · simp only [List.mem_cons, List.mem_singleton, List.not_mem_nil, or_false] at ha hb
    rw [hq] at hval
    exact ⟨eval3 c a_ yc b_, mem_cand3D_corner c I a_ yc b_ ha hyc hb, hval⟩
  · simp only [List.mem_cons, List.mem_singleton, List.not_mem_nil, or_false] at ha
    rw [hq] at hval
    have hconv : -((c.c3 + c.c6 * yc) + c.c5 * a_) / (4 * c.c9) =
        -((c.c5 * a_ + c.c3) + c.c6 * yc) / (4 * c.c9) := by ring
    rw [hconv] at h0 h1 hval
    obtain ⟨e, he, hev⟩ := cand3D_zedge_pt c I a_ yc ha hyc h9 h0 h1
    exact ⟨e, he, by rw [hev]; exact hval⟩
  · simp only [List.mem_cons, List.mem_singleton, List.not_mem_nil, or_false] at hb
    rw [hq] at hval
    obtain ⟨e, he, hev⟩ := cand3D_xedge_pt c I yc b_ hyc hb h7 h0 h1
    exact ⟨e, he, by rw [hev]; exact hval⟩
  · rw [hq] at hval
    have h7ne : c.c7 ≠ 0 := ne_of_lt h7
    have h9ne : c.c9 ≠ 0 := ne_of_lt h9
    rcases eq_or_lt_of_le h0 with hb0 | hs0
    · have hidz : ((c.c1 + c.c4 * yc) * c.c5 - 4 * (c.c3 + c.c6 * yc) * c.c7) /
            (16 * c.c7 * c.c9 - c.c5 ^ 2) =
          -((c.c5 * I.1.1 + c.c3) + c.c6 * yc) / (4 * c.c9) := by
        rw [hb0]
        field_simp
        ring
      rw [hidz] at h2 h3 hval
      rw [← hb0] at hval
      obtain ⟨e, he, hev⟩ := cand3D_zedge_pt c I I.1.1 yc (Or.inl rfl) hyc h9ne h2 h3
      exact ⟨e, he, by rw [hev]; exact hval⟩
    · rcases eq_or_lt_of_le h1 with hb1 | hs1
      · have hidz : ((c.c1 + c.c4 * yc) * c.c5 - 4 * (c.c3 + c.c6 * yc) * c.c7) /
              (16 * c.c7 * c.c9 - c.c5 ^ 2) =
            -((c.c5 * I.2.1 + c.c3) + c.c6 * yc) / (4 * c.c9) := by
          rw [← hb1]
          field_simp
          ring
        rw [hidz] at h2 h3 hval
        rw [hb1] at hval
        obtain ⟨e, he, hev⟩ := cand3D_zedge_pt c I I.2.1 yc (Or.inr rfl) hyc h9ne h2 h3
        exact ⟨e, he, by rw [hev]; exact hval⟩
      · rcases eq_or_lt_of_le h2 with hb2 | hs2
        · have hidx : ((c.c3 + c.c6 * yc) * c.c5 - 4 * (c.c1 + c.c4 * yc) * c.c9) /
                (16 * c.c7 * c.c9 - c.c5 ^ 2) =
              -((c.c1 + c.c4 * yc) + c.c5 * I.1.2.2) / (4 * c.c7) := by
            rw [hb2]
            field_simp
            ring
          rw [hidx] at hs0 hs1 hval
          rw [← hb2] at hval
          obtain ⟨e, he, hev⟩ := cand3D_xedge_pt c I yc I.1.2.2 hyc (Or.inl rfl) h7ne
            hs0.le hs1.le
          exact ⟨e, he, by rw [hev]; exact hval⟩
        · rcases eq_or_lt_of_le h3 with hb3 | hs3
          · have hidx : ((c.c3 + c.c6 * yc) * c.c5 - 4 * (c.c1 + c.c4 * yc) * c.c9) /
                  (16 * c.c7 * c.c9 - c.c5 ^ 2) =
                -((c.c1 + c.c4 * yc) + c.c5 * I.2.2.2) / (4 * c.c7) := by
              rw [← hb3]
              field_simp
              ring
            rw [hidx] at hs0 hs1 hval
            rw [hb3] at hval
            obtain ⟨e, he, hev⟩ := cand3D_xedge_pt c I yc I.2.2.2 hyc (Or.inr rfl) h7ne
              hs0.le hs1.le
            exact ⟨e, he, by rw [hev]; exact hval⟩
          · have hxconv : ((c.c3 + c.c6 * yc) * c.c5 - 4 * (c.c1 + c.c4 * yc) * c.c9) /
                  (16 * c.c7 * c.c9 - c.c5 ^ 2) =
                (-(4 * c.c9) * (c.c1 + c.c4 * yc) + c.c5 * (c.c3 + c.c6 * yc)) /
                  fixYDet c := by
              rw [fixYDet_conv]
              ring
            have hzconv : ((c.c1 + c.c4 * yc) * c.c5 - 4 * (c.c3 + c.c6 * yc) * c.c7) /
                  (16 * c.c7 * c.c9 - c.c5 ^ 2) =
                (c.c5 * (c.c1 + c.c4 * yc) - (4 * c.c7) * (c.c3 + c.c6 * yc)) /
                  fixYDet c := by
              rw [fixYDet_conv]
              ring
            rw [hxconv] at hs0 hs1 hval
            rw [hzconv] at hs2 hs3 hval
            exact ⟨_, mem_cand3D_facey c I yc hyc (by rw [fixYDet_conv]; exact hD)
              hs0 hs1 hs2 hs3, hval⟩

/-- Any point of a `z`-constant face of the box is dominated from below by a
`cand3D` entry. -/
theorem cand3D_facez_min (c : QuadCoeffs3) (I : Box3) (zc v w : ℚ)
    (hzc : zc = I.1.2.2 ∨ zc = I.2.2.2)
    (hv0 : I.1.1 ≤ v) (hv1 : v ≤ I.2.1) (hw0 : I.1.2.1 ≤ w) (hw1 : w ≤ I.2.2.1) :
    ∃ e ∈ cand3D c I, e ≤ eval3 c v w zc := by
  have hq : ∀ x y : ℚ, q2 c.c7 c.c8 c.c4 (c.c1 + c.c5 * zc) (c.c2 + c.c6 * zc)
      (c.c0 - c.c7 - c.c8 - c.c9 + c.c3 * zc + 2 * c.c9 * zc ^ 2) x y = eval3 c x y zc :=
    fun x y => (eval3_fix_z c zc x y).symm
  have h := md2_min c.c7 c.c8 c.c4 (c.c1 + c.c5 * zc) (c.c2 + c.c6 * zc)
    (c.c0 - c.c7 - c.c8 - c.c9 + c.c3 * zc + 2 * c.c9 * zc ^ 2)
    I.1.1 I.2.1 I.1.2.1 I.2.2.1 v w hv0 hv1 hw0 hw1
  rw [hq v w] at h
  rcases h with ⟨a_, ha, b_, hb, hval⟩ | ⟨a_, ha, h8, h0, h1, hval⟩ |
    ⟨b_, hb, h7, h0, h1, hval⟩ | ⟨h7, h8, hD, h0, h1, h2, h3, hval⟩
  · simp only [List.mem_cons, List.mem_singleton, List.not_mem_nil, or_false] at ha hb
    rw [hq] at hval
    exact ⟨eval3 c a_ b_ zc, mem_cand3D_corner c I a_ b_ zc ha hb hzc, hval⟩
  · simp only [List.mem_cons, List.mem_singleton, List.not_mem_nil, or_false] at ha
    rw [hq] at hval
    have hconv : -((c.c2 + c.c6 * zc) + c.c4 * a_) / (4 * c.c8) =
        -((c.c2 + c.c4 * a_) + c.c6 * zc) / (4 * c.c8) := by ring
    rw [hconv] at h0 h1 hval
    obtain ⟨e, he, hev⟩ := cand3D_yedge_pt c I a_ zc ha hzc h8 h0 h1
    exact ⟨e, he, by rw [hev]; exact hval⟩
  · simp only [List.mem_cons, List.mem_singleton, List.not_mem_nil, or_false] at hb
    rw [hq] at hval
    have hconv : -((c.c1 + c.c5 * zc) + c.c4 * b_) / (4 * c.c7) =
        -((c.c1 + c.c4 * b_) + c.c5 * zc) / (4 * c.c7) := by ring
    rw [hconv] at h0 h1 hval
    obtain ⟨e, he, hev⟩ := cand3D_xedge_pt c I b_ zc hb hzc h7 h0 h1
    exact ⟨e, he, by rw [hev]; exact hval⟩
  · rw [hq] at hval
    have h7ne : c.c7 ≠ 0 := ne_of_gt h7
    have h8ne : c.c8 ≠ 0 := ne_of_gt h8
    rcases eq_or_lt_of_le h0 with hb0 | hs0
    · have hidy : ((c.c1 + c.c5 * zc) * c.c4 - 4 * (c.c2 + c.c6 * zc) * c.c7) /
            (16 * c.c7 * c.c8 - c.c4 ^ 2) =
          -((c.c2 + c.c4 * I.1.1) + c.c6 * zc) / (4 * c.c8) := by
        rw [hb0]
        field_simp
        ring
      rw [hidy] at h2 h3 hval
      rw [← hb0] at hval
      obtain ⟨e, he, hev⟩ := cand3D_yedge_pt c I I.1.1 zc (Or.inl rfl) hzc h8ne h2 h3
      exact ⟨e, he, by rw [hev]; exact hval⟩
    · rcases eq_or_lt_of_le h1 with hb1 | hs1
      · have hidy : ((c.c1 + c.c5 * zc) * c.c4 - 4 * (c.c2 + c.c6 * zc) * c.c7) /
              (16 * c.c7 * c.c8 - c.c4 ^ 2) =
            -((c.c2 + c.c4 * I.2.1) + c.c6 * zc) / (4 * c.c8) := by
          rw [← hb1]
          field_simp
          ring
        rw [hidy] at h2 h3 hval
        rw [hb1] at hval
        obtain ⟨e, he, hev⟩ := cand3D_yedge_pt c I I.2.1 zc (Or.inr rfl) hzc h8ne h2 h3
        exact ⟨e, he, by rw [hev]; exact hval⟩
      · rcases eq_or_lt_of_le h2 with hb2 | hs2
        · have hidx : ((c.c2 + c.c6 * zc) * c.c4 - 4 * (c.c1 + c.c5 * zc) * c.c8) /
                (16 * c.c7 * c.c8 - c.c4 ^ 2) =
              -((c.c1 + c.c4 * I.1.2.1) + c.c5 * zc) / (4 * c.c7) := by
            rw [hb2]
            field_simp
            ring
          rw [hidx] at hs0 hs1 hval
          rw [← hb2] at hval
          obtain ⟨e, he, hev⟩ := cand3D_xedge_pt c I I.1.2.1 zc (Or.inl rfl) hzc h7ne
            hs0.le hs1.le
          exact ⟨e, he, by rw [hev]; exact hval⟩
        · rcases eq_or_lt_of_le h3 with hb3 | hs3
          · have hidx : ((c.c2 + c.c6 * zc) * c.c4 - 4 * (c.c1 + c.c5 * zc) * c.c8) /
                  (16 * c.c7 * c.c8 - c.c4 ^ 2) =
                -((c.c1 + c.c4 * I.2.2.1) + c.c5 * zc) / (4 * c.c7) := by
              rw [← hb3]
              field_simp
              ring
            rw [hidx] at hs0 hs1 hval
            rw [hb3] at hval
            obtain ⟨e, he, hev⟩ := cand3D_xedge_pt c I I.2.2.1 zc (Or.inr rfl) hzc h7ne
              hs0.le hs1.le
            exact ⟨e, he, by rw [hev]; exact hval⟩
          · have hxconv : ((c.c2 + c.c6 * zc) * c.c4 - 4 * (c.c1 + c.c5 * zc) * c.c8) /
                  (16 * c.c7 * c.c8 - c.c4 ^ 2) =
                (-(4 * c.c8) * (c.c1 + c.c5 * zc) + c.c4 * (c.c2 + c.c6 * zc)) /
                  fixZDet c := by
              rw [fixZDet_conv]
              ring
            have hyconv : ((c.c1 + c.c5 * zc) * c.c4 - 4 * (c.c2 + c.c6 * zc) * c.c7) /
                  (16 * c.c7 * c.c8 - c.c4 ^ 2) =
                (c.c4 * (c.c1 + c.c5 * zc) - (4 * c.c7) * (c.c2 + c.c6 * zc)) /
                  fixZDet c := by
              rw [fixZDet_conv]
              ring
            rw [hxconv] at hs0 hs1 hval
            rw [hyconv] at hs2 hs3 hval
            exact ⟨_, mem_cand3D_facez c I zc hzc (by rw [fixZDet_conv]; exact hD)
              hs0 hs1 hs2 hs3, hval⟩

/-- Any point of a `z`-constant face of the box is dominated from above by a
`cand3D` entry. -/
theorem cand3D_facez_max (c : QuadCoeffs3) (I : Box3) (zc v w : ℚ)
    (hzc : zc = I.1.2.2 ∨ zc = I.2.2.2)
    (hv0 : I.1.1 ≤ v) (hv1 : v ≤ I.2.1) (hw0 : I.1.2.1 ≤ w) (hw1 : w ≤ I.2.2.1) :
    ∃ e ∈ cand3D c I, eval3 c v w zc ≤ e := by
  have hq : ∀ x y : ℚ, q2 c.c7 c.c8 c.c4 (c.c1 + c.c5 * zc) (c.c2 + c.c6 * zc)
      (c.c0 - c.c7 - c.c8 - c.c9 + c.c3 * zc + 2 * c.c9 * zc ^ 2) x y = eval3 c x y zc :=
    fun x y => (eval3_fix_z c zc x y).symm
  have h := md2_max c.c7 c.c8 c.c4 (c.c1 + c.c5 * zc) (c.c2 + c.c6 * zc)
    (c.c0 - c.c7 - c.c8 - c.c9 + c.c3 * zc + 2 * c.c9 * zc ^ 2)
    I.1.1 I.2.1 I.1.2.1 I.2.2.1 v w hv0 hv1 hw0 hw1
  rw [hq v w] at h
  rcases h with ⟨a_, ha, b_, hb, hval⟩ | ⟨a_, ha, h8, h0, h1, hval⟩ |
    ⟨b_, hb, h7, h0, h1, hval⟩ | ⟨h7, h8, hD, h0, h1, h2, h3, hval⟩
  · simp only [List.mem_cons, List.mem_singleton, List.not_mem_nil, or_false] at ha hb
    rw [hq] at hval
    exact ⟨eval3 c a_ b_ zc, mem_cand3D_corner c I a_ b_ zc ha hb hzc, hval⟩
  · simp only [List.mem_cons, List.mem_singleton, List.not_mem_nil, or_false] at ha
    rw [hq] at hval
    have hconv : -((c.c2 + c.c6 * zc) + c.c4 * a_) / (4 * c.c8) =
        -((c.c2 + c.c4 * a_) + c.c6 * zc) / (4 * c.c8) := by ring
    rw [hconv] at h0 h1 hval
    obtain ⟨e, he, hev⟩ := cand3D_yedge_pt c I a_ zc ha hzc h8 h0 h1
    exact ⟨e, he, by rw [hev]; exact hval⟩
  · simp only [List.mem_cons, List.mem_singleton, List.not_mem_nil, or_false] at hb
    rw [hq] at hval
    have hconv : -((c.c1 + c.c5 * zc) + c.c4 * b_) / (4 * c.c7) =
        -((c.c1 + c.c4 * b_) + c.c5 * zc) / (4 * c.c7) := by ring
    rw [hconv] at h0 h1 hval
    obtain ⟨e, he, hev⟩ := cand3D_xedge_pt c I b_ zc hb hzc h7 h0 h1
    exact ⟨e, he, by rw [hev]; exact hval⟩
  · rw [hq] at hval
    have h7ne : c.c7 ≠ 0 := ne_of_lt h7
    have h8ne : c.c8 ≠ 0 := ne_of_lt h8
    rcases eq_or_lt_of_le h0 with hb0 | hs0
    · have hidy : ((c.c1 + c.c5 * zc) * c.c4 - 4 * (c.c2 + c.c6 * zc) * c.c7) /
            (16 * c.c7 * c.c8 - c.c4 ^ 2) =
          -((c.c2 + c.c4 * I.1.1) + c.c6 * zc) / (4 * c.c8) := by
        rw [hb0]
        field_simp
        ring
      rw [hidy] at h2 h3 hval
      rw [← hb0] at hval
      obtain ⟨e, he, hev⟩ := cand3D_yedge_pt c I I.1.1 zc (Or.inl rfl) hzc h8ne h2 h3
      exact ⟨e, he, by rw [hev]; exact hval⟩
    · rcases eq_or_lt_of_le h1 with hb1 | hs1
      · have hidy : ((c.c1 + c.c5 * zc) * c.c4 - 4 * (c.c2 + c.c6 * zc) * c.c7) /
              (16 * c.c7 * c.c8 - c.c4 ^ 2) =
            -((c.c2 + c.c4 * I.2.1) + c.c6 * zc) / (4 * c.c8) := by
          rw [← hb1]
          field_simp
          ring
        rw [hidy] at h2 h3 hval
        rw [hb1] at hval
        obtain ⟨e, he, hev⟩ := cand3D_yedge_pt c I I.2.1 zc (Or.inr rfl) hzc h8ne h2 h3
        exact ⟨e, he, by rw [hev]; exact hval⟩
      · rcases eq_or_lt_of_le h2 with hb2 | hs2
        · have hidx : ((c.c2 + c.c6 * zc) * c.c4 - 4 * (c.c1 + c.c5 * zc) * c.c8) /
                (16 * c.c7 * c.c8 - c.c4 ^ 2) =
              -((c.c1 + c.c4 * I.1.2.1) + c.c5 * zc) / (4 * c.c7) := by
            rw [hb2]
            field_simp
            ring
          rw [hidx] at hs0 hs1 hval
          rw [← hb2] at hval
          obtain ⟨e, he, hev⟩ := cand3D_xedge_pt c I I.1.2.1 zc (Or.inl rfl) hzc h7ne
            hs0.le hs1.le
          exact ⟨e, he, by rw [hev]; exact hval⟩
        · rcases eq_or_lt_of_le h3 with hb3 | hs3
          · have hidx : ((c.c2 + c.c6 * zc) * c.c4 - 4 * (c.c1 + c.c5 * zc) * c.c8) /
                  (16 * c.c7 * c.c8 - c.c4 ^ 2) =
                -((c.c1 + c.c4 * I.2.2.1) + c.c5 * zc) / (4 * c.c7) := by
              rw [← hb3]
              field_simp
              ring
            rw [hidx] at hs0 hs1 hval
            rw [hb3] at hval
            obtain ⟨e, he, hev⟩ := cand3D_xedge_pt c I I.2.2.1 zc (Or.inr rfl) hzc h7ne
              hs0.le hs1.le
            exact ⟨e, he, by rw [hev]; exact hval⟩
          · have hxconv : ((c.c2 + c.c6 * zc) * c.c4 - 4 * (c.c1 + c.c5 * zc) * c.c8) /
                  (16 * c.c7 * c.c8 - c.c4 ^ 2) =
                (-(4 * c.c8) * (c.c1 + c.c5 * zc) + c.c4 * (c.c2 + c.c6 * zc)) /
                  fixZDet c := by
              rw [fixZDet_conv]
              ring
            have hyconv : ((c.c1 + c.c5 * zc) * c.c4 - 4 * (c.c2 + c.c6 * zc) * c.c7) /
                  (16 * c.c7 * c.c8 - c.c4 ^ 2) =
                (c.c4 * (c.c1 + c.c5 * zc) - (4 * c.c7) * (c.c2 + c.c6 * zc)) /
                  fixZDet c := by
              rw [fixZDet_conv]
              ring
            rw [hxconv] at hs0 hs1 hval
            rw [hyconv] at hs2 hs3 hval
            exact ⟨_, mem_cand3D_facez c I zc hzc (by rw [fixZDet_conv]; exact hD)
              hs0 hs1 hs2 hs3, hval⟩

/-- Any point of an `x`-constant face of the box is dominated from below by a
`candNd3` entry. -/
theorem candNd3_facex_min (c : QuadCoeffs3) (I : Box3) (xc v w : ℚ)
    (hxc : xc = I.1.1 ∨ xc = I.2.1)
    (hv0 : I.1.2.1 ≤ v) (hv1 : v ≤ I.2.2.1) (hw0 : I.1.2.2 ≤ w) (hw1 : w ≤ I.2.2.2) :
    ∃ e ∈ candNd3 c I, e ≤ eval3 c xc v w := by
  have hq : ∀ y z : ℚ, q2 c.c8 c.c9 c.c6 (c.c2 + c.c4 * xc) (c.c3 + c.c5 * xc)
      (c.c0 - c.c7 - c.c8 - c.c9 + c.c1 * xc + 2 * c.c7 * xc ^ 2) y z = eval3 c xc y z :=
    fun y z => (eval3_fix_x c xc y z).symm
  have h := md2_min c.c8 c.c9 c.c6 (c.c2 + c.c4 * xc) (c.c3 + c.c5 * xc)
    (c.c0 - c.c7 - c.c8 - c.c9 + c.c1 * xc + 2 * c.c7 * xc ^ 2)
    I.1.2.1 I.2.2.1 I.1.2.2 I.2.2.2 v w hv0 hv1 hw0 hw1
  rw [hq v w] at h
  rcases h with ⟨a_, ha, b_, hb, hval⟩ | ⟨a_, ha, h9, h0, h1, hval⟩ |
    ⟨b_, hb, h8, h0, h1, hval⟩ | ⟨h8, h9, hD, h0, h1, h2, h3, hval⟩
  · simp only [List.mem_cons, List.mem_singleton, List.not_mem_nil, or_false] at ha hb
    rw [hq] at hval
    exact ⟨evalNd3 c xc a_ b_, mem_candNd3_corner c I xc a_ b_ hxc ha hb,
      by rw [evalNd3_eq_eval3]; exact hval⟩
  · simp only [List.mem_cons, List.mem_singleton, List.not_mem_nil, or_false] at ha
    rw [hq] at hval
    have hconv : -((c.c3 + c.c5 * xc) + c.c6 * a_) / (4 * c.c9) =
        (-c.c3 - (c.c5 * xc + c.c6 * a_)) / (4 * c.c9) := by ring
    rw [hconv] at h0 h1 hval
    exact ⟨_, mem_candNd3_zvertex c I xc a_ hxc ha (mul_ne_zero (by norm_num) h9) h0 h1,
      by rw [evalNd3_eq_eval3]; exact hval⟩
  · simp only [List.mem_cons, List.mem_singleton, List.not_mem_nil, or_false] at hb
    rw [hq] at hval
    have hconv : -((c.c2 + c.c4 * xc) + c.c6 * b_) / (4 * c.c8) =
        (-c.c2 - (c.c4 * xc + c.c6 * b_)) / (4 * c.c8) := by ring
    rw [hconv] at h0 h1 hval
    exact ⟨_, mem_candNd3_yvertex c I xc b_ hxc hb (mul_ne_zero (by norm_num) h8) h0 h1,
      by rw [evalNd3_eq_eval3]; exact hval⟩
  · rw [hq] at hval
    have hyconv : ((c.c3 + c.c5 * xc) * c.c6 - 4 * (c.c2 + c.c4 * xc) * c.c9) /
          (16 * c.c8 * c.c9 - c.c6 ^ 2) =
        ((-c.c2 - c.c4 * xc) * (4 * c.c9) - c.c6 * (-c.c3 - c.c5 * xc)) / fixXDet c := by
      rw [fixXDet_conv]
      ring
    have hzconv : ((c.c2 + c.c4 * xc) * c.c6 - 4 * (c.c3 + c.c5 * xc) * c.c8) /
          (16 * c.c8 * c.c9 - c.c6 ^ 2) =
        ((4 * c.c8) * (-c.c3 - c.c5 * xc) - (-c.c2 - c.c4 * xc) * c.c6) / fixXDet c := by
      rw [fixXDet_conv]
      ring
    rw [hyconv] at h0 h1 hval
    rw [hzconv] at h2 h3 hval
    exact ⟨_, mem_candNd3_facex c I xc hxc (by nlinarith) (by rw [fixXDet_conv]; exact hD)
      h0 h1 h2 h3, by rw [evalNd3_eq_eval3]; exact hval⟩

/-- Any point of an `x`-constant face of the box is dominated from above by a
`candNd3` entry. -/
theorem candNd3_facex_max (c : QuadCoeffs3) (I : Box3) (xc v w : ℚ)
    (hxc : xc = I.1.1 ∨ xc = I.2.1)
    (hv0 : I.1.2.1 ≤ v) (hv1 : v ≤ I.2.2.1) (hw0 : I.1.2.2 ≤ w) (hw1 : w ≤ I.2.2.2) :
    ∃ e ∈ candNd3 c I, eval3 c xc v w ≤ e := by
  have hq : ∀ y z : ℚ, q2 c.c8 c.c9 c.c6 (c.c2 + c.c4 * xc) (c.c3 + c.c5 * xc)
      (c.c0 - c.c7 - c.c8 - c.c9 + c.c1 * xc + 2 * c.c7 * xc ^ 2) y z = eval3 c xc y z :=
    fun y z => (eval3_fix_x c xc y z).symm
  have h := md2_max c.c8 c.c9 c.c6 (c.c2 + c.c4 * xc) (c.c3 + c.c5 * xc)
    (c.c0 - c.c7 - c.c8 - c.c9 + c.c1 * xc + 2 * c.c7 * xc ^ 2)
    I.1.2.1 I.2.2.1 I.1.2.2 I.2.2.2 v w hv0 hv1 hw0 hw1
  rw [hq v w] at h
  rcases h with ⟨a_, ha, b_, hb, hval⟩ | ⟨a_, ha, h9, h0, h1, hval⟩ |
    ⟨b_, hb, h8, h0, h1, hval⟩ | ⟨h8, h9, hD, h0, h1, h2, h3, hval⟩
  · simp only [List.mem_cons, List.mem_singleton, List.not_mem_nil, or_false] at ha hb
    rw [hq] at hval
    exact ⟨evalNd3 c xc a_ b_, mem_candNd3_corner c I xc a_ b_ hxc ha hb,
      by rw [evalNd3_eq_eval3]; exact hval⟩
  · simp only [List.mem_cons, List.mem_singleton, List.not_mem_nil, or_false] at ha
    rw [hq] at hval
    have hconv : -((c.c3 + c.c5 * xc) + c.c6 * a_) / (4 * c.c9) =
        (-c.c3 - (c.c5 * xc + c.c6 * a_)) / (4 * c.c9) := by ring
    rw [hconv] at h0 h1 hval
    exact ⟨_, mem_candNd3_zvertex c I xc a_ hxc ha (mul_ne_zero (by norm_num) h9) h0 h1,
      by rw [evalNd3_eq_eval3]; exact hval⟩
  · simp only [List.mem_cons, List.mem_singleton, List.not_mem_nil, or_false] at hb
    rw [hq] at hval
    have hconv : -((c.c2 + c.c4 * xc) + c.c6 * b_) / (4 * c.c8) =
        (-c.c2 - (c.c4 * xc + c.c6 * b_)) / (4 * c.c8) := by ring
    rw [hconv] at h0 h1 hval
    exact ⟨_, mem_candNd3_yvertex c I xc b_ hxc hb (mul_ne_zero (by norm_num) h8) h0 h1,
      by rw [evalNd3_eq_eval3]; exact hval⟩
  · rw [hq] at hval
    have hyconv : ((c.c3 + c.c5 * xc) * c.c6 - 4 * (c.c2 + c.c4 * xc) * c.c9) /
          (16 * c.c8 * c.c9 - c.c6 ^ 2) =
        ((-c.c2 - c.c4 * xc) * (4 * c.c9) - c.c6 * (-c.c3 - c.c5 * xc)) / fixXDet c := by
      rw [fixXDet_conv]
      ring
    have hzconv : ((c.c2 + c.c4 * xc) * c.c6 - 4 * (c.c3 + c.c5 * xc) * c.c8) /
          (16 * c.c8 * c.c9 - c.c6 ^ 2) =
        ((4 * c.c8) * (-c.c3 - c.c5 * xc) - (-c.c2 - c.c4 * xc) * c.c6) / fixXDet c := by
      rw [fixXDet_conv]
      ring
    rw [hyconv] at h0 h1 hval
    rw [hzconv] at h2 h3 hval
    exact ⟨_, mem_candNd3_facex c I xc hxc (by nlinarith) (by rw [fixXDet_conv]; exact hD)
      h0 h1 h2 h3, by rw [evalNd3_eq_eval3]; exact hval⟩

/-- Any point of a `y`-constant face of the box is dominated from below by a
`candNd3` entry. -/
theorem candNd3_facey_min (c : QuadCoeffs3) (I : Box3) (yc v w : ℚ)
    (hyc : yc = I.1.2.1 ∨ yc = I.2.2.1)
    (hv0 : I.1.1 ≤ v) (hv1 : v ≤ I.2.1) (hw0 : I.1.2.2 ≤ w) (hw1 : w ≤ I.2.2.2) :
    ∃ e ∈ candNd3 c I, e ≤ eval3 c v yc w := by
  have hq : ∀ x z : ℚ, q2 c.c7 c.c9 c.c5 (c.c1 + c.c4 * yc) (c.c3 + c.c6 * yc)
      (c.c0 - c.c7 - c.c8 - c.c9 + c.c2 * yc + 2 * c.c8 * yc ^ 2) x z = eval3 c x yc z :=
    fun x z => (eval3_fix_y c yc x z).symm
  have h := md2_min c.c7 c.c9 c.c5 (c.c1 + c.c4 * yc) (c.c3 + c.c6 * yc)
    (c.c0 - c.c7 - c.c8 - c.c9 + c.c2 * yc + 2 * c.c8 * yc ^ 2)
    I.1.1 I.2.1 I.1.2.2 I.2.2.2 v w hv0 hv1 hw0 hw1
  rw [hq v w] at h
  rcases h with ⟨a_, ha, b_, hb, hval⟩ | ⟨a_, ha, h9, h0, h1, hval⟩ |
    ⟨b_, hb, h7, h0, h1, hval⟩ | ⟨h7, h9, hD, h0, h1, h2, h3, hval⟩
  · simp only [List.mem_cons, List.mem_singleton, List.not_mem_nil, or_false] at ha hb
    rw [hq] at hval
    exact ⟨evalNd3 c a_ yc b_, mem_candNd3_corner c I a_ yc b_ ha hyc hb,
      by rw [evalNd3_eq_eval3]; exact hval⟩
  · simp only [List.mem_cons, List.mem_singleton, List.not_mem_nil, or_false] at ha
    rw [hq] at hval
    have hconv : -((c.c3 + c.c6 * yc) + c.c5 * a_) / (4 * c.c9) =
        (-c.c3 - (c.c5 * a_ + c.c6 * yc)) / (4 * c.c9) := by ring
    rw [hconv] at h0 h1 hval
    exact ⟨_, mem_candNd3_zvertex c I a_ yc ha hyc (mul_ne_zero (by norm_num) h9) h0 h1,
      by rw [evalNd3_eq_eval3]; exact hval⟩
  · simp only [List.mem_cons, List.mem_singleton, List.not_mem_nil, or_false] at hb
    rw [hq] at hval
    have hconv : -((c.c1 + c.c4 * yc) + c.c5 * b_) / (4 * c.c7) =
        (-c.c1 - (c.c4 * yc + c.c5 * b_)) / (4 * c.c7) := by ring
    rw [hconv] at h0 h1 hval
    exact ⟨_, mem_candNd3_xvertex c I yc b_ hyc hb (mul_ne_zero (by norm_num) h7) h0 h1,
      by rw [evalNd3_eq_eval3]; exact hval⟩
  · rw [hq] at hval
    have hxconv : ((c.c3 + c.c6 * yc) * c.c5 - 4 * (c.c1 + c.c4 * yc) * c.c9) /
          (16 * c.c7 * c.c9 - c.c5 ^ 2) =
        ((-c.c1 - c.c4 * yc) * (4 * c.c9) - c.c5 * (-c.c3 - c.c6 * yc)) / fixYDet c := by
      rw [fixYDet_conv]
      ring
    have hzconv : ((c.c1 + c.c4 * yc) * c.c5 - 4 * (c.c3 + c.c6 * yc) * c.c7) /
          (16 * c.c7 * c.c9 - c.c5 ^ 2) =
        ((4 * c.c7) * (-c.c3 - c.c6 * yc) - (-c.c1 - c.c4 * yc) * c.c5) / fixYDet c := by
      rw [fixYDet_conv]
      ring
    rw [hxconv] at h0 h1 hval
    rw [hzconv] at h2 h3 hval
    exact ⟨_, mem_candNd3_facey c I yc hyc (by nlinarith) (by rw [fixYDet_conv]; exact hD)
      h0 h1 h2 h3, by rw [evalNd3_eq_eval3]; exact hval⟩

/-- Any point of a `y`-constant face of the box is dominated from above by a
`candNd3` entry. -/
theorem candNd3_facey_max (c : QuadCoeffs3) (I : Box3) (yc v w : ℚ)
    (hyc : yc = I.1.2.1 ∨ yc = I.2.2.1)
    (hv0 : I.1.1 ≤ v) (hv1 : v ≤ I.2.1) (hw0 : I.1.2.2 ≤ w) (hw1 : w ≤ I.2.2.2) :
    ∃ e ∈ candNd3 c I, eval3 c v yc w ≤ e := by
  have hq : ∀ x z : ℚ, q2 c.c7 c.c9 c.c5 (c.c1 + c.c4 * yc) (c.c3 + c.c6 * yc)
      (c.c0 - c.c7 - c.c8 - c.c9 + c.c2 * yc + 2 * c.c8 * yc ^ 2) x z = eval3 c x yc z :=
    fun x z => (eval3_fix_y c yc x z).symm
  have h := md2_max c.c7 c.c9 c.c5 (c.c1 + c.c4 * yc) (c.c3 + c.c6 * yc)
    (c.c0 - c.c7 - c.c8 - c.c9 + c.c2 * yc + 2 * c.c8 * yc ^ 2)
    I.1.1 I.2.1 I.1.2.2 I.2.2.2 v w hv0 hv1 hw0 hw1
  rw [hq v w] at h
  rcases h with ⟨a_, ha, b_, hb, hval⟩ | ⟨a_, ha, h9, h0, h1, hval⟩ |
    ⟨b_, hb, h7, h0, h1, hval⟩ | ⟨h7, h9, hD, h0, h1, h2, h3, hval⟩
  · simp only [List.mem_cons, List.mem_singleton, List.not_mem_nil, or_false] at ha hb
    rw [hq] at hval
    exact ⟨evalNd3 c a_ yc b_, mem_candNd3_corner c I a_ yc b_ ha hyc hb,
      by rw [evalNd3_eq_eval3]; exact hval⟩
  · simp only [List.mem_cons, List.mem_singleton, List.not_mem_nil, or_false] at ha
    rw [hq] at hval
    have hconv : -((c.c3 + c.c6 * yc) + c.c5 * a_) / (4 * c.c9) =
        (-c.c3 - (c.c5 * a_ + c.c6 * yc)) / (4 * c.c9) := by ring
    rw [hconv] at h0 h1 hval
    exact ⟨_, mem_candNd3_zvertex c I a_ yc ha hyc (mul_ne_zero (by norm_num) h9) h0 h1,
      by rw [evalNd3_eq_eval3]; exact hval⟩
  · simp only [List.mem_cons, List.mem_singleton, List.not_mem_nil, or_false] at hb
    rw [hq] at hval
    have hconv : -((c.c1 + c.c4 * yc) + c.c5 * b_) / (4 * c.c7) =
        (-c.c1 - (c.c4 * yc + c.c5 * b_)) / (4 * c.c7) := by ring
    rw [hconv] at h0 h1 hval
    exact ⟨_, mem_candNd3_xvertex c I yc b_ hyc hb (mul_ne_zero (by norm_num) h7) h0 h1,
      by rw [evalNd3_eq_eval3]; exact hval⟩
  · rw [hq] at hval
    have hxconv : ((c.c3 + c.c6 * yc) * c.c5 - 4 * (c.c1 + c.c4 * yc) * c.c9) /
          (16 * c.c7 * c.c9 - c.c5 ^ 2) =
        ((-c.c1 - c.c4 * yc) * (4 * c.c9) - c.c5 * (-c.c3 - c.c6 * yc)) / fixYDet c := by
      rw [fixYDet_conv]
      ring
    have hzconv : ((c.c1 + c.c4 * yc) * c.c5 - 4 * (c.c3 + c.c6 * yc) * c.c7) /
          (16 * c.c7 * c.c9 - c.c5 ^ 2) =
        ((4 * c.c7) * (-c.c3 - c.c6 * yc) - (-c.c1 - c.c4 * yc) * c.c5) / fixYDet c := by
      rw [fixYDet_conv]
      ring
    rw [hxconv] at h0 h1 hval
    rw [hzconv] at h2 h3 hval
    exact ⟨_, mem_candNd3_facey c I yc hyc (by nlinarith) (by rw [fixYDet_conv]; exact hD)
      h0 h1 h2 h3, by rw [evalNd3_eq_eval3]; exact hval⟩

/-- Any point of a `z`-constant face of the box is dominated from below by a
`candNd3` entry. -/
theorem candNd3_facez_min (c : QuadCoeffs3) (I : Box3) (zc v w : ℚ)
    (hzc : zc = I.1.2.2 ∨ zc = I.2.2.2)
    (hv0 : I.1.1 ≤ v) (hv1 : v ≤ I.2.1) (hw0 : I.1.2.1 ≤ w) (hw1 : w ≤ I.2.2.1) :
    ∃ e ∈ candNd3 c I, e ≤ eval3 c v w zc := by
  have hq : ∀ x y : ℚ, q2 c.c7 c.c8 c.c4 (c.c1 + c.c5 * zc) (c.c2 + c.c6 * zc)
      (c.c0 - c.c7 - c.c8 - c.c9 + c.c3 * zc + 2 * c.c9 * zc ^ 2) x y = eval3 c x y zc :=
    fun x y => (eval3_fix_z c zc x y).symm
  have h := md2_min c.c7 c.c8 c.c4 (c.c1 + c.c5 * zc) (c.c2 + c.c6 * zc)
    (c.c0 - c.c7 - c.c8 - c.c9 + c.c3 * zc + 2 * c.c9 * zc ^ 2)
    I.1.1 I.2.1 I.1.2.1 I.2.2.1 v w hv0 hv1 hw0 hw1
  rw [hq v w] at h
  rcases h with ⟨a_, ha, b_, hb, hval⟩ | ⟨a_, ha, h8, h0, h1, hval⟩ |
    ⟨b_, hb, h7, h0, h1, hval⟩ | ⟨h7, h8, hD, h0, h1, h2, h3, hval⟩
  · simp only [List.mem_cons, List.mem_singleton, List.not_mem_nil, or_false] at ha hb
    rw [hq] at hval
    exact ⟨evalNd3 c a_ b_ zc, mem_candNd3_corner c I a_ b_ zc ha hb hzc,
      by rw [evalNd3_eq_eval3]; exact hval⟩
  · simp only [List.mem_cons, List.mem_singleton, List.not_mem_nil, or_false] at ha
    rw [hq] at hval
    have hconv : -((c.c2 + c.c6 * zc) + c.c4 * a_) / (4 * c.c8) =
        (-c.c2 - (c.c4 * a_ + c.c6 * zc)) / (4 * c.c8) := by ring
    rw [hconv] at h0 h1 hval
    exact ⟨_, mem_candNd3_yvertex c I a_ zc ha hzc (mul_ne_zero (by norm_num) h8) h0 h1,
      by rw [evalNd3_eq_eval3]; exact hval⟩
  · simp only [List.mem_cons, List.mem_singleton, List.not_mem_nil, or_false] at hb
    rw [hq] at hval
    have hconv : -((c.c1 + c.c5 * zc) + c.c4 * b_) / (4 * c.c7) =
        (-c.c1 - (c.c4 * b_ + c.c5 * zc)) / (4 * c.c7) := by ring
    rw [hconv] at h0 h1 hval
    exact ⟨_, mem_candNd3_xvertex c I b_ zc hb hzc (mul_ne_zero (by norm_num) h7) h0 h1,
      by rw [evalNd3_eq_eval3]; exact hval⟩
  · rw [hq] at hval
    have hxconv : ((c.c2 + c.c6 * zc) * c.c4 - 4 * (c.c1 + c.c5 * zc) * c.c8) /
          (16 * c.c7 * c.c8 - c.c4 ^ 2) =
        ((-c.c1 - c.c5 * zc) * (4 * c.c8) - c.c4 * (-c.c2 - c.c6 * zc)) / fixZDet c := by
      rw [fixZDet_conv]
      ring
    have hyconv : ((c.c1 + c.c5 * zc) * c.c4 - 4 * (c.c2 + c.c6 * zc) * c.c7) /
          (16 * c.c7 * c.c8 - c.c4 ^ 2) =
        ((4 * c.c7) * (-c.c2 - c.c6 * zc) - (-c.c1 - c.c5 * zc) * c.c4) / fixZDet c := by
      rw [fixZDet_conv]
      ring
    rw [hxconv] at h0 h1 hval
    rw [hyconv] at h2 h3 hval
    exact ⟨_, mem_candNd3_facez c I zc hzc (by nlinarith) (by rw [fixZDet_conv]; exact hD)
      h0 h1 h2 h3, by rw [evalNd3_eq_eval3]; exact hval⟩

/-- Any point of a `z`-constant face of the box is dominated from above by a
`candNd3` entry. -/
theorem candNd3_facez_max (c : QuadCoeffs3) (I : Box3) (zc v w : ℚ)
    (hzc : zc = I.1.2.2 ∨ zc = I.2.2.2)
    (hv0 : I.1.1 ≤ v) (hv1 : v ≤ I.2.1) (hw0 : I.1.2.1 ≤ w) (hw1 : w ≤ I.2.2.1) :
    ∃ e ∈ candNd3 c I, eval3 c v w zc ≤ e := by
  have hq : ∀ x y : ℚ, q2 c.c7 c.c8 c.c4 (c.c1 + c.c5 * zc) (c.c2 + c.c6 * zc)
      (c.c0 - c.c7 - c.c8 - c.c9 + c.c3 * zc + 2 * c.c9 * zc ^ 2) x y = eval3 c x y zc :=
    fun x y => (eval3_fix_z c zc x y).symm
  have h := md2_max c.c7 c.c8 c.c4 (c.c1 + c.c5 * zc) (c.c2 + c.c6 * zc)
    (c.c0 - c.c7 - c.c8 - c.c9 + c.c3 * zc + 2 * c.c9 * zc ^ 2)
    I.1.1 I.2.1 I.1.2.1 I.2.2.1 v w hv0 hv1 hw0 hw1
  rw [hq v w] at h
  rcases h with ⟨a_, ha, b_, hb, hval⟩ | ⟨a_, ha, h8, h0, h1, hval⟩ |
    ⟨b_, hb, h7, h0, h1, hval⟩ | ⟨h7, h8, hD, h0, h1, h2, h3, hval⟩
  · simp only [List.mem_cons, List.mem_singleton, List.not_mem_nil, or_false] at ha hb
    rw [hq] at hval
    exact ⟨evalNd3 c a_ b_ zc, mem_candNd3_corner c I a_ b_ zc ha hb hzc,
      by rw [evalNd3_eq_eval3]; exact hval⟩
  · simp only [List.mem_cons, List.mem_singleton, List.not_mem_nil, or_false] at ha
    rw [hq] at hval
    have hconv : -((c.c2 + c.c6 * zc) + c.c4 * a_) / (4 * c.c8) =
        (-c.c2 - (c.c4 * a_ + c.c6 * zc)) / (4 * c.c8) := by ring
    rw [hconv] at h0 h1 hval
    exact ⟨_, mem_candNd3_yvertex c I a_ zc ha hzc (mul_ne_zero (by norm_num) h8) h0 h1,
      by rw [evalNd3_eq_eval3]; exact hval⟩
  · simp only [List.mem_cons, List.mem_singleton, List.not_mem_nil, or_false] at hb
    rw [hq] at hval
    have hconv : -((c.c1 + c.c5 * zc) + c.c4 * b_) / (4 * c.c7) =
        (-c.c1 - (c.c4 * b_ + c.c5 * zc)) / (4 * c.c7) := by ring
    rw [hconv] at h0 h1 hval
    exact ⟨_, mem_candNd3_xvertex c I b_ zc hb hzc (mul_ne_zero (by norm_num) h7) h0 h1,
      by rw [evalNd3_eq_eval3]; exact hval⟩
  · rw [hq] at hval
    have hxconv : ((c.c2 + c.c6 * zc) * c.c4 - 4 * (c.c1 + c.c5 * zc) * c.c8) /
          (16 * c.c7 * c.c8 - c.c4 ^ 2) =
        ((-c.c1 - c.c5 * zc) * (4 * c.c8) - c.c4 * (-c.c2 - c.c6 * zc)) / fixZDet c := by
      rw [fixZDet_conv]
      ring
    have hyconv : ((c.c1 + c.c5 * zc) * c.c4 - 4 * (c.c2 + c.c6 * zc) * c.c7) /
          (16 * c.c7 * c.c8 - c.c4 ^ 2) =
        ((4 * c.c7) * (-c.c2 - c.c6 * zc) - (-c.c1 - c.c5 * zc) * c.c4) / fixZDet c := by
      rw [fixZDet_conv]
      ring
    rw [hxconv] at h0 h1 hval
    rw [hyconv] at h2 h3 hval
    exact ⟨_, mem_candNd3_facez c I zc hzc (by nlinarith) (by rw [fixZDet_conv]; exact hD)
      h0 h1 h2 h3, by rw [evalNd3_eq_eval3]; exact hval⟩

theorem det3D_eq_detNd3 (c : QuadCoeffs3) : det3D c = detNd3 c := by
  unfold det3D detNd3 fixXDet minor12 minor13
  ring

/-- The two routines compute the same interior `x`-coordinate (dimension 3). -/
theorem nd3_ix_conv (c : QuadCoeffs3) :
    ((-c.c1) * ((4 * c.c8) * (4 * c.c9) - c.c6 ^ 2) -
        c.c4 * ((-c.c2) * (4 * c.c9) - c.c6 * (-c.c3)) +
        c.c5 * ((-c.c2) * c.c6 - (4 * c.c8) * (-c.c3))) / detNd3 c =
      (c.c1 * (-fixXDet c) + c.c2 * minor12 c + c.c3 * (-minor13 c)) / det3D c := by
  rw [det3D_eq_detNd3]
  have h : c.c1 * (-fixXDet c) + c.c2 * minor12 c + c.c3 * (-minor13 c) =
      (-c.c1) * ((4 * c.c8) * (4 * c.c9) - c.c6 ^ 2) -
        c.c4 * ((-c.c2) * (4 * c.c9) - c.c6 * (-c.c3)) +
        c.c5 * ((-c.c2) * c.c6 - (4 * c.c8) * (-c.c3)) := by
    unfold fixXDet minor12 minor13
    ring
  rw [h]

/-- The two routines compute the same interior `y`-coordinate (dimension 3). -/
theorem nd3_iy_conv (c : QuadCoeffs3) :
    ((4 * c.c7) * ((-c.c2) * (4 * c.c9) - c.c6 * (-c.c3)) -
        (-c.c1) * (c.c4 * (4 * c.c9) - c.c6 * c.c5) +
        c.c5 * (c.c4 * (-c.c3) - (-c.c2) * c.c5)) / detNd3 c =
      (c.c1 * minor12 c + c.c2 * (-fixYDet c) + c.c3 * minor23 c) / det3D c := by
  rw [det3D_eq_detNd3]
  have h : c.c1 * minor12 c + c.c2 * (-fixYDet c) + c.c3 * minor23 c =
      (4 * c.c7) * ((-c.c2) * (4 * c.c9) - c.c6 * (-c.c3)) -
        (-c.c1) * (c.c4 * (4 * c.c9) - c.c6 * c.c5) +
        c.c5 * (c.c4 * (-c.c3) - (-c.c2) * c.c5) := by
    unfold minor12 fixYDet minor23
    ring
  rw [h]

/-- The two routines compute the same interior `z`-coordinate (dimension 3). -/
theorem nd3_iz_conv (c : QuadCoeffs3) :
    ((4 * c.c7) * ((4 * c.c8) * (-c.c3) - (-c.c2) * c.c6) -
        c.c4 * (c.c4 * (-c.c3) - (-c.c2) * c.c5) +
        (-c.c1) * (c.c4 * c.c6 - (4 * c.c8) * c.c5)) / detNd3 c =
      (c.c1 * (-minor13 c) + c.c2 * minor23 c + c.c3 * (-fixZDet c)) / det3D c := by
  rw [det3D_eq_detNd3]
  have h : c.c1 * (-minor13 c) + c.c2 * minor23 c + c.c3 * (-fixZDet c) =
      (4 * c.c7) * ((4 * c.c8) * (-c.c3) - (-c.c2) * c.c6) -
        c.c4 * (c.c4 * (-c.c3) - (-c.c2) * c.c5) +
        (-c.c1) * (c.c4 * c.c6 - (4 * c.c8) * c.c5) := by
    unfold minor13 minor23 fixZDet
    ring
  rw [h]

/-- Every `cand3D` entry is either the value at a point of a boundary face,
or the interior critical value with its guard and strict containment. -/
theorem cand3D_point_cases (c : QuadCoeffs3) (I : Box3) (e : ℚ)
    (hxv : I.1.1 ≤ I.2.1) (hyv : I.1.2.1 ≤ I.2.2.1) (hzv : I.1.2.2 ≤ I.2.2.2)
    (he : e ∈ cand3D c I) :
    (∃ xc v w, (xc = I.1.1 ∨ xc = I.2.1) ∧ I.1.2.1 ≤ v ∧ v ≤ I.2.2.1 ∧
      I.1.2.2 ≤ w ∧ w ≤ I.2.2.2 ∧ e = eval3 c xc v w) ∨
    (∃ yc v w, (yc = I.1.2.1 ∨ yc = I.2.2.1) ∧ I.1.1 ≤ v ∧ v ≤ I.2.1 ∧
      I.1.2.2 ≤ w ∧ w ≤ I.2.2.2 ∧ e = eval3 c v yc w) ∨
    (∃ zc v w, (zc = I.1.2.2 ∨ zc = I.2.2.2) ∧ I.1.1 ≤ v ∧ v ≤ I.2.1 ∧
      I.1.2.1 ≤ w ∧ w ≤ I.2.2.1 ∧ e = eval3 c v w zc) ∨
    (det3D c ≠ 0 ∧
      I.1.1 < (c.c1 * (-fixXDet c) + c.c2 * minor12 c + c.c3 * (-minor13 c)) / det3D c ∧
      (c.c1 * (-fixXDet c) + c.c2 * minor12 c + c.c3 * (-minor13 c)) / det3D c < I.2.1 ∧
      I.1.2.1 < (c.c1 * minor12 c + c.c2 * (-fixYDet c) + c.c3 * minor23 c) / det3D c ∧
      (c.c1 * minor12 c + c.c2 * (-fixYDet c) + c.c3 * minor23 c) / det3D c < I.2.2.1 ∧
      I.1.2.2 < (c.c1 * (-minor13 c) + c.c2 * minor23 c + c.c3 * (-fixZDet c)) / det3D c ∧
      (c.c1 * (-minor13 c) + c.c2 * minor23 c + c.c3 * (-fixZDet c)) / det3D c < I.2.2.2 ∧
      e = eval3 c
        ((c.c1 * (-fixXDet c) + c.c2 * minor12 c + c.c3 * (-minor13 c)) / det3D c)
        ((c.c1 * minor12 c + c.c2 * (-fixYDet c) + c.c3 * minor23 c) / det3D c)
        ((c.c1 * (-minor13 c) + c.c2 * minor23 c + c.c3 * (-fixZDet c)) / det3D c)) := by
  simp only [cand3D, List.mem_append] at he
  rcases he with ((((((hA | hB) | hC) | hD) | hE) | hF) | hG) | hH
  · -- corners : place each on an x-constant face
    simp only [List.mem_cons, List.not_mem_nil, or_false] at hA
    rcases hA with hv | hv | hv | hv | hv | hv | hv | hv
    · exact Or.inl ⟨I.1.1, I.1.2.1, I.1.2.2, Or.inl rfl, le_rfl, hyv, le_rfl, hzv, hv⟩
    · exact Or.inl ⟨I.2.1, I.1.2.1, I.1.2.2, Or.inr rfl, le_rfl, hyv, le_rfl, hzv, hv⟩
    · exact Or.inl ⟨I.1.1, I.2.2.1, I.1.2.2, Or.inl rfl, hyv, le_rfl, le_rfl, hzv, hv⟩
    · exact Or.inl ⟨I.1.1, I.1.2.1, I.2.2.2, Or.inl rfl, le_rfl, hyv, hzv, le_rfl, hv⟩
    · exact Or.inl ⟨I.2.1, I.2.2.1, I.1.2.2, Or.inr rfl, hyv, le_rfl, le_rfl, hzv, hv⟩
    · exact Or.inl ⟨I.2.1, I.1.2.1, I.2.2.2, Or.inr rfl, le_rfl, hyv, hzv, le_rfl, hv⟩
    · exact Or.inl ⟨I.1.1, I.2.2.1, I.2.2.2, Or.inl rfl, hyv, le_rfl, hzv, le_rfl, hv⟩
    · exact Or.inl ⟨I.2.1, I.2.2.1, I.2.2.2, Or.inr rfl, hyv, le_rfl, hzv, le_rfl, hv⟩
  · -- z-edge vertices : on an x-constant face
    by_cases h9 : c.c9 ≠ 0
    · rw [if_pos h9] at hB
      rcases List.mem_append.mp hB with hB' | h4
      · rcases List.mem_append.mp hB' with hB'' | h3
        · rcases List.mem_append.mp hB'' with h1 | h2
          · by_cases hc : I.1.2.2 < -((c.c5 * I.1.1 + c.c3) + c.c6 * I.1.2.1) / (4 * c.c9) ∧
                -((c.c5 * I.1.1 + c.c3) + c.c6 * I.1.2.1) / (4 * c.c9) < I.2.2.2
            · rw [if_pos hc, List.mem_singleton] at h1
              exact Or.inl ⟨I.1.1, I.1.2.1, _, Or.inl rfl, le_rfl, hyv, hc.1.le, hc.2.le, h1⟩
            · rw [if_neg hc] at h1
              exact absurd h1 (List.not_mem_nil e)
          · by_cases hc : I.1.2.2 < -((c.c5 * I.1.1 + c.c3) + c.c6 * I.2.2.1) / (4 * c.c9) ∧
                -((c.c5 * I.1.1 + c.c3) + c.c6 * I.2.2.1) / (4 * c.c9) < I.2.2.2
            · rw [if_pos hc, List.mem_singleton] at h2
              exact Or.inl ⟨I.1.1, I.2.2.1, _, Or.inl rfl, hyv, le_rfl, hc.1.le, hc.2.le, h2⟩
            · rw [if_neg hc] at h2
              exact absurd h2 (List.not_mem_nil e)
        · by_cases hc : I.1.2.2 < -((c.c5 * I.2.1 + c.c3) + c.c6 * I.1.2.1) / (4 * c.c9) ∧
              -((c.c5 * I.2.1 + c.c3) + c.c6 * I.1.2.1) / (4 * c.c9) < I.2.2.2
          · rw [if_pos hc, List.mem_singleton] at h3
            exact Or.inl ⟨I.2.1, I.1.2.1, _, Or.inr rfl, le_rfl, hyv, hc.1.le, hc.2.le, h3⟩
          · rw [if_neg hc] at h3
            exact absurd h3 (List.not_mem_nil e)
      · by_cases hc : I.1.2.2 < -((c.c5 * I.2.1 + c.c3) + c.c6 * I.2.2.1) / (4 * c.c9) ∧
            -((c.c5 * I.2.1 + c.c3) + c.c6 * I.2.2.1) / (4 * c.c9) < I.2.2.2
        · rw [if_pos hc, List.mem_singleton] at h4
          exact Or.inl ⟨I.2.1, I.2.2.1, _, Or.inr rfl, hyv, le_rfl, hc.1.le, hc.2.le, h4⟩
        · rw [if_neg hc] at h4
          exact absurd h4 (List.not_mem_nil e)
    · rw [if_neg h9] at hB
      exact absurd hB (List.not_mem_nil e)
  · -- y-edge vertices : on an x-constant face
    by_cases h8 : c.c8 ≠ 0
    · rw [if_pos h8] at hC
      rcases List.mem_append.mp hC with hC' | h4
      · rcases List.mem_append.mp hC' with hC'' | h3
        · rcases List.mem_append.mp hC'' with h1 | h2
          · by_cases hc : I.1.2.1 < -((c.c2 + c.c4 * I.1.1) + c.c6 * I.1.2.2) / (4 * c.c8) ∧
                -((c.c2 + c.c4 * I.1.1) + c.c6 * I.1.2.2) / (4 * c.c8) < I.2.2.1
            · rw [if_pos hc, List.mem_singleton] at h1
              exact Or.inl ⟨I.1.1, _, I.1.2.2, Or.inl rfl, hc.1.le, hc.2.le, le_rfl, hzv, h1⟩
            · rw [if_neg hc] at h1
              exact absurd h1 (List.not_mem_nil e)
          · by_cases hc : I.1.2.1 < -((c.c2 + c.c4 * I.1.1) + c.c6 * I.2.2.2) / (4 * c.c8) ∧
                -((c.c2 + c.c4 * I.1.1) + c.c6 * I.2.2.2) / (4 * c.c8) < I.2.2.1
            · rw [if_pos hc, List.mem_singleton] at h2
              exact Or.inl ⟨I.1.1, _, I.2.2.2, Or.inl rfl, hc.1.le, hc.2.le, hzv, le_rfl, h2⟩
            · rw [if_neg hc] at h2
              exact absurd h2 (List.not_mem_nil e)
        · by_cases hc : I.1.2.1 < -((c.c2 + c.c4 * I.2.1) + c.c6 * I.1.2.2) / (4 * c.c8) ∧
              -((c.c2 + c.c4 * I.2.1) + c.c6 * I.1.2.2) / (4 * c.c8) < I.2.2.1
          · rw [if_pos hc, List.mem_singleton] at h3
            exact Or.inl ⟨I.2.1, _, I.1.2.2, Or.inr rfl, hc.1.le, hc.2.le, le_rfl, hzv, h3⟩
          · rw [if_neg hc] at h3
            exact absurd h3 (List.not_mem_nil e)
      · by_cases hc : I.1.2.1 < -((c.c2 + c.c4 * I.2.1) + c.c6 * I.2.2.2) / (4 * c.c8) ∧
            -((c.c2 + c.c4 * I.2.1) + c.c6 * I.2.2.2) / (4 * c.c8) < I.2.2.1
        · rw [if_pos hc, List.mem_singleton] at h4
          exact Or.inl ⟨I.2.1, _, I.2.2.2, Or.inr rfl, hc.1.le, hc.2.le, hzv, le_rfl, h4⟩
        · rw [if_neg hc] at h4
          exact absurd h4 (List.not_mem_nil e)
    · rw [if_neg h8] at hC
      exact absurd hC (List.not_mem_nil e)
  · -- x-edge vertices : on a y-constant face
    by_cases h7 : c.c7 ≠ 0
    · rw [if_pos h7] at hD
      rcases List.mem_append.mp hD with hD' | h4
      · rcases List.mem_append.mp hD' with hD'' | h3
        · rcases List.mem_append.mp hD'' with h1 | h2
          · by_cases hc : I.1.1 < -((c.c1 + c.c4 * I.1.2.1) + c.c5 * I.1.2.2) / (4 * c.c7) ∧
                -((c.c1 + c.c4 * I.1.2.1) + c.c5 * I.1.2.2) / (4 * c.c7) < I.2.1
            · rw [if_pos hc, List.mem_singleton] at h1
              exact Or.inr (Or.inl ⟨I.1.2.1, _, I.1.2.2, Or.inl rfl, hc.1.le, hc.2.le,
                le_rfl, hzv, h1⟩)
            · rw [if_neg hc] at h1
              exact absurd h1 (List.not_mem_nil e)
          · by_cases hc : I.1.1 < -((c.c1 + c.c4 * I.1.2.1) + c.c5 * I.2.2.2) / (4 * c.c7) ∧
                -((c.c1 + c.c4 * I.1.2.1) + c.c5 * I.2.2.2) / (4 * c.c7) < I.2.1
            · rw [if_pos hc, List.mem_singleton] at h2
              exact Or.inr (Or.inl ⟨I.1.2.1, _, I.2.2.2, Or.inl rfl, hc.1.le, hc.2.le,
                hzv, le_rfl, h2⟩)
            · rw [if_neg hc] at h2
              exact absurd h2 (List.not_mem_nil e)
        · by_cases hc : I.1.1 < -((c.c1 + c.c4 * I.2.2.1) + c.c5 * I.1.2.2) / (4 * c.c7) ∧
              -((c.c1 + c.c4 * I.2.2.1) + c.c5 * I.1.2.2) / (4 * c.c7) < I.2.1
          · rw [if_pos hc, List.mem_singleton] at h3
            exact Or.inr (Or.inl ⟨I.2.2.1, _, I.1.2.2, Or.inr rfl, hc.1.le, hc.2.le,
              le_rfl, hzv, h3⟩)
          · rw [if_neg hc] at h3
            exact absurd h3 (List.not_mem_nil e)
      · by_cases hc : I.1.1 < -((c.c1 + c.c4 * I.2.2.1) + c.c5 * I.2.2.2) / (4 * c.c7) ∧
            -((c.c1 + c.c4 * I.2.2.1) + c.c5 * I.2.2.2) / (4 * c.c7) < I.2.1
        · rw [if_pos hc, List.mem_singleton] at h4
          exact Or.inr (Or.inl ⟨I.2.2.1, _, I.2.2.2, Or.inr rfl, hc.1.le, hc.2.le,
            hzv, le_rfl, h4⟩)
        · rw [if_neg hc] at h4
          exact absurd h4 (List.not_mem_nil e)
    · rw [if_neg h7] at hD
      exact absurd hD (List.not_mem_nil e)
  · -- x-face systems
    by_cases hd : fixXDet c ≠ 0
    · rw [if_pos hd] at hE
      rcases List.mem_append.mp hE with h1 | h2
      · by_cases hc : I.1.2.1 < (-(4 * c.c9) * (c.c2 + c.c4 * I.1.1) +
              c.c6 * (c.c3 + c.c5 * I.1.1)) / fixXDet c ∧
            (-(4 * c.c9) * (c.c2 + c.c4 * I.1.1) + c.c6 * (c.c3 + c.c5 * I.1.1)) /
              fixXDet c < I.2.2.1 ∧
            I.1.2.2 < (c.c6 * (c.c2 + c.c4 * I.1.1) - (4 * c.c8) * (c.c3 + c.c5 * I.1.1)) /
              fixXDet c ∧
            (c.c6 * (c.c2 + c.c4 * I.1.1) - (4 * c.c8) * (c.c3 + c.c5 * I.1.1)) /
              fixXDet c < I.2.2.2
        · rw [if_pos hc, List.mem_singleton] at h1
          exact Or.inl ⟨I.1.1, _, _, Or.inl rfl, hc.1.le, hc.2.1.le, hc.2.2.1.le,
            hc.2.2.2.le, h1⟩
        · rw [if_neg hc] at h1
          exact absurd h1 (List.not_mem_nil e)
      · by_cases hc : I.1.2.1 < (-(4 * c.c9) * (c.c2 + c.c4 * I.2.1) +
              c.c6 * (c.c3 + c.c5 * I.2.1)) / fixXDet c ∧
            (-(4 * c.c9) * (c.c2 + c.c4 * I.2.1) + c.c6 * (c.c3 + c.c5 * I.2.1)) /
              fixXDet c < I.2.2.1 ∧
            I.1.2.2 < (c.c6 * (c.c2 + c.c4 * I.2.1) - (4 * c.c8) * (c.c3 + c.c5 * I.2.1)) /
              fixXDet c ∧
            (c.c6 * (c.c2 + c.c4 * I.2.1) - (4 * c.c8) * (c.c3 + c.c5 * I.2.1)) /
              fixXDet c < I.2.2.2
        · rw [if_pos hc, List.mem_singleton] at h2
          exact Or.inl ⟨I.2.1, _, _, Or.inr rfl, hc.1.le, hc.2.1.le, hc.2.2.1.le,
            hc.2.2.2.le, h2⟩
        · rw [if_neg hc] at h2
          exact absurd h2 (List.not_mem_nil e)
    · rw [if_neg hd] at hE
      exact absurd hE (List.not_mem_nil e)
  · -- y-face systems
    by_cases hd : fixYDet c ≠ 0
    · rw [if_pos hd] at hF
      rcases List.mem_append.mp hF with h1 | h2
      · by_cases hc : I.1.1 < (-(4 * c.c9) * (c.c1 + c.c4 * I.1.2.1) +
              c.c5 * (c.c3 + c.c6 * I.1.2.1)) / fixYDet c ∧
            (-(4 * c.c9) * (c.c1 + c.c4 * I.1.2.1) + c.c5 * (c.c3 + c.c6 * I.1.2.1)) /
              fixYDet c < I.2.1 ∧
            I.1.2.2 < (c.c5 * (c.c1 + c.c4 * I.1.2.1) - (4 * c.c7) *
              (c.c3 + c.c6 * I.1.2.1)) / fixYDet c ∧
            (c.c5 * (c.c1 + c.c4 * I.1.2.1) - (4 * c.c7) * (c.c3 + c.c6 * I.1.2.1)) /
              fixYDet c < I.2.2.2
        · rw [if_pos hc, List.mem_singleton] at h1
          exact Or.inr (Or.inl ⟨I.1.2.1, _, _, Or.inl rfl, hc.1.le, hc.2.1.le,
            hc.2.2.1.le, hc.2.2.2.le, h1⟩)
        · rw [if_neg hc] at h1
          exact absurd h1 (List.not_mem_nil e)
      · by_cases hc : I.1.1 < (-(4 * c.c9) * (c.c1 + c.c4 * I.2.2.1) +
              c.c5 * (c.c3 + c.c6 * I.2.2.1)) / fixYDet c ∧
            (-(4 * c.c9) * (c.c1 + c.c4 * I.2.2.1) + c.c5 * (c.c3 + c.c6 * I.2.2.1)) /
              fixYDet c < I.2.1 ∧
            I.1.2.2 < (c.c5 * (c.c1 + c.c4 * I.2.2.1) - (4 * c.c7) *
              (c.c3 + c.c6 * I.2.2.1)) / fixYDet c ∧
            (c.c5 * (c.c1 + c.c4 * I.2.2.1) - (4 * c.c7) * (c.c3 + c.c6 * I.2.2.1)) /
              fixYDet c < I.2.2.2
        · rw [if_pos hc, List.mem_singleton] at h2
          exact Or.inr (Or.inl ⟨I.2.2.1, _, _, Or.inr rfl, hc.1.le, hc.2.1.le,
            hc.2.2.1.le, hc.2.2.2.le, h2⟩)
        · rw [if_neg hc] at h2
          exact absurd h2 (List.not_mem_nil e)
    · rw [if_neg hd] at hF
      exact absurd hF (List.not_mem_nil e)
  · -- z-face systems
    by_cases hd : fixZDet c ≠ 0
    · rw [if_pos hd] at hG
      rcases List.mem_append.mp hG with h1 | h2
      · by_cases hc : I.1.1 < (-(4 * c.c8) * (c.c1 + c.c5 * I.1.2.2) +
              c.c4 * (c.c2 + c.c6 * I.1.2.2)) / fixZDet c ∧
            (-(4 * c.c8) * (c.c1 + c.c5 * I.1.2.2) + c.c4 * (c.c2 + c.c6 * I.1.2.2)) /
              fixZDet c < I.2.1 ∧
            I.1.2.1 < (c.c4 * (c.c1 + c.c5 * I.1.2.2) - (4 * c.c7) *
              (c.c2 + c.c6 * I.1.2.2)) / fixZDet c ∧
            (c.c4 * (c.c1 + c.c5 * I.1.2.2) - (4 * c.c7) * (c.c2 + c.c6 * I.1.2.2)) /
              fixZDet c < I.2.2.1
        · rw [if_pos hc, List.mem_singleton] at h1
          exact Or.inr (Or.inr (Or.inl ⟨I.1.2.2, _, _, Or.inl rfl, hc.1.le, hc.2.1.le,
            hc.2.2.1.le, hc.2.2.2.le, h1⟩))
        · rw [if_neg hc] at h1
          exact absurd h1 (List.not_mem_nil e)
      · by_cases hc : I.1.1 < (-(4 * c.c8) * (c.c1 + c.c5 * I.2.2.2) +
              c.c4 * (c.c2 + c.c6 * I.2.2.2)) / fixZDet c ∧
            (-(4 * c.c8) * (c.c1 + c.c5 * I.2.2.2) + c.c4 * (c.c2 + c.c6 * I.2.2.2)) /
              fixZDet c < I.2.1 ∧
            I.1.2.1 < (c.c4 * (c.c1 + c.c5 * I.2.2.2) - (4 * c.c7) *
              (c.c2 + c.c6 * I.2.2.2)) / fixZDet c ∧
            (c.c4 * (c.c1 + c.c5 * I.2.2.2) - (4 * c.c7) * (c.c2 + c.c6 * I.2.2.2)) /
              fixZDet c < I.2.2.1
        · rw [if_pos hc, List.mem_singleton] at h2
          exact Or.inr (Or.inr (Or.inl ⟨I.2.2.2, _, _, Or.inr rfl, hc.1.le, hc.2.1.le,
            hc.2.2.1.le, hc.2.2.2.le, h2⟩))
        · rw [if_neg hc] at h2
          exact absurd h2 (List.not_mem_nil e)
    · rw [if_neg hd] at hG
      exact absurd hG (List.not_mem_nil e)
  · -- interior
    by_cases hd : det3D c ≠ 0
    · rw [if_pos hd] at hH
      by_cases hc : I.1.1 < (c.c1 * (-fixXDet c) + c.c2 * minor12 c + c.c3 * (-minor13 c)) /
            det3D c ∧
          (c.c1 * (-fixXDet c) + c.c2 * minor12 c + c.c3 * (-minor13 c)) / det3D c < I.2.1 ∧
          I.1.2.1 < (c.c1 * minor12 c + c.c2 * (-fixYDet c) + c.c3 * minor23 c) / det3D c ∧
          (c.c1 * minor12 c + c.c2 * (-fixYDet c) + c.c3 * minor23 c) / det3D c < I.2.2.1 ∧
          I.1.2.2 < (c.c1 * (-minor13 c) + c.c2 * minor23 c + c.c3 * (-fixZDet c)) /
            det3D c ∧
          (c.c1 * (-minor13 c) + c.c2 * minor23 c + c.c3 * (-fixZDet c)) / det3D c < I.2.2.2
      · rw [if_pos hc, List.mem_singleton] at hH
        exact Or.inr (Or.inr (Or.inr ⟨hd, hc.1, hc.2.1, hc.2.2.1, hc.2.2.2.1,
          hc.2.2.2.2.1, hc.2.2.2.2.2, hH⟩))
      · rw [if_neg hc] at hH
        exact absurd hH (List.not_mem_nil e)
    · rw [if_neg hd] at hH
      exact absurd hH (List.not_mem_nil e)

/-- Every `candNd3` entry is either the value at a point of a boundary face,
or the interior critical value with its guards and closed containment. -/
theorem candNd3_point_cases (c : QuadCoeffs3) (I : Box3) (e : ℚ)
    (hxv : I.1.1 ≤ I.2.1) (hyv : I.1.2.1 ≤ I.2.2.1) (hzv : I.1.2.2 ≤ I.2.2.2)
    (he : e ∈ candNd3 c I) :
    (∃ xc v w, (xc = I.1.1 ∨ xc = I.2.1) ∧ I.1.2.1 ≤ v ∧ v ≤ I.2.2.1 ∧
      I.1.2.2 ≤ w ∧ w ≤ I.2.2.2 ∧ e = evalNd3 c xc v w) ∨
    (∃ yc v w, (yc = I.1.2.1 ∨ yc = I.2.2.1) ∧ I.1.1 ≤ v ∧ v ≤ I.2.1 ∧
      I.1.2.2 ≤ w ∧ w ≤ I.2.2.2 ∧ e = evalNd3 c v yc w) ∨
    (∃ zc v w, (zc = I.1.2.2 ∨ zc = I.2.2.2) ∧ I.1.1 ≤ v ∧ v ≤ I.2.1 ∧
      I.1.2.1 ≤ w ∧ w ≤ I.2.2.1 ∧ e = evalNd3 c v w zc) ∨
    (¬(c.c7 * c.c8 < 0) ∧ ¬(c.c8 * c.c9 < 0) ∧ detNd3 c ≠ 0 ∧
      I.1.1 ≤ ((-c.c1) * ((4 * c.c8) * (4 * c.c9) - c.c6 ^ 2) -
        c.c4 * ((-c.c2) * (4 * c.c9) - c.c6 * (-c.c3)) +
        c.c5 * ((-c.c2) * c.c6 - (4 * c.c8) * (-c.c3))) / detNd3 c ∧
      ((-c.c1) * ((4 * c.c8) * (4 * c.c9) - c.c6 ^ 2) -
        c.c4 * ((-c.c2) * (4 * c.c9) - c.c6 * (-c.c3)) +
        c.c5 * ((-c.c2) * c.c6 - (4 * c.c8) * (-c.c3))) / detNd3 c ≤ I.2.1 ∧
      I.1.2.1 ≤ ((4 * c.c7) * ((-c.c2) * (4 * c.c9) - c.c6 * (-c.c3)) -
        (-c.c1) * (c.c4 * (4 * c.c9) - c.c6 * c.c5) +
        c.c5 * (c.c4 * (-c.c3) - (-c.c2) * c.c5)) / detNd3 c ∧
      ((4 * c.c7) * ((-c.c2) * (4 * c.c9) - c.c6 * (-c.c3)) -
        (-c.c1) * (c.c4 * (4 * c.c9) - c.c6 * c.c5) +
        c.c5 * (c.c4 * (-c.c3) - (-c.c2) * c.c5)) / detNd3 c ≤ I.2.2.1 ∧
      I.1.2.2 ≤ ((4 * c.c7) * ((4 * c.c8) * (-c.c3) - (-c.c2) * c.c6) -
        c.c4 * (c.c4 * (-c.c3) - (-c.c2) * c.c5) +
        (-c.c1) * (c.c4 * c.c6 - (4 * c.c8) * c.c5)) / detNd3 c ∧
      ((4 * c.c7) * ((4 * c.c8) * (-c.c3) - (-c.c2) * c.c6) -
        c.c4 * (c.c4 * (-c.c3) - (-c.c2) * c.c5) +
        (-c.c1) * (c.c4 * c.c6 - (4 * c.c8) * c.c5)) / detNd3 c ≤ I.2.2.2 ∧
      e = evalNd3 c
        (((-c.c1) * ((4 * c.c8) * (4 * c.c9) - c.c6 ^ 2) -
          c.c4 * ((-c.c2) * (4 * c.c9) - c.c6 * (-c.c3)) +
          c.c5 * ((-c.c2) * c.c6 - (4 * c.c8) * (-c.c3))) / detNd3 c)
        (((4 * c.c7) * ((-c.c2) * (4 * c.c9) - c.c6 * (-c.c3)) -
          (-c.c1) * (c.c4 * (4 * c.c9) - c.c6 * c.c5) +
          c.c5 * (c.c4 * (-c.c3) - (-c.c2) * c.c5)) / detNd3 c)
        (((4 * c.c7) * ((4 * c.c8) * (-c.c3) - (-c.c2) * c.c6) -
          c.c4 * (c.c4 * (-c.c3) - (-c.c2) * c.c5) +
          (-c.c1) * (c.c4 * c.c6 - (4 * c.c8) * c.c5)) / detNd3 c)) := by
  simp only [candNd3, List.mem_append] at he
  rcases he with ((((((hA | hB) | hC) | hD) | hE) | hF) | hG) | hH
  · simp only [List.mem_cons, List.not_mem_nil, or_false] at hA
    rcases hA with hv | hv | hv | hv | hv | hv | hv | hv
    · exact Or.inl ⟨I.1.1, I.1.2.1, I.1.2.2, Or.inl rfl, le_rfl, hyv, le_rfl, hzv, hv⟩
    · exact Or.inl ⟨I.1.1, I.1.2.1, I.2.2.2, Or.inl rfl, le_rfl, hyv, hzv, le_rfl, hv⟩
    · exact Or.inl ⟨I.1.1, I.2.2.1, I.1.2.2, Or.inl rfl, hyv, le_rfl, le_rfl, hzv, hv⟩
    · exact Or.inl ⟨I.1.1, I.2.2.1, I.2.2.2, Or.inl rfl, hyv, le_rfl, hzv, le_rfl, hv⟩
    · exact Or.inl ⟨I.2.1, I.1.2.1, I.1.2.2, Or.inr rfl, le_rfl, hyv, le_rfl, hzv, hv⟩
    · exact Or.inl ⟨I.2.1, I.1.2.1, I.2.2.2, Or.inr rfl, le_rfl, hyv, hzv, le_rfl, hv⟩
    · exact Or.inl ⟨I.2.1, I.2.2.1, I.1.2.2, Or.inr rfl, hyv, le_rfl, le_rfl, hzv, hv⟩
    · exact Or.inl ⟨I.2.1, I.2.2.1, I.2.2.2, Or.inr rfl, hyv, le_rfl, hzv, le_rfl, hv⟩
  · by_cases h9 : 4 * c.c9 ≠ 0
    · rw [if_pos h9] at hB
      rcases List.mem_append.mp hB with hB' | h4
      · rcases List.mem_append.mp hB' with hB'' | h3
        · rcases List.mem_append.mp hB'' with h1 | h2
          · by_cases hc : I.1.2.2 ≤ (-c.c3 - (c.c5 * I.1.1 + c.c6 * I.1.2.1)) / (4 * c.c9) ∧
                (-c.c3 - (c.c5 * I.1.1 + c.c6 * I.1.2.1)) / (4 * c.c9) ≤ I.2.2.2
            · rw [if_pos hc, List.mem_singleton] at h1
              exact Or.inl ⟨I.1.1, I.1.2.1, _, Or.inl rfl, le_rfl, hyv, hc.1, hc.2, h1⟩
            · rw [if_neg hc] at h1
              exact absurd h1 (List.not_mem_nil e)
          · by_cases hc : I.1.2.2 ≤ (-c.c3 - (c.c5 * I.1.1 + c.c6 * I.2.2.1)) / (4 * c.c9) ∧
                (-c.c3 - (c.c5 * I.1.1 + c.c6 * I.2.2.1)) / (4 * c.c9) ≤ I.2.2.2
            · rw [if_pos hc, List.mem_singleton] at h2
              exact Or.inl ⟨I.1.1, I.2.2.1, _, Or.inl rfl, hyv, le_rfl, hc.1, hc.2, h2⟩
            · rw [if_neg hc] at h2
              exact absurd h2 (List.not_mem_nil e)
        · by_cases hc : I.1.2.2 ≤ (-c.c3 - (c.c5 * I.2.1 + c.c6 * I.1.2.1)) / (4 * c.c9) ∧
              (-c.c3 - (c.c5 * I.2.1 + c.c6 * I.1.2.1)) / (4 * c.c9) ≤ I.2.2.2
          · rw [if_pos hc, List.mem_singleton] at h3
            exact Or.inl ⟨I.2.1, I.1.2.1, _, Or.inr rfl, le_rfl, hyv, hc.1, hc.2, h3⟩
          · rw [if_neg hc] at h3
            exact absurd h3 (List.not_mem_nil e)
      · by_cases hc : I.1.2.2 ≤ (-c.c3 - (c.c5 * I.2.1 + c.c6 * I.2.2.1)) / (4 * c.c9) ∧
            (-c.c3 - (c.c5 * I.2.1 + c.c6 * I.2.2.1)) / (4 * c.c9) ≤ I.2.2.2
        · rw [if_pos hc, List.mem_singleton] at h4
          exact Or.inl ⟨I.2.1, I.2.2.1, _, Or.inr rfl, hyv, le_rfl, hc.1, hc.2, h4⟩
        · rw [if_neg hc] at h4
          exact absurd h4 (List.not_mem_nil e)
    · rw [if_neg h9] at hB
      exact absurd hB (List.not_mem_nil e)
  · by_cases h8 : 4 * c.c8 ≠ 0
    · rw [if_pos h8] at hC
      rcases List.mem_append.mp hC with hC' | h4
      · rcases List.mem_append.mp hC' with hC'' | h3
        · rcases List.mem_append.mp hC'' with h1 | h2
          · by_cases hc : I.1.2.1 ≤ (-c.c2 - (c.c4 * I.1.1 + c.c6 * I.1.2.2)) / (4 * c.c8) ∧
                (-c.c2 - (c.c4 * I.1.1 + c.c6 * I.1.2.2)) / (4 * c.c8) ≤ I.2.2.1
            · rw [if_pos hc, List.mem_singleton] at h1
              exact Or.inl ⟨I.1.1, _, I.1.2.2, Or.inl rfl, hc.1, hc.2, le_rfl, hzv, h1⟩
            · rw [if_neg hc] at h1
              exact absurd h1 (List.not_mem_nil e)
          · by_cases hc : I.1.2.1 ≤ (-c.c2 - (c.c4 * I.1.1 + c.c6 * I.2.2.2)) / (4 * c.c8) ∧
                (-c.c2 - (c.c4 * I.1.1 + c.c6 * I.2.2.2)) / (4 * c.c8) ≤ I.2.2.1
            · rw [if_pos hc, List.mem_singleton] at h2
              exact Or.inl ⟨I.1.1, _, I.2.2.2, Or.inl rfl, hc.1, hc.2, hzv, le_rfl, h2⟩
            · rw [if_neg hc] at h2
              exact absurd h2 (List.not_mem_nil e)
        · by_cases hc : I.1.2.1 ≤ (-c.c2 - (c.c4 * I.2.1 + c.c6 * I.1.2.2)) / (4 * c.c8) ∧
              (-c.c2 - (c.c4 * I.2.1 + c.c6 * I.1.2.2)) / (4 * c.c8) ≤ I.2.2.1
          · rw [if_pos hc, List.mem_singleton] at h3
            exact Or.inl ⟨I.2.1, _, I.1.2.2, Or.inr rfl, hc.1, hc.2, le_rfl, hzv, h3⟩
          · rw [if_neg hc] at h3
            exact absurd h3 (List.not_mem_nil e)
      · by_cases hc : I.1.2.1 ≤ (-c.c2 - (c.c4 * I.2.1 + c.c6 * I.2.2.2)) / (4 * c.c8) ∧
            (-c.c2 - (c.c4 * I.2.1 + c.c6 * I.2.2.2)) / (4 * c.c8) ≤ I.2.2.1
        · rw [if_pos hc, List.mem_singleton] at h4
          exact Or.inl ⟨I.2.1, _, I.2.2.2, Or.inr rfl, hc.1, hc.2, hzv, le_rfl, h4⟩
        · rw [if_neg hc] at h4
          exact absurd h4 (List.not_mem_nil e)
    · rw [if_neg h8] at hC
      exact absurd hC (List.not_mem_nil e)
  · by_cases h7 : 4 * c.c7 ≠ 0
    · rw [if_pos h7] at hD
      rcases List.mem_append.mp hD with hD' | h4
      · rcases List.mem_append.mp hD' with hD'' | h3
        · rcases List.mem_append.mp hD'' with h1 | h2
          · by_cases hc : I.1.1 ≤ (-c.c1 - (c.c4 * I.1.2.1 + c.c5 * I.1.2.2)) / (4 * c.c7) ∧
                (-c.c1 - (c.c4 * I.1.2.1 + c.c5 * I.1.2.2)) / (4 * c.c7) ≤ I.2.1
            · rw [if_pos hc, List.mem_singleton] at h1
              exact Or.inr (Or.inl ⟨I.1.2.1, _, I.1.2.2, Or.inl rfl, hc.1, hc.2,
                le_rfl, hzv, h1⟩)
            · rw [if_neg hc] at h1
              exact absurd h1 (List.not_mem_nil e)
          · by_cases hc : I.1.1 ≤ (-c.c1 - (c.c4 * I.1.2.1 + c.c5 * I.2.2.2)) / (4 * c.c7) ∧
                (-c.c1 - (c.c4 * I.1.2.1 + c.c5 * I.2.2.2)) / (4 * c.c7) ≤ I.2.1
            · rw [if_pos hc, List.mem_singleton] at h2
              exact Or.inr (Or.inl ⟨I.1.2.1, _, I.2.2.2, Or.inl rfl, hc.1, hc.2,
                hzv, le_rfl, h2⟩)
            · rw [if_neg hc] at h2
              exact absurd h2 (List.not_mem_nil e)
        · by_cases hc : I.1.1 ≤ (-c.c1 - (c.c4 * I.2.2.1 + c.c5 * I.1.2.2)) / (4 * c.c7) ∧
              (-c.c1 - (c.c4 * I.2.2.1 + c.c5 * I.1.2.2)) / (4 * c.c7) ≤ I.2.1
          · rw [if_pos hc, List.mem_singleton] at h3
            exact Or.inr (Or.inl ⟨I.2.2.1, _, I.1.2.2, Or.inr rfl, hc.1, hc.2,
              le_rfl, hzv, h3⟩)
          · rw [if_neg hc] at h3
            exact absurd h3 (List.not_mem_nil e)
      · by_cases hc : I.1.1 ≤ (-c.c1 - (c.c4 * I.2.2.1 + c.c5 * I.2.2.2)) / (4 * c.c7) ∧
            (-c.c1 - (c.c4 * I.2.2.1 + c.c5 * I.2.2.2)) / (4 * c.c7) ≤ I.2.1
        · rw [if_pos hc, List.mem_singleton] at h4
          exact Or.inr (Or.inl ⟨I.2.2.1, _, I.2.2.2, Or.inr rfl, hc.1, hc.2,
            hzv, le_rfl, h4⟩)
        · rw [if_neg hc] at h4
          exact absurd h4 (List.not_mem_nil e)
    · rw [if_neg h7] at hD
      exact absurd hD (List.not_mem_nil e)
  · by_cases hg : ¬((4 * c.c8) * (4 * c.c9) < 0) ∧ fixXDet c ≠ 0
    · rw [if_pos hg] at hE
      rcases List.mem_append.mp hE with h1 | h2
      · by_cases hc : I.1.2.1 ≤ ((-c.c2 - c.c4 * I.1.1) * (4 * c.c9) -
              c.c6 * (-c.c3 - c.c5 * I.1.1)) / fixXDet c ∧
            ((-c.c2 - c.c4 * I.1.1) * (4 * c.c9) - c.c6 * (-c.c3 - c.c5 * I.1.1)) /
              fixXDet c ≤ I.2.2.1 ∧
            I.1.2.2 ≤ ((4 * c.c8) * (-c.c3 - c.c5 * I.1.1) - (-c.c2 - c.c4 * I.1.1) * c.c6) /
              fixXDet c ∧
            ((4 * c.c8) * (-c.c3 - c.c5 * I.1.1) - (-c.c2 - c.c4 * I.1.1) * c.c6) /
              fixXDet c ≤ I.2.2.2
        · rw [if_pos hc, List.mem_singleton] at h1
          exact Or.inl ⟨I.1.1, _, _, Or.inl rfl, hc.1, hc.2.1, hc.2.2.1, hc.2.2.2, h1⟩
        · rw [if_neg hc] at h1
          exact absurd h1 (List.not_mem_nil e)
      · by_cases hc : I.1.2.1 ≤ ((-c.c2 - c.c4 * I.2.1) * (4 * c.c9) -
              c.c6 * (-c.c3 - c.c5 * I.2.1)) / fixXDet c ∧
            ((-c.c2 - c.c4 * I.2.1) * (4 * c.c9) - c.c6 * (-c.c3 - c.c5 * I.2.1)) /
              fixXDet c ≤ I.2.2.1 ∧
            I.1.2.2 ≤ ((4 * c.c8) * (-c.c3 - c.c5 * I.2.1) - (-c.c2 - c.c4 * I.2.1) * c.c6) /
              fixXDet c ∧
            ((4 * c.c8) * (-c.c3 - c.c5 * I.2.1) - (-c.c2 - c.c4 * I.2.1) * c.c6) /
              fixXDet c ≤ I.2.2.2
        · rw [if_pos hc, List.mem_singleton] at h2
          exact Or.inl ⟨I.2.1, _, _, Or.inr rfl, hc.1, hc.2.1, hc.2.2.1, hc.2.2.2, h2⟩
        · rw [if_neg hc] at h2
          exact absurd h2 (List.not_mem_nil e)
    · rw [if_neg hg] at hE
      exact absurd hE (List.not_mem_nil e)
  · by_cases hg : ¬((4 * c.c7) * (4 * c.c9) < 0) ∧ fixYDet c ≠ 0
    · rw [if_pos hg] at hF
      rcases List.mem_append.mp hF with h1 | h2
      · by_cases hc : I.1.1 ≤ ((-c.c1 - c.c4 * I.1.2.1) * (4 * c.c9) -
              c.c5 * (-c.c3 - c.c6 * I.1.2.1)) / fixYDet c ∧
            ((-c.c1 - c.c4 * I.1.2.1) * (4 * c.c9) - c.c5 * (-c.c3 - c.c6 * I.1.2.1)) /
              fixYDet c ≤ I.2.1 ∧
            I.1.2.2 ≤ ((4 * c.c7) * (-c.c3 - c.c6 * I.1.2.1) -
              (-c.c1 - c.c4 * I.1.2.1) * c.c5) / fixYDet c ∧
            ((4 * c.c7) * (-c.c3 - c.c6 * I.1.2.1) - (-c.c1 - c.c4 * I.1.2.1) * c.c5) /
              fixYDet c ≤ I.2.2.2
        · rw [if_pos hc, List.mem_singleton] at h1
          exact Or.inr (Or.inl ⟨I.1.2.1, _, _, Or.inl rfl, hc.1, hc.2.1, hc.2.2.1,
            hc.2.2.2, h1⟩)
        · rw [if_neg hc] at h1
          exact absurd h1 (List.not_mem_nil e)
      · by_cases hc : I.1.1 ≤ ((-c.c1 - c.c4 * I.2.2.1) * (4 * c.c9) -
              c.c5 * (-c.c3 - c.c6 * I.2.2.1)) / fixYDet c ∧
            ((-c.c1 - c.c4 * I.2.2.1) * (4 * c.c9) - c.c5 * (-c.c3 - c.c6 * I.2.2.1)) /
              fixYDet c ≤ I.2.1 ∧
            I.1.2.2 ≤ ((4 * c.c7) * (-c.c3 - c.c6 * I.2.2.1) -
              (-c.c1 - c.c4 * I.2.2.1) * c.c5) / fixYDet c ∧
            ((4 * c.c7) * (-c.c3 - c.c6 * I.2.2.1) - (-c.c1 - c.c4 * I.2.2.1) * c.c5) /
              fixYDet c ≤ I.2.2.2
        · rw [if_pos hc, List.mem_singleton] at h2
          exact Or.inr (Or.inl ⟨I.2.2.1, _, _, Or.inr rfl, hc.1, hc.2.1, hc.2.2.1,
            hc.2.2.2, h2⟩)
        · rw [if_neg hc] at h2
          exact absurd h2 (List.not_mem_nil e)
    · rw [if_neg hg] at hF
      exact absurd hF (List.not_mem_nil e)
  · by_cases hg : ¬((4 * c.c7) * (4 * c.c8) < 0) ∧ fixZDet c ≠ 0
    · rw [if_pos hg] at hG
      rcases List.mem_append.mp hG with h1 | h2
      · by_cases hc : I.1.1 ≤ ((-c.c1 - c.c5 * I.1.2.2) * (4 * c.c8) -
              c.c4 * (-c.c2 - c.c6 * I.1.2.2)) / fixZDet c ∧
            ((-c.c1 - c.c5 * I.1.2.2) * (4 * c.c8) - c.c4 * (-c.c2 - c.c6 * I.1.2.2)) /
              fixZDet c ≤ I.2.1 ∧
            I.1.2.1 ≤ ((4 * c.c7) * (-c.c2 - c.c6 * I.1.2.2) -
              (-c.c1 - c.c5 * I.1.2.2) * c.c4) / fixZDet c ∧
            ((4 * c.c7) * (-c.c2 - c.c6 * I.1.2.2) - (-c.c1 - c.c5 * I.1.2.2) * c.c4) /
              fixZDet c ≤ I.2.2.1
        · rw [if_pos hc, List.mem_singleton] at h1
          exact Or.inr (Or.inr (Or.inl ⟨I.1.2.2, _, _, Or.inl rfl, hc.1, hc.2.1,
            hc.2.2.1, hc.2.2.2, h1⟩))
        · rw [if_neg hc] at h1
          exact absurd h1 (List.not_mem_nil e)
      · by_cases hc : I.1.1 ≤ ((-c.c1 - c.c5 * I.2.2.2) * (4 * c.c8) -
              c.c4 * (-c.c2 - c.c6 * I.2.2.2)) / fixZDet c ∧
            ((-c.c1 - c.c5 * I.2.2.2) * (4 * c.c8) - c.c4 * (-c.c2 - c.c6 * I.2.2.2)) /
              fixZDet c ≤ I.2.1 ∧
            I.1.2.1 ≤ ((4 * c.c7) * (-c.c2 - c.c6 * I.2.2.2) -
              (-c.c1 - c.c5 * I.2.2.2) * c.c4) / fixZDet c ∧
            ((4 * c.c7) * (-c.c2 - c.c6 * I.2.2.2) - (-c.c1 - c.c5 * I.2.2.2) * c.c4) /
              fixZDet c ≤ I.2.2.1
        · rw [if_pos hc, List.mem_singleton] at h2
          exact Or.inr (Or.inr (Or.inl ⟨I.2.2.2, _, _, Or.inr rfl, hc.1, hc.2.1,
            hc.2.2.1, hc.2.2.2, h2⟩))
        · rw [if_neg hc] at h2
          exact absurd h2 (List.not_mem_nil e)
    · rw [if_neg hg] at hG
      exact absurd hG (List.not_mem_nil e)
  · by_cases hg : ¬(c.c7 * c.c8 < 0) ∧ ¬(c.c8 * c.c9 < 0) ∧ detNd3 c ≠ 0
    · rw [if_pos hg] at hH
      by_cases hc : I.1.1 ≤ ((-c.c1) * ((4 * c.c8) * (4 * c.c9) - c.c6 ^ 2) -
            c.c4 * ((-c.c2) * (4 * c.c9) - c.c6 * (-c.c3)) +
            c.c5 * ((-c.c2) * c.c6 - (4 * c.c8) * (-c.c3))) / detNd3 c ∧
          ((-c.c1) * ((4 * c.c8) * (4 * c.c9) - c.c6 ^ 2) -
            c.c4 * ((-c.c2) * (4 * c.c9) - c.c6 * (-c.c3)) +
            c.c5 * ((-c.c2) * c.c6 - (4 * c.c8) * (-c.c3))) / detNd3 c ≤ I.2.1 ∧
          I.1.2.1 ≤ ((4 * c.c7) * ((-c.c2) * (4 * c.c9) - c.c6 * (-c.c3)) -
            (-c.c1) * (c.c4 * (4 * c.c9) - c.c6 * c.c5) +
            c.c5 * (c.c4 * (-c.c3) - (-c.c2) * c.c5)) / detNd3 c ∧
          ((4 * c.c7) * ((-c.c2) * (4 * c.c9) - c.c6 * (-c.c3)) -
            (-c.c1) * (c.c4 * (4 * c.c9) - c.c6 * c.c5) +
            c.c5 * (c.c4 * (-c.c3) - (-c.c2) * c.c5)) / detNd3 c ≤ I.2.2.1 ∧
          I.1.2.2 ≤ ((4 * c.c7) * ((4 * c.c8) * (-c.c3) - (-c.c2) * c.c6) -
            c.c4 * (c.c4 * (-c.c3) - (-c.c2) * c.c5) +
            (-c.c1) * (c.c4 * c.c6 - (4 * c.c8) * c.c5)) / detNd3 c ∧
          ((4 * c.c7) * ((4 * c.c8) * (-c.c3) - (-c.c2) * c.c6) -
            c.c4 * (c.c4 * (-c.c3) - (-c.c2) * c.c5) +
            (-c.c1) * (c.c4 * c.c6 - (4 * c.c8) * c.c5)) / detNd3 c ≤ I.2.2.2
      · rw [if_pos hc, List.mem_singleton] at hH
        exact Or.inr (Or.inr (Or.inr ⟨hg.1, hg.2.1, hg.2.2, hc.1, hc.2.1, hc.2.2.1,
          hc.2.2.2.1, hc.2.2.2.2.1, hc.2.2.2.2.2, hH⟩))
      · rw [if_neg hc] at hH
        exact absurd hH (List.not_mem_nil e)
    · rw [if_neg hg] at hH
      exact absurd hH (List.not_mem_nil e)

/-- `x`-gradient of `eval3` vanishes at the interior critical point. -/
theorem eval3_grad_x (c : QuadCoeffs3) (hdet : det3D c ≠ 0) :
    c.c1 + 4 * c.c7 * ((c.c1 * (-fixXDet c) + c.c2 * minor12 c + c.c3 * (-minor13 c)) /
        det3D c) +
      c.c4 * ((c.c1 * minor12 c + c.c2 * (-fixYDet c) + c.c3 * minor23 c) / det3D c) +
      c.c5 * ((c.c1 * (-minor13 c) + c.c2 * minor23 c + c.c3 * (-fixZDet c)) / det3D c) =
      0 := by
  field_simp
  simp only [det3D, fixXDet, fixYDet, fixZDet, minor12, minor13, minor23]
  ring

/-- `y`-gradient of `eval3` vanishes at the interior critical point. -/
theorem eval3_grad_y (c : QuadCoeffs3) (hdet : det3D c ≠ 0) :
    c.c2 + c.c4 * ((c.c1 * (-fixXDet c) + c.c2 * minor12 c + c.c3 * (-minor13 c)) /
        det3D c) +
      4 * c.c8 * ((c.c1 * minor12 c + c.c2 * (-fixYDet c) + c.c3 * minor23 c) / det3D c) +
      c.c6 * ((c.c1 * (-minor13 c) + c.c2 * minor23 c + c.c3 * (-fixZDet c)) / det3D c) =
      0 := by
  field_simp
  simp only [det3D, fixXDet, fixYDet, fixZDet, minor12, minor13, minor23]
  ring

/-- `z`-gradient of `eval3` vanishes at the interior critical point. -/
theorem eval3_grad_z (c : QuadCoeffs3) (hdet : det3D c ≠ 0) :
    c.c3 + c.c5 * ((c.c1 * (-fixXDet c) + c.c2 * minor12 c + c.c3 * (-minor13 c)) /
        det3D c) +
      c.c6 * ((c.c1 * minor12 c + c.c2 * (-fixYDet c) + c.c3 * minor23 c) / det3D c) +
      4 * c.c9 * ((c.c1 * (-minor13 c) + c.c2 * minor23 c + c.c3 * (-fixZDet c)) /
        det3D c) = 0 := by
  field_simp
  simp only [det3D, fixXDet, fixYDet, fixZDet, minor12, minor13, minor23]
  ring

/-- Along the `x`-axis through a point with vanishing `x`-gradient the
quadratic moves by `2·c7·(x-ix)²`. -/
theorem eval3_axis_x (c : QuadCoeffs3) (ix iy iz x : ℚ)
    (hg : c.c1 + 4 * c.c7 * ix + c.c4 * iy + c.c5 * iz = 0) :
    eval3 c x iy iz = eval3 c ix iy iz + 2 * c.c7 * (x - ix) ^ 2 := by
  unfold eval3
  linear_combination (x - ix) * hg

/-- Along the `y`-axis through a point with vanishing `y`-gradient. -/
theorem eval3_axis_y (c : QuadCoeffs3) (ix iy iz y : ℚ)
    (hg : c.c2 + c.c4 * ix + 4 * c.c8 * iy + c.c6 * iz = 0) :
    eval3 c ix y iz = eval3 c ix iy iz + 2 * c.c8 * (y - iy) ^ 2 := by
  unfold eval3
  linear_combination (y - iy) * hg

/-- Along the `z`-axis through a point with vanishing `z`-gradient. -/
theorem eval3_axis_z (c : QuadCoeffs3) (ix iy iz z : ℚ)
    (hg : c.c3 + c.c5 * ix + c.c6 * iy + 4 * c.c9 * iz = 0) :
    eval3 c ix iy z = eval3 c ix iy iz + 2 * c.c9 * (z - iz) ^ 2 := by
  unfold eval3
  linear_combination (z - iz) * hg

end YRoots
